import Mathlib

/-!
# AIS trajectory annotation: the per-object mobility state machine

A shallow embedding of `Location`, `Config`, `Sink`, `State` and the router loop of
`main.cpp`, followed by theorems about them.

Modelling conventions.

* `Location` objects live on the C++ heap and are shared by pointer between the window
  (`State::seqPoints`), the result buffer (`Sink::annoResults`) and the locals of
  `State::update`.  The heap is a map from addresses (`Nat`) to `Location` values and all
  containers hold addresses, so that aliasing is represented faithfully.
* `unsigned` quantities are natural numbers; subtraction is taken modulo `2 ^ 32`.
* `double` quantities are rationals (exact arithmetic).  The two places where the code
  calls into libm (`acos`/`cos`/`sin` in `getHaversineDistance`, `atan` in `findAzimuth`)
  are the fields of `Geo`; every other branch of the geometry is embedded as written.
  A quotient with divisor zero is `0` here and an infinity or NaN in C++; the general
  theorems below hold whichever branch each floating-point test takes, and the evaluated
  scenarios never divide by zero.
* Two effects of double arithmetic are outside exact arithmetic and are treated apart.
  The angle sums of `findAzimuth` are rounded: the rounding is the field `Geo.fl`, the
  identity in exact arithmetic, and with a rounding the value 360 is reached.  The
  arc cosine of `getHaversineDistance` is applied without a clamp: when the rounded cosine
  exceeds 1 the C++ distance is NaN, which no rational `Geo.arc` represents, so statements
  about distances that are numbers say so in a hypothesis on `Geo.arc`.
-/

namespace AIS

/-! ## Machine integers -/

/-- Number of values of a 32-bit `unsigned int`. -/
def UINT_RANGE : Nat := 2 ^ 32

/-- Subtraction of two `unsigned int` values (wraps modulo `2 ^ 32`). -/
def usub (a b : Nat) : Nat := (a + (UINT_RANGE - b % UINT_RANGE)) % UINT_RANGE

/-! ## Config.h / Config.cpp -/

/-- EPSILON tolerance of `Config.h`. -/
def EPSILON : ℚ := 1 / 1000000

/-- Per-vessel-type parameters (`class Config`). -/
structure Config where
  state_size : Nat
  state_timespan : Nat
  gap_period : Nat
  low_speed : ℚ
  max_speed : ℚ
  no_speed : ℚ
  speed_ratio : ℚ
  max_rate_of_change : ℚ
  max_rate_of_turn : ℚ
  distance_threshold : ℚ
  angle_threshold : ℚ

/-- The values set by the constructor `Config::Config()`. -/
def Config.Default : Config :=
  { state_size := 5, state_timespan := 1000, gap_period := 600,
    low_speed := 2, max_speed := 30, no_speed := 1 / 2,
    speed_ratio := 1 / 4, max_rate_of_change := 100, max_rate_of_turn := 3,
    distance_threshold := 50, angle_threshold := 5 }

/-! ## Location.h / Location.cpp -/

/-- A point location (`class Location`); `annotation` is the `bitset<11>`. -/
structure Location where
  oid : Int
  x : ℚ
  y : ℚ
  t : Nat
  speed : ℚ
  heading : ℚ
  time_elapsed : Nat
  distance : ℚ
  annotation : Fin 11 → Bool

@[simp] abbrev STOP_START : Fin 11 := 0
@[simp] abbrev STOP_END : Fin 11 := 1
@[simp] abbrev CHANGE_IN_SPEED_START : Fin 11 := 2
@[simp] abbrev CHANGE_IN_SPEED_END : Fin 11 := 3
@[simp] abbrev SLOW_MOTION_START : Fin 11 := 4
@[simp] abbrev SLOW_MOTION_END : Fin 11 := 5
@[simp] abbrev GAP_START : Fin 11 := 6
@[simp] abbrev GAP_END : Fin 11 := 7
@[simp] abbrev CHANGE_IN_HEADING : Fin 11 := 8
@[simp] abbrev NOISE : Fin 11 := 9
@[simp] abbrev REPORTED : Fin 11 := 10

/-- Read one bit of the bitmap (`annotation[i]`). -/
def Location.bit (l : Location) (i : Fin 11) : Bool := Location.annotation l i

/-- Embedding of `annotation.set(i)`. -/
def Location.set (l : Location) (i : Fin 11) : Location :=
  { l with annotation := fun j => if j = i then true else Location.annotation l j }

/-- Embedding of `annotation.reset(i)`. -/
def Location.reset (l : Location) (i : Fin 11) : Location :=
  { l with annotation := fun j => if j = i then false else Location.annotation l j }

/-- Embedding of `Location::isAnnotated`: any of bits 0..8. -/
def Location.isAnnotated (l : Location) : Bool :=
  l.bit 0 || l.bit 1 || l.bit 2 || l.bit 3 || l.bit 4 || l.bit 5 || l.bit 6 || l.bit 7 || l.bit 8

/-- An input record as decoded by `Scan::decodeTuple`. -/
structure Raw where
  oid : Int
  x : ℚ
  y : ℚ
  t : Nat

/-- The object built by `new Location()` and filled by `Scan::decodeTuple`: kinematics are
zero and the bitmap is empty. -/
def Location.fresh (r : Raw) : Location :=
  { oid := r.oid, x := r.x, y := r.y, t := r.t, speed := 0, heading := 0,
    time_elapsed := 0, distance := 0, annotation := fun _ => false }

/-! ## mobility.h -/

/-- The libm-dependent parts of `mobility.h`. -/
structure Geo where
  /-- Value of `r * acos(dot / (r * r))` in `getHaversineDistance(lon1, lat1, lon2, lat2)`. -/
  arc : ℚ → ℚ → ℚ → ℚ → ℚ
  /-- Value of `atan(v) * 180 / PI`. -/
  atanDeg : ℚ → ℚ
  /-- Rounding to a double of the angle sums `PI - slope`, `2 * PI - slope` and `PI + slope`
  of `findAzimuth`, in degrees: `fl (360 - atanDeg v)` is the value of
  `(2 * PI - atan(v)) * 180 / PI`.  The identity in exact arithmetic. -/
  fl : ℚ → ℚ

/-- Embedding of `getHaversineDistance(lon1, lat1, lon2, lat2)`.  The C++ code applies
`acos` to `dot / (r * r)` without a clamp; `g.arc` is that value when it is a number (for
two points closer than the rounding of the cosine resolves, the double is NaN). -/
def getHaversineDistance (g : Geo) (lon1 lat1 lon2 lat2 : ℚ) : ℚ :=
  if |lon1 - lon2| < EPSILON ∧ |lat1 - lat2| < EPSILON then 0
  else g.arc lon1 lat1 lon2 lat2

/-- Embedding of `findAzimuth(x1, y1, x2, y2)`, in degrees.  The three angle sums are
rounded by `g.fl`. -/
def findAzimuth (g : Geo) (x1 y1 x2 y2 : ℚ) : ℚ :=
  let dx := x2 - x1
  let dy := y2 - y1
  if dx = 0 then
    if dy > 0 then 0
    else if dy < 0 then 180
    else -1
  else
    let slope := g.atanDeg |dx / dy|
    if dx > 0 then
      if dy > 0 then slope
      else if dy < 0 then g.fl (180 - slope)
      else 90
    else
      if dy > 0 then g.fl (360 - slope)
      else if dy < 0 then g.fl (180 + slope)
      else 270

/-- Embedding of `getBearing(p1, p2)`. -/
def getBearing (g : Geo) (p1 p2 : Location) : ℚ := findAzimuth g p1.x p1.y p2.x p2.y

/-- The C library `fmod`: the remainder has the sign of the dividend. -/
def fmod (a b : ℚ) : ℚ :=
  a - b * (if 0 ≤ a / b then (Rat.floor (a / b) : ℚ) else -(Rat.floor (-(a / b)) : ℚ))

/-- Embedding of `angleDifference(heading1, heading2)`. -/
def angleDifference (heading1 heading2 : ℚ) : ℚ :=
  let phi := fmod |heading1 - heading2| 360
  if phi > 180 then 360 - phi else phi

/-- Embedding of `getSlopeDifference(heading1, heading2)`. -/
def getSlopeDifference (heading1 heading2 : ℚ) : ℚ := 180 - |180 - (heading2 - heading1)|

/-- Embedding of `getRateOfChangeKnots(p_old, p_new)`. -/
def getRateOfChangeKnots (p_old p_new : Location) : ℚ :=
  if p_new.time_elapsed > 0 then (3600 * (p_new.speed - p_old.speed)) / (p_new.time_elapsed : ℚ)
  else 0

/-- Embedding of `getRateOfTurn(p_old, p_new)`, with the two `fmod` and the sums exact. -/
def getRateOfTurn (p_old p_new : Location) : ℚ :=
  let a := p_new.heading - p_old.heading
  let phi := fmod (fmod (a + 180) 360 + 360) 360 - 180
  if phi > 180 then (360 - phi) / (p_new.time_elapsed : ℚ)
  else phi / (p_new.time_elapsed : ℚ)

/-! ## The heap, Sink.cpp and the containers of State.cpp -/

/-- The program state for one moving object: the heap of `Location` objects, the number of
objects created so far by `Scan::decodeTuple`, whether `trajStates` holds a `State` for the
object, the members of that `State`, and the buffer of the `Sink`. -/
structure World where
  heap : Nat → Location
  allocated : Nat
  known : Bool
  seqPoints : List Nat
  status : Fin 3 → Bool
  curTime : Nat
  annoResults : List (Nat × Nat)

@[simp] abbrev STOPPED : Fin 3 := 0
@[simp] abbrev SPEED_CHANGED : Fin 3 := 1
@[simp] abbrev SLOW_MOTION : Fin 3 := 2

/-- Apply `f` to the object at address `p`. -/
def World.modify (w : World) (p : Nat) (f : Location → Location) : World :=
  { w with heap := fun i => if i = p then f (w.heap p) else w.heap i }

/-- Embedding of `p->annotation.set(i)`. -/
def World.setAnno (w : World) (p : Nat) (i : Fin 11) : World := w.modify p (fun l => l.set i)

/-- Embedding of `p->annotation.reset(i)`. -/
def World.resetAnno (w : World) (p : Nat) (i : Fin 11) : World := w.modify p (fun l => l.reset i)

/-- Embedding of `status.set(i)`. -/
def World.setStatus (w : World) (i : Fin 3) : World :=
  { w with status := fun j => if j = i then true else w.status j }

/-- Embedding of `status.reset(i)`. -/
def World.resetStatus (w : World) (i : Fin 3) : World :=
  { w with status := fun j => if j = i then false else w.status j }

/-- Embedding of `State::isStopped`. -/
def World.isStopped (w : World) : Bool := w.status STOPPED

/-- Embedding of `State::hasSpeedChanged`. -/
def World.hasSpeedChanged (w : World) : Bool := w.status SPEED_CHANGED

/-- Embedding of `State::isSlowMotion`. -/
def World.isSlowMotion (w : World) : Bool := w.status SLOW_MOTION

/-- Insertion by `multimap::insert`: the new entry goes after every entry whose key is not greater. -/
def mmInsert (k v : Nat) : List (Nat × Nat) → List (Nat × Nat)
  | [] => [(k, v)]
  | e :: es => if k < e.1 then (k, v) :: e :: es else e :: mmInsert k v es

/-- Embedding of `Sink::reportPoint`. -/
def reportPoint (w : World) (p : Nat) : World :=
  if (w.heap p).bit REPORTED then w
  else { w.setAnno p REPORTED with annoResults := mmInsert (w.heap p).t p w.annoResults }

/-- Embedding of `State::countLocations` (the `size_t` is narrowed to `unsigned int`). -/
def countLocations (w : World) : Nat := w.seqPoints.length % UINT_RANGE

/-- Loop of `State::getAccumHeading` after its first element. -/
def accumFrom (h : Nat → Location) : Nat → ℚ → List Nat → ℚ
  | _, diff, [] => diff
  | first, diff, second :: rest =>
    accumFrom h second (diff + getSlopeDifference (h first).heading (h second).heading) rest

/-- Embedding of `State::getAccumHeading` (the window is non-empty wherever it is called). -/
def getAccumHeading (w : World) : ℚ :=
  match w.seqPoints with
  | [] => 0
  | first :: rest => accumFrom w.heap first 0 rest

/-- Embedding of `State::getCentroid`: coordinates of the planar mean of the window. -/
def getCentroid (w : World) : ℚ × ℚ :=
  ((w.seqPoints.foldl (fun s i => s + (w.heap i).x) 0) / (countLocations w : ℚ),
   (w.seqPoints.foldl (fun s i => s + (w.heap i).y) 0) / (countLocations w : ℚ))

/-- Loop of `State::getStopNetDisplacement`, walking from newest to oldest. -/
def netFrom (h : Nat → Location) : Nat → ℚ × ℚ → List Nat → ℚ × ℚ
  | _, net, [] => net
  | first, net, second :: rest =>
    let net1 := (net.1 + ((h second).x - (h first).x), net.2 + ((h second).y - (h first).y))
    if (h second).bit STOP_START then net1 else netFrom h second net1 rest

/-- The vector accumulated by `State::getStopNetDisplacement` before it is converted to
metres (zero when the walk has no starting element). -/
def stopNetVector (w : World) (excludeCurLocation : Bool) : ℚ × ℚ :=
  let r := if excludeCurLocation then w.seqPoints.reverse.tail else w.seqPoints.reverse
  match r with
  | [] => (0, 0)
  | first :: rest => netFrom w.heap first (0, 0) rest

/-- Embedding of `State::getStopNetDisplacement`. -/
def getStopNetDisplacement (g : Geo) (w : World) (excludeCurLocation : Bool) : ℚ :=
  let net := stopNetVector w excludeCurLocation
  getHaversineDistance g 0 0 net.1 net.2

/-- Embedding of `State::getMeanHeading`. -/
def getMeanHeading (g : Geo) (w : World) : ℚ :=
  match w.seqPoints.head?, w.seqPoints.getLast? with
  | some oldest, some prev => getBearing g (w.heap oldest) (w.heap prev)
  | _, _ => 0

/-- Embedding of `State::getTimespan` (the window is non-empty wherever it is called). -/
def getTimespan (w : World) : Nat :=
  match w.seqPoints with
  | [] => 0
  | q :: _ => usub w.curTime (w.heap q).t

/-- Embedding of `State::sumTravelDistance`. -/
def sumTravelDistance (w : World) : ℚ :=
  w.seqPoints.tail.foldl (fun d i => d + (w.heap i).distance) 0

/-- Embedding of `State::getMeanSpeed`. -/
def getMeanSpeed (w : World) : ℚ := (3600 * sumTravelDistance w) / (1852 * (getTimespan w : ℚ))

/-- Embedding of `State::init`. -/
def init (w : World) (p : Nat) : World :=
  let w1 := w.setAnno p GAP_END
  { w1 with seqPoints := w1.seqPoints ++ [p], status := fun _ => false,
            curTime := (w1.heap p).t }

/-- Embedding of `State::append`. -/
def append (w : World) (p : Nat) : World :=
  { w with seqPoints := w.seqPoints ++ [p], curTime := (w.heap p).t }

/-- Embedding of `State::purge`. -/
def purge (w : World) : World :=
  { w.seqPoints.foldl reportPoint w with seqPoints := [], status := fun _ => false }

/-- Loop of `State::cleanup`; the list argument is the current content of the window. -/
def cleanupFrom (w : World) : List Nat → World
  | [] => { w with seqPoints := [] }
  | q :: rest =>
    if (q :: rest).length > 2 then cleanupFrom (reportPoint w q) rest
    else { w with seqPoints := q :: rest }

/-- Embedding of `State::cleanup`. -/
def cleanup (w : World) : World := cleanupFrom w w.seqPoints

/-- Loop of `State::revokeStop`, walking from newest to oldest. -/
def revokeStopFrom (w : World) : List Nat → World
  | [] => w
  | r :: rest => if (w.heap r).bit STOP_START then w.resetAnno r STOP_START else revokeStopFrom w rest

/-- Embedding of `State::revokeStop`. -/
def revokeStop (w : World) : World := revokeStopFrom w w.seqPoints.reverse

/-- Loop of `State::revokeChangeInHeading`, walking from newest to oldest. -/
def revokeChangeInHeadingFrom (w : World) : List Nat → World
  | [] => w
  | r :: rest =>
    if (w.heap r).bit CHANGE_IN_HEADING then
      let w1 := w.resetAnno r CHANGE_IN_HEADING
      if (w1.heap r).bit STOP_START then w1 else revokeChangeInHeadingFrom w1 rest
    else revokeChangeInHeadingFrom w rest

/-- Embedding of `State::revokeChangeInHeading`. -/
def revokeChangeInHeading (w : World) : World := revokeChangeInHeadingFrom w w.seqPoints.reverse

/-! ## The mobility checks of State.cpp -/

/-- Embedding of `State::checkNoise(oldLoc, newLoc)`. -/
def checkNoise (cfg : Config) (oldLoc newLoc : Location) : Bool :=
  if oldLoc.bit GAP_END ∨ newLoc.bit GAP_END then false
  else if newLoc.speed ≥ cfg.max_speed then true
  else if oldLoc.speed > EPSILON ∧ |getRateOfChangeKnots oldLoc newLoc| ≥ cfg.max_rate_of_change then
    true
  else if ¬ oldLoc.bit GAP_END ∧ newLoc.speed > cfg.low_speed
      ∧ getRateOfTurn newLoc oldLoc ≥ cfg.max_rate_of_turn then true
  else false

/-- Embedding of `State::backwardMobilityCheck(oldLoc, newLoc)`. -/
def backwardMobilityCheck (g : Geo) (cfg : Config) (w : World) (oldLoc newLoc : Nat) : World :=
  if (w.heap oldLoc).bit GAP_END then
    w.modify oldLoc (fun l => { l with speed := (w.heap newLoc).speed,
                                       heading := (w.heap newLoc).heading })
  else if (w.heap newLoc).speed > cfg.no_speed
      ∧ (angleDifference (w.heap newLoc).heading (w.heap oldLoc).heading > cfg.angle_threshold
          ∨ |getAccumHeading w| > cfg.angle_threshold) then
    if (w.heap newLoc).speed < cfg.low_speed
        ∧ angleDifference (w.heap newLoc).heading (getMeanHeading g w) < 2 * cfg.angle_threshold then
      w
    else
      let w1 := w.setAnno oldLoc CHANGE_IN_HEADING
      if ¬ w1.isStopped ∧ ¬ w1.isSlowMotion then cleanup w1 else w1
  else w

/-- Body of the stop-entry branch of `State::forwardMobilityCheck` (lines 551-568). -/
def stopEntry (w : World) (oldLoc newLoc : Nat) : World :=
  let w1 := if (w.heap oldLoc).bit GAP_END then w.setAnno oldLoc STOP_START
            else w.setAnno newLoc STOP_START
  let w2 := w1.setStatus STOPPED
  let w3 := if w2.isSlowMotion then (w2.setAnno newLoc SLOW_MOTION_END).resetStatus SLOW_MOTION
            else w2
  if w3.hasSpeedChanged then (w3.setAnno newLoc CHANGE_IN_SPEED_END).resetStatus SPEED_CHANGED
  else w3

/-- Body of the stop-exit branch of `State::forwardMobilityCheck` (lines 572-580). -/
def stopExit (g : Geo) (cfg : Config) (w : World) (oldLoc : Nat) : World :=
  if getStopNetDisplacement g w true > cfg.distance_threshold then
    (revokeStop w).resetStatus STOPPED
  else if getStopNetDisplacement g w false ≥ cfg.distance_threshold then
    revokeChangeInHeading ((w.setAnno oldLoc STOP_END).resetStatus STOPPED)
  else w

/-- The stop entry / stop exit block of `State::forwardMobilityCheck` (lines 547-581). -/
def forwardStop (g : Geo) (cfg : Config) (w : World) (oldLoc newLoc : Nat) : World :=
  let c := getCentroid w
  if ¬ w.isStopped ∧ (w.heap newLoc).speed < cfg.no_speed
      ∧ ((w.heap newLoc).distance < cfg.distance_threshold
          ∨ getHaversineDistance g (w.heap newLoc).x (w.heap newLoc).y c.1 c.2
              < cfg.distance_threshold) then
    stopEntry w oldLoc newLoc
  else if w.isStopped ∧ ((w.heap newLoc).speed ≥ cfg.no_speed
      ∨ (w.heap newLoc).distance ≥ cfg.distance_threshold) then
    stopExit g cfg w oldLoc
  else w

/-- Lines 586-591 of `State::forwardMobilityCheck`: CHANGE_IN_SPEED_START. -/
def speedChangeStart (cfg : Config) (mean_speed : ℚ) (w : World) (newLoc : Nat) : World :=
  if |((w.heap newLoc).speed - mean_speed) / mean_speed| > cfg.speed_ratio
      ∧ ¬ w.hasSpeedChanged then
    (w.setAnno newLoc CHANGE_IN_SPEED_START).setStatus SPEED_CHANGED
  else w

/-- Lines 593-597 of `State::forwardMobilityCheck`: CHANGE_IN_SPEED_END. -/
def speedChangeEnd (cfg : Config) (mean_speed : ℚ) (w : World) (newLoc : Nat) : World :=
  if |((w.heap newLoc).speed - mean_speed) / mean_speed| ≤ cfg.speed_ratio
      ∧ w.hasSpeedChanged then
    (w.setAnno newLoc CHANGE_IN_SPEED_END).resetStatus SPEED_CHANGED
  else w

/-- Lines 599-603 of `State::forwardMobilityCheck`: SLOW_MOTION_START. -/
def slowMotionStart (cfg : Config) (w : World) (oldLoc newLoc : Nat) : World :=
  if (w.heap newLoc).speed ≤ cfg.low_speed ∧ (w.heap oldLoc).speed > cfg.low_speed
      ∧ ¬ w.isSlowMotion then
    (w.setAnno newLoc SLOW_MOTION_START).setStatus SLOW_MOTION
  else w

/-- Lines 605-609 of `State::forwardMobilityCheck`: SLOW_MOTION_END. -/
def slowMotionEnd (cfg : Config) (w : World) (oldLoc newLoc : Nat) : World :=
  if (w.heap newLoc).speed > cfg.low_speed ∧ (w.heap oldLoc).speed ≤ cfg.low_speed
      ∧ w.isSlowMotion then
    (w.setAnno newLoc SLOW_MOTION_END).resetStatus SLOW_MOTION
  else w

/-- The speed-change / slow-motion block of `State::forwardMobilityCheck` (lines 583-610);
`mean_speed` is computed once, before the four tests. -/
def forwardSpeed (cfg : Config) (w : World) (oldLoc newLoc : Nat) : World :=
  if ¬ w.isStopped then
    let mean_speed := getMeanSpeed w
    slowMotionEnd cfg
      (slowMotionStart cfg
        (speedChangeEnd cfg mean_speed (speedChangeStart cfg mean_speed w newLoc) newLoc)
        oldLoc newLoc)
      oldLoc newLoc
  else w

/-- Embedding of `State::forwardMobilityCheck` from the noise filter on (lines 533-610). -/
def forwardFilter (g : Geo) (cfg : Config) (w : World) (oldLoc newLoc : Nat) : World :=
  if checkNoise cfg (w.heap oldLoc) (w.heap newLoc) then
    reportPoint (w.setAnno newLoc NOISE) newLoc
  else
    let w1 := append w newLoc
    if w1.seqPoints.length < 2 then w1
    else forwardSpeed cfg (forwardStop g cfg w1 oldLoc newLoc) oldLoc newLoc

/-- Lines 492-495 of `State::forwardMobilityCheck`: the reference predecessor. -/
def oldLocOf (w : World) (prevLoc : Nat) : Nat :=
  if (w.heap prevLoc).bit NOISE ∧ w.seqPoints.length > 0 then w.seqPoints.getLastD prevLoc
  else prevLoc

/-- Lines 498-499 of `State::forwardMobilityCheck`: distance and elapsed time of `newLoc`. -/
def setDisplacement (g : Geo) (w : World) (oldLoc newLoc : Nat) : World :=
  w.modify newLoc (fun l =>
    { l with distance := getHaversineDistance g (w.heap oldLoc).x (w.heap oldLoc).y l.x l.y,
             time_elapsed := usub l.t (w.heap oldLoc).t })

/-- Lines 509-512 of `State::forwardMobilityCheck`: speed, then heading of `newLoc`. -/
def setVelocity (g : Geo) (w : World) (oldLoc newLoc : Nat) : World :=
  let w2 := w.modify newLoc (fun l =>
    { l with speed := if l.time_elapsed > 0
                      then (3600 * l.distance) / (1852 * (l.time_elapsed : ℚ)) else -1 })
  w2.modify newLoc (fun l => { l with heading := getBearing g (w2.heap oldLoc) l })

/-- Lines 515-531 of `State::forwardMobilityCheck`: the communication-gap block, followed by
the rest of the check when the stop continues. -/
def forwardGap (g : Geo) (cfg : Config) (w : World) (oldLoc newLoc : Nat) : World :=
  let w4 := (w.setAnno newLoc GAP_END).setAnno oldLoc GAP_START
  if w4.isStopped ∧ ((w4.heap newLoc).distance < cfg.distance_threshold
      ∨ getStopNetDisplacement g w4 false < cfg.distance_threshold) then
    forwardFilter g cfg (w4.setStatus STOPPED) oldLoc newLoc
  else init (purge w4) newLoc

/-- Embedding of `State::forwardMobilityCheck(prevLoc, newLoc)`. -/
def forwardMobilityCheck (g : Geo) (cfg : Config) (w : World) (prevLoc newLoc : Nat) : World :=
  let oldLoc := oldLocOf w prevLoc
  let w1 := setDisplacement g w oldLoc newLoc
  if (w1.heap newLoc).time_elapsed ≤ 0 then
    reportPoint (w1.setAnno newLoc NOISE) newLoc
  else
    let w3 := setVelocity g w1 oldLoc newLoc
    if (w3.heap newLoc).time_elapsed > cfg.gap_period then forwardGap g cfg w3 oldLoc newLoc
    else forwardFilter g cfg w3 oldLoc newLoc

/-- Body of `State::update(p)` once `q = seqPoints.back()` has been read. -/
def updateFrom (g : Geo) (cfg : Config) (w : World) (q p : Nat) : World :=
  let w1 := forwardMobilityCheck g cfg w q p
  let w2 := backwardMobilityCheck g cfg w1 q p
  if (w2.heap p).bit STOP_END then w2.resetStatus STOPPED else w2

/-- Embedding of `State::update(p)`; `back()` of an empty window is undefined, hence `none`. -/
def update (g : Geo) (cfg : Config) (w : World) (p : Nat) : Option World :=
  match w.seqPoints.getLast? with
  | none => none
  | some q => some (updateFrom g cfg w q p)

/-- Embedding of `State::markLastLocationAsGap`. -/
def markLastLocationAsGap (w : World) : World :=
  let w1 :=
    match w.seqPoints.getLast? with
    | none => w
    | some q =>
      let w0 := w.setAnno q GAP_START
      if w0.isStopped then revokeChangeInHeading w0 else w0
  { w1.seqPoints.foldl reportPoint w1 with seqPoints := [] }

/-- Loop of `State::expungeObsoleteLocations`; the list argument is the current content of
the window. -/
def expungeFrom (cfg : Config) (t : Nat) (w : World) : List Nat → World
  | [] => { w with seqPoints := [] }
  | q :: rest =>
    if (q :: rest).length > 1
        ∧ ((w.heap q).t ≤ usub t cfg.state_timespan
            ∨ (q :: rest).length % UINT_RANGE > cfg.state_size) then
      expungeFrom cfg t (reportPoint w q) rest
    else { w with seqPoints := q :: rest }

/-- Embedding of `State::expungeObsoleteLocations(t)`. -/
def expungeObsoleteLocations (cfg : Config) (w : World) (t : Nat) : World :=
  if w.isStopped then w
  else
    let w1 := expungeFrom cfg t w w.seqPoints
    match w1.seqPoints.getLast? with
    | some q => { w1 with curTime := (w1.heap q).t }
    | none => { w1 with status := fun _ => false }

/-! ## The router loop of main.cpp -/

/-- Allocation by `new Location()` followed by `Scan::decodeTuple`: the record is stored at the next free
address, which is returned with the new world. -/
def alloc (w : World) (r : Raw) : World × Nat :=
  ({ w with heap := fun i => if i = w.allocated then Location.fresh r else w.heap i,
            allocated := w.allocated + 1 }, w.allocated)

/-- Dispatch of one location of the object (`main.cpp`, lines 283-307): a first-seen object
gets a new `State` and `init`; otherwise `expungeObsoleteLocations`, then `init` or
`update`. -/
def route (g : Geo) (cfg : Config) (w : World) (p : Nat) : Option World :=
  if ¬ w.known then
    some (init { w with known := true, curTime := (w.heap p).t, status := fun _ => false,
                        seqPoints := [] } p)
  else
    let w1 := expungeObsoleteLocations cfg w (w.heap p).t
    if w1.seqPoints = [] then some (init w1 p) else update g cfg w1 p

/-- One input record: create the `Location`, then dispatch it. -/
def feed (g : Geo) (cfg : Config) (w : World) (r : Raw) : Option World :=
  route g cfg (alloc w r).1 (alloc w r).2

/-- Process the records in order, starting from `w`. -/
def runFrom (g : Geo) (cfg : Config) : World → List Raw → Option World
  | w, [] => some w
  | w, r :: rs => (feed g cfg w r).bind (fun w1 => runFrom g cfg w1 rs)

/-- The state before any input: nothing allocated, no `State`, empty `Sink`. -/
def World.start : World :=
  { heap := fun _ => Location.fresh ⟨0, 0, 0, 0⟩, allocated := 0, known := false,
    seqPoints := [], status := fun _ => false, curTime := 0, annoResults := [] }

/-- The streaming loop of `main` over the records of one object. -/
def run (g : Geo) (cfg : Config) (rs : List Raw) : Option World := runFrom g cfg World.start rs

/-- End of stream (`main.cpp`, lines 318-321): `markLastLocationAsGap` on the object's
`State`, if it has one. -/
def drain (w : World) : World := if w.known then markLastLocationAsGap w else w

/-- A stand-in for libm on a grid: `arc` is the great-circle length for two points on the
equator or on one meridian (111319.49 m per degree), `atanDeg` is exact at 1, and the angle
sums are exact. -/
def gridGeo : Geo :=
  { arc := fun lon1 lat1 lon2 lat2 => (11131949 / 100) * (|lon2 - lon1| + |lat2 - lat1|),
    atanDeg := fun _ => 45,
    fl := fun x => x }

/-- A stand-in for libm with rounded angle sums.  `fl` rounds to the nearest multiple of
`2 ^ (-44)` degrees, the spacing of the doubles between 256 and 512 (the C++ sum
`2 * PI - slope` is rounded to a multiple of `2 ^ (-50)` radians, about `2 ^ (-44.2)`
degrees).  `atanDeg` is made of two chords of the arctangent, exact at 0 and at 1: positive,
below 90 and not above the arctangent of a small argument. -/
def roundGeo : Geo :=
  { arc := fun lon1 lat1 lon2 lat2 => (11131949 / 100) * (|lon2 - lon1| + |lat2 - lat1|),
    atanDeg := fun v => if v ≤ 1 then 45 * v else 90 - 45 / v,
    fl := fun x => (Rat.floor (x * 2 ^ 44 + 1 / 2) : ℚ) / 2 ^ 44 }

/-- Addresses held by the `Sink`, in buffer order. -/
def sinkPtrs (w : World) : List Nat := w.annoResults.map Prod.snd

/-! ## Predicates used by the theorems -/

/-- Consistency of the heap with the window and the `Sink` buffer: both hold addresses of
created objects; a NOISE object has none of the bits 0..8, is not in the window and is in
the buffer; every buffered object has the reported bit, and no address is buffered twice. -/
structure Inv (w : World) : Prop where
  seq_lt : ∀ i ∈ w.seqPoints, i < w.allocated
  sink_lt : ∀ i ∈ sinkPtrs w, i < w.allocated
  noise_plain : ∀ i, (w.heap i).bit NOISE = true → (w.heap i).isAnnotated = false
  seq_clean : ∀ i ∈ w.seqPoints, (w.heap i).bit NOISE = false
  noise_sink : ∀ i, (w.heap i).bit NOISE = true → i ∈ sinkPtrs w
  sink_rep : ∀ i ∈ sinkPtrs w, (w.heap i).bit REPORTED = true
  sink_nodup : (sinkPtrs w).Nodup

/-- What no operation of `State` or `Sink` does to an existing object: the coordinates and
the timestamp stay, the reported bit is never cleared, and the NOISE bit changes at most on
the addresses in `S`. -/
structure Frame (S : Nat → Prop) (w w1 : World) : Prop where
  allocated_eq : w1.allocated = w.allocated
  known_eq : w1.known = w.known
  t_eq : ∀ i, (w1.heap i).t = (w.heap i).t
  rep_mono : ∀ i, (w.heap i).bit REPORTED = true → (w1.heap i).bit REPORTED = true
  noise_eq : ∀ i, ¬ S i → (w1.heap i).bit NOISE = (w.heap i).bit NOISE
  sink_mono : ∀ i ∈ sinkPtrs w, i ∈ sinkPtrs w1

/-- STOPPED and SLOW_MOTION are not both set. -/
def Exclusive (w : World) : Prop := ¬ (w.isStopped = true ∧ w.isSlowMotion = true)

/-- States reachable from a newly constructed `State` (`State::State` clears the status
bits and the window) through `init`, `update`, `expungeObsoleteLocations` and
`markLastLocationAsGap`, with new `Location` objects created in between. -/
inductive Reachable (g : Geo) (cfg : Config) : World → Prop
  | new (w : World) : (∀ s, w.status s = false) → w.seqPoints = [] → Reachable g cfg w
  | alloc (w : World) (r : Raw) : Reachable g cfg w → Reachable g cfg (alloc w r).1
  | init (w : World) (p : Nat) : Reachable g cfg w → Reachable g cfg (init w p)
  | update (w w1 : World) (p : Nat) :
      Reachable g cfg w → update g cfg w p = some w1 → Reachable g cfg w1
  | expunge (w : World) (t : Nat) :
      Reachable g cfg w → Reachable g cfg (expungeObsoleteLocations cfg w t)
  | markGap (w : World) : Reachable g cfg w → Reachable g cfg (markLastLocationAsGap w)

/-- Timestamps of the window, oldest first. -/
def seqTimes (w : World) : List Nat := w.seqPoints.map (fun i => (w.heap i).t)

/-- Key of the last element minus key of the first element (zero for an empty list). -/
def spanOf (T : Nat → Nat) (s : List Nat) : Nat :=
  match s.head?, s.getLast? with
  | some a, some b => T b - T a
  | _, _ => 0

/-- The quantity `seq.last().t - seq[0].t` of the specification (zero for an empty window). -/
def windowSpan (w : World) : Nat := spanOf (fun i => (w.heap i).t) w.seqPoints

/-- The window is strictly increasing in `t` and no timestamp in it exceeds `m`. -/
def TimeOrdered (m : Nat) (w : World) : Prop :=
  (seqTimes w).Pairwise (· < ·) ∧ ∀ i ∈ w.seqPoints, (w.heap i).t ≤ m

/-! ## Concrete inputs used by the evaluated theorems

All coordinates lie on the equator or on one meridian, so `gridGeo` gives the value of the
C++ functions for them. -/

/-- The two phases of `State::update(p)`: the world after `forwardMobilityCheck` and the
world after `backwardMobilityCheck`. -/
def updatePhases (g : Geo) (cfg : Config) (w : World) (p : Nat) : Option (World × World) :=
  match w.seqPoints.getLast? with
  | none => none
  | some q =>
    let wf := forwardMobilityCheck g cfg w q p
    some (wf, backwardMobilityCheck g cfg wf q p)

/-- The world in which the router calls `update` for record `r` after the records `rs`:
the new object is created and `expungeObsoleteLocations(r.t)` has run. -/
def beforeUpdate (g : Geo) (cfg : Config) (rs : List Raw) (r : Raw) : Option World :=
  (run g cfg rs).map (fun w => expungeObsoleteLocations cfg (alloc w r).1 r.t)

/-- A second record that is 100 s older than the first, at the same position. -/
def earlierRecords : List Raw := [⟨1, 0, 0, 1000⟩, ⟨1, 0, 0, 900⟩]

/-- Two records with equal timestamps. -/
def equalTimeRecords : List Raw := [⟨1, 0, 0, 1000⟩, ⟨1, 0, 0, 1000⟩]

/-- Three eastbound records 60 s apart (about 3.6 knots). -/
def eastboundRecords : List Raw :=
  [⟨1, 0, 0, 1000⟩, ⟨1, 1 / 1000, 0, 1060⟩, ⟨1, 2 / 1000, 0, 1120⟩]

/-- A record 5 degrees north of the last eastbound one, 60 s later (about 18000 knots). -/
def fastRecord : Raw := ⟨1, 2 / 1000, 5, 1180⟩

/-- A stop (two records at one position), a record at the same position after a gap of
700 s, and the same record once more. -/
def stoppedGapRecords : List Raw := [⟨1, 0, 0, 1000⟩, ⟨1, 0, 0, 1060⟩, ⟨1, 0, 0, 1760⟩]

/-- A repetition of the last record of `stoppedGapRecords`. -/
def repeatedRecord : Raw := ⟨1, 0, 0, 1760⟩

/-- A record followed, 1000 s later, by a record at the same position. -/
def firstRecord : Raw := ⟨1, 0, 0, 1000⟩

/-- The record that follows `firstRecord` after a gap. -/
def afterGapRecord : Raw := ⟨1, 0, 0, 2000⟩

/-- Two eastbound records. -/
def twoEastbound : List Raw := [⟨1, 0, 0, 1000⟩, ⟨1, 1 / 1000, 0, 1060⟩]

/-- A third eastbound record, 60 s after the second. -/
def thirdEastbound : Raw := ⟨1, 2 / 1000, 0, 1120⟩

/-- A record half a degree north of the second eastbound one, 3940 s later. -/
def northAfterGapRecord : Raw := ⟨1, 1 / 1000, 1 / 2, 5000⟩

/-- Seven records at one position, 60 s apart. -/
def longStopRecords : List Raw :=
  [⟨1, 0, 0, 1000⟩, ⟨1, 0, 0, 1060⟩, ⟨1, 0, 0, 1120⟩, ⟨1, 0, 0, 1180⟩, ⟨1, 0, 0, 1240⟩,
   ⟨1, 0, 0, 1300⟩, ⟨1, 0, 0, 1360⟩]

/-- A record 0.001 degrees (about 111 m) east of the stop, 500 s later (about 0.43 knots). -/
def slowExitRecord : Raw := ⟨1, 1 / 1000, 0, 1860⟩

/-- The world after `init` of a first object at address 0 and the creation of a second
object with the same timestamp at address 1. -/
def equalTimeWorld : World :=
  (alloc (init (alloc World.start ⟨1, 0, 0, 1000⟩).1 0) ⟨1, 0, 0, 1000⟩).1

/-- The world after `init` of a first object and `update` with a second object at the same
position 60 s later: the object is STOPPED. -/
def stoppedWorld : World :=
  updateFrom gridGeo Config.Default
    (alloc (init (alloc World.start ⟨1, 0, 0, 1000⟩).1 0) ⟨1, 0, 0, 1060⟩).1 0 1

/-- The Default Config with `state_size = 0`. -/
def zeroSizeConfig : Config := { Config.Default with state_size := 0 }

/-- The Default Config with `gap_period = 2000`, larger than `state_timespan = 1000`. -/
def longGapConfig : Config := { Config.Default with gap_period := 2000 }

/-- A record followed, 1500 s later, by a record 0.01 degrees (about 1113 m) to the east
(about 1.44 knots). -/
def slowPairRecords : List Raw := [⟨1, 0, 0, 1000⟩, ⟨1, 1 / 100, 0, 2500⟩]

/-- The kinematic fields of an object (speed, heading, distance, elapsed time) agree. -/
def Location.SameKin (l l1 : Location) : Prop :=
  l1.speed = l.speed ∧ l1.heading = l.heading ∧ l1.distance = l.distance
    ∧ l1.time_elapsed = l.time_elapsed

/-- The heap effect of a step, as a bound: a bit `b` of object `i` may differ only where
`M i b` holds, the kinematic fields of `i` only where `K i` holds, and identifier,
coordinates and timestamp never. -/
structure Footprint (M : Nat → Fin 11 → Prop) (K : Nat → Prop) (w w1 : World) : Prop where
  bit_eq : ∀ i b, ¬ M i b → (w1.heap i).bit b = (w.heap i).bit b
  kin_eq : ∀ i, ¬ K i → (w.heap i).SameKin (w1.heap i)
  pos_eq : ∀ i, (w1.heap i).oid = (w.heap i).oid ∧ (w1.heap i).x = (w.heap i).x
    ∧ (w1.heap i).y = (w.heap i).y ∧ (w1.heap i).t = (w.heap i).t

/-- The bits that `update(p)` with previous last element `q` may change: the reported bit,
STOP_START and CHANGE_IN_HEADING anywhere in the heap, STOP_END and GAP_START on `q`, and
any bit of `p`. -/
def updMask (q p : Nat) (i : Nat) (b : Fin 11) : Prop :=
  b = REPORTED ∨ b = STOP_START ∨ b = CHANGE_IN_HEADING
    ∨ (i = q ∧ (b = STOP_END ∨ b = GAP_START)) ∨ i = p

/-- The objects whose kinematic fields `update(p)` may change: `q` and `p`. -/
def updKin (q p : Nat) (i : Nat) : Prop := i = q ∨ i = p

/-! ## Sink::emitResults and Location::decodeAnnotation -/

/-- Embedding of `Location::decodeAnnotation`: the labels of the set bits 0..9, in bit
order. -/
def decodeAnnotation (l : Location) : List String :=
  (if l.bit 0 then ["STOP_START"] else [])
    ++ (if l.bit 1 then ["STOP_END"] else [])
    ++ (if l.bit 2 then ["CHANGE_IN_SPEED_START"] else [])
    ++ (if l.bit 3 then ["CHANGE_IN_SPEED_END"] else [])
    ++ (if l.bit 4 then ["SLOW_MOTION_START"] else [])
    ++ (if l.bit 5 then ["SLOW_MOTION_END"] else [])
    ++ (if l.bit 6 then ["GAP_START"] else [])
    ++ (if l.bit 7 then ["GAP_END"] else [])
    ++ (if l.bit 8 then ["CHANGE_IN_HEADING"] else [])
    ++ (if l.bit 9 then ["NOISE"] else [])

/-- The label string built by `Sink::emitResults` for one buffered object: every decoded
label followed by the separator, the last character removed; `NOISE` for an object that is
only NOISE; empty otherwise. -/
def labelOf (l : Location) : String :=
  if l.isAnnotated then
    (( decodeAnnotation l).foldl (fun s a => (s ++ a).push ';') "").dropRight 1
  else if l.bit NOISE then "NOISE"
  else ""

/-- Embedding of `Sink::emitResults(annotatedOnly)`: the rows written, in buffer order, each
as the address of the object and its label string (the numeric columns are those of the
object at that address). -/
def emitResults (w : World) (annotatedOnly : Bool) : List (Nat × String) :=
  w.annoResults.filterMap (fun e =>
    if annotatedOnly = true ∧ ¬ (w.heap e.2).isAnnotated = true then none
    else some (e.2, labelOf (w.heap e.2)))

/-- Scenario S2 of the specification: five records at the origin, 60 s apart, then a record
at (0.01, 0) after another 60 s (about 1113 m, 36 knots). -/
def s2Records : List Raw :=
  [⟨1, 0, 0, 1000⟩, ⟨1, 0, 0, 1060⟩, ⟨1, 0, 0, 1120⟩, ⟨1, 0, 0, 1180⟩, ⟨1, 0, 0, 1240⟩,
   ⟨1, 1 / 100, 0, 1300⟩]

/-- The world after the creation of a first object, before any `State` operation. -/
def firstObjectWorld : World := (alloc World.start firstRecord).1

/-- What `backwardMobilityCheck(q, p)` may write: reported bits (through `cleanup`) and the
CHANGE_IN_HEADING bit of `q`. -/
def backMask (q : Nat) (i : Nat) (b : Fin 11) : Prop :=
  b = REPORTED ∨ (i = q ∧ b = CHANGE_IN_HEADING)

/-- Two records 30 s apart near the origin (scenario S5 without its last record). -/
def s5Records : List Raw := [⟨1, 0, 0, 1000⟩, ⟨1, 1 / 1000, 0, 1030⟩]

/-- The last record of scenario S5: 3600 s later at (0.5, 0.5). -/
def s5Third : Raw := ⟨1, 1 / 2, 1 / 2, 4630⟩

/-- The world in which the router calls `update` for the last record of scenario S5. -/
def s5World : World :=
  expungeObsoleteLocations Config.Default
    (alloc ((run gridGeo Config.Default s5Records).getD World.start) s5Third).1 s5Third.t

/-- The world in which the router calls `update` for the last record of
`stoppedGapRecords`: the object is STOPPED and the record follows a gap of 700 s. -/
def stoppedGapWorld : World :=
  expungeObsoleteLocations Config.Default
    (alloc ((run gridGeo Config.Default (stoppedGapRecords.take 2)).getD World.start)
      ⟨1, 0, 0, 1760⟩).1 1760

/-- Scenario S3: a record, a record 5 degrees away in both coordinates 10 s later, and a
record near the first one after another 10 s. -/
def s3Records : List Raw := [⟨1, 0, 0, 1000⟩, ⟨1, 5, 5, 1010⟩, ⟨1, 1 / 10000, 0, 1020⟩]

/-- A record followed 10 s later by a record 5 degrees to the east (about 108000 knots). -/
def fastSecondRecords : List Raw := [⟨1, 0, 0, 1000⟩, ⟨1, 5, 0, 1010⟩]

/-- The world in which the router calls `update` for `fastRecord` after the three
eastbound records. -/
def fastWorld : World :=
  expungeObsoleteLocations Config.Default
    (alloc ((run gridGeo Config.Default eastboundRecords).getD World.start) fastRecord).1
    fastRecord.t

/-- What the forward check may write when it appends the new object: any bit but the
reported bit and NOISE. -/
def quietMask (_ : Nat) (b : Fin 11) : Prop := b ≠ REPORTED ∧ b ≠ NOISE

/-- Scenario S4: three eastbound records 60 s apart. -/
def s4Records : List Raw := eastboundRecords

/-- The last record of scenario S4: due north of the third one, 60 s later. -/
def s4Fourth : Raw := ⟨1, 2 / 1000, 1 / 1000, 1180⟩

/-- The world in which the router calls `update` for the last record of scenario S4. -/
def s4World : World :=
  expungeObsoleteLocations Config.Default
    (alloc ((run gridGeo Config.Default s4Records).getD World.start) s4Fourth).1 s4Fourth.t

/-- The record `r` is processed in world `w`, giving `w1`, and its object (created at
address `w.allocated`) is appended plainly: it gets neither GAP_END (no gap, no new
`State`) nor NOISE, and the State is not STOPPED afterwards (no stop entry). -/
structure PlainAppend (g : Geo) (cfg : Config) (w : World) (r : Raw) (w1 : World) : Prop where
  step : feed g cfg w r = some w1
  noGap : (w1.heap w.allocated).bit GAP_END = false
  noNoise : (w1.heap w.allocated).bit NOISE = false
  noStop : w1.isStopped = false

/-- The records `rs` are processed one after the other from `w` to `w1`, each appended
plainly with a speed of at most `low_speed`. -/
def LowRun (g : Geo) (cfg : Config) : World → List Raw → World → Prop
  | w, [], w2 => w2 = w
  | w, r :: rs, w2 =>
    ∃ w1, PlainAppend g cfg w r w1 ∧ (w1.heap w.allocated).speed ≤ cfg.low_speed
      ∧ LowRun g cfg w1 rs w2

/-- A stop (two records at one position), a record 44.5 m to the east 30 s later (about
2.9 knots, the stop continues), a record at the same place 150 s later (speed 0) and a
record 33.4 m back to the west after another 30 s (about 2.2 knots). -/
def stoppedDipRecords : List Raw :=
  [⟨1, 0, 0, 1000⟩, ⟨1, 0, 0, 1060⟩, ⟨1, 4 / 10000, 0, 1090⟩, ⟨1, 4 / 10000, 0, 1240⟩,
   ⟨1, 1 / 10000, 0, 1270⟩]

/-- Scenario S6, start: two eastbound records 60 s apart (about 2.5 knots). -/
def s6Start : World :=
  (run gridGeo Config.Default [⟨1, 0, 0, 1000⟩, ⟨1, 7 / 10000, 0, 1060⟩]).getD World.start

/-- Scenario S6, the dip: three records at about 1.8 knots. -/
def s6Low1 : Raw := ⟨1, 12 / 10000, 0, 1120⟩

/-- Second low-speed record of scenario S6. -/
def s6Low2 : Raw := ⟨1, 17 / 10000, 0, 1180⟩

/-- Third low-speed record of scenario S6. -/
def s6Low3 : Raw := ⟨1, 22 / 10000, 0, 1240⟩

/-- Scenario S6, the record after the dip (about 2.5 knots). -/
def s6Fast : Raw := ⟨1, 29 / 10000, 0, 1300⟩

/-- The world after the first low-speed record of scenario S6. -/
def s6World1 : World := (feed gridGeo Config.Default s6Start s6Low1).getD s6Start

/-- The world after the second low-speed record of scenario S6. -/
def s6World2 : World := (feed gridGeo Config.Default s6World1 s6Low2).getD s6World1

/-- The world after the third low-speed record of scenario S6. -/
def s6World3 : World := (feed gridGeo Config.Default s6World2 s6Low3).getD s6World2

/-- The world after the fast record of scenario S6. -/
def s6World4 : World := (feed gridGeo Config.Default s6World3 s6Fast).getD s6World3

/-- The value described for `angleDifference(a, b)`: with `phi = |a - b| mod 360`, `phi` if
`phi <= 180` and `360 - phi` otherwise. -/
def angleDifferenceSpec (a b : ℚ) : ℚ :=
  let phi := |a - b| - 360 * (⌊|a - b| / 360⌋ : ℚ)
  if phi ≤ 180 then phi else 360 - phi

/-- Three objects for the `Sink`: timestamps 1000, 900 and 1000, none reported. -/
def sinkWorld : World :=
  (alloc (alloc (alloc World.start ⟨1, 0, 0, 1000⟩).1 ⟨1, 0, 0, 900⟩).1 ⟨1, 0, 0, 1000⟩).1

/-- The label strings of the bits 0..9, in bit order. -/
def labelNames : List String :=
  ["STOP_START", "STOP_END", "CHANGE_IN_SPEED_START", "CHANGE_IN_SPEED_END",
   "SLOW_MOTION_START", "SLOW_MOTION_END", "GAP_START", "GAP_END", "CHANGE_IN_HEADING",
   "NOISE"]

/-- The labels described for a bitmap: the names of the set bits among the bits 0..9, in
ascending bit order. -/
def decodeSpec (l : Location) : List String :=
  (List.range 10).filterMap (fun i => if l.bit (Fin.ofNat i) then labelNames[i]? else none)

/-! ## Configuration lookup of main.cpp -/

/-- The last step of `parseConfig` (lines 152-156): the predefined settings are added under
the key `Default` unless the JSON file has that key. -/
def withDefault (vesselTypeConfigs : List (String × Config)) : List (String × Config) :=
  if (vesselTypeConfigs.lookup "Default").isSome then vesselTypeConfigs
  else vesselTypeConfigs ++ [("Default", Config.Default)]

/-- Lines 286-287 of `main`: the vessel type of a first-seen object is `vesselInfo.at(oid)`,
and `Default` when `at` throws `out_of_range`. -/
def vesselTypeOf (vesselInfo : List (Int × String)) (oid : Int) : String :=
  (vesselInfo.lookup oid).getD "Default"

/-- Line 291 of `main`: `(vesselTypeConfigs.find(vessel_type))->second`.  `find` returns
`end()` for a missing key and the code dereferences the result without a test, which is
undefined; this is the value `none`. -/
def configOf (vesselTypeConfigs : List (String × Config)) (vesselInfo : List (Int × String))
    (oid : Int) : Option Config :=
  vesselTypeConfigs.lookup (vesselTypeOf vesselInfo oid)

/-- A vessel table that gives object 7 the type `Tanker`. -/
def tankerInfo : List (Int × String) := [(7, "Tanker")]

/-- The Config map parsed from a JSON file that has settings for `Cargo` only. -/
def cargoConfigs : List (String × Config) :=
  withDefault [("Cargo", { Config.Default with max_speed := 25 })]

/-- States of one `State` object reachable from a newly constructed one (empty window, any
heap of objects) through `init`, `update`, `expungeObsoleteLocations` and
`markLastLocationAsGap`, in any order and with any arguments. -/
inductive StateReachable (g : Geo) (cfg : Config) : World → Prop
  | new (w : World) : w.seqPoints = [] → StateReachable g cfg w
  | init (w : World) (p : Nat) : StateReachable g cfg w → StateReachable g cfg (init w p)
  | update (w w1 : World) (p : Nat) :
      StateReachable g cfg w → update g cfg w p = some w1 → StateReachable g cfg w1
  | expunge (w : World) (t : Nat) :
      StateReachable g cfg w → StateReachable g cfg (expungeObsoleteLocations cfg w t)
  | markGap (w : World) :
      StateReachable g cfg w → StateReachable g cfg (markLastLocationAsGap w)

/-- When the window is non-empty, `curTime` is the timestamp of its last element. -/
def CurTimeOK (w : World) : Prop :=
  ∀ q, w.seqPoints.getLast? = some q → w.curTime = (w.heap q).t

/-- The heading change `a` brought into `[-180, 180)` by whole turns. -/
def normalizeTurn (a : ℚ) : ℚ := (a + 180) - 360 * (⌊(a + 180) / 360⌋ : ℚ) - 180

/-- An object without annotation, with speed 10 knots and the given heading and elapsed
time. -/
def turnLoc (heading : ℚ) (time_elapsed : Nat) : Location :=
  { oid := 1, x := 0, y := 0, t := 0, speed := 10, heading := heading,
    time_elapsed := time_elapsed, distance := 0, annotation := fun _ => false }

/-- Three eastbound records, a turn to the north, a stop of two records at the place of the
turn's end (the first after 120 s), and a record 78 m further north that ends the stop. -/
def turnThenStopRecords : List Raw :=
  [⟨1, 0, 0, 1000⟩, ⟨1, 7 / 10000, 0, 1060⟩, ⟨1, 14 / 10000, 0, 1120⟩,
   ⟨1, 14 / 10000, 7 / 10000, 1180⟩, ⟨1, 14 / 10000, 7 / 10000, 1300⟩,
   ⟨1, 14 / 10000, 7 / 10000, 1360⟩, ⟨1, 14 / 10000, 14 / 10000, 1420⟩]

/-- Three eastbound records 78 m apart, a record at the place of the third one 120 s later
(stop entry), and a record 22 m to the north after another 60 s. -/
def shortStopRecords : List Raw :=
  [⟨1, 0, 0, 1000⟩, ⟨1, 7 / 10000, 0, 1060⟩, ⟨1, 14 / 10000, 0, 1120⟩,
   ⟨1, 14 / 10000, 0, 1240⟩, ⟨1, 14 / 10000, 2 / 10000, 1300⟩]

/-- The world after the first four of `shortStopRecords`: STOPPED, window `[0, 1, 2, 3]`,
STOP_START on the last element. -/
def shortStopWorld : World :=
  (run gridGeo Config.Default (shortStopRecords.take 4)).getD World.start

/-- The element at which the walk of `getStopNetDisplacement` ends: the first element
carrying STOP_START among those after the starting element, the oldest element when there
is none. -/
def stopWalkEnd (h : Nat → Location) (first : Nat) (rest : List Nat) : Nat :=
  match rest.find? (fun i => (h i).bit STOP_START) with
  | some s => s
  | none => rest.getLastD first

/-- Three eastbound records 60 s apart whose timestamps are smaller than the Default
`state_timespan` of 1000 s. -/
def earlyRecords : List Raw := [⟨1, 0, 0, 100⟩, ⟨1, 7 / 10000, 0, 160⟩, ⟨1, 14 / 10000, 0, 220⟩]

/-- The world in which the router calls `expungeObsoleteLocations(220)` for the third of
`earlyRecords`: window `[0, 1]`, not STOPPED. -/
def earlyWorld : World :=
  (alloc ((run gridGeo Config.Default (earlyRecords.take 2)).getD World.start)
    ⟨1, 14 / 10000, 0, 220⟩).1

/-- The same three records 10000 s later. -/
def lateRecords : List Raw :=
  [⟨1, 0, 0, 10100⟩, ⟨1, 7 / 10000, 0, 10160⟩, ⟨1, 14 / 10000, 0, 10220⟩]

/-- The world in which the router calls `expungeObsoleteLocations(10220)` for the third of
`lateRecords`. -/
def lateWorld : World :=
  (alloc ((run gridGeo Config.Default (lateRecords.take 2)).getD World.start)
    ⟨1, 14 / 10000, 0, 10220⟩).1

/-- The world after the seven records of `longStopRecords`: STOPPED, all seven objects in
the window. -/
def longStopWorld : World := (run gridGeo Config.Default longStopRecords).getD World.start

/-- A record at the place of the third low-speed record of scenario S6, 120 s later. -/
def s6Stop : Raw := ⟨1, 22 / 10000, 0, 1360⟩

/-- The world in which the router calls `update` for `s6Stop` after the dip of scenario S6:
window `[0, 1, 2, 3, 4]`, SLOW_MOTION set, the new object at address 5. -/
def slowStopWorld : World :=
  expungeObsoleteLocations Config.Default (alloc s6World3 s6Stop).1 s6Stop.t

/-- An object does not carry both ends of a slow-motion phase, nor both ends of a
speed-change phase. -/
def Location.PairFree (l : Location) : Prop :=
  ¬ (l.bit SLOW_MOTION_START = true ∧ l.bit SLOW_MOTION_END = true)
    ∧ ¬ (l.bit CHANGE_IN_SPEED_START = true ∧ l.bit CHANGE_IN_SPEED_END = true)

/-- The bits other than the four speed-change and slow-motion annotations. -/
def otherMask (_ : Nat) (b : Fin 11) : Prop :=
  b ≠ CHANGE_IN_SPEED_START ∧ b ≠ CHANGE_IN_SPEED_END ∧ b ≠ SLOW_MOTION_START
    ∧ b ≠ SLOW_MOTION_END

/-- The backward walks of a STOPPED State stay inside the window: it has at least two
elements and one of them carries STOP_START. -/
def StopWalkSafe (w : World) : Prop :=
  w.isStopped = true →
    2 ≤ w.seqPoints.length ∧ ∃ i ∈ w.seqPoints, (w.heap i).bit STOP_START = true

/-- Every bit but STOP_START. -/
def notStartMask (_ : Nat) (b : Fin 11) : Prop := b ≠ STOP_START

/-- Conservation of the first `n` objects for a window content `l`: `l` has no duplicates and
holds exactly the objects below `n` that are not reported, and the `Sink` buffer holds
exactly the reported objects, all of them below `n`. -/
structure Cons (n : Nat) (l : List Nat) (w : World) : Prop where
  nodup : l.Nodup
  seq_iff : ∀ i, i ∈ l ↔ (i < n ∧ (w.heap i).bit REPORTED = false)
  sink_iff : ∀ i, i ∈ sinkPtrs w ↔ (w.heap i).bit REPORTED = true
  rep_lt : ∀ i, (w.heap i).bit REPORTED = true → i < n

/-- Conservation of the first `n` objects in a world. -/
def Conserved (n : Nat) (w : World) : Prop := Cons n w.seqPoints w

/-- A step that writes no reported bit and does not touch the `Sink` buffer. -/
def Silent (w w1 : World) : Prop :=
  (∀ i, (w1.heap i).bit REPORTED = (w.heap i).bit REPORTED) ∧ w1.annoResults = w.annoResults

/-- The world in which `forwardMobilityCheck`, from the noise filter on (lines 533-587),
evaluates `getMeanSpeed` for the speed-change test, when it does: the new object has passed
the noise filter and is appended, the window has at least two elements, and the State is not
STOPPED after the stop block. -/
def speedTestOfFilter (g : Geo) (cfg : Config) (w : World) (oldLoc newLoc : Nat) : Option World :=
  if checkNoise cfg (w.heap oldLoc) (w.heap newLoc) then none
  else
    let w1 := append w newLoc
    if w1.seqPoints.length < 2 then none
    else if ¬ (forwardStop g cfg w1 oldLoc newLoc).isStopped then
      some (forwardStop g cfg w1 oldLoc newLoc)
    else none

/-- The world in which `forwardMobilityCheck(prevLoc, newLoc)` evaluates `getMeanSpeed`
(line 587), when it does; `none` when the call returns before or skips the speed block. -/
def speedTestWorld (g : Geo) (cfg : Config) (w : World) (prevLoc newLoc : Nat) : Option World :=
  let oldLoc := oldLocOf w prevLoc
  let w1 := setDisplacement g w oldLoc newLoc
  if (w1.heap newLoc).time_elapsed ≤ 0 then none
  else
    let w3 := setVelocity g w1 oldLoc newLoc
    if (w3.heap newLoc).time_elapsed > cfg.gap_period then
      let w4 := (w3.setAnno newLoc GAP_END).setAnno oldLoc GAP_START
      if w4.isStopped ∧ ((w4.heap newLoc).distance < cfg.distance_threshold
          ∨ getStopNetDisplacement g w4 false < cfg.distance_threshold) then
        speedTestOfFilter g cfg (w4.setStatus STOPPED) oldLoc newLoc
      else none
    else speedTestOfFilter g cfg w3 oldLoc newLoc

/-- No object has a negative `distance`. -/
def DistNonneg (w : World) : Prop := ∀ i, 0 ≤ (w.heap i).distance

/-- Any bit. -/
def anyMask (_ : Nat) (_ : Fin 11) : Prop := True

/-- The world in which the router calls `update` for the third of `eastboundRecords`. -/
def thirdEastWorld : World :=
  (beforeUpdate gridGeo Config.Default twoEastbound thirdEastbound).getD World.start

/-- The world in which that call evaluates `getMeanSpeed`. -/
def thirdEastTest : World :=
  (speedTestWorld gridGeo Config.Default thirdEastWorld 1 2).getD World.start

section Frame

variable (w : World) (p i : Nat) (b c : Fin 11) (l : Location) (f : Location → Location)

@[simp] theorem Location.bit_set : (l.set b).bit c = if c = b then true else l.bit c := rfl
@[simp] theorem Location.bit_reset : (l.reset b).bit c = if c = b then false else l.bit c := rfl
@[simp] theorem Location.t_set : (l.set b).t = l.t := rfl
@[simp] theorem Location.t_reset : (l.reset b).t = l.t := rfl
@[simp] theorem Location.speed_set : (l.set b).speed = l.speed := rfl
@[simp] theorem Location.speed_reset : (l.reset b).speed = l.speed := rfl
@[simp] theorem Location.heading_set : (l.set b).heading = l.heading := rfl
@[simp] theorem Location.heading_reset : (l.reset b).heading = l.heading := rfl
@[simp] theorem Location.bit_fresh (r : Raw) : (Location.fresh r).bit c = false := rfl
@[simp] theorem Location.t_fresh (r : Raw) : (Location.fresh r).t = r.t := rfl

theorem Location.set_of_bit (h : l.bit b = true) : l.set b = l := by
  cases l with
  | mk oid x y t speed heading time_elapsed distance ann =>
    simp only [Location.set, Location.mk.injEq, true_and]
    funext j
    by_cases hj : j = b
    · subst hj; simpa [Location.bit] using h.symm
    · simp [hj]

@[simp] theorem World.modify_heap :
    (w.modify p f).heap i = if i = p then f (w.heap p) else w.heap i := rfl
@[simp] theorem World.modify_seqPoints : (w.modify p f).seqPoints = w.seqPoints := rfl
@[simp] theorem World.modify_status : (w.modify p f).status = w.status := rfl
@[simp] theorem World.modify_curTime : (w.modify p f).curTime = w.curTime := rfl
@[simp] theorem World.modify_annoResults : (w.modify p f).annoResults = w.annoResults := rfl
@[simp] theorem World.modify_allocated : (w.modify p f).allocated = w.allocated := rfl
@[simp] theorem World.modify_known : (w.modify p f).known = w.known := rfl

@[simp] theorem World.setAnno_heap :
    (w.setAnno p b).heap i = if i = p then (w.heap p).set b else w.heap i := rfl
@[simp] theorem World.setAnno_seqPoints : (w.setAnno p b).seqPoints = w.seqPoints := rfl
@[simp] theorem World.setAnno_status : (w.setAnno p b).status = w.status := rfl
@[simp] theorem World.setAnno_curTime : (w.setAnno p b).curTime = w.curTime := rfl
@[simp] theorem World.setAnno_annoResults : (w.setAnno p b).annoResults = w.annoResults := rfl
@[simp] theorem World.setAnno_allocated : (w.setAnno p b).allocated = w.allocated := rfl
@[simp] theorem World.setAnno_known : (w.setAnno p b).known = w.known := rfl

@[simp] theorem World.resetAnno_heap :
    (w.resetAnno p b).heap i = if i = p then (w.heap p).reset b else w.heap i := rfl
@[simp] theorem World.resetAnno_seqPoints : (w.resetAnno p b).seqPoints = w.seqPoints := rfl
@[simp] theorem World.resetAnno_status : (w.resetAnno p b).status = w.status := rfl
@[simp] theorem World.resetAnno_curTime : (w.resetAnno p b).curTime = w.curTime := rfl
@[simp] theorem World.resetAnno_annoResults : (w.resetAnno p b).annoResults = w.annoResults := rfl
@[simp] theorem World.resetAnno_allocated : (w.resetAnno p b).allocated = w.allocated := rfl
@[simp] theorem World.resetAnno_known : (w.resetAnno p b).known = w.known := rfl

variable (s : Fin 3)

@[simp] theorem World.setStatus_heap : (w.setStatus s).heap = w.heap := rfl
@[simp] theorem World.setStatus_seqPoints : (w.setStatus s).seqPoints = w.seqPoints := rfl
@[simp] theorem World.setStatus_status (j : Fin 3) :
    (w.setStatus s).status j = if j = s then true else w.status j := rfl
@[simp] theorem World.setStatus_curTime : (w.setStatus s).curTime = w.curTime := rfl
@[simp] theorem World.setStatus_annoResults : (w.setStatus s).annoResults = w.annoResults := rfl
@[simp] theorem World.setStatus_allocated : (w.setStatus s).allocated = w.allocated := rfl
@[simp] theorem World.setStatus_known : (w.setStatus s).known = w.known := rfl

@[simp] theorem World.resetStatus_heap : (w.resetStatus s).heap = w.heap := rfl
@[simp] theorem World.resetStatus_seqPoints : (w.resetStatus s).seqPoints = w.seqPoints := rfl
@[simp] theorem World.resetStatus_status (j : Fin 3) :
    (w.resetStatus s).status j = if j = s then false else w.status j := rfl
@[simp] theorem World.resetStatus_curTime : (w.resetStatus s).curTime = w.curTime := rfl
@[simp] theorem World.resetStatus_annoResults : (w.resetStatus s).annoResults = w.annoResults := rfl
@[simp] theorem World.resetStatus_allocated : (w.resetStatus s).allocated = w.allocated := rfl
@[simp] theorem World.resetStatus_known : (w.resetStatus s).known = w.known := rfl

/-! ### `Sink::reportPoint` -/

theorem mem_mmInsert (k v : Nat) (es : List (Nat × Nat)) (e : Nat × Nat) :
    e ∈ mmInsert k v es ↔ e = (k, v) ∨ e ∈ es := by
  induction es with
  | nil => simp [mmInsert]
  | cons a as ih =>
    unfold mmInsert
    split_ifs
    · simp
    · simp only [List.mem_cons, ih]; tauto

theorem mmInsert_perm (k v : Nat) (es : List (Nat × Nat)) :
    (mmInsert k v es).Perm ((k, v) :: es) := by
  induction es with
  | nil => simp [mmInsert]
  | cons a as ih =>
    unfold mmInsert
    split_ifs
    · exact List.Perm.refl _
    · exact (List.Perm.cons a ih).trans (List.Perm.swap _ _ _)

@[simp] theorem reportPoint_seqPoints : (reportPoint w p).seqPoints = w.seqPoints := by
  unfold reportPoint; split_ifs <;> rfl
@[simp] theorem reportPoint_status : (reportPoint w p).status = w.status := by
  unfold reportPoint; split_ifs <;> rfl
@[simp] theorem reportPoint_curTime : (reportPoint w p).curTime = w.curTime := by
  unfold reportPoint; split_ifs <;> rfl
@[simp] theorem reportPoint_allocated : (reportPoint w p).allocated = w.allocated := by
  unfold reportPoint; split_ifs <;> rfl
@[simp] theorem reportPoint_known : (reportPoint w p).known = w.known := by
  unfold reportPoint; split_ifs <;> rfl

/-- The only heap effect of `reportPoint` is the reported bit of its argument. -/
theorem reportPoint_heap :
    (reportPoint w p).heap i = if i = p then (w.heap p).set REPORTED else w.heap i := by
  unfold reportPoint
  split_ifs with h1 h2 h2
  · subst h2; exact (Location.set_of_bit _ _ h1).symm
  · rfl
  · subst h2; simp
  · simp [h2]

theorem reportPoint_annoResults :
    (reportPoint w p).annoResults
      = if (w.heap p).bit REPORTED then w.annoResults
        else mmInsert (w.heap p).t p w.annoResults := by
  unfold reportPoint; split_ifs <;> rfl

end Frame

/-! ## Preservation of `Frame` and `Inv` by the primitive operations -/

section Preservation

variable {w w1 w2 : World} {S : Nat → Prop}

theorem frame_refl (w : World) (S : Nat → Prop) : Frame S w w :=
  ⟨rfl, rfl, fun _ => rfl, fun _ h => h, fun _ _ => rfl, fun _ h => h⟩

theorem frame_trans (h1 : Frame S w w1) (h2 : Frame S w1 w2) : Frame S w w2 :=
  ⟨h2.allocated_eq.trans h1.allocated_eq, h2.known_eq.trans h1.known_eq,
   fun i => (h2.t_eq i).trans (h1.t_eq i),
   fun i h => h2.rep_mono i (h1.rep_mono i h),
   fun i hi => (h2.noise_eq i hi).trans (h1.noise_eq i hi),
   fun i h => h2.sink_mono i (h1.sink_mono i h)⟩

theorem frame_mono {T : Nat → Prop} (h : Frame S w w1) (hST : ∀ i, S i → T i) : Frame T w w1 :=
  ⟨h.allocated_eq, h.known_eq, h.t_eq, h.rep_mono,
   fun i hi => h.noise_eq i (fun hs => hi (hST i hs)), h.sink_mono⟩

/-- A step that leaves the heap, the buffer and the bookkeeping fields alone. -/
theorem frame_of_eq (hh : w1.heap = w.heap) (ha : w1.annoResults = w.annoResults)
    (hal : w1.allocated = w.allocated) (hk : w1.known = w.known) : Frame S w w1 :=
  ⟨hal, hk, fun i => by rw [hh], fun i h => by rw [hh]; exact h, fun i _ => by rw [hh],
   fun i h => by simpa [sinkPtrs, ha] using h⟩

/-- A step that only rewrites one object, keeping its timestamp, NOISE and reported bits. -/
theorem frame_modify (p : Nat) (f : Location → Location)
    (ht : ∀ l, (f l).t = l.t) (hn : ∀ l, (f l).bit NOISE = l.bit NOISE)
    (hr : ∀ l, l.bit REPORTED = true → (f l).bit REPORTED = true) :
    Frame S w (w.modify p f) := by
  refine ⟨rfl, rfl, fun i => ?_, fun i h => ?_, fun i _ => ?_, fun i h => h⟩
  · simp only [World.modify_heap]; split_ifs with h
    · subst h; exact ht _
    · rfl
  · simp only [World.modify_heap]; split_ifs with h1
    · subst h1; exact hr _ h
    · exact h
  · simp only [World.modify_heap]; split_ifs with h
    · subst h; exact hn _
    · rfl

theorem frame_setAnno (p : Nat) (b : Fin 11) (hb : b ≠ NOISE) : Frame S w (w.setAnno p b) :=
  frame_modify p _ (fun _ => rfl) (fun l => by simp [Location.bit_set, hb.symm])
    (fun l h => by simp [Location.bit_set, h])

theorem frame_resetAnno (p : Nat) (b : Fin 11) (hb : b ≠ NOISE) (hr : b ≠ REPORTED) :
    Frame S w (w.resetAnno p b) :=
  frame_modify p _ (fun _ => rfl) (fun l => by simp [Location.bit_reset, hb.symm])
    (fun l h => by simp [Location.bit_reset, h, hr.symm])

theorem frame_reportPoint (p : Nat) : Frame S w (reportPoint w p) := by
  refine ⟨by simp, by simp, fun i => ?_, fun i h => ?_, fun i _ => ?_, fun i h => ?_⟩
  · rw [reportPoint_heap]; split_ifs with h
    · subst h; rfl
    · rfl
  · rw [reportPoint_heap]; split_ifs with h1
    · simp
    · exact h
  · rw [reportPoint_heap]; split_ifs with h
    · subst h; simp
    · rfl
  · simp only [sinkPtrs, reportPoint_annoResults] at h ⊢
    split_ifs
    · exact h
    · obtain ⟨e, he, rfl⟩ := List.mem_map.1 h
      exact List.mem_map.2 ⟨e, (mem_mmInsert _ _ _ _).2 (Or.inr he), rfl⟩

end Preservation

section InvPrimitives

variable {w w1 : World}

theorem sinkPtrs_reportPoint (w : World) (p : Nat) (i : Nat) :
    i ∈ sinkPtrs (reportPoint w p)
      ↔ (i = p ∧ (w.heap p).bit REPORTED = false) ∨ i ∈ sinkPtrs w := by
  simp only [sinkPtrs, reportPoint_annoResults]
  split_ifs with h
  · simp [h]
  · simp only [List.mem_map, mem_mmInsert, Prod.exists, exists_eq_right]
    constructor
    · rintro ⟨a, h1 | h1⟩
      · left; exact ⟨(Prod.mk.inj h1).2, by simpa using h⟩
      · right; exact ⟨a, h1⟩
    · rintro (⟨rfl, _⟩ | ⟨a, h1⟩)
      · exact ⟨_, Or.inl rfl⟩
      · exact ⟨a, Or.inr h1⟩

/-- A step that leaves the heap, the window, the buffer and the allocation count alone. -/
theorem inv_of_eq (h : Inv w) (hh : w1.heap = w.heap) (hs : w1.seqPoints = w.seqPoints)
    (ha : w1.annoResults = w.annoResults) (hal : w1.allocated = w.allocated) : Inv w1 := by
  have hp : sinkPtrs w1 = sinkPtrs w := by simp [sinkPtrs, ha]
  refine ⟨?_, ?_, ?_, ?_, ?_, ?_, ?_⟩
  · rw [hs, hal]; exact h.seq_lt
  · rw [hp, hal]; exact h.sink_lt
  · rw [hh]; exact h.noise_plain
  · rw [hs, hh]; exact h.seq_clean
  · rw [hp, hh]; exact h.noise_sink
  · rw [hp, hh]; exact h.sink_rep
  · rw [hp]; exact h.sink_nodup

theorem inv_setStatus (h : Inv w) (s : Fin 3) : Inv (w.setStatus s) := inv_of_eq h rfl rfl rfl rfl

theorem inv_resetStatus (h : Inv w) (s : Fin 3) : Inv (w.resetStatus s) := inv_of_eq h rfl rfl rfl rfl

/-- The window may be replaced by any list of addresses it already held. -/
theorem inv_setSeq (h : Inv w) (s : List Nat) (hs : ∀ i ∈ s, i ∈ w.seqPoints) :
    Inv { w with seqPoints := s } :=
  ⟨fun i hi => h.seq_lt i (hs i hi), h.sink_lt, h.noise_plain,
   fun i hi => h.seq_clean i (hs i hi), h.noise_sink, h.sink_rep, h.sink_nodup⟩

/-- Rewriting one object without touching its bitmap. -/
theorem inv_modify_kin (h : Inv w) (p : Nat) (f : Location → Location)
    (hf : ∀ l b, (f l).bit b = l.bit b) : Inv (w.modify p f) := by
  have hb : ∀ i b, ((w.modify p f).heap i).bit b = (w.heap i).bit b := by
    intro i b
    simp only [World.modify_heap]; split_ifs with hi
    · subst hi; exact hf _ _
    · rfl
  have ha : ∀ i, ((w.modify p f).heap i).isAnnotated = (w.heap i).isAnnotated := by
    intro i; simp only [Location.isAnnotated, hb]
  refine ⟨h.seq_lt, h.sink_lt, ?_, ?_, ?_, ?_, h.sink_nodup⟩
  · intro i hi; rw [ha]; rw [hb] at hi; exact h.noise_plain i hi
  · intro i hi; rw [hb]; exact h.seq_clean i hi
  · intro i hi; rw [hb] at hi; exact h.noise_sink i hi
  · intro i hi; rw [hb]; exact h.sink_rep i hi

/-- Setting a classification bit on an object that is not NOISE. -/
theorem inv_setAnno (h : Inv w) (p : Nat) (b : Fin 11) (hb : b ≠ NOISE)
    (hn : (w.heap p).bit NOISE = false) : Inv (w.setAnno p b) := by
  refine ⟨h.seq_lt, h.sink_lt, ?_, ?_, ?_, ?_, h.sink_nodup⟩
  · intro i hi
    simp only [World.setAnno_heap] at hi ⊢
    split_ifs at hi ⊢ with hip
    · subst hip; simp [hb.symm, hn] at hi
    · exact h.noise_plain i hi
  · intro i hi
    simp only [World.setAnno_heap]
    split_ifs with hip
    · subst hip; simp [hb.symm, hn]
    · exact h.seq_clean i hi
  · intro i hi
    simp only [World.setAnno_heap] at hi
    split_ifs at hi with hip
    · subst hip; simp [hb.symm, hn] at hi
    · exact h.noise_sink i hi
  · intro i hi
    simp only [World.setAnno_heap]
    split_ifs with hip
    · subst hip; simp [h.sink_rep i hi]
    · exact h.sink_rep i hi

theorem Location.isAnnotated_reset (l : Location) (b : Fin 11)
    (h : l.isAnnotated = false) : (l.reset b).isAnnotated = false := by
  simp only [Location.isAnnotated, Bool.or_eq_false_iff, Location.bit_reset] at h ⊢
  obtain ⟨⟨⟨⟨⟨⟨⟨⟨h0, h1⟩, h2⟩, h3⟩, h4⟩, h5⟩, h6⟩, h7⟩, h8⟩ := h
  simp [h0, h1, h2, h3, h4, h5, h6, h7, h8]

/-- Clearing a classification bit. -/
theorem inv_resetAnno (h : Inv w) (p : Nat) (b : Fin 11) (hb : b ≠ NOISE) (hr : b ≠ REPORTED) :
    Inv (w.resetAnno p b) := by
  refine ⟨h.seq_lt, h.sink_lt, ?_, ?_, ?_, ?_, h.sink_nodup⟩
  · intro i hi
    simp only [World.resetAnno_heap] at hi ⊢
    split_ifs at hi ⊢ with hip
    · subst hip
      simp only [Location.bit_reset, hb.symm, if_false] at hi
      exact Location.isAnnotated_reset _ _ (h.noise_plain i hi)
    · exact h.noise_plain i hi
  · intro i hi
    simp only [World.resetAnno_heap]
    split_ifs with hip
    · subst hip; simpa [hb.symm] using h.seq_clean i hi
    · exact h.seq_clean i hi
  · intro i hi
    simp only [World.resetAnno_heap] at hi
    split_ifs at hi with hip
    · subst hip
      simp only [Location.bit_reset, hb.symm, if_false] at hi
      exact h.noise_sink i hi
    · exact h.noise_sink i hi
  · intro i hi
    simp only [World.resetAnno_heap]
    split_ifs with hip
    · subst hip; simpa [hr.symm] using h.sink_rep i hi
    · exact h.sink_rep i hi

theorem Location.isAnnotated_set_REPORTED (l : Location) :
    (l.set REPORTED).isAnnotated = l.isAnnotated := by
  simp [Location.isAnnotated]

/-- Handing a created object to the `Sink`. -/
theorem inv_reportPoint (h : Inv w) (p : Nat) (hp : p < w.allocated) : Inv (reportPoint w p) := by
  refine ⟨by simpa using h.seq_lt, ?_, ?_, ?_, ?_, ?_, ?_⟩
  · intro i hi
    rw [sinkPtrs_reportPoint] at hi
    rw [reportPoint_allocated]
    rcases hi with ⟨rfl, _⟩ | hi
    · exact hp
    · exact h.sink_lt i hi
  · intro i hi
    rw [reportPoint_heap] at hi ⊢
    split_ifs at hi ⊢ with hip
    · subst hip
      rw [Location.isAnnotated_set_REPORTED]
      exact h.noise_plain i (by simpa using hi)
    · exact h.noise_plain i hi
  · intro i hi
    rw [reportPoint_seqPoints] at hi
    rw [reportPoint_heap]
    split_ifs with hip
    · subst hip; simpa using h.seq_clean i hi
    · exact h.seq_clean i hi
  · intro i hi
    rw [sinkPtrs_reportPoint]
    rw [reportPoint_heap] at hi
    split_ifs at hi with hip
    · subst hip; exact Or.inr (h.noise_sink i (by simpa using hi))
    · exact Or.inr (h.noise_sink i hi)
  · intro i hi
    rw [sinkPtrs_reportPoint] at hi
    rw [reportPoint_heap]
    split_ifs with hip
    · simp
    · rcases hi with ⟨rfl, _⟩ | hi
      · exact absurd rfl hip
      · exact h.sink_rep i hi
  · simp only [sinkPtrs, reportPoint_annoResults]
    split_ifs with hr
    · exact h.sink_nodup
    · have hperm := (mmInsert_perm (w.heap p).t p w.annoResults).map Prod.snd
      refine (List.Perm.nodup_iff hperm).2 ?_
      simp only [List.map_cons, List.nodup_cons]
      refine ⟨fun hmem => hr (h.sink_rep p hmem), h.sink_nodup⟩

/-- Marking a plain, unreported object outside the window as NOISE and reporting it. -/
theorem inv_markNoise (h : Inv w) (p : Nat) (hp : p < w.allocated) (hs : p ∉ w.seqPoints)
    (ha : (w.heap p).isAnnotated = false) (hr : (w.heap p).bit REPORTED = false) :
    Inv (reportPoint (w.setAnno p NOISE) p) := by
  have hnot : p ∉ sinkPtrs w := fun hmem => by simp [h.sink_rep p hmem] at hr
  have hptr : ∀ i, i ∈ sinkPtrs (reportPoint (w.setAnno p NOISE) p) ↔ i = p ∨ i ∈ sinkPtrs w := by
    intro i
    rw [sinkPtrs_reportPoint]
    simp [sinkPtrs, hr]
  have hheap : ∀ i, (reportPoint (w.setAnno p NOISE) p).heap i
      = if i = p then ((w.heap p).set NOISE).set REPORTED else w.heap i := by
    intro i
    rw [reportPoint_heap]
    split_ifs with hip <;> simp [hip]
  refine ⟨by simpa using h.seq_lt, ?_, ?_, ?_, ?_, ?_, ?_⟩
  · intro i hi
    rcases (hptr i).1 hi with rfl | hi
    · simpa using hp
    · simpa using h.sink_lt i hi
  · intro i hi
    rw [hheap] at hi ⊢
    split_ifs at hi ⊢ with hip
    · subst hip
      simp only [Location.isAnnotated, Bool.or_eq_false_iff] at ha ⊢
      obtain ⟨⟨⟨⟨⟨⟨⟨⟨h0, h1⟩, h2⟩, h3⟩, h4⟩, h5⟩, h6⟩, h7⟩, h8⟩ := ha
      simp [h0, h1, h2, h3, h4, h5, h6, h7, h8]
    · exact h.noise_plain i hi
  · intro i hi
    simp only [reportPoint_seqPoints, World.setAnno_seqPoints] at hi
    rw [hheap]
    split_ifs with hip
    · subst hip; exact absurd hi hs
    · exact h.seq_clean i hi
  · intro i hi
    rw [hptr]
    rw [hheap] at hi
    split_ifs at hi with hip
    · exact Or.inl hip
    · exact Or.inr (h.noise_sink i hi)
  · intro i hi
    rw [hheap]
    split_ifs with hip
    · simp
    · rcases (hptr i).1 hi with rfl | hi
      · exact absurd rfl hip
      · exact h.sink_rep i hi
  · have hanno : (reportPoint (w.setAnno p NOISE) p).annoResults
        = mmInsert (w.heap p).t p w.annoResults := by
      rw [reportPoint_annoResults]
      simp [hr]
    have hperm := (mmInsert_perm (w.heap p).t p w.annoResults).map Prod.snd
    rw [sinkPtrs, hanno]
    refine (List.Perm.nodup_iff hperm).2 ?_
    simp only [List.map_cons, List.nodup_cons]
    exact ⟨hnot, h.sink_nodup⟩

/-- Appending a created object that is not NOISE (`State::append`). -/
theorem inv_append (h : Inv w) (p : Nat) (hp : p < w.allocated)
    (hn : (w.heap p).bit NOISE = false) : Inv (append w p) := by
  refine ⟨?_, h.sink_lt, h.noise_plain, ?_, h.noise_sink, h.sink_rep, h.sink_nodup⟩
  · intro i hi
    simp only [append, List.mem_append, List.mem_singleton] at hi
    rcases hi with hi | rfl
    · exact h.seq_lt i hi
    · exact hp
  · intro i hi
    simp only [append, List.mem_append, List.mem_singleton] at hi
    rcases hi with hi | rfl
    · exact h.seq_clean i hi
    · exact hn

end InvPrimitives

/-! ## Frame facts of the loops and of the mobility checks -/

section FrameOps

variable {S : Nat → Prop} (g : Geo) (cfg : Config)

theorem foldl_reportPoint_seqPoints (l : List Nat) (w : World) :
    (l.foldl reportPoint w).seqPoints = w.seqPoints := by
  induction l generalizing w with
  | nil => rfl
  | cons a as ih => simp [List.foldl_cons, ih]

theorem foldl_reportPoint_status (l : List Nat) (w : World) :
    (l.foldl reportPoint w).status = w.status := by
  induction l generalizing w with
  | nil => rfl
  | cons a as ih => simp [List.foldl_cons, ih]

theorem foldl_reportPoint_curTime (l : List Nat) (w : World) :
    (l.foldl reportPoint w).curTime = w.curTime := by
  induction l generalizing w with
  | nil => rfl
  | cons a as ih => simp [List.foldl_cons, ih]

theorem frame_foldl_reportPoint (l : List Nat) (w : World) :
    Frame S w (l.foldl reportPoint w) := by
  induction l generalizing w with
  | nil => exact frame_refl _ _
  | cons a as ih => exact frame_trans (frame_reportPoint a) (ih _)

theorem cleanupFrom_status (l : List Nat) (w : World) : (cleanupFrom w l).status = w.status := by
  induction l generalizing w with
  | nil => rfl
  | cons a as ih =>
    unfold cleanupFrom
    split_ifs
    · rw [ih]; simp
    · rfl

theorem cleanupFrom_curTime (l : List Nat) (w : World) :
    (cleanupFrom w l).curTime = w.curTime := by
  induction l generalizing w with
  | nil => rfl
  | cons a as ih =>
    unfold cleanupFrom
    split_ifs
    · rw [ih]; simp
    · rfl

/-- The window after `cleanup` is a suffix of the window before. -/
theorem cleanupFrom_suffix (l : List Nat) (w : World) : (cleanupFrom w l).seqPoints <:+ l := by
  induction l generalizing w with
  | nil => exact List.suffix_refl _
  | cons a as ih =>
    unfold cleanupFrom
    split_ifs
    · exact (ih _).trans (List.suffix_cons a as)
    · exact List.suffix_refl _

theorem frame_cleanupFrom (l : List Nat) (w : World) : Frame S w (cleanupFrom w l) := by
  induction l generalizing w with
  | nil => exact frame_of_eq rfl rfl rfl rfl
  | cons a as ih =>
    unfold cleanupFrom
    split_ifs
    · exact frame_trans (frame_reportPoint a) (ih _)
    · exact frame_of_eq rfl rfl rfl rfl

theorem expungeFrom_status (t : Nat) (l : List Nat) (w : World) :
    (expungeFrom cfg t w l).status = w.status := by
  induction l generalizing w with
  | nil => rfl
  | cons a as ih =>
    unfold expungeFrom
    split_ifs
    · rw [ih]; simp
    · rfl

theorem expungeFrom_suffix (t : Nat) (l : List Nat) (w : World) :
    (expungeFrom cfg t w l).seqPoints <:+ l := by
  induction l generalizing w with
  | nil => exact List.suffix_refl _
  | cons a as ih =>
    unfold expungeFrom
    split_ifs
    · exact (ih _).trans (List.suffix_cons a as)
    · exact List.suffix_refl _

theorem frame_expungeFrom (t : Nat) (l : List Nat) (w : World) :
    Frame S w (expungeFrom cfg t w l) := by
  induction l generalizing w with
  | nil => exact frame_of_eq rfl rfl rfl rfl
  | cons a as ih =>
    unfold expungeFrom
    split_ifs
    · exact frame_trans (frame_reportPoint a) (ih _)
    · exact frame_of_eq rfl rfl rfl rfl

theorem revokeStopFrom_fields (l : List Nat) (w : World) :
    (revokeStopFrom w l).seqPoints = w.seqPoints ∧ (revokeStopFrom w l).status = w.status
      ∧ (revokeStopFrom w l).curTime = w.curTime
      ∧ (revokeStopFrom w l).annoResults = w.annoResults := by
  induction l generalizing w with
  | nil => exact ⟨rfl, rfl, rfl, rfl⟩
  | cons a as ih =>
    unfold revokeStopFrom
    split_ifs
    · exact ⟨rfl, rfl, rfl, rfl⟩
    · exact ih _

theorem frame_revokeStopFrom (l : List Nat) (w : World) : Frame S w (revokeStopFrom w l) := by
  induction l generalizing w with
  | nil => exact frame_refl _ _
  | cons a as ih =>
    unfold revokeStopFrom
    split_ifs
    · exact frame_resetAnno a _ (by decide) (by decide)
    · exact ih _

theorem revokeChangeInHeadingFrom_fields (l : List Nat) (w : World) :
    (revokeChangeInHeadingFrom w l).seqPoints = w.seqPoints
      ∧ (revokeChangeInHeadingFrom w l).status = w.status
      ∧ (revokeChangeInHeadingFrom w l).curTime = w.curTime
      ∧ (revokeChangeInHeadingFrom w l).annoResults = w.annoResults := by
  induction l generalizing w with
  | nil => exact ⟨rfl, rfl, rfl, rfl⟩
  | cons a as ih =>
    unfold revokeChangeInHeadingFrom
    simp only []
    split_ifs
    · exact ⟨rfl, rfl, rfl, rfl⟩
    · exact ih _
    · exact ih _

theorem frame_revokeChangeInHeadingFrom (l : List Nat) (w : World) :
    Frame S w (revokeChangeInHeadingFrom w l) := by
  induction l generalizing w with
  | nil => exact frame_refl _ _
  | cons a as ih =>
    unfold revokeChangeInHeadingFrom
    simp only []
    split_ifs
    · exact frame_resetAnno a _ (by decide) (by decide)
    · exact frame_trans (frame_resetAnno a _ (by decide) (by decide)) (ih _)
    · exact ih _

variable (w : World) (p q oldLoc newLoc : Nat)

@[simp] theorem revokeStop_seqPoints : (revokeStop w).seqPoints = w.seqPoints :=
  (revokeStopFrom_fields _ _).1
@[simp] theorem revokeStop_status : (revokeStop w).status = w.status :=
  (revokeStopFrom_fields _ _).2.1
@[simp] theorem revokeStop_curTime : (revokeStop w).curTime = w.curTime :=
  (revokeStopFrom_fields _ _).2.2.1
@[simp] theorem revokeChangeInHeading_seqPoints :
    (revokeChangeInHeading w).seqPoints = w.seqPoints :=
  (revokeChangeInHeadingFrom_fields _ _).1
@[simp] theorem revokeChangeInHeading_status : (revokeChangeInHeading w).status = w.status :=
  (revokeChangeInHeadingFrom_fields _ _).2.1
@[simp] theorem revokeChangeInHeading_curTime : (revokeChangeInHeading w).curTime = w.curTime :=
  (revokeChangeInHeadingFrom_fields _ _).2.2.1

theorem frame_revokeStop : Frame S w (revokeStop w) := frame_revokeStopFrom _ _

theorem frame_revokeChangeInHeading : Frame S w (revokeChangeInHeading w) :=
  frame_revokeChangeInHeadingFrom _ _

theorem frame_setStatus (s : Fin 3) : Frame S w (w.setStatus s) := frame_of_eq rfl rfl rfl rfl

theorem frame_resetStatus (s : Fin 3) : Frame S w (w.resetStatus s) := frame_of_eq rfl rfl rfl rfl

theorem frame_append : Frame S w (append w p) := frame_of_eq rfl rfl rfl rfl

theorem frame_init : Frame S w (init w p) :=
  frame_trans (frame_setAnno p GAP_END (by decide)) (frame_of_eq rfl rfl rfl rfl)

theorem frame_purge : Frame S w (purge w) :=
  frame_trans (frame_foldl_reportPoint w.seqPoints w) (frame_of_eq rfl rfl rfl rfl)

theorem frame_cleanup : Frame S w (cleanup w) := frame_cleanupFrom _ _

@[simp] theorem cleanup_status : (cleanup w).status = w.status := cleanupFrom_status _ _

@[simp] theorem cleanup_curTime : (cleanup w).curTime = w.curTime := cleanupFrom_curTime _ _

theorem cleanup_suffix : (cleanup w).seqPoints <:+ w.seqPoints := cleanupFrom_suffix _ _

theorem frame_stopEntry : Frame S w (stopEntry w oldLoc newLoc) := by
  unfold stopEntry
  simp only []
  split_ifs <;>
    repeat (first
      | exact frame_refl _ _
      | exact frame_setAnno _ _ (by decide)
      | refine frame_trans ?_ (frame_resetStatus _ _)
      | refine frame_trans ?_ (frame_setStatus _ _)
      | refine frame_trans ?_ (frame_setAnno _ _ (by decide)))

theorem stopEntry_seqPoints : (stopEntry w oldLoc newLoc).seqPoints = w.seqPoints := by
  unfold stopEntry
  simp only []
  split_ifs <;> rfl

theorem stopEntry_curTime : (stopEntry w oldLoc newLoc).curTime = w.curTime := by
  unfold stopEntry
  simp only []
  split_ifs <;> rfl

theorem frame_stopExit : Frame S w (stopExit g cfg w oldLoc) := by
  unfold stopExit
  split_ifs
  · exact frame_trans (frame_revokeStop w) (frame_resetStatus _ _)
  · exact frame_trans (frame_trans (frame_setAnno oldLoc STOP_END (by decide))
      (frame_resetStatus _ _)) (frame_revokeChangeInHeading _)
  · exact frame_refl _ _

theorem stopExit_seqPoints : (stopExit g cfg w oldLoc).seqPoints = w.seqPoints := by
  unfold stopExit
  split_ifs <;> simp

theorem stopExit_curTime : (stopExit g cfg w oldLoc).curTime = w.curTime := by
  unfold stopExit
  split_ifs <;> simp

theorem frame_forwardStop : Frame S w (forwardStop g cfg w oldLoc newLoc) := by
  unfold forwardStop
  simp only []
  split_ifs
  · exact frame_stopEntry _ _ _
  · exact frame_stopExit _ _ _ _
  · exact frame_refl _ _

theorem forwardStop_seqPoints : (forwardStop g cfg w oldLoc newLoc).seqPoints = w.seqPoints := by
  unfold forwardStop
  simp only []
  split_ifs
  · exact stopEntry_seqPoints _ _ _
  · exact stopExit_seqPoints _ _ _ _
  · rfl

theorem forwardStop_curTime : (forwardStop g cfg w oldLoc newLoc).curTime = w.curTime := by
  unfold forwardStop
  simp only []
  split_ifs
  · exact stopEntry_curTime _ _ _
  · exact stopExit_curTime _ _ _ _
  · rfl

end FrameOps

section FrameChecks

variable {S : Nat → Prop} (g : Geo) (cfg : Config) (w : World) (p q oldLoc newLoc : Nat)

theorem frame_setNoise (hS : S p) : Frame S w (w.setAnno p NOISE) := by
  refine ⟨rfl, rfl, fun i => ?_, fun i h => ?_, fun i hi => ?_, fun i h => h⟩
  · simp only [World.setAnno_heap]; split_ifs with h
    · subst h; rfl
    · rfl
  · simp only [World.setAnno_heap]; split_ifs with h1
    · subst h1; simp [h]
    · exact h
  · simp only [World.setAnno_heap]; split_ifs with h
    · subst h; exact absurd hS hi
    · rfl

theorem frame_speedChangeStart (m : ℚ) : Frame S w (speedChangeStart cfg m w newLoc) := by
  unfold speedChangeStart
  split_ifs
  · exact frame_trans (frame_setAnno _ _ (by decide)) (frame_setStatus _ _)
  · exact frame_refl _ _

theorem frame_speedChangeEnd (m : ℚ) : Frame S w (speedChangeEnd cfg m w newLoc) := by
  unfold speedChangeEnd
  split_ifs
  · exact frame_trans (frame_setAnno _ _ (by decide)) (frame_resetStatus _ _)
  · exact frame_refl _ _

theorem frame_slowMotionStart : Frame S w (slowMotionStart cfg w oldLoc newLoc) := by
  unfold slowMotionStart
  split_ifs
  · exact frame_trans (frame_setAnno _ _ (by decide)) (frame_setStatus _ _)
  · exact frame_refl _ _

theorem frame_slowMotionEnd : Frame S w (slowMotionEnd cfg w oldLoc newLoc) := by
  unfold slowMotionEnd
  split_ifs
  · exact frame_trans (frame_setAnno _ _ (by decide)) (frame_resetStatus _ _)
  · exact frame_refl _ _

theorem speedChangeStart_seqPoints (m : ℚ) :
    (speedChangeStart cfg m w newLoc).seqPoints = w.seqPoints
      ∧ (speedChangeStart cfg m w newLoc).curTime = w.curTime := by
  unfold speedChangeStart; split_ifs <;> exact ⟨rfl, rfl⟩

theorem speedChangeEnd_seqPoints (m : ℚ) :
    (speedChangeEnd cfg m w newLoc).seqPoints = w.seqPoints
      ∧ (speedChangeEnd cfg m w newLoc).curTime = w.curTime := by
  unfold speedChangeEnd; split_ifs <;> exact ⟨rfl, rfl⟩

theorem slowMotionStart_seqPoints :
    (slowMotionStart cfg w oldLoc newLoc).seqPoints = w.seqPoints
      ∧ (slowMotionStart cfg w oldLoc newLoc).curTime = w.curTime := by
  unfold slowMotionStart; split_ifs <;> exact ⟨rfl, rfl⟩

theorem slowMotionEnd_seqPoints :
    (slowMotionEnd cfg w oldLoc newLoc).seqPoints = w.seqPoints
      ∧ (slowMotionEnd cfg w oldLoc newLoc).curTime = w.curTime := by
  unfold slowMotionEnd; split_ifs <;> exact ⟨rfl, rfl⟩

theorem frame_forwardSpeed : Frame S w (forwardSpeed cfg w oldLoc newLoc) := by
  unfold forwardSpeed
  simp only []
  split_ifs
  · exact frame_refl _ _
  · exact frame_trans (frame_trans (frame_trans (frame_speedChangeStart cfg w newLoc _)
      (frame_speedChangeEnd cfg _ newLoc _)) (frame_slowMotionStart cfg _ oldLoc newLoc))
      (frame_slowMotionEnd cfg _ oldLoc newLoc)

theorem forwardSpeed_seqPoints :
    (forwardSpeed cfg w oldLoc newLoc).seqPoints = w.seqPoints
      ∧ (forwardSpeed cfg w oldLoc newLoc).curTime = w.curTime := by
  unfold forwardSpeed
  simp only []
  split_ifs
  · exact ⟨rfl, rfl⟩
  · simp only [(slowMotionEnd_seqPoints _ _ _ _).1, (slowMotionStart_seqPoints _ _ _ _).1,
      (speedChangeEnd_seqPoints _ _ _ _).1, (speedChangeStart_seqPoints _ _ _ _).1,
      (slowMotionEnd_seqPoints _ _ _ _).2, (slowMotionStart_seqPoints _ _ _ _).2,
      (speedChangeEnd_seqPoints _ _ _ _).2, (speedChangeStart_seqPoints _ _ _ _).2, and_self]

theorem frame_forwardFilter (hS : S newLoc) : Frame S w (forwardFilter g cfg w oldLoc newLoc) := by
  unfold forwardFilter
  simp only []
  split_ifs
  · exact frame_trans (frame_setNoise w newLoc hS) (frame_reportPoint _)
  · exact frame_append _ _
  · exact frame_trans (frame_trans (frame_append w newLoc) (frame_forwardStop g cfg _ _ _))
      (frame_forwardSpeed cfg _ _ _)

/-- The window after the noise filter: unchanged, or extended by the new address. -/
theorem forwardFilter_seqPoints :
    (forwardFilter g cfg w oldLoc newLoc).seqPoints = w.seqPoints
      ∨ (forwardFilter g cfg w oldLoc newLoc).seqPoints = w.seqPoints ++ [newLoc] := by
  unfold forwardFilter
  simp only []
  split_ifs
  · left; simp
  · right; rfl
  · right; rw [(forwardSpeed_seqPoints _ _ _ _).1, forwardStop_seqPoints]; rfl

theorem frame_setDisplacement : Frame S w (setDisplacement g w oldLoc newLoc) := by
  unfold setDisplacement
  refine frame_modify _ _ ?_ ?_ ?_ <;> intros <;> first | rfl | assumption

theorem frame_setVelocity : Frame S w (setVelocity g w oldLoc newLoc) := by
  unfold setVelocity
  simp only []
  refine frame_trans (frame_modify _ _ ?_ ?_ ?_) (frame_modify _ _ ?_ ?_ ?_) <;> intros <;>
    first | rfl | assumption

theorem frame_forwardGap (hS : S newLoc) : Frame S w (forwardGap g cfg w oldLoc newLoc) := by
  unfold forwardGap
  simp only []
  split_ifs
  · exact frame_trans (frame_trans (frame_trans (frame_setAnno _ _ (by decide))
      (frame_setAnno _ _ (by decide))) (frame_setStatus _ _)) (frame_forwardFilter g cfg _ _ _ hS)
  · exact frame_trans (frame_trans (frame_trans (frame_setAnno _ _ (by decide))
      (frame_setAnno _ _ (by decide))) (frame_purge _)) (frame_init _ _)

theorem frame_forwardMobilityCheck (hS : S newLoc) :
    Frame S w (forwardMobilityCheck g cfg w q newLoc) := by
  unfold forwardMobilityCheck
  simp only []
  split_ifs
  · exact frame_trans (frame_trans (frame_setDisplacement g w _ _) (frame_setNoise _ newLoc hS))
      (frame_reportPoint _)
  · exact frame_trans (frame_trans (frame_setDisplacement g w _ _) (frame_setVelocity g _ _ _))
      (frame_forwardGap g cfg _ _ _ hS)
  · exact frame_trans (frame_trans (frame_setDisplacement g w _ _) (frame_setVelocity g _ _ _))
      (frame_forwardFilter g cfg _ _ _ hS)

theorem frame_backwardMobilityCheck : Frame S w (backwardMobilityCheck g cfg w oldLoc newLoc) := by
  unfold backwardMobilityCheck
  simp only []
  split_ifs
  · exact frame_modify _ _ (fun _ => rfl) (fun _ => rfl) (fun _ h => h)
  · exact frame_refl _ _
  · exact frame_trans (frame_setAnno _ _ (by decide)) (frame_cleanup _)
  · exact frame_setAnno _ _ (by decide)
  · exact frame_refl _ _

theorem backwardMobilityCheck_status :
    (backwardMobilityCheck g cfg w oldLoc newLoc).status = w.status := by
  unfold backwardMobilityCheck
  simp only []
  split_ifs <;> simp

theorem backwardMobilityCheck_curTime :
    (backwardMobilityCheck g cfg w oldLoc newLoc).curTime = w.curTime := by
  unfold backwardMobilityCheck
  simp only []
  split_ifs <;> simp

theorem backwardMobilityCheck_suffix :
    (backwardMobilityCheck g cfg w oldLoc newLoc).seqPoints <:+ w.seqPoints := by
  unfold backwardMobilityCheck
  simp only []
  split_ifs
  · exact List.suffix_refl _
  · exact List.suffix_refl _
  · exact cleanup_suffix _
  · exact List.suffix_refl _
  · exact List.suffix_refl _

theorem frame_updateFrom (hS : S p) : Frame S w (updateFrom g cfg w q p) := by
  unfold updateFrom
  simp only []
  split_ifs
  · exact frame_trans (frame_trans (frame_forwardMobilityCheck g cfg w q p hS)
      (frame_backwardMobilityCheck g cfg _ q p)) (frame_resetStatus _ _)
  · exact frame_trans (frame_forwardMobilityCheck g cfg w q p hS)
      (frame_backwardMobilityCheck g cfg _ q p)

theorem frame_markLastLocationAsGap : Frame S w (markLastLocationAsGap w) := by
  unfold markLastLocationAsGap
  simp only []
  refine frame_trans (frame_trans ?_ (frame_foldl_reportPoint _ _)) (frame_of_eq rfl rfl rfl rfl)
  split
  · exact frame_refl _ _
  · split_ifs
    · exact frame_trans (frame_setAnno _ _ (by decide)) (frame_revokeChangeInHeading _)
    · exact frame_setAnno _ _ (by decide)

theorem frame_expungeObsoleteLocations (t : Nat) :
    Frame S w (expungeObsoleteLocations cfg w t) := by
  unfold expungeObsoleteLocations
  simp only []
  split_ifs
  · exact frame_refl _ _
  · split
    · exact frame_trans (frame_expungeFrom cfg t _ w) (frame_of_eq rfl rfl rfl rfl)
    · exact frame_trans (frame_expungeFrom cfg t _ w) (frame_of_eq rfl rfl rfl rfl)

end FrameChecks

/-! ## Preservation of `Inv` by the loops and by the mobility checks -/

section InvOps

variable (g : Geo) (cfg : Config) {w : World}

/-- A step framed by the empty set leaves every NOISE bit as it was. -/
theorem noise_of_frame {w w1 : World} (hf : Frame (fun _ => False) w w1) (i : Nat) :
    (w1.heap i).bit NOISE = (w.heap i).bit NOISE := hf.noise_eq i (fun h => h)

theorem inv_foldl_reportPoint (l : List Nat) {w : World} (h : Inv w)
    (hl : ∀ i ∈ l, i < w.allocated) : Inv (l.foldl reportPoint w) := by
  induction l generalizing w with
  | nil => exact h
  | cons a as ih =>
    rw [List.foldl_cons]
    refine ih (inv_reportPoint h a (hl a (List.mem_cons_self _ _))) ?_
    intro i hi
    rw [reportPoint_allocated]
    exact hl i (List.mem_cons_of_mem _ hi)

theorem inv_cleanupFrom (l : List Nat) {w : World} (h : Inv w)
    (hl : ∀ i ∈ l, i ∈ w.seqPoints) : Inv (cleanupFrom w l) := by
  induction l generalizing w with
  | nil => exact inv_setSeq h [] (fun i hi => absurd hi (List.not_mem_nil i))
  | cons a as ih =>
    unfold cleanupFrom
    split_ifs
    · refine ih (inv_reportPoint h a (h.seq_lt a (hl a (List.mem_cons_self _ _)))) ?_
      intro i hi
      rw [reportPoint_seqPoints]
      exact hl i (List.mem_cons_of_mem _ hi)
    · exact inv_setSeq h _ hl

theorem inv_expungeFrom (t : Nat) (l : List Nat) {w : World} (h : Inv w)
    (hl : ∀ i ∈ l, i ∈ w.seqPoints) : Inv (expungeFrom cfg t w l) := by
  induction l generalizing w with
  | nil => exact inv_setSeq h [] (fun i hi => absurd hi (List.not_mem_nil i))
  | cons a as ih =>
    unfold expungeFrom
    split_ifs
    · refine ih (inv_reportPoint h a (h.seq_lt a (hl a (List.mem_cons_self _ _)))) ?_
      intro i hi
      rw [reportPoint_seqPoints]
      exact hl i (List.mem_cons_of_mem _ hi)
    · exact inv_setSeq h _ hl

theorem inv_revokeStopFrom (l : List Nat) {w : World} (h : Inv w) : Inv (revokeStopFrom w l) := by
  induction l generalizing w with
  | nil => exact h
  | cons a as ih =>
    unfold revokeStopFrom
    split_ifs
    · exact inv_resetAnno h a _ (by decide) (by decide)
    · exact ih h

theorem inv_revokeChangeInHeadingFrom (l : List Nat) {w : World} (h : Inv w) :
    Inv (revokeChangeInHeadingFrom w l) := by
  induction l generalizing w with
  | nil => exact h
  | cons a as ih =>
    unfold revokeChangeInHeadingFrom
    simp only []
    split_ifs
    · exact inv_resetAnno h a _ (by decide) (by decide)
    · exact ih (inv_resetAnno h a _ (by decide) (by decide))
    · exact ih h

theorem inv_init (h : Inv w) (p : Nat) (hp : p < w.allocated)
    (hn : (w.heap p).bit NOISE = false) : Inv (init w p) := by
  have h1 : Inv (w.setAnno p GAP_END) := inv_setAnno h p _ (by decide) hn
  have h2 : Inv (append (w.setAnno p GAP_END) p) := inv_append h1 p hp (by simp [hn])
  exact inv_of_eq h2 rfl rfl rfl rfl

theorem inv_purge (h : Inv w) : Inv (purge w) := by
  have h1 := inv_foldl_reportPoint w.seqPoints h h.seq_lt
  have h2 := inv_setSeq h1 [] (fun i hi => absurd hi (List.not_mem_nil i))
  exact inv_of_eq h2 rfl rfl rfl rfl

theorem inv_cleanup (h : Inv w) : Inv (cleanup w) := inv_cleanupFrom _ h (fun _ hi => hi)

theorem noise_setAnno (w : World) (p i : Nat) (b : Fin 11) (hb : b ≠ NOISE) :
    ((w.setAnno p b).heap i).bit NOISE = (w.heap i).bit NOISE :=
  noise_of_frame (frame_setAnno p b hb) i

theorem inv_stopEntry (h : Inv w) (oldLoc newLoc : Nat)
    (ho : (w.heap oldLoc).bit NOISE = false) (hn : (w.heap newLoc).bit NOISE = false) :
    Inv (stopEntry w oldLoc newLoc) := by
  unfold stopEntry
  simp only []
  split_ifs <;>
    repeat (first
      | exact h
      | refine inv_resetStatus ?_ _
      | refine inv_setStatus ?_ _
      | refine inv_setAnno ?_ _ _ (by decide)
          (by simp [-World.setAnno_heap, noise_setAnno, ho, hn]))

theorem inv_stopExit (h : Inv w) (oldLoc : Nat) (ho : (w.heap oldLoc).bit NOISE = false) :
    Inv (stopExit g cfg w oldLoc) := by
  unfold stopExit
  split_ifs
  · exact inv_resetStatus (inv_revokeStopFrom _ h) _
  · exact inv_revokeChangeInHeadingFrom _
      (inv_resetStatus (inv_setAnno h oldLoc _ (by decide) ho) _)
  · exact h

theorem inv_forwardStop (h : Inv w) (oldLoc newLoc : Nat)
    (ho : (w.heap oldLoc).bit NOISE = false) (hn : (w.heap newLoc).bit NOISE = false) :
    Inv (forwardStop g cfg w oldLoc newLoc) := by
  unfold forwardStop
  simp only []
  split_ifs
  · exact inv_stopEntry h _ _ ho hn
  · exact inv_stopExit g cfg h _ ho
  · exact h

theorem inv_forwardSpeed (h : Inv w) (oldLoc newLoc : Nat)
    (hn : (w.heap newLoc).bit NOISE = false) : Inv (forwardSpeed cfg w oldLoc newLoc) := by
  unfold forwardSpeed
  simp only []
  split_ifs
  · exact h
  · have h1 : Inv (speedChangeStart cfg (getMeanSpeed w) w newLoc) := by
      unfold speedChangeStart
      split_ifs
      · exact inv_setStatus (inv_setAnno h _ _ (by decide) hn) _
      · exact h
    have n1 := (noise_of_frame (frame_speedChangeStart cfg w newLoc (getMeanSpeed w)) newLoc).trans hn
    have h2 : Inv (speedChangeEnd cfg (getMeanSpeed w)
        (speedChangeStart cfg (getMeanSpeed w) w newLoc) newLoc) := by
      unfold speedChangeEnd
      split_ifs
      · exact inv_resetStatus (inv_setAnno h1 _ _ (by decide) n1) _
      · exact h1
    have n2 := (noise_of_frame (frame_speedChangeEnd cfg
      (speedChangeStart cfg (getMeanSpeed w) w newLoc) newLoc (getMeanSpeed w)) newLoc).trans n1
    have h3 : Inv (slowMotionStart cfg (speedChangeEnd cfg (getMeanSpeed w)
        (speedChangeStart cfg (getMeanSpeed w) w newLoc) newLoc) oldLoc newLoc) := by
      unfold slowMotionStart
      split_ifs
      · exact inv_setStatus (inv_setAnno h2 _ _ (by decide) n2) _
      · exact h2
    have n3 := (noise_of_frame (frame_slowMotionStart cfg (speedChangeEnd cfg (getMeanSpeed w)
        (speedChangeStart cfg (getMeanSpeed w) w newLoc) newLoc) oldLoc newLoc) newLoc).trans n2
    unfold slowMotionEnd
    split_ifs
    · exact inv_resetStatus (inv_setAnno h3 _ _ (by decide) n3) _
    · exact h3

theorem isAnnotated_of_only_gapEnd (l : Location)
    (hb : ∀ b, b ≠ GAP_END → l.bit b = false) (hg : l.bit GAP_END = false) :
    l.isAnnotated = false := by
  simp only [Location.isAnnotated, Bool.or_eq_false_iff]
  refine ⟨⟨⟨⟨⟨⟨⟨⟨?_, ?_⟩, ?_⟩, ?_⟩, ?_⟩, ?_⟩, ?_⟩, ?_⟩, ?_⟩ <;>
    first | exact hg | exact hb _ (by decide)

theorem checkNoise_gapEnd (oldLoc newLoc : Location) (h : checkNoise cfg oldLoc newLoc = true) :
    newLoc.bit GAP_END = false := by
  by_contra hg
  simp only [Bool.not_eq_false] at hg
  simp [checkNoise, hg] at h

theorem inv_forwardFilter (h : Inv w) (oldLoc newLoc : Nat)
    (ho : (w.heap oldLoc).bit NOISE = false) (hp : newLoc < w.allocated)
    (hs : newLoc ∉ w.seqPoints) (hb : ∀ b, b ≠ GAP_END → (w.heap newLoc).bit b = false) :
    Inv (forwardFilter g cfg w oldLoc newLoc) := by
  have hn : (w.heap newLoc).bit NOISE = false := hb _ (by decide)
  unfold forwardFilter
  simp only []
  split_ifs with h1 h2
  · exact inv_markNoise h newLoc hp hs
      (isAnnotated_of_only_gapEnd _ hb (checkNoise_gapEnd cfg _ _ h1)) (hb _ (by decide))
  · exact inv_append h newLoc hp hn
  · have ha := inv_append h newLoc hp hn
    have hs1 := inv_forwardStop g cfg ha oldLoc newLoc ho hn
    refine inv_forwardSpeed cfg hs1 oldLoc newLoc ?_
    exact (noise_of_frame (frame_forwardStop g cfg (append w newLoc) oldLoc newLoc) newLoc).trans hn

end InvOps

section InvUpdate

variable (g : Geo) (cfg : Config) {w : World}

theorem oldLocOf_eq (w : World) (q : Nat) (hq : (w.heap q).bit NOISE = false) :
    oldLocOf w q = q := by
  unfold oldLocOf
  simp [hq]

theorem modify_bit (w : World) (p i : Nat) (f : Location → Location) (b : Fin 11)
    (hf : ∀ l, Location.annotation (f l) = Location.annotation l) :
    ((w.modify p f).heap i).bit b = (w.heap i).bit b := by
  simp only [World.modify_heap]
  split_ifs with h
  · subst h; simp only [Location.bit, hf]
  · rfl

theorem setDisplacement_bit (w : World) (oldLoc newLoc i : Nat) (b : Fin 11) :
    ((setDisplacement g w oldLoc newLoc).heap i).bit b = (w.heap i).bit b := by
  unfold setDisplacement
  refine modify_bit _ _ _ _ _ ?_
  intro; rfl

theorem setVelocity_bit (w : World) (oldLoc newLoc i : Nat) (b : Fin 11) :
    ((setVelocity g w oldLoc newLoc).heap i).bit b = (w.heap i).bit b := by
  unfold setVelocity
  simp only []
  refine (modify_bit _ _ _ _ _ ?_).trans (modify_bit _ _ _ _ _ ?_) <;> intro <;> rfl

theorem expungeFrom_heap_of_not_mem (t : Nat) (l : List Nat) (w : World) (i : Nat)
    (hi : i ∉ l) : (expungeFrom cfg t w l).heap i = w.heap i := by
  induction l generalizing w with
  | nil => rfl
  | cons a as ih =>
    unfold expungeFrom
    split_ifs
    · rw [ih _ (fun h => hi (List.mem_cons_of_mem _ h)), reportPoint_heap]
      have : i ≠ a := fun e => hi (e ▸ List.mem_cons_self _ _)
      simp [this]
    · rfl

theorem expungeObsoleteLocations_heap_of_not_mem (t : Nat) (w : World) (i : Nat)
    (hi : i ∉ w.seqPoints) : (expungeObsoleteLocations cfg w t).heap i = w.heap i := by
  unfold expungeObsoleteLocations
  simp only []
  split_ifs
  · rfl
  · split
    · exact expungeFrom_heap_of_not_mem cfg t _ w i hi
    · exact expungeFrom_heap_of_not_mem cfg t _ w i hi

theorem expungeObsoleteLocations_subset (t : Nat) (w : World) :
    (expungeObsoleteLocations cfg w t).seqPoints <:+ w.seqPoints := by
  unfold expungeObsoleteLocations
  simp only []
  split_ifs
  · exact List.suffix_refl _
  · split
    · exact expungeFrom_suffix cfg t w.seqPoints w
    · exact expungeFrom_suffix cfg t w.seqPoints w

theorem inv_setDisplacement (h : Inv w) (oldLoc newLoc : Nat) :
    Inv (setDisplacement g w oldLoc newLoc) := by
  unfold setDisplacement
  refine inv_modify_kin h _ _ ?_
  intros; rfl

theorem inv_setVelocity (h : Inv w) (oldLoc newLoc : Nat) :
    Inv (setVelocity g w oldLoc newLoc) := by
  unfold setVelocity
  simp only []
  refine inv_modify_kin (inv_modify_kin h _ _ ?_) _ _ ?_ <;> intros <;> rfl

theorem inv_forwardGap (h : Inv w) (oldLoc newLoc : Nat)
    (ho : (w.heap oldLoc).bit NOISE = false) (hp : newLoc < w.allocated)
    (hs : newLoc ∉ w.seqPoints) (hne : newLoc ≠ oldLoc)
    (hb : ∀ b, (w.heap newLoc).bit b = false) :
    Inv (forwardGap g cfg w oldLoc newLoc) := by
  have h4 : Inv ((w.setAnno newLoc GAP_END).setAnno oldLoc GAP_START) :=
    inv_setAnno (inv_setAnno h _ _ (by decide) (hb _)) _ _ (by decide)
      (by rw [noise_setAnno _ _ _ _ (by decide)]; exact ho)
  have hn4 : ∀ i, (((w.setAnno newLoc GAP_END).setAnno oldLoc GAP_START).heap i).bit NOISE
      = (w.heap i).bit NOISE := fun i => by
    rw [noise_setAnno _ _ _ _ (by decide), noise_setAnno _ _ _ _ (by decide)]
  unfold forwardGap
  simp only []
  split_ifs
  · refine inv_forwardFilter g cfg (inv_setStatus h4 _) oldLoc newLoc ?_ hp hs ?_
    · exact (hn4 oldLoc).trans ho
    · intro b hbg
      simp [hne, hb, hbg]
  · refine inv_init (inv_purge h4) newLoc ?_ ?_
    · rw [(frame_purge (S := fun _ => False) _).allocated_eq]; exact hp
    · rw [noise_of_frame (frame_purge _), hn4]; exact hb _

theorem inv_forwardMobilityCheck (h : Inv w) (q p : Nat) (hq : q ∈ w.seqPoints)
    (hp : p < w.allocated) (hs : p ∉ w.seqPoints) (hb : ∀ b, (w.heap p).bit b = false) :
    Inv (forwardMobilityCheck g cfg w q p) := by
  have hqn : (w.heap q).bit NOISE = false := h.seq_clean q hq
  have hne : p ≠ q := fun e => hs (e ▸ hq)
  unfold forwardMobilityCheck
  simp only [oldLocOf_eq w q hqn]
  have h1 := inv_setDisplacement g h q p
  have hb1 : ∀ b, ((setDisplacement g w q p).heap p).bit b = false := fun b => by
    rw [setDisplacement_bit]; exact hb b
  split_ifs
  · refine inv_markNoise h1 p hp hs ?_ (hb1 _)
    exact isAnnotated_of_only_gapEnd _ (fun b _ => hb1 b) (hb1 _)
  · refine inv_forwardGap g cfg (inv_setVelocity g h1 q p) q p ?_ hp hs hne ?_
    · rw [setVelocity_bit, setDisplacement_bit]; exact hqn
    · intro b; rw [setVelocity_bit]; exact hb1 b
  · refine inv_forwardFilter g cfg (inv_setVelocity g h1 q p) q p ?_ hp hs ?_
    · rw [setVelocity_bit, setDisplacement_bit]; exact hqn
    · intro b _; rw [setVelocity_bit]; exact hb1 b

theorem inv_backwardMobilityCheck (h : Inv w) (oldLoc newLoc : Nat)
    (ho : (w.heap oldLoc).bit NOISE = false) :
    Inv (backwardMobilityCheck g cfg w oldLoc newLoc) := by
  unfold backwardMobilityCheck
  simp only []
  split_ifs
  · exact inv_modify_kin h _ _ (fun _ _ => rfl)
  · exact h
  · exact inv_cleanup (inv_setAnno h _ _ (by decide) ho)
  · exact inv_setAnno h _ _ (by decide) ho
  · exact h

theorem inv_updateFrom (h : Inv w) (q p : Nat) (hq : q ∈ w.seqPoints)
    (hp : p < w.allocated) (hs : p ∉ w.seqPoints) (hb : ∀ b, (w.heap p).bit b = false) :
    Inv (updateFrom g cfg w q p) := by
  have hne : q ≠ p := fun e => hs (e ▸ hq)
  have h1 := inv_forwardMobilityCheck g cfg h q p hq hp hs hb
  have hqn : ((forwardMobilityCheck g cfg w q p).heap q).bit NOISE = false := by
    rw [(frame_forwardMobilityCheck (S := fun i => i = p) g cfg w q p rfl).noise_eq q hne]
    exact h.seq_clean q hq
  have h2 := inv_backwardMobilityCheck g cfg h1 q p hqn
  unfold updateFrom
  simp only []
  split_ifs
  · exact inv_resetStatus h2 _
  · exact h2

theorem inv_markLastLocationAsGap (h : Inv w) : Inv (markLastLocationAsGap w) := by
  unfold markLastLocationAsGap
  simp only []
  have key : ∀ w1 : World, Inv w1 →
      Inv { w1.seqPoints.foldl reportPoint w1 with seqPoints := [] } := fun w1 h1 =>
    inv_setSeq (inv_foldl_reportPoint _ h1 h1.seq_lt) [] (fun i hi => absurd hi (List.not_mem_nil i))
  apply key
  split
  · exact h
  · rename_i q hq
    have hq1 : q ∈ w.seqPoints := List.mem_of_getLast?_eq_some hq
    have h0 := inv_setAnno h q GAP_START (by decide) (h.seq_clean q hq1)
    split_ifs
    · exact inv_revokeChangeInHeadingFrom _ h0
    · exact h0

theorem inv_expungeObsoleteLocations (h : Inv w) (t : Nat) :
    Inv (expungeObsoleteLocations cfg w t) := by
  unfold expungeObsoleteLocations
  simp only []
  have h1 := inv_expungeFrom cfg t w.seqPoints h (fun _ hi => hi)
  split_ifs
  · exact h
  · split
    · exact inv_of_eq h1 rfl rfl rfl rfl
    · exact inv_of_eq h1 rfl rfl rfl rfl

theorem inv_alloc (h : Inv w) (r : Raw) : Inv (alloc w r).1 := by
  have hheap : ∀ i, i < w.allocated → (alloc w r).1.heap i = w.heap i := fun i hi => by
    simp [alloc, Nat.ne_of_lt hi]
  have hnew : (alloc w r).1.heap w.allocated = Location.fresh r := by simp [alloc]
  have hcases : ∀ i, (alloc w r).1.heap i = w.heap i ∨ (alloc w r).1.heap i = Location.fresh r := by
    intro i
    by_cases hi : i = w.allocated
    · right; rw [hi]; exact hnew
    · left; simp [alloc, hi]
  refine ⟨?_, ?_, ?_, ?_, ?_, ?_, h.sink_nodup⟩
  · intro i hi; exact Nat.lt_succ_of_lt (h.seq_lt i hi)
  · intro i hi; exact Nat.lt_succ_of_lt (h.sink_lt i hi)
  · intro i hi
    rcases hcases i with e | e
    · rw [e] at hi ⊢; exact h.noise_plain i hi
    · rw [e] at hi; simp at hi
  · intro i hi
    have : (alloc w r).1.heap i = w.heap i := hheap i (h.seq_lt i hi)
    rw [this]; exact h.seq_clean i hi
  · intro i hi
    rcases hcases i with e | e
    · rw [e] at hi; exact h.noise_sink i hi
    · rw [e] at hi; simp at hi
  · intro i hi
    have hi1 : i ∈ sinkPtrs w := hi
    have : (alloc w r).1.heap i = w.heap i := hheap i (h.sink_lt i hi1)
    rw [this]; exact h.sink_rep i hi1

theorem inv_start : Inv World.start :=
  ⟨fun _ hi => absurd hi (List.not_mem_nil _), fun _ hi => absurd hi (List.not_mem_nil _),
   fun _ hi => by simp [World.start] at hi, fun _ hi => absurd hi (List.not_mem_nil _),
   fun _ hi => by simp [World.start] at hi, fun _ hi => absurd hi (List.not_mem_nil _),
   List.nodup_nil⟩

/-- One dispatched record keeps the heap consistent, and the dispatch is defined. -/
theorem inv_route (h : Inv w) (p : Nat) (hp : p < w.allocated) (hs : p ∉ w.seqPoints)
    (hb : ∀ b, (w.heap p).bit b = false) :
    ∃ w1, route g cfg w p = some w1 ∧ Inv w1 := by
  unfold route
  cases hk : w.known
  · simp only [Bool.false_eq_true, not_false_eq_true, if_true]
    refine ⟨_, rfl, ?_⟩
    have h0 : Inv { w with seqPoints := [] } :=
      inv_setSeq h [] (fun i hi => absurd hi (List.not_mem_nil i))
    have h1 : Inv { w with known := true, curTime := (w.heap p).t, status := fun _ => false,
                           seqPoints := [] } := inv_of_eq h0 rfl rfl rfl rfl
    exact inv_init h1 p hp (hb _)
  · simp only [not_true_eq_false, if_false]
    have he := inv_expungeObsoleteLocations cfg h (w.heap p).t
    have hf := frame_expungeObsoleteLocations (S := fun _ => False) cfg w (w.heap p).t
    have hsub := (expungeObsoleteLocations_subset cfg (w.heap p).t w).subset
    have hheap := expungeObsoleteLocations_heap_of_not_mem cfg (w.heap p).t w p hs
    split_ifs with he0
    · refine ⟨_, rfl, inv_init he p ?_ ?_⟩
      · rw [hf.allocated_eq]; exact hp
      · rw [hheap]; exact hb _
    · unfold update
      cases hl : (expungeObsoleteLocations cfg w (w.heap p).t).seqPoints.getLast? with
      | none => exact absurd (List.getLast?_eq_none_iff.1 hl) he0
      | some q =>
        refine ⟨_, rfl, inv_updateFrom g cfg he q p (List.mem_of_getLast?_eq_some hl) ?_ ?_ ?_⟩
        · rw [hf.allocated_eq]; exact hp
        · exact fun hmem => hs (hsub hmem)
        · intro b; rw [hheap]; exact hb b

/-- One input record keeps the heap consistent, and its processing is defined. -/
theorem inv_feed (h : Inv w) (r : Raw) : ∃ w1, feed g cfg w r = some w1 ∧ Inv w1 := by
  unfold feed
  refine inv_route g cfg (inv_alloc h r) _ ?_ ?_ ?_
  · simp [alloc]
  · intro hmem
    exact Nat.lt_irrefl _ (h.seq_lt _ hmem)
  · intro b
    simp [alloc]

/-- Processing any list of records from a consistent state is defined and ends in a
consistent state. -/
theorem inv_runFrom (rs : List Raw) {w : World} (h : Inv w) :
    ∃ w1, runFrom g cfg w rs = some w1 ∧ Inv w1 := by
  induction rs generalizing w with
  | nil => exact ⟨w, rfl, h⟩
  | cons r rs ih =>
    obtain ⟨w1, e1, h1⟩ := inv_feed g cfg h r
    obtain ⟨w2, e2, h2⟩ := ih h1
    exact ⟨w2, by simp [runFrom, e1, e2], h2⟩

theorem inv_drain (h : Inv w) : Inv (drain w) := by
  unfold drain
  split_ifs
  · exact inv_markLastLocationAsGap h
  · exact h

end InvUpdate

/-! ## Status flags -/

section Status

variable (g : Geo) (cfg : Config) {w : World}

theorem exclusive_of_status {w w1 : World} (h : Exclusive w) (hs : w1.status = w.status) :
    Exclusive w1 := by
  unfold Exclusive World.isStopped World.isSlowMotion at *
  rw [hs]; exact h

theorem exclusive_of_not_slow {w : World} (h : w.status SLOW_MOTION = false) : Exclusive w := by
  unfold Exclusive World.isStopped World.isSlowMotion
  simp [h]

theorem exclusive_of_not_stopped {w : World} (h : w.status STOPPED = false) : Exclusive w := by
  unfold Exclusive World.isStopped World.isSlowMotion
  simp [h]

theorem stopEntry_not_slow (w : World) (oldLoc newLoc : Nat) :
    (stopEntry w oldLoc newLoc).status SLOW_MOTION = false := by
  unfold stopEntry
  simp only [World.isSlowMotion, World.hasSpeedChanged]
  split_ifs with h1 h2 h3 h3 h2 h3 h3 <;> simp_all

theorem exclusive_forwardStop (h : Exclusive w) (oldLoc newLoc : Nat) :
    Exclusive (forwardStop g cfg w oldLoc newLoc) := by
  unfold forwardStop
  simp only []
  split_ifs
  · exact exclusive_of_not_slow (stopEntry_not_slow _ _ _)
  · unfold stopExit
    split_ifs
    · exact exclusive_of_not_stopped (by simp)
    · exact exclusive_of_not_stopped (by simp)
    · exact h
  · exact h

theorem forwardSpeed_stopped (w : World) (oldLoc newLoc : Nat) :
    (forwardSpeed cfg w oldLoc newLoc).status STOPPED = w.status STOPPED := by
  unfold forwardSpeed slowMotionEnd slowMotionStart speedChangeEnd speedChangeStart
  simp only []
  split_ifs <;> simp

theorem exclusive_forwardSpeed (h : Exclusive w) (oldLoc newLoc : Nat) :
    Exclusive (forwardSpeed cfg w oldLoc newLoc) := by
  by_cases hs : w.isStopped = true
  · have : forwardSpeed cfg w oldLoc newLoc = w := by
      unfold forwardSpeed; simp [hs]
    rw [this]; exact h
  · refine exclusive_of_not_stopped ?_
    rw [forwardSpeed_stopped]
    simpa [World.isStopped] using hs

theorem exclusive_forwardFilter (h : Exclusive w) (oldLoc newLoc : Nat) :
    Exclusive (forwardFilter g cfg w oldLoc newLoc) := by
  unfold forwardFilter
  simp only []
  split_ifs
  · exact exclusive_of_status h (by simp)
  · exact exclusive_of_status h rfl
  · have ha : Exclusive (append w newLoc) := exclusive_of_status h rfl
    exact exclusive_forwardSpeed cfg (exclusive_forwardStop g cfg ha _ _) _ _

theorem exclusive_init (w : World) (p : Nat) : Exclusive (init w p) :=
  exclusive_of_not_slow rfl

theorem exclusive_forwardMobilityCheck (h : Exclusive w) (q p : Nat) :
    Exclusive (forwardMobilityCheck g cfg w q p) := by
  unfold forwardMobilityCheck
  simp only []
  split_ifs
  · exact exclusive_of_status h (by simp [setDisplacement])
  · unfold forwardGap
    simp only []
    split_ifs with hst
    · refine exclusive_forwardFilter g cfg ?_ _ _
      have h1 : (setVelocity g (setDisplacement g w (oldLocOf w q) p) (oldLocOf w q) p).status
          = w.status := rfl
      have h2 : w.status STOPPED = true := by
        simpa [World.isStopped, h1] using hst.1
      refine exclusive_of_not_slow ?_
      have h3 : w.status SLOW_MOTION = false := by
        by_contra hc
        exact h ⟨h2, by simpa using hc⟩
      simpa [h1] using h3
    · exact exclusive_init _ _
  · have hv : Exclusive (setVelocity g (setDisplacement g w (oldLocOf w q) p) (oldLocOf w q) p) :=
      exclusive_of_status h rfl
    exact exclusive_forwardFilter g cfg hv _ _

theorem exclusive_updateFrom (h : Exclusive w) (q p : Nat) :
    Exclusive (updateFrom g cfg w q p) := by
  have h1 := exclusive_forwardMobilityCheck g cfg h q p
  have h2 : Exclusive (backwardMobilityCheck g cfg (forwardMobilityCheck g cfg w q p) q p) :=
    exclusive_of_status h1 (backwardMobilityCheck_status _ _ _ _ _)
  unfold updateFrom
  simp only []
  split_ifs
  · exact exclusive_of_not_stopped (by simp)
  · exact h2

theorem exclusive_expungeObsoleteLocations (h : Exclusive w) (t : Nat) :
    Exclusive (expungeObsoleteLocations cfg w t) := by
  unfold expungeObsoleteLocations
  simp only []
  split_ifs
  · exact h
  · split
    · exact exclusive_of_status h (expungeFrom_status cfg t _ _)
    · exact exclusive_of_not_slow rfl

theorem markLastLocationAsGap_status (w : World) :
    (markLastLocationAsGap w).status = w.status := by
  unfold markLastLocationAsGap
  simp only [foldl_reportPoint_status]
  split
  · rfl
  · split_ifs <;> simp

end Status

/-! ## Claims about the NOISE bit and the status flags -/

/-- C1: for every sequence of fresh records of one object dispatched by the router loop,
and also after the final `markLastLocationAsGap`, an object that carries the NOISE bit
carries none of the classification bits 0..8. -/
theorem noise_excludes_classification (g : Geo) (cfg : Config) (rs : List Raw) :
    ∃ w, run g cfg rs = some w
      ∧ (∀ i, (w.heap i).bit NOISE = true → (w.heap i).isAnnotated = false)
      ∧ (∀ i, ((drain w).heap i).bit NOISE = true → ((drain w).heap i).isAnnotated = false) := by
  obtain ⟨w, hw, hinv⟩ := inv_runFrom g cfg rs inv_start
  exact ⟨w, hw, hinv.noise_plain, (inv_drain hinv).noise_plain⟩

/-- C2: in every state reachable through `init`, `update`, `expungeObsoleteLocations` and
`markLastLocationAsGap`, STOPPED and SLOW_MOTION are not both set. -/
theorem stopped_excludes_slow_motion (g : Geo) (cfg : Config) (w : World)
    (h : Reachable g cfg w) : ¬ (w.isStopped = true ∧ w.isSlowMotion = true) := by
  have key : Exclusive w := by
    induction h with
    | new w hs _ => exact exclusive_of_not_slow (hs _)
    | alloc w r _ ih => exact exclusive_of_status ih rfl
    | init w p _ _ => exact exclusive_init _ _
    | update w w1 p _ hu ih =>
      unfold update at hu
      split at hu
      · cases hu
      · cases hu
        exact exclusive_updateFrom g cfg ih _ _
    | expunge w t _ ih => exact exclusive_expungeObsoleteLocations cfg ih t
    | markGap w _ ih => exact exclusive_of_status ih (markLastLocationAsGap_status w)
  exact key

/-- C6: for every sequence of fresh records dispatched by the router loop, no element of the
window carries NOISE, and every object that carries NOISE is in the `Sink` buffer and not in
the window. -/
theorem window_never_holds_noise (g : Geo) (cfg : Config) (rs : List Raw) :
    ∃ w, run g cfg rs = some w
      ∧ (∀ i ∈ w.seqPoints, (w.heap i).bit NOISE = false)
      ∧ (∀ i, (w.heap i).bit NOISE = true → i ∈ sinkPtrs w ∧ i ∉ w.seqPoints) := by
  obtain ⟨w, hw, hinv⟩ := inv_runFrom g cfg rs inv_start
  refine ⟨w, hw, hinv.seq_clean, fun i hi => ⟨hinv.noise_sink i hi, fun hmem => ?_⟩⟩
  have := hinv.seq_clean i hmem
  rw [hi] at this
  cases this

/-! ## Shape of the window after `update` -/

section Shape

variable (g : Geo) (cfg : Config)

theorem usub_self (a : Nat) : usub a a = 0 := by
  unfold usub UINT_RANGE
  have h := Nat.mod_lt a (show 0 < 2 ^ 32 by norm_num)
  have h2 := Nat.div_add_mod a (2 ^ 32)
  omega

theorem usub_of_le {a b : Nat} (hab : b ≤ a) (ha : a < UINT_RANGE) : usub a b = a - b := by
  unfold usub
  unfold UINT_RANGE at *
  have hb : b % 2 ^ 32 = b := Nat.mod_eq_of_lt (by omega)
  rw [hb]
  omega

theorem usub_of_lt {a b : Nat} (hab : a < b) (hb : b < UINT_RANGE) :
    usub a b = a + UINT_RANGE - b := by
  unfold usub
  unfold UINT_RANGE at *
  have hb' : b % 2 ^ 32 = b := Nat.mod_eq_of_lt hb
  rw [hb']
  omega

theorem setDisplacement_time_elapsed (w : World) (oldLoc newLoc : Nat) :
    ((setDisplacement g w oldLoc newLoc).heap newLoc).time_elapsed
      = usub (w.heap newLoc).t (w.heap oldLoc).t := by
  simp [setDisplacement]

theorem setVelocity_time_elapsed (w : World) (oldLoc newLoc : Nat) :
    ((setVelocity g w oldLoc newLoc).heap newLoc).time_elapsed
      = (w.heap newLoc).time_elapsed := by
  simp [setVelocity]

/-- The window after the forward check: unchanged (the new object was NOISE), restarted with
the new object alone (gap), or extended by the new object, which then has a positive elapsed
time that exceeds `gap_period` only if the object was STOPPED. -/
theorem forwardMobilityCheck_seqPoints (w : World) (q p : Nat) :
    (forwardMobilityCheck g cfg w q p).seqPoints = w.seqPoints
      ∨ (forwardMobilityCheck g cfg w q p).seqPoints = [p]
      ∨ ((forwardMobilityCheck g cfg w q p).seqPoints = w.seqPoints ++ [p]
          ∧ 0 < usub (w.heap p).t (w.heap (oldLocOf w q)).t
          ∧ (usub (w.heap p).t (w.heap (oldLocOf w q)).t ≤ cfg.gap_period
              ∨ w.isStopped = true)) := by
  unfold forwardMobilityCheck
  simp only [setVelocity_time_elapsed, setDisplacement_time_elapsed]
  split_ifs with h1 h2
  · left; simp [setDisplacement]
  · unfold forwardGap
    simp only []
    split_ifs with h3
    · rcases forwardFilter_seqPoints g cfg
        ((((setVelocity g (setDisplacement g w (oldLocOf w q) p) (oldLocOf w q) p).setAnno p
          GAP_END).setAnno (oldLocOf w q) GAP_START).setStatus STOPPED) (oldLocOf w q) p with e | e
      · left; rw [e]; rfl
      · right; right
        refine ⟨by rw [e]; rfl, by omega, Or.inr ?_⟩
        exact h3.1
    · right; left
      simp [init, purge]
  · rcases forwardFilter_seqPoints g cfg
      (setVelocity g (setDisplacement g w (oldLocOf w q) p) (oldLocOf w q) p) (oldLocOf w q) p
      with e | e
    · left; rw [e]; rfl
    · right; right
      exact ⟨by rw [e]; rfl, by omega, Or.inl (by omega)⟩

/-- The window after `update` is a suffix of the window after its forward check. -/
theorem updateFrom_suffix (w : World) (q p : Nat) :
    (updateFrom g cfg w q p).seqPoints <:+ (forwardMobilityCheck g cfg w q p).seqPoints := by
  unfold updateFrom
  simp only []
  split_ifs
  · exact backwardMobilityCheck_suffix _ _ _ _ _
  · exact backwardMobilityCheck_suffix _ _ _ _ _

end Shape

/-! ## The window after one dispatched record -/

section RouteShape

variable (g : Geo) (cfg : Config)

/-- Where the eviction loop stops: at most one element is left, or the front element is
neither too old nor beyond the size limit. -/
theorem expungeFrom_stop (t : Nat) (l : List Nat) (w : World) :
    (expungeFrom cfg t w l).seqPoints.length ≤ 1
      ∨ ∃ a rest, (expungeFrom cfg t w l).seqPoints = a :: rest
          ∧ ¬ ((w.heap a).t ≤ usub t cfg.state_timespan)
          ∧ ¬ ((a :: rest).length % UINT_RANGE > cfg.state_size) := by
  induction l generalizing w with
  | nil => left; simp [expungeFrom]
  | cons a as ih =>
    unfold expungeFrom
    split_ifs with hc
    · rcases ih (reportPoint w a) with h | ⟨b, rest, e, h1, h2⟩
      · exact Or.inl h
      · refine Or.inr ⟨b, rest, e, ?_, h2⟩
        rw [← (frame_reportPoint (S := fun _ => False) (w := w) a).t_eq b]
        exact h1
    · by_cases hlen : (a :: as).length ≤ 1
      · exact Or.inl hlen
      · refine Or.inr ⟨a, as, rfl, ?_, ?_⟩
        · intro h1; exact hc ⟨by omega, Or.inl h1⟩
        · intro h2; exact hc ⟨by omega, Or.inr h2⟩

theorem expungeObsoleteLocations_stop (t : Nat) (w : World) (hs : w.isStopped = false) :
    (expungeObsoleteLocations cfg w t).isStopped = false
      ∧ ((expungeObsoleteLocations cfg w t).seqPoints.length ≤ 1
          ∨ ∃ a rest, (expungeObsoleteLocations cfg w t).seqPoints = a :: rest
              ∧ ¬ ((w.heap a).t ≤ usub t cfg.state_timespan)
              ∧ ¬ ((a :: rest).length % UINT_RANGE > cfg.state_size)) := by
  unfold expungeObsoleteLocations
  simp only [hs, Bool.false_eq_true, if_false]
  split
  · refine ⟨?_, expungeFrom_stop cfg t _ w⟩
    simpa [World.isStopped, expungeFrom_status] using hs
  · exact ⟨rfl, expungeFrom_stop cfg t _ w⟩

/-- Everything the later arguments need to know about one dispatched record: timestamps of
existing objects are untouched, the new window is a suffix of `[p]`, of the window `se`
left by the eviction, or of `se ++ [p]`, and in the last case the elapsed time from the
newest retained element is positive and within `gap_period` unless the object is STOPPED. -/
theorem route_shape {w w1 : World} (p : Nat) (h : Inv w) (hr : route g cfg w p = some w1) :
    (∀ i, (w1.heap i).t = (w.heap i).t) ∧ w1.allocated = w.allocated
      ∧ ∃ se s0, se <:+ w.seqPoints ∧ w1.seqPoints <:+ s0
          ∧ (w.known = true → w.isStopped = false →
              se.length ≤ 1
                ∨ ∃ a rest, se = a :: rest
                    ∧ ¬ ((w.heap a).t ≤ usub (w.heap p).t cfg.state_timespan)
                    ∧ ¬ ((a :: rest).length % UINT_RANGE > cfg.state_size))
          ∧ (w.known = false → s0 = [p])
          ∧ (s0 = [p] ∨ s0 = se
              ∨ (s0 = se ++ [p] ∧ ∃ q, se.getLast? = some q
                  ∧ 0 < usub (w.heap p).t (w.heap q).t
                  ∧ (usub (w.heap p).t (w.heap q).t ≤ cfg.gap_period
                      ∨ w.isStopped = true))) := by
  unfold route at hr
  cases hk : w.known
  · simp only [hk, Bool.false_eq_true, not_false_eq_true, if_true, Option.some.injEq] at hr
    subst hr
    refine ⟨fun i => ?_, rfl, [], [p], List.nil_suffix, List.suffix_refl _, ?_, fun _ => rfl,
      Or.inl rfl⟩
    · exact (frame_init (S := fun _ => False) _ p).t_eq i
    · intro hc; cases hc
  · simp only [hk, not_true_eq_false, if_false] at hr
    have hf := frame_expungeObsoleteLocations (S := fun _ => False) cfg w (w.heap p).t
    have hsub := expungeObsoleteLocations_subset cfg (w.heap p).t w
    have he := inv_expungeObsoleteLocations cfg h (w.heap p).t
    have hstop : w.isStopped = false →
        (expungeObsoleteLocations cfg w (w.heap p).t).seqPoints.length ≤ 1
          ∨ ∃ a rest, (expungeObsoleteLocations cfg w (w.heap p).t).seqPoints = a :: rest
              ∧ ¬ ((w.heap a).t ≤ usub (w.heap p).t cfg.state_timespan)
              ∧ ¬ ((a :: rest).length % UINT_RANGE > cfg.state_size) := fun hs =>
      (expungeObsoleteLocations_stop cfg (w.heap p).t w hs).2
    split_ifs at hr with he0
    · simp only [Option.some.injEq] at hr
      subst hr
      refine ⟨fun i => ?_, ?_, _, [p], hsub, ?_, fun _ hs => hstop hs, fun _ => rfl, Or.inl rfl⟩
      · exact (frame_trans hf (frame_init _ p)).t_eq i
      · exact (frame_trans hf (frame_init _ p)).allocated_eq
      · simp [init, he0]
    · unfold update at hr
      cases hl : (expungeObsoleteLocations cfg w (w.heap p).t).seqPoints.getLast? with
      | none => exact absurd (List.getLast?_eq_none_iff.1 hl) he0
      | some q =>
        simp only [hl, Option.some.injEq] at hr
        subst hr
        have hfu := frame_updateFrom (S := fun i => i = p) g cfg
          (expungeObsoleteLocations cfg w (w.heap p).t) p q rfl
        have hqn : ((expungeObsoleteLocations cfg w (w.heap p).t).heap q).bit NOISE = false :=
          he.seq_clean q (List.mem_of_getLast?_eq_some hl)
        have hsuf := updateFrom_suffix g cfg (expungeObsoleteLocations cfg w (w.heap p).t) q p
        have hshape := forwardMobilityCheck_seqPoints g cfg
          (expungeObsoleteLocations cfg w (w.heap p).t) q p
        rw [oldLocOf_eq _ q hqn, hf.t_eq, hf.t_eq] at hshape
        refine ⟨fun i => ?_, ?_, _, _, hsub, hsuf, fun _ hs => hstop hs,
          (by intro hc; cases hc), ?_⟩
        · exact ((frame_trans (frame_mono hf (fun _ hx => absurd hx id)) hfu).t_eq i)
        · exact (frame_trans (frame_mono hf (fun _ hx => absurd hx id)) hfu).allocated_eq
        · rcases hshape with e | e | ⟨e, h1, h2⟩
          · exact Or.inr (Or.inl e)
          · exact Or.inl e
          · refine Or.inr (Or.inr ⟨e, q, hl, h1, ?_⟩)
            rcases h2 with h2 | h2
            · exact Or.inl h2
            · right
              by_contra hc
              simp only [Bool.not_eq_true] at hc
              rw [(expungeObsoleteLocations_stop cfg (w.heap p).t w hc).1] at h2
              cases h2

end RouteShape

/-! ## Timestamps of the window -/

section Times

variable (g : Geo) (cfg : Config)

theorem alloc_facts (w : World) (r : Raw) :
    (alloc w r).2 = w.allocated ∧ (alloc w r).1.allocated = w.allocated + 1
      ∧ (alloc w r).1.seqPoints = w.seqPoints ∧ (alloc w r).1.status = w.status
      ∧ (alloc w r).1.known = w.known
      ∧ (alloc w r).1.heap w.allocated = Location.fresh r
      ∧ ∀ i, i ≠ w.allocated → (alloc w r).1.heap i = w.heap i := by
  refine ⟨rfl, rfl, rfl, rfl, rfl, by simp [alloc], fun i hi => by simp [alloc, hi]⟩

/-- In a list whose keys are strictly increasing, no key exceeds the key of the last
element. -/
theorem le_last_of_pairwise (f : Nat → Nat) (l : List Nat) (q : Nat)
    (hp : (l.map f).Pairwise (· < ·)) (hq : l.getLast? = some q) :
    ∀ i ∈ l, f i ≤ f q := by
  induction l with
  | nil => intro i hi; cases hi
  | cons a as ih =>
    intro i hi
    rw [List.map_cons, List.pairwise_cons] at hp
    cases as with
    | nil =>
      simp only [List.getLast?_singleton, Option.some.injEq] at hq
      subst hq
      simp only [List.mem_singleton] at hi
      subst hi
      exact Nat.le_refl _
    | cons b bs =>
      have hq' : (b :: bs).getLast? = some q := by
        simpa [List.getLast?_cons_cons] using hq
      rcases List.mem_cons.1 hi with rfl | hi'
      · have hqmem : q ∈ b :: bs := List.mem_of_getLast?_eq_some hq'
        exact Nat.le_of_lt (hp.1 (f q) (List.mem_map.2 ⟨q, hqmem, rfl⟩))
      · exact ih hp.2 hq' i hi'

theorem timeOrdered_feed {w w1 : World} {m : Nat} (r : Raw) (h : Inv w)
    (ho : TimeOrdered m w) (hm : m ≤ r.t) (hf : feed g cfg w r = some w1) :
    TimeOrdered r.t w1 := by
  obtain ⟨hp2, hal, hseq, _, _, hnew, hold⟩ := alloc_facts w r
  unfold feed at hf
  rw [hp2] at hf
  have hia := inv_alloc h r
  obtain ⟨ht, _, se, s0, hse, hs0, _, _, hcases⟩ := route_shape g cfg w.allocated hia hf
  have hT : ∀ i ∈ w.seqPoints, ((alloc w r).1.heap i).t = (w.heap i).t := fun i hi => by
    rw [hold i (Nat.ne_of_lt (h.seq_lt i hi))]
  have hTp : ((alloc w r).1.heap w.allocated).t = r.t := by rw [hnew]; rfl
  have hsorted : (w.seqPoints.map (fun i => ((alloc w r).1.heap i).t)).Pairwise (· < ·) := by
    have : w.seqPoints.map (fun i => ((alloc w r).1.heap i).t) = seqTimes w :=
      List.map_congr_left hT
    rw [this]; exact ho.1
  have hse_sorted : (se.map (fun i => ((alloc w r).1.heap i).t)).Pairwise (· < ·) :=
    hsorted.sublist ((hseq ▸ hse).sublist.map _)
  have hse_le : ∀ i ∈ se, ((alloc w r).1.heap i).t ≤ m := fun i hi => by
    have hi' : i ∈ w.seqPoints := (hseq ▸ hse).subset hi
    rw [hT i hi']; exact ho.2 i hi'
  have hs0_ok : (s0.map (fun i => ((alloc w r).1.heap i).t)).Pairwise (· < ·)
      ∧ ∀ i ∈ s0, ((alloc w r).1.heap i).t ≤ r.t := by
    rcases hcases with e | e | ⟨e, q, hq, hpos, _⟩
    · subst e
      exact ⟨List.pairwise_singleton _ _, fun i hi => by
        rw [List.mem_singleton.1 hi, hTp]⟩
    · subst e
      exact ⟨hse_sorted, fun i hi => Nat.le_trans (hse_le i hi) hm⟩
    · subst e
      have hqmem : q ∈ se := List.mem_of_getLast?_eq_some hq
      have hqlt : ((alloc w r).1.heap q).t < r.t := by
        have h1 := hse_le q hqmem
        rcases Nat.lt_or_ge ((alloc w r).1.heap q).t r.t with h2 | h2
        · exact h2
        · have h3 : ((alloc w r).1.heap q).t = r.t := Nat.le_antisymm (Nat.le_trans h1 hm) h2
          rw [hTp, h3, usub_self] at hpos
          exact absurd hpos (Nat.lt_irrefl 0)
      refine ⟨?_, ?_⟩
      · rw [List.map_append, List.pairwise_append]
        refine ⟨hse_sorted, List.pairwise_singleton _ _, ?_⟩
        intro a ha b hb
        obtain ⟨i, hi, rfl⟩ := List.mem_map.1 ha
        simp only [List.map_cons, List.map_nil, List.mem_singleton] at hb
        subst hb
        rw [hTp]
        exact Nat.lt_of_le_of_lt (le_last_of_pairwise _ se q hse_sorted hq i hi) hqlt
      · intro i hi
        rcases List.mem_append.1 hi with hi | hi
        · exact Nat.le_trans (hse_le i hi) hm
        · rw [List.mem_singleton.1 hi, hTp]
  refine ⟨?_, ?_⟩
  · have : seqTimes w1 = w1.seqPoints.map (fun i => ((alloc w r).1.heap i).t) :=
      List.map_congr_left (fun i _ => ht i)
    rw [this]
    exact hs0_ok.1.sublist (hs0.sublist.map _)
  · intro i hi
    rw [ht i]
    exact hs0_ok.2 i (hs0.subset hi)

/-- One record adds one object to the heap and at most one element to the window. -/
theorem length_feed {w w1 : World} (r : Raw) (h : Inv w) (hf : feed g cfg w r = some w1) :
    w1.allocated = w.allocated + 1 ∧ w1.seqPoints.length ≤ w.seqPoints.length + 1 := by
  obtain ⟨hp2, hal, hseq, _, _, _, _⟩ := alloc_facts w r
  unfold feed at hf
  rw [hp2] at hf
  obtain ⟨_, hall, se, s0, hse, hs0, _, _, hcases⟩ :=
    route_shape g cfg w.allocated (inv_alloc h r) hf
  refine ⟨hall.trans hal, ?_⟩
  have h1 : se.length ≤ w.seqPoints.length := (hseq ▸ hse).sublist.length_le
  have h2 : w1.seqPoints.length ≤ s0.length := hs0.sublist.length_le
  rcases hcases with e | e | ⟨e, _⟩
  · subst e; simp at h2; omega
  · subst e; omega
  · subst e; simp only [List.length_append, List.length_singleton] at h2; omega

/-- Processing a list of records with non-decreasing timestamps, none below `m`: the run
returns, the heap stays consistent, the window stays strictly increasing and bounded by the
last timestamp seen, one object is created per record, and the window never holds more
elements than there are objects. -/
theorem timeOrdered_runFrom (rs : List Raw) {w : World} {m : Nat} (h : Inv w)
    (ho : TimeOrdered m w) (hm : ∀ r ∈ rs, m ≤ r.t)
    (hmono : (rs.map Raw.t).Pairwise (· ≤ ·)) :
    ∃ w1 m1, runFrom g cfg w rs = some w1 ∧ Inv w1 ∧ TimeOrdered m1 w1
      ∧ (m1 = m ∨ ∃ x ∈ rs, m1 = x.t)
      ∧ w1.allocated = w.allocated + rs.length
      ∧ (w.seqPoints.length ≤ w.allocated → w1.seqPoints.length ≤ w1.allocated) := by
  induction rs generalizing w m with
  | nil => exact ⟨w, m, rfl, h, ho, Or.inl rfl, rfl, fun hl => hl⟩
  | cons r rs ih =>
    obtain ⟨w1, e1, h1⟩ := inv_feed g cfg h r
    have ho1 := timeOrdered_feed g cfg r h ho (hm r (List.mem_cons_self _ _)) e1
    obtain ⟨ha1, hl1⟩ := length_feed g cfg r h e1
    rw [List.map_cons, List.pairwise_cons] at hmono
    obtain ⟨w2, m2, e2, h2, ho2, hm2, ha2, hl2⟩ := ih h1 ho1
      (fun x hx => hmono.1 x.t (List.mem_map.2 ⟨x, hx, rfl⟩)) hmono.2
    refine ⟨w2, m2, by simp [runFrom, e1, e2], h2, ho2, ?_, ?_, ?_⟩
    · rcases hm2 with e | ⟨x, hx, e⟩
      · exact Or.inr ⟨r, List.mem_cons_self _ _, e⟩
      · exact Or.inr ⟨x, List.mem_cons_of_mem _ hx, e⟩
    · rw [ha2, ha1, List.length_cons]; omega
    · intro hl
      exact hl2 (by omega)

theorem timeOrdered_start : TimeOrdered 0 World.start :=
  ⟨List.Pairwise.nil, fun _ hi => absurd hi (List.not_mem_nil _)⟩

end Times

/-- C7: for records of one object with non-decreasing timestamps dispatched by the router
loop, the window is strictly increasing in `t` after every step (after every prefix of the
input). -/
theorem window_strictly_increasing (g : Geo) (cfg : Config) (rs : List Raw)
    (hmono : (rs.map Raw.t).Pairwise (· ≤ ·)) (k : Nat) :
    ∃ w, run g cfg (rs.take k) = some w ∧ (seqTimes w).Pairwise (· < ·) := by
  have hk : ((rs.take k).map Raw.t).Pairwise (· ≤ ·) :=
    hmono.sublist ((List.take_sublist k rs).map _)
  obtain ⟨w, m, hw, _, ho, _⟩ := timeOrdered_runFrom g cfg (rs.take k) inv_start
    timeOrdered_start (fun _ _ => Nat.zero_le _) hk
  exact ⟨w, hw, ho.1⟩

/-! ## Size and time span of the window -/

section Bounds

variable (g : Geo) (cfg : Config)

theorem runFrom_append (w : World) (rs : List Raw) (r : Raw) :
    runFrom g cfg w (rs ++ [r]) = (runFrom g cfg w rs).bind (fun w1 => feed g cfg w1 r) := by
  induction rs generalizing w with
  | nil =>
    simp only [List.nil_append, runFrom, Option.some_bind]
    cases feed g cfg w r <;> rfl
  | cons a as ih =>
    show (feed g cfg w a).bind (fun w1 => runFrom g cfg w1 (as ++ [r]))
      = ((feed g cfg w a).bind (fun w1 => runFrom g cfg w1 as)).bind
          (fun w1 => feed g cfg w1 r)
    cases feed g cfg w a with
    | none => rfl
    | some w1 => exact ih w1

theorem spanOf_singleton (T : Nat → Nat) (a : Nat) : spanOf T [a] = 0 := by
  simp [spanOf]

theorem spanOf_cons_append (T : Nat → Nat) (a b : Nat) (l : List Nat) :
    spanOf T (a :: (l ++ [b])) = T b - T a := by
  simp [spanOf, List.getLast?_cons]

theorem spanOf_cons_le (T : Nat → Nat) (a : Nat) (l : List Nat) (m c : Nat)
    (hm : ∀ i ∈ a :: l, T i ≤ m) (h : m - T a ≤ c) : spanOf T (a :: l) ≤ c := by
  unfold spanOf
  cases hl : (a :: l).getLast? with
  | none => simp
  | some b =>
    simp only [List.head?_cons]
    have := hm b (List.mem_of_getLast?_eq_some hl)
    omega

/-- The span of a suffix of a strictly increasing window is not larger. -/
theorem spanOf_suffix (T : Nat → Nat) (s s0 : List Nat) (hs : s <:+ s0)
    (hp : (s0.map T).Pairwise (· < ·)) : spanOf T s ≤ spanOf T s0 := by
  obtain ⟨pre, rfl⟩ := hs
  cases s with
  | nil => simp [spanOf]
  | cons a l =>
    cases pre with
    | nil => simp
    | cons c cs =>
      cases hl : (a :: l).getLast? with
      | none => simp at hl
      | some b =>
        have hl2 : (c :: cs ++ a :: l).getLast? = some b := by
          rw [List.getLast?_append_of_ne_nil _ (List.cons_ne_nil a l)]
          exact hl
        have hca : T c < T a := by
          rw [List.map_append, List.pairwise_append] at hp
          exact hp.2.2 (T c) (List.mem_map.2 ⟨c, List.mem_cons_self _ _, rfl⟩) (T a)
            (List.mem_map.2 ⟨a, List.mem_cons_self _ _, rfl⟩)
        have e1 : spanOf T (a :: l) = T b - T a := by
          simp [spanOf, hl]
        have e2 : spanOf T (c :: cs ++ a :: l) = T b - T c := by
          unfold spanOf
          rw [hl2]
          simp
        rw [e1, e2]
        omega

/-- One record dispatched to an object that is not STOPPED: the new window has at most
`max state_size 1 + 1` elements, and spans at most `state_timespan` seconds when
`gap_period ≤ state_timespan`. -/
theorem bounded_feed {w w1 : World} {m : Nat} (r : Raw) (h : Inv w) (ho : TimeOrdered m w)
    (hm : m ≤ r.t) (hrep : r.t < UINT_RANGE) (hlen : w.seqPoints.length < UINT_RANGE)
    (hgap : cfg.gap_period ≤ cfg.state_timespan)
    (hstopped : w.isStopped = false) (hf : feed g cfg w r = some w1) :
    w1.seqPoints.length ≤ max cfg.state_size 1 + 1 ∧ windowSpan w1 ≤ cfg.state_timespan := by
  have ho1 := timeOrdered_feed g cfg r h ho hm hf
  obtain ⟨hp2, hal, hseq, hst, hkn, hnew, hold⟩ := alloc_facts w r
  unfold feed at hf
  rw [hp2] at hf
  have hia := inv_alloc h r
  obtain ⟨ht, _, se, s0, hse, hs0, hstop, hunknown, hcases⟩ :=
    route_shape g cfg w.allocated hia hf
  have hT : ∀ i ∈ w.seqPoints, ((alloc w r).1.heap i).t = (w.heap i).t := fun i hi => by
    rw [hold i (Nat.ne_of_lt (h.seq_lt i hi))]
  have hTp : ((alloc w r).1.heap w.allocated).t = r.t := by rw [hnew]; rfl
  have hse_le : ∀ i ∈ se, ((alloc w r).1.heap i).t ≤ m := fun i hi => by
    have hi' : i ∈ w.seqPoints := (hseq ▸ hse).subset hi
    rw [hT i hi']; exact ho.2 i hi'
  have hselen : se.length ≤ w.seqPoints.length := (hseq ▸ hse).sublist.length_le
  have hsa : (alloc w r).1.isStopped = false := by
    simpa [World.isStopped, hst] using hstopped
  -- the span is measured with the timestamps of the heap before the dispatch
  have hspan : windowSpan w1 = spanOf (fun i => ((alloc w r).1.heap i).t) w1.seqPoints := by
    unfold windowSpan
    congr 1
    funext i
    exact ht i
  have hsorted1 : (w1.seqPoints.map (fun i => ((alloc w r).1.heap i).t)).Pairwise (· < ·) := by
    have : seqTimes w1 = w1.seqPoints.map (fun i => ((alloc w r).1.heap i).t) :=
      List.map_congr_left (fun i _ => ht i)
    rw [← this]; exact ho1.1
  have hbound1 : ∀ i ∈ w1.seqPoints, ((alloc w r).1.heap i).t ≤ r.t := fun i hi => by
    rw [← ht i]; exact ho1.2 i hi
  cases hk : (alloc w r).1.known with
  | false =>
    have e := hunknown hk
    subst e
    have hl : w1.seqPoints.length ≤ 1 := hs0.sublist.length_le
    refine ⟨by omega, ?_⟩
    rw [hspan]
    match hw : w1.seqPoints, hl with
    | [], _ => simp [spanOf]
    | [a], _ => simp [spanOf]
  | true =>
    have hst2 := hstop hk hsa
    rw [hTp] at hst2
    have hsize : se.length ≤ max cfg.state_size 1 := by
      rcases hst2 with h1 | ⟨a, rest, e, _, h2⟩
      · exact Nat.le_trans h1 (Nat.le_max_right _ _)
      · have h3 : se.length % UINT_RANGE = se.length := Nat.mod_eq_of_lt (by omega)
        rw [← e, h3] at h2
        exact Nat.le_trans (Nat.le_of_not_lt h2) (Nat.le_max_left _ _)
    have hs0len : s0.length ≤ max cfg.state_size 1 + 1 := by
      rcases hcases with e | e | ⟨e, _⟩
      · subst e; simp
      · subst e; omega
      · subst e; simp only [List.length_append, List.length_singleton]; omega
    refine ⟨Nat.le_trans hs0.sublist.length_le hs0len, ?_⟩
    rw [hspan]
    -- a front element that survived the age test is younger than `state_timespan`
    have hfront : ∀ a rest, se = a :: rest →
        ¬ (((alloc w r).1.heap a).t ≤ usub r.t cfg.state_timespan) →
        r.t - ((alloc w r).1.heap a).t ≤ cfg.state_timespan := by
      intro a rest e hnot
      have ha := hse_le a (e ▸ List.mem_cons_self _ _)
      rcases Nat.lt_or_ge r.t cfg.state_timespan with hlt | hge
      · omega
      · rw [usub_of_le hge hrep] at hnot
        omega
    have hse_sorted : (se.map (fun i => ((alloc w r).1.heap i).t)).Pairwise (· < ·) := by
      have e : w.seqPoints.map (fun i => ((alloc w r).1.heap i).t) = seqTimes w :=
        List.map_congr_left hT
      have hsorted : (w.seqPoints.map (fun i => ((alloc w r).1.heap i).t)).Pairwise (· < ·) := by
        rw [e]; exact ho.1
      exact hsorted.sublist ((hseq ▸ hse).sublist.map _)
    have hhead : ∀ a rest, se = a :: rest → ∀ b ∈ se,
        ((alloc w r).1.heap a).t ≤ ((alloc w r).1.heap b).t := by
      intro a rest e b hb
      rw [e, List.map_cons, List.pairwise_cons] at hse_sorted
      rw [e] at hb
      rcases List.mem_cons.1 hb with rfl | hb
      · exact Nat.le_refl _
      · exact Nat.le_of_lt (hse_sorted.1 _ (List.mem_map.2 ⟨b, hb, rfl⟩))
    match hw : w1.seqPoints with
    | [] => simp [spanOf]
    | [b] => simp [spanOf]
    | b :: c :: l =>
      refine spanOf_cons_le _ b (c :: l) r.t cfg.state_timespan
        (fun i hi => hbound1 i (hw ▸ hi)) ?_
      have hsub0 : b :: c :: l <:+ s0 := hw ▸ hs0
      have hb0 : b ∈ s0 := hsub0.subset (List.mem_cons_self _ _)
      have hlen0 : 2 ≤ s0.length := by
        have := hsub0.sublist.length_le
        simp only [List.length_cons] at this
        omega
      rcases hcases with e | e | ⟨e, q, hq, hpos, hte⟩
      · subst e; simp at hlen0
      · subst e
        rcases hst2 with h1 | ⟨a, rest, e2, h2, _⟩
        · omega
        · have := hhead a rest e2 b hb0
          have := hfront a rest e2 h2
          omega
      · subst e
        rcases List.mem_append.1 hb0 with hb1 | hb1
        · rcases hst2 with h1 | ⟨a, rest, e2, h2, _⟩
          · -- a single retained element: it is `q`, and the elapsed time is within the gap
            have hqmem : q ∈ se := List.mem_of_getLast?_eq_some hq
            have hbq : b = q := by
              match hse' : se, h1, hb1, hqmem with
              | [x], _, hb1, hqmem =>
                rw [List.mem_singleton.1 hb1, List.mem_singleton.1 hqmem]
            subst hbq
            have hble := hse_le b hb1
            rw [hTp, usub_of_le (Nat.le_trans hble hm) hrep] at hte
            rcases hte with hte | hte
            · omega
            · rw [hsa] at hte; cases hte
          · have := hhead a rest e2 b hb1
            have := hfront a rest e2 h2
            omega
        · rw [List.mem_singleton.1 hb1, hTp]
          omega

end Bounds

/-- C10 (amended): for every Config with `gap_period ≤ state_timespan` and every sequence of
records with non-decreasing `unsigned` timestamps dispatched by the router loop, after each
step that the object entered not STOPPED the window has at most `max state_size 1 + 1`
elements and spans at most `state_timespan` seconds. -/
theorem window_bounded_after_unstopped_step (g : Geo) (cfg : Config) (rs : List Raw) (r : Raw)
    (hgap : cfg.gap_period ≤ cfg.state_timespan)
    (hmono : ((rs ++ [r]).map Raw.t).Pairwise (· ≤ ·))
    (hrep : r.t < UINT_RANGE) (hlen : rs.length < UINT_RANGE) :
    ∃ w w1, run g cfg rs = some w ∧ run g cfg (rs ++ [r]) = some w1
      ∧ (w.isStopped = false →
          w1.seqPoints.length ≤ max cfg.state_size 1 + 1
            ∧ windowSpan w1 ≤ cfg.state_timespan) := by
  rw [List.map_append, List.pairwise_append] at hmono
  obtain ⟨hmono1, _, hlast⟩ := hmono
  obtain ⟨w, m, hw, hinv, ho, hm, hal, hl⟩ := timeOrdered_runFrom g cfg rs inv_start
    timeOrdered_start (fun _ _ => Nat.zero_le _) hmono1
  obtain ⟨w1, hw1, _⟩ := inv_feed g cfg hinv r
  have hrun : run g cfg (rs ++ [r]) = some w1 := by
    unfold run
    rw [runFrom_append, hw]
    exact hw1
  refine ⟨w, w1, hw, hrun, fun hs => ?_⟩
  have hmr : m ≤ r.t := by
    rcases hm with e | ⟨x, hx, e⟩
    · rw [e]; exact Nat.zero_le _
    · rw [e]
      exact hlast x.t (List.mem_map.2 ⟨x, hx, rfl⟩) r.t (by simp)
  have hlen1 : w.seqPoints.length < UINT_RANGE := by
    have h1 := hl (Nat.zero_le _)
    have h2 : w.allocated = rs.length := by simpa [World.start] using hal
    omega
  exact bounded_feed g cfg r hinv ho hmr hrep hlen1 hgap hs hw1

/-! ## Timestamps that do not advance -/

section EqualTime

variable (g : Geo) (cfg : Config)

theorem getLastD_of_getLast? (l : List Nat) (q d : Nat) (h : l.getLast? = some q) :
    l.getLastD d = q := by
  rw [List.getLastD_eq_getLast?, h]
  rfl

theorem reportPoint_of_reported (w : World) (p : Nat) (h : (w.heap p).bit REPORTED = true) :
    reportPoint w p = w := by
  unfold reportPoint
  rw [if_pos h]

theorem oldLocOf_last (w : World) (q : Nat) (h : w.seqPoints.getLast? = some q) :
    oldLocOf w q = q := by
  unfold oldLocOf
  split_ifs
  · exact getLastD_of_getLast? _ q q h
  · rfl

/-- With an elapsed time of zero the forward check marks the new object as NOISE, reports
it and stops. -/
theorem forwardMobilityCheck_equal_t (w : World) (q p : Nat)
    (hq : w.seqPoints.getLast? = some q) (ht : (w.heap p).t = (w.heap q).t) :
    forwardMobilityCheck g cfg w q p
      = reportPoint ((setDisplacement g w q p).setAnno p NOISE) p := by
  unfold forwardMobilityCheck
  simp only [oldLocOf_last w q hq, setDisplacement_time_elapsed, ht, usub_self, Nat.le_refl,
    if_true]

end EqualTime

/-- C4: for every non-empty window with last element `q` and every incoming object `p` (not
in the window, not yet reported) with `p.t = q.t`, `update(p)` returns, `p` carries NOISE,
`p` is in the `Sink` buffer and `p` is not in the window. -/
theorem equal_timestamp_is_noise (g : Geo) (cfg : Config) (w : World) (q p : Nat)
    (hq : w.seqPoints.getLast? = some q) (hp : p ∉ w.seqPoints)
    (hr : (w.heap p).bit REPORTED = false) (ht : (w.heap p).t = (w.heap q).t) :
    ∃ w1, update g cfg w p = some w1 ∧ (w1.heap p).bit NOISE = true
      ∧ p ∈ sinkPtrs w1 ∧ p ∉ w1.seqPoints := by
  refine ⟨updateFrom g cfg w q p, by simp [update, hq], ?_⟩
  have hfw := forwardMobilityCheck_equal_t g cfg w q p hq ht
  have hnoise : ((forwardMobilityCheck g cfg w q p).heap p).bit NOISE = true := by
    rw [hfw, reportPoint_heap]; simp
  have hsink : p ∈ sinkPtrs (forwardMobilityCheck g cfg w q p) := by
    rw [hfw, sinkPtrs_reportPoint]
    left
    refine ⟨rfl, ?_⟩
    simp only [World.setAnno_heap, if_true, Location.bit_set]
    rw [setDisplacement_bit]
    simpa using hr
  have hseq : (forwardMobilityCheck g cfg w q p).seqPoints = w.seqPoints := by
    rw [hfw]; simp [setDisplacement]
  have hb := frame_backwardMobilityCheck (S := fun _ => False) g cfg
    (forwardMobilityCheck g cfg w q p) q p
  have hsuf := backwardMobilityCheck_suffix g cfg (forwardMobilityCheck g cfg w q p) q p
  have h1 : ((backwardMobilityCheck g cfg (forwardMobilityCheck g cfg w q p) q p).heap p).bit
      NOISE = true := by
    rw [noise_of_frame hb]; exact hnoise
  have h2 := hb.sink_mono p hsink
  have h3 : p ∉ (backwardMobilityCheck g cfg (forwardMobilityCheck g cfg w q p) q p).seqPoints :=
    fun hmem => hp (hseq ▸ hsuf.subset hmem)
  unfold updateFrom
  simp only []
  split_ifs
  · exact ⟨h1, h2, h3⟩
  · exact ⟨h1, h2, h3⟩

/-- C9: a second `reportPoint(p)` changes nothing; after the first call `p` has the
reported bit; no operation of `Sink` or `State` clears a reported bit; and in every run of
the router loop, drained or not, no address is buffered twice. -/
theorem reportPoint_idempotent (g : Geo) (cfg : Config) (w : World) (p : Nat) :
    reportPoint (reportPoint w p) p = reportPoint w p
      ∧ ((reportPoint w p).heap p).bit REPORTED = true
      ∧ (∀ i q q1 t, (w.heap i).bit REPORTED = true →
          ((reportPoint w q).heap i).bit REPORTED = true
            ∧ ((init w q).heap i).bit REPORTED = true
            ∧ ((updateFrom g cfg w q1 q).heap i).bit REPORTED = true
            ∧ ((expungeObsoleteLocations cfg w t).heap i).bit REPORTED = true
            ∧ ((markLastLocationAsGap w).heap i).bit REPORTED = true)
      ∧ (∀ rs, ∃ w1, run g cfg rs = some w1 ∧ (sinkPtrs w1).Nodup
          ∧ (sinkPtrs (drain w1)).Nodup) := by
  have hbit : ((reportPoint w p).heap p).bit REPORTED = true := by
    rw [reportPoint_heap]; simp
  refine ⟨?_, hbit, ?_, ?_⟩
  · exact reportPoint_of_reported _ p hbit
  · intro i q q1 t hi
    exact ⟨(frame_reportPoint (S := fun _ => True) q).rep_mono i hi,
      (frame_init (S := fun _ => True) w q).rep_mono i hi,
      (frame_updateFrom (S := fun _ => True) g cfg w q q1 trivial).rep_mono i hi,
      (frame_expungeObsoleteLocations (S := fun _ => True) cfg w t).rep_mono i hi,
      (frame_markLastLocationAsGap (S := fun _ => True) w).rep_mono i hi⟩
  · intro rs
    obtain ⟨w1, hw1, hinv⟩ := inv_runFrom g cfg rs inv_start
    exact ⟨w1, hw1, hinv.sink_nodup, (inv_drain hinv).sink_nodup⟩

/-! ## Evaluated scenarios -/

/-- Witness for C2: a reachable state that is STOPPED. -/
theorem stopped_excludes_slow_motion_witness :
    Reachable gridGeo Config.Default stoppedWorld ∧ stoppedWorld.isStopped = true
      ∧ ¬ (stoppedWorld.isStopped = true ∧ stoppedWorld.isSlowMotion = true) := by
  have hreach : Reachable gridGeo Config.Default stoppedWorld :=
    Reachable.update _ stoppedWorld 1
      (Reachable.alloc _ _ (Reachable.init _ 0 (Reachable.alloc _ _
        (Reachable.new World.start (fun _ => rfl) rfl))))
      rfl
  exact ⟨hreach, by decide!, stopped_excludes_slow_motion _ _ _ hreach⟩

/-- C3 (code evaluated at the failing input): a second object whose timestamp is 100 s
earlier than that of the only window element is not marked NOISE by `update`; its elapsed
time wraps to `2 ^ 32 - 100`, it gets GAP_END, the old element is purged to the `Sink` and
the new object becomes the window. -/
theorem earlier_timestamp_is_not_noise :
    (beforeUpdate gridGeo Config.Default [firstRecord] ⟨1, 0, 0, 900⟩).map
        (fun w => (w.seqPoints, sinkPtrs w)) = some ([0], [])
      ∧ ((beforeUpdate gridGeo Config.Default [firstRecord] ⟨1, 0, 0, 900⟩).bind
          (fun w => update gridGeo Config.Default w 1)).map
        (fun w => ((w.heap 1).bit NOISE, (w.heap 1).bit GAP_END, (w.heap 1).time_elapsed,
                   w.seqPoints, sinkPtrs w))
        = some (false, true, 4294967196, [1], [0])
      ∧ (run gridGeo Config.Default earlierRecords).map
        (fun w => ((w.heap 1).bit NOISE, w.seqPoints)) = some (false, [1]) := by
  decide!

/-- Witness for C4: two records with equal timestamps. -/
theorem equal_timestamp_is_noise_witness :
    equalTimeWorld.seqPoints.getLast? = some 0 ∧ 1 ∉ equalTimeWorld.seqPoints
      ∧ (equalTimeWorld.heap 1).bit REPORTED = false
      ∧ (equalTimeWorld.heap 1).t = (equalTimeWorld.heap 0).t
      ∧ ∃ w1, update gridGeo Config.Default equalTimeWorld 1 = some w1
          ∧ (w1.heap 1).bit NOISE = true ∧ 1 ∈ sinkPtrs w1 ∧ 1 ∉ w1.seqPoints :=
  ⟨by decide!, by decide!, by decide!, by decide!,
   equal_timestamp_is_noise gridGeo Config.Default equalTimeWorld 0 1
     (by decide!) (by decide!) (by decide!) (by decide!)⟩

/-- C5 (code evaluated at the failing input): after three eastbound records the window is
`[0, 1, 2]`, nothing is buffered and object 2 has no CHANGE_IN_HEADING; `update` with a
fourth record that is NOISE by speed leaves the window `[1, 2]`, has put object 0 in the
`Sink` beside the NOISE object 3, and has set CHANGE_IN_HEADING on object 2.  Likewise a
repeated timestamp (NOISE) after a gap inside a stop overwrites the heading `-1` of the last
window element with `0`. -/
theorem noise_point_changes_window :
    (beforeUpdate gridGeo Config.Default eastboundRecords fastRecord).map
        (fun w => (w.seqPoints, (w.heap 2).bit CHANGE_IN_HEADING, sinkPtrs w))
        = some ([0, 1, 2], false, [])
      ∧ ((beforeUpdate gridGeo Config.Default eastboundRecords fastRecord).bind
          (fun w => update gridGeo Config.Default w 3)).map
        (fun w => ((w.heap 3).bit NOISE, w.seqPoints, (w.heap 2).bit CHANGE_IN_HEADING,
                   sinkPtrs w))
        = some (true, [1, 2], true, [0, 3])
      ∧ (beforeUpdate gridGeo Config.Default stoppedGapRecords repeatedRecord).map
        (fun w => (w.seqPoints, (w.heap 2).heading)) = some ([0, 1, 2], -1)
      ∧ ((beforeUpdate gridGeo Config.Default stoppedGapRecords repeatedRecord).bind
          (fun w => update gridGeo Config.Default w 3)).map
        (fun w => ((w.heap 3).bit NOISE, w.seqPoints, (w.heap 2).heading))
        = some (true, [0, 1, 2], 0) := by
  decide!

/-- Witness for C7: three eastbound records. -/
theorem window_strictly_increasing_witness :
    (eastboundRecords.map Raw.t).Pairwise (· ≤ ·)
      ∧ ∃ w, run gridGeo Config.Default (eastboundRecords.take 3) = some w
          ∧ (seqTimes w).Pairwise (· < ·) :=
  ⟨by decide!, window_strictly_increasing gridGeo Config.Default eastboundRecords (by decide!) 3⟩

/-- C8 (code evaluated at the failing input): in `update` with a record that follows a gap,
the forward check purges the window, so the old last element is in the `Sink` with its
reported bit set; the backward check then overwrites its heading (`0` becomes `-1`), and in
the second scenario sets its CHANGE_IN_HEADING bit. -/
theorem reported_point_is_mutated :
    ((beforeUpdate gridGeo Config.Default [firstRecord] afterGapRecord).bind
        (fun w => updatePhases gridGeo Config.Default w 1)).map
      (fun ph => ((ph.1.heap 0).bit REPORTED, sinkPtrs ph.1, (ph.1.heap 0).heading,
                  (ph.2.heap 0).heading))
      = some (true, [0], 0, -1)
    ∧ ((beforeUpdate gridGeo Config.Default twoEastbound northAfterGapRecord).bind
        (fun w => updatePhases gridGeo Config.Default w 2)).map
      (fun ph => ((ph.1.heap 1).bit REPORTED, sinkPtrs ph.1,
                  (ph.1.heap 1).bit CHANGE_IN_HEADING, (ph.2.heap 1).bit CHANGE_IN_HEADING))
      = some (true, [0, 1], false, true) := by
  decide!

/-- C10 (counterexample): under the Default Config, seven records at one position followed
500 s later by a record 111 m away leave the object not STOPPED with a window of eight
elements, more than `state_size + 1 = 6`.  Two further inputs show the role of the Config:
with `state_size = 0` two moving records give a window of two elements, and with
`gap_period = 2000 > state_timespan = 1000` two records 1500 s apart give a span of 1500. -/
theorem window_unbounded_after_stop_exit :
    (∃ w, run gridGeo Config.Default (longStopRecords ++ [slowExitRecord]) = some w
      ∧ w.isStopped = false
      ∧ ¬ (w.seqPoints.length ≤ Config.Default.state_size + 1
            ∧ windowSpan w ≤ Config.Default.state_timespan))
    ∧ (run gridGeo zeroSizeConfig twoEastbound).map
        (fun w => (w.isStopped, w.seqPoints.length)) = some (false, 2)
    ∧ (run gridGeo longGapConfig slowPairRecords).map
        (fun w => (w.isStopped, windowSpan w)) = some (false, 1500) := by
  refine ⟨?_, by decide!, by decide!⟩
  have h : (run gridGeo Config.Default (longStopRecords ++ [slowExitRecord])).map
      (fun w => (w.isStopped, w.seqPoints.length)) = some (false, 8) := by decide!
  cases hr : run gridGeo Config.Default (longStopRecords ++ [slowExitRecord]) with
  | none => rw [hr] at h; cases h
  | some w =>
    rw [hr] at h
    simp only [Option.map_some', Option.some.injEq, Prod.mk.injEq] at h
    refine ⟨w, rfl, h.1, fun hc => ?_⟩
    have h1 := hc.1
    rw [h.2] at h1
    exact absurd h1 (by decide)

/-- Witness for C10 (amended): two eastbound records followed by a third; the object is
not STOPPED before the third. -/
theorem window_bounded_after_unstopped_step_witness :
    Config.Default.gap_period ≤ Config.Default.state_timespan
      ∧ ((twoEastbound ++ [thirdEastbound]).map Raw.t).Pairwise (· ≤ ·)
      ∧ thirdEastbound.t < UINT_RANGE ∧ twoEastbound.length < UINT_RANGE
      ∧ (run gridGeo Config.Default twoEastbound).map World.isStopped = some false
      ∧ ∃ w w1, run gridGeo Config.Default twoEastbound = some w
          ∧ run gridGeo Config.Default (twoEastbound ++ [thirdEastbound]) = some w1
          ∧ (w.isStopped = false →
              w1.seqPoints.length ≤ max Config.Default.state_size 1 + 1
                ∧ windowSpan w1 ≤ Config.Default.state_timespan) :=
  ⟨by decide!, by decide!, by decide!, by decide!, by decide!,
   window_bounded_after_unstopped_step gridGeo Config.Default twoEastbound thirdEastbound
     (by decide!) (by decide!) (by decide!) (by decide!)⟩

/-! ## Footprints of the operations -/

section FootprintPrimitives

variable {M : Nat → Fin 11 → Prop} {K : Nat → Prop} {w w1 w2 : World}

theorem Location.sameKin_refl (l : Location) : l.SameKin l := ⟨rfl, rfl, rfl, rfl⟩

theorem footprint_refl (w : World) : Footprint M K w w :=
  ⟨fun _ _ _ => rfl, fun _ _ => Location.sameKin_refl _, fun _ => ⟨rfl, rfl, rfl, rfl⟩⟩

theorem footprint_trans (h1 : Footprint M K w w1) (h2 : Footprint M K w1 w2) :
    Footprint M K w w2 := by
  refine ⟨fun i b hm => (h2.bit_eq i b hm).trans (h1.bit_eq i b hm), fun i hk => ?_, fun i => ?_⟩
  · obtain ⟨a1, a2, a3, a4⟩ := h1.kin_eq i hk
    obtain ⟨b1, b2, b3, b4⟩ := h2.kin_eq i hk
    exact ⟨b1.trans a1, b2.trans a2, b3.trans a3, b4.trans a4⟩
  · obtain ⟨a1, a2, a3, a4⟩ := h1.pos_eq i
    obtain ⟨b1, b2, b3, b4⟩ := h2.pos_eq i
    exact ⟨b1.trans a1, b2.trans a2, b3.trans a3, b4.trans a4⟩

theorem footprint_mono {M1 : Nat → Fin 11 → Prop} {K1 : Nat → Prop} (h : Footprint M K w w1)
    (hM : ∀ i b, M i b → M1 i b) (hK : ∀ i, K i → K1 i) : Footprint M1 K1 w w1 :=
  ⟨fun i b hm => h.bit_eq i b (fun hx => hm (hM i b hx)),
   fun i hk => h.kin_eq i (fun hx => hk (hK i hx)), h.pos_eq⟩

/-- A step that leaves the heap alone. -/
theorem footprint_of_eq (hh : w1.heap = w.heap) : Footprint M K w w1 := by
  refine ⟨fun i b _ => by rw [hh], fun i _ => ?_, fun i => ?_⟩
  · rw [hh]; exact Location.sameKin_refl _
  · rw [hh]; exact ⟨rfl, rfl, rfl, rfl⟩

theorem footprint_setAnno (p : Nat) (b : Fin 11) (hm : M p b) :
    Footprint M K w (w.setAnno p b) := by
  refine ⟨fun i c hc => ?_, fun i _ => ?_, fun i => ?_⟩
  · simp only [World.setAnno_heap]
    split_ifs with h
    · subst h
      have : c ≠ b := fun e => hc (e ▸ hm)
      simp [this]
    · rfl
  · simp only [World.setAnno_heap]
    split_ifs with h
    · subst h; exact ⟨rfl, rfl, rfl, rfl⟩
    · exact Location.sameKin_refl _
  · simp only [World.setAnno_heap]
    split_ifs with h
    · subst h; exact ⟨rfl, rfl, rfl, rfl⟩
    · exact ⟨rfl, rfl, rfl, rfl⟩

theorem footprint_resetAnno (p : Nat) (b : Fin 11) (hm : M p b) :
    Footprint M K w (w.resetAnno p b) := by
  refine ⟨fun i c hc => ?_, fun i _ => ?_, fun i => ?_⟩
  · simp only [World.resetAnno_heap]
    split_ifs with h
    · subst h
      have : c ≠ b := fun e => hc (e ▸ hm)
      simp [this]
    · rfl
  · simp only [World.resetAnno_heap]
    split_ifs with h
    · subst h; exact ⟨rfl, rfl, rfl, rfl⟩
    · exact Location.sameKin_refl _
  · simp only [World.resetAnno_heap]
    split_ifs with h
    · subst h; exact ⟨rfl, rfl, rfl, rfl⟩
    · exact ⟨rfl, rfl, rfl, rfl⟩

/-- Rewriting the kinematic fields of one object. -/
theorem footprint_modify (p : Nat) (f : Location → Location) (hk : K p)
    (hf : ∀ l, Location.annotation (f l) = Location.annotation l ∧ (f l).oid = l.oid
      ∧ (f l).x = l.x ∧ (f l).y = l.y ∧ (f l).t = l.t) :
    Footprint M K w (w.modify p f) := by
  refine ⟨fun i c _ => ?_, fun i hi => ?_, fun i => ?_⟩
  · simp only [World.modify_heap]
    split_ifs with h
    · subst h; simp only [Location.bit, (hf _).1]
    · rfl
  · simp only [World.modify_heap]
    split_ifs with h
    · subst h; exact absurd hk hi
    · exact Location.sameKin_refl _
  · simp only [World.modify_heap]
    split_ifs with h
    · subst h; exact (hf _).2
    · exact ⟨rfl, rfl, rfl, rfl⟩

theorem footprint_reportPoint (p : Nat) (hm : ∀ i, M i REPORTED) :
    Footprint M K w (reportPoint w p) := by
  refine ⟨fun i c hc => ?_, fun i _ => ?_, fun i => ?_⟩
  · rw [reportPoint_heap]
    split_ifs with h
    · subst h
      have : c ≠ REPORTED := fun e => hc (e ▸ hm i)
      simp [Location.bit_set, this]
    · rfl
  · rw [reportPoint_heap]
    split_ifs with h
    · subst h; exact ⟨rfl, rfl, rfl, rfl⟩
    · exact Location.sameKin_refl _
  · rw [reportPoint_heap]
    split_ifs with h
    · subst h; exact ⟨rfl, rfl, rfl, rfl⟩
    · exact ⟨rfl, rfl, rfl, rfl⟩

theorem footprint_foldl_reportPoint (l : List Nat) (w : World) (hm : ∀ i, M i REPORTED) :
    Footprint M K w (l.foldl reportPoint w) := by
  induction l generalizing w with
  | nil => exact footprint_refl _
  | cons a as ih => exact footprint_trans (footprint_reportPoint a hm) (ih _)

theorem footprint_cleanupFrom (l : List Nat) (w : World) (hm : ∀ i, M i REPORTED) :
    Footprint M K w (cleanupFrom w l) := by
  induction l generalizing w with
  | nil => exact footprint_of_eq rfl
  | cons a as ih =>
    unfold cleanupFrom
    split_ifs
    · exact footprint_trans (footprint_reportPoint a hm) (ih _)
    · exact footprint_of_eq rfl

theorem footprint_expungeFrom (cfg : Config) (t : Nat) (l : List Nat) (w : World)
    (hm : ∀ i, M i REPORTED) : Footprint M K w (expungeFrom cfg t w l) := by
  induction l generalizing w with
  | nil => exact footprint_of_eq rfl
  | cons a as ih =>
    unfold expungeFrom
    split_ifs
    · exact footprint_trans (footprint_reportPoint a hm) (ih _)
    · exact footprint_of_eq rfl

theorem footprint_revokeStopFrom (l : List Nat) (w : World) (hm : ∀ i, M i STOP_START) :
    Footprint M K w (revokeStopFrom w l) := by
  induction l generalizing w with
  | nil => exact footprint_refl _
  | cons a as ih =>
    unfold revokeStopFrom
    split_ifs
    · exact footprint_resetAnno a _ (hm a)
    · exact ih _

theorem footprint_revokeChangeInHeadingFrom (l : List Nat) (w : World)
    (hm : ∀ i, M i CHANGE_IN_HEADING) : Footprint M K w (revokeChangeInHeadingFrom w l) := by
  induction l generalizing w with
  | nil => exact footprint_refl _
  | cons a as ih =>
    unfold revokeChangeInHeadingFrom
    simp only []
    split_ifs
    · exact footprint_resetAnno a _ (hm a)
    · exact footprint_trans (footprint_resetAnno a _ (hm a)) (ih _)
    · exact ih _

end FootprintPrimitives

section FootprintOps

variable (g : Geo) (cfg : Config) (w : World) (q p : Nat)

theorem updMask_new (b : Fin 11) : updMask q p p b := Or.inr (Or.inr (Or.inr (Or.inr rfl)))

theorem updMask_reported (i : Nat) : updMask q p i REPORTED := Or.inl rfl

theorem updMask_stopStart (i : Nat) : updMask q p i STOP_START := Or.inr (Or.inl rfl)

theorem updMask_heading (i : Nat) : updMask q p i CHANGE_IN_HEADING :=
  Or.inr (Or.inr (Or.inl rfl))

theorem updMask_stopEnd : updMask q p q STOP_END :=
  Or.inr (Or.inr (Or.inr (Or.inl ⟨rfl, Or.inl rfl⟩)))

theorem updMask_gapStart : updMask q p q GAP_START :=
  Or.inr (Or.inr (Or.inr (Or.inl ⟨rfl, Or.inr rfl⟩)))

theorem footprint_setStatus (s : Fin 3) {M : Nat → Fin 11 → Prop} {K : Nat → Prop} :
    Footprint M K w (w.setStatus s) := footprint_of_eq rfl

theorem footprint_resetStatus (s : Fin 3) {M : Nat → Fin 11 → Prop} {K : Nat → Prop} :
    Footprint M K w (w.resetStatus s) := footprint_of_eq rfl

theorem footprint_stopEntry : Footprint (updMask q p) (updKin q p) w (stopEntry w q p) := by
  unfold stopEntry
  simp only []
  split_ifs <;>
    repeat (first
      | exact footprint_refl _
      | exact footprint_setAnno _ _ (updMask_new q p _)
      | exact footprint_setAnno _ _ (updMask_stopStart q p _)
      | refine footprint_trans ?_ (footprint_resetStatus _ _)
      | refine footprint_trans ?_ (footprint_setStatus _ _)
      | refine footprint_trans ?_ (footprint_setAnno _ _ (updMask_new q p _)))

theorem footprint_stopExit : Footprint (updMask q p) (updKin q p) w (stopExit g cfg w q) := by
  unfold stopExit
  split_ifs
  · exact footprint_trans (footprint_revokeStopFrom _ _ (updMask_stopStart q p))
      (footprint_resetStatus _ _)
  · exact footprint_trans (footprint_trans (footprint_setAnno q STOP_END (updMask_stopEnd q p))
      (footprint_resetStatus _ _)) (footprint_revokeChangeInHeadingFrom _ _ (updMask_heading q p))
  · exact footprint_refl _

theorem footprint_forwardStop :
    Footprint (updMask q p) (updKin q p) w (forwardStop g cfg w q p) := by
  unfold forwardStop
  simp only []
  split_ifs
  · exact footprint_stopEntry _ _ _
  · exact footprint_stopExit _ _ _ _ _
  · exact footprint_refl _

theorem footprint_forwardSpeed :
    Footprint (updMask q p) (updKin q p) w (forwardSpeed cfg w q p) := by
  unfold forwardSpeed slowMotionEnd slowMotionStart speedChangeEnd speedChangeStart
  simp only []
  split_ifs <;>
    repeat (first
      | exact footprint_refl _
      | refine footprint_trans ?_ (footprint_resetStatus _ _)
      | refine footprint_trans ?_ (footprint_setStatus _ _)
      | refine footprint_trans ?_ (footprint_setAnno _ _ (updMask_new q p _)))

theorem footprint_append : Footprint (updMask q p) (updKin q p) w (append w p) :=
  footprint_of_eq rfl

theorem footprint_forwardFilter :
    Footprint (updMask q p) (updKin q p) w (forwardFilter g cfg w q p) := by
  unfold forwardFilter
  simp only []
  split_ifs
  · exact footprint_trans (footprint_setAnno p NOISE (updMask_new q p _))
      (footprint_reportPoint _ (updMask_reported q p))
  · exact footprint_append _ _ _
  · exact footprint_trans (footprint_trans (footprint_append w q p)
      (footprint_forwardStop g cfg _ q p)) (footprint_forwardSpeed cfg _ q p)

theorem footprint_setDisplacement :
    Footprint (updMask q p) (updKin q p) w (setDisplacement g w q p) := by
  unfold setDisplacement
  refine footprint_modify _ _ (Or.inr rfl) ?_
  intro l; exact ⟨rfl, rfl, rfl, rfl, rfl⟩

theorem footprint_setVelocity :
    Footprint (updMask q p) (updKin q p) w (setVelocity g w q p) := by
  unfold setVelocity
  simp only []
  refine footprint_trans (footprint_modify _ _ (Or.inr rfl) ?_)
    (footprint_modify _ _ (Or.inr rfl) ?_) <;> intro l <;> exact ⟨rfl, rfl, rfl, rfl, rfl⟩

theorem footprint_init {M : Nat → Fin 11 → Prop} {K : Nat → Prop} (hm : M p GAP_END) :
    Footprint M K w (init w p) :=
  footprint_trans (footprint_setAnno p GAP_END hm) (footprint_of_eq rfl)

theorem footprint_purge {M : Nat → Fin 11 → Prop} {K : Nat → Prop} (hm : ∀ i, M i REPORTED) :
    Footprint M K w (purge w) :=
  footprint_trans (footprint_foldl_reportPoint w.seqPoints w hm) (footprint_of_eq rfl)

theorem footprint_forwardGap :
    Footprint (updMask q p) (updKin q p) w (forwardGap g cfg w q p) := by
  unfold forwardGap
  simp only []
  have h4 : Footprint (updMask q p) (updKin q p) w
      ((w.setAnno p GAP_END).setAnno q GAP_START) :=
    footprint_trans (footprint_setAnno p GAP_END (updMask_new q p _))
      (footprint_setAnno q GAP_START (updMask_gapStart q p))
  split_ifs
  · exact footprint_trans (footprint_trans h4 (footprint_setStatus _ _))
      (footprint_forwardFilter g cfg _ q p)
  · exact footprint_trans (footprint_trans h4 (footprint_purge _ (updMask_reported q p)))
      (footprint_init _ p (updMask_new q p _))

theorem footprint_forwardMobilityCheck (hq : oldLocOf w q = q) :
    Footprint (updMask q p) (updKin q p) w (forwardMobilityCheck g cfg w q p) := by
  unfold forwardMobilityCheck
  simp only [hq]
  split_ifs
  · exact footprint_trans (footprint_trans (footprint_setDisplacement g w q p)
      (footprint_setAnno p NOISE (updMask_new q p _)))
      (footprint_reportPoint _ (updMask_reported q p))
  · exact footprint_trans (footprint_trans (footprint_setDisplacement g w q p)
      (footprint_setVelocity g _ q p)) (footprint_forwardGap g cfg _ q p)
  · exact footprint_trans (footprint_trans (footprint_setDisplacement g w q p)
      (footprint_setVelocity g _ q p)) (footprint_forwardFilter g cfg _ q p)

theorem footprint_backwardMobilityCheck :
    Footprint (updMask q p) (updKin q p) w (backwardMobilityCheck g cfg w q p) := by
  unfold backwardMobilityCheck
  simp only []
  split_ifs
  · refine footprint_modify _ _ (Or.inl rfl) ?_
    intro l; exact ⟨rfl, rfl, rfl, rfl, rfl⟩
  · exact footprint_refl _
  · exact footprint_trans (footprint_setAnno q _ (updMask_heading q p q))
      (footprint_cleanupFrom _ _ (updMask_reported q p))
  · exact footprint_setAnno q _ (updMask_heading q p q)
  · exact footprint_refl _

theorem footprint_updateFrom (hq : oldLocOf w q = q) :
    Footprint (updMask q p) (updKin q p) w (updateFrom g cfg w q p) := by
  have h := footprint_trans (footprint_forwardMobilityCheck g cfg w q p hq)
    (footprint_backwardMobilityCheck g cfg _ q p)
  unfold updateFrom
  simp only []
  split_ifs
  · exact footprint_trans h (footprint_resetStatus _ _)
  · exact h

theorem footprint_expungeObsoleteLocations {M : Nat → Fin 11 → Prop} {K : Nat → Prop}
    (t : Nat) (hm : ∀ i, M i REPORTED) : Footprint M K w (expungeObsoleteLocations cfg w t) := by
  unfold expungeObsoleteLocations
  simp only []
  split_ifs
  · exact footprint_refl _
  · split
    · exact footprint_trans (footprint_expungeFrom cfg t _ w hm) (footprint_of_eq rfl)
    · exact footprint_trans (footprint_expungeFrom cfg t _ w hm) (footprint_of_eq rfl)

end FootprintOps

/-! ## Drain, initialisation and output -/

section Drain

theorem foldl_reportPoint_heap (l : List Nat) (w : World) (i : Nat) :
    (l.foldl reportPoint w).heap i
      = if i ∈ l then (w.heap i).set REPORTED else w.heap i := by
  induction l generalizing w with
  | nil => simp
  | cons a as ih =>
    rw [List.foldl_cons, ih, reportPoint_heap]
    by_cases hia : i = a
    · subst hia
      by_cases hmem : i ∈ as
      · simp only [hmem, if_true, List.mem_cons, true_or]
        exact Location.set_of_bit _ _ (by simp)
      · simp [hmem]
    · by_cases hmem : i ∈ as
      · simp [hia, hmem]
      · simp [hia, hmem]

/-- Reporting distinct, unreported objects inserts them into the buffer one after the other,
in list order. -/
theorem foldl_reportPoint_annoResults (l : List Nat) (w : World) (hn : l.Nodup)
    (hr : ∀ i ∈ l, (w.heap i).bit REPORTED = false) :
    (l.foldl reportPoint w).annoResults
      = l.foldl (fun acc i => mmInsert (w.heap i).t i acc) w.annoResults := by
  induction l generalizing w with
  | nil => rfl
  | cons a as ih =>
    rw [List.nodup_cons] at hn
    rw [List.foldl_cons, List.foldl_cons, ih (reportPoint w a) hn.2]
    · have ha : (reportPoint w a).annoResults = mmInsert (w.heap a).t a w.annoResults := by
        rw [reportPoint_annoResults, hr a (List.mem_cons_self _ _)]
        simp
      rw [ha]
      have hf : (fun acc i => mmInsert ((reportPoint w a).heap i).t i acc)
          = (fun acc i => mmInsert (w.heap i).t i acc) := by
        funext acc i
        rw [(frame_reportPoint (S := fun _ => False) (w := w) a).t_eq i]
      rw [hf]
    · intro i hi
      have hia : i ≠ a := fun e => hn.1 (e ▸ hi)
      rw [reportPoint_heap]
      simp only [hia, if_false]
      exact hr i (List.mem_cons_of_mem _ hi)

/-- The first half of `markLastLocationAsGap`: some world with the same window and buffer
whose last window element carries GAP_START and which differs from the given one only in
GAP_START and CHANGE_IN_HEADING bits; the result is this world with every window element
reported in order and the window emptied. -/
theorem markLastLocationAsGap_split (w : World) :
    ∃ w1, markLastLocationAsGap w = { w1.seqPoints.foldl reportPoint w1 with seqPoints := [] }
      ∧ w1.seqPoints = w.seqPoints ∧ w1.annoResults = w.annoResults
      ∧ w1.status = w.status ∧ w1.curTime = w.curTime
      ∧ Footprint (fun _ b => b = GAP_START ∨ b = CHANGE_IN_HEADING) (fun _ => False) w w1
      ∧ ∀ q, w.seqPoints.getLast? = some q → (w1.heap q).bit GAP_START = true := by
  unfold markLastLocationAsGap
  simp only []
  cases hl : w.seqPoints.getLast? with
  | none =>
    exact ⟨w, rfl, rfl, rfl, rfl, rfl, footprint_refl _, fun q hq => by cases hq⟩
  | some q =>
    simp only []
    split_ifs with hs
    · refine ⟨revokeChangeInHeading (w.setAnno q GAP_START), rfl, by simp,
        (revokeChangeInHeadingFrom_fields _ _).2.2.2, by simp, by simp, ?_, ?_⟩
      · exact footprint_trans (footprint_setAnno q GAP_START (Or.inl rfl))
          (footprint_revokeChangeInHeadingFrom _ _ (fun _ => Or.inr rfl))
      · intro q1 hq1
        cases hq1
        have hf : Footprint (fun _ b => b = CHANGE_IN_HEADING) (fun _ => False)
            (w.setAnno q GAP_START) (revokeChangeInHeading (w.setAnno q GAP_START)) :=
          footprint_revokeChangeInHeadingFrom _ _ (fun _ => rfl)
        rw [hf.bit_eq q GAP_START (by decide)]
        simp
    · refine ⟨w.setAnno q GAP_START, rfl, rfl, rfl, rfl, rfl,
        footprint_setAnno q GAP_START (Or.inl rfl), ?_⟩
      intro q1 hq1
      cases hq1
      simp

end Drain

/-- C11: for every State, after `markLastLocationAsGap` the window is empty, every element
that was in the window has its reported bit set, the element that was last carries GAP_START
and, when the window elements were distinct and not yet reported, the `Sink` buffer is the
old buffer with the window elements inserted one by one, oldest first. -/
theorem markLastLocationAsGap_drains (w : World) :
    (markLastLocationAsGap w).seqPoints = []
      ∧ (∀ i ∈ w.seqPoints, ((markLastLocationAsGap w).heap i).bit REPORTED = true)
      ∧ (∀ q, w.seqPoints.getLast? = some q →
          ((markLastLocationAsGap w).heap q).bit GAP_START = true)
      ∧ (w.seqPoints.Nodup → (∀ i ∈ w.seqPoints, (w.heap i).bit REPORTED = false) →
          (markLastLocationAsGap w).annoResults
            = w.seqPoints.foldl (fun acc i => mmInsert (w.heap i).t i acc) w.annoResults) := by
  obtain ⟨w1, he, hseq, hanno, _, _, hfp, hgap⟩ := markLastLocationAsGap_split w
  rw [he]
  refine ⟨rfl, ?_, ?_, ?_⟩
  · intro i hi
    show ((w1.seqPoints.foldl reportPoint w1).heap i).bit REPORTED = true
    rw [foldl_reportPoint_heap, hseq]
    simp [hi]
  · intro q hq
    show ((w1.seqPoints.foldl reportPoint w1).heap q).bit GAP_START = true
    rw [(footprint_foldl_reportPoint (M := fun _ b => b = REPORTED) (K := fun _ => False)
      w1.seqPoints w1 (fun _ => rfl)).bit_eq q GAP_START (by decide)]
    exact hgap q hq
  · intro hn hr
    show (w1.seqPoints.foldl reportPoint w1).annoResults = _
    have hr1 : ∀ i ∈ w1.seqPoints, (w1.heap i).bit REPORTED = false := by
      intro i hi
      rw [hfp.bit_eq i REPORTED (by decide)]
      exact hr i (hseq ▸ hi)
    rw [foldl_reportPoint_annoResults w1.seqPoints w1 (hseq ▸ hn) hr1, hseq, hanno]
    have hf : (fun acc i => mmInsert (w1.heap i).t i acc)
        = (fun acc i => mmInsert (w.heap i).t i acc) := by
      funext acc i
      rw [(hfp.pos_eq i).2.2.2]
    rw [hf]

/-- C12: a stream of one fresh record followed by end of stream leaves exactly that object in
the `Sink` buffer, with its coordinates and timestamp, and its set bits are exactly GAP_START
and GAP_END (and the reported bit). -/
theorem single_record_stream (g : Geo) (cfg : Config) (r : Raw) :
    ∃ w, run g cfg [r] = some w ∧ sinkPtrs (drain w) = [0] ∧ (drain w).seqPoints = []
      ∧ ((drain w).heap 0).x = r.x ∧ ((drain w).heap 0).y = r.y ∧ ((drain w).heap 0).t = r.t
      ∧ ∀ b, ((drain w).heap 0).bit b = true ↔ (b = GAP_START ∨ b = GAP_END ∨ b = REPORTED) := by
  refine ⟨_, rfl, rfl, rfl, rfl, rfl, rfl, ?_⟩
  intro b
  fin_cases b <;>
    first
    | exact ⟨fun _ => by decide, fun _ => rfl⟩
    | exact ⟨fun h => Bool.noConfusion h, fun h => absurd h (by decide)⟩

/-- C13: for every empty State and every object `p`, `init(p)` makes the window `[p]`,
clears the three status flags, sets `curTime` to `p.t`, sets GAP_END on `p` and changes
nothing else in `p`, in any other object or in the `Sink` buffer. -/
theorem init_of_empty (w : World) (p : Nat) (h : w.seqPoints = []) :
    (init w p).seqPoints = [p] ∧ (∀ s, (init w p).status s = false)
      ∧ (init w p).curTime = (w.heap p).t
      ∧ (init w p).heap p = (w.heap p).set GAP_END
      ∧ (∀ i, i ≠ p → (init w p).heap i = w.heap i)
      ∧ (init w p).annoResults = w.annoResults := by
  refine ⟨by simp [init, h], fun _ => rfl, by simp [init], by simp [init], ?_, rfl⟩
  intro i hi
  simp [init, hi]

/-- Witness for C13: the first object of a stream. -/
theorem init_of_empty_witness :
    firstObjectWorld.seqPoints = []
      ∧ (init firstObjectWorld 0).seqPoints = [0]
      ∧ (∀ s, (init firstObjectWorld 0).status s = false)
      ∧ (init firstObjectWorld 0).curTime = (firstObjectWorld.heap 0).t
      ∧ (init firstObjectWorld 0).heap 0 = (firstObjectWorld.heap 0).set GAP_END
      ∧ (∀ i, i ≠ 0 → (init firstObjectWorld 0).heap i = firstObjectWorld.heap i)
      ∧ (init firstObjectWorld 0).annoResults = firstObjectWorld.annoResults :=
  ⟨rfl, init_of_empty firstObjectWorld 0 rfl⟩

/-! ## Output rows and the stop-then-resume scenario -/

/-- Rows written by `emitResults`: the buffered objects that pass the `annotatedOnly` test,
each with the label computed from its bitmap. -/
theorem mem_emitResults (w : World) (b : Bool) (i : Nat) (s : String) :
    (i, s) ∈ emitResults w b
      ↔ i ∈ sinkPtrs w ∧ ¬ (b = true ∧ ¬ (w.heap i).isAnnotated = true)
          ∧ s = labelOf (w.heap i) := by
  unfold emitResults sinkPtrs
  rw [List.mem_filterMap, List.mem_map]
  constructor
  · rintro ⟨e, he, h⟩
    split_ifs at h with hc
    cases h
    exact ⟨⟨e, he, rfl⟩, hc, rfl⟩
  · rintro ⟨⟨e, he, rfl⟩, hc, rfl⟩
    exact ⟨e, he, by rw [if_neg hc]⟩

/-- C20, counterexample: two records with equal timestamps under the Default Config; the
second object is in the `Sink` buffer and carries NOISE, yet with `annotatedOnly = true`
no row is written (with `annotatedOnly = false` it is written with the label NOISE). -/
theorem annotated_only_skips_noise :
    (run gridGeo Config.Default equalTimeRecords).map
        (fun w => (sinkPtrs w, (w.heap 1).bit NOISE, emitResults w true, emitResults w false))
      = some ([1], true, [], [(1, "NOISE")]) := by
  decide!

/-- C20, amended: with `annotatedOnly = true` a buffered object is written if and only if it
has one of the bits 0..8 (`isAnnotated`); with `annotatedOnly = false` every buffered object
is written, in buffer order, and one that has NOISE and none of the bits 0..8 gets the label
NOISE. -/
theorem emitResults_rows (w : World) :
    (∀ i, i ∈ (emitResults w true).map Prod.fst
        ↔ i ∈ sinkPtrs w ∧ (w.heap i).isAnnotated = true)
      ∧ (emitResults w false).map Prod.fst = sinkPtrs w
      ∧ (∀ i s, (i, s) ∈ emitResults w false → (w.heap i).isAnnotated = false →
          (w.heap i).bit NOISE = true → s = "NOISE") := by
  refine ⟨?_, ?_, ?_⟩
  · intro i
    rw [List.mem_map]
    constructor
    · rintro ⟨⟨a, s⟩, hm, rfl⟩
      obtain ⟨h1, h2, _⟩ := (mem_emitResults w true a s).1 hm
      refine ⟨h1, ?_⟩
      by_contra hn
      exact h2 ⟨rfl, hn⟩
    · rintro ⟨h1, h2⟩
      exact ⟨(i, labelOf (w.heap i)),
        (mem_emitResults w true i _).2 ⟨h1, fun hc => hc.2 h2, rfl⟩, rfl⟩
  · simp only [emitResults, sinkPtrs]
    induction w.annoResults with
    | nil => rfl
    | cons e es ih =>
      rw [List.filterMap_cons]
      simp only [Bool.false_eq_true, false_and, if_false, List.map_cons] at ih ⊢
      rw [ih]
  · intro i s hm ha hn
    obtain ⟨_, _, rfl⟩ := (mem_emitResults w false i s).1 hm
    simp [labelOf, ha, hn]

/-- C17, counterexample: scenario S2 under the Default Config; after the six records and the
drain the sixth object carries NOISE and neither STOP_END nor GAP_START. -/
theorem s2_sixth_point_is_noise :
    (run gridGeo Config.Default s2Records).map
        (fun w => (((drain w).heap 5).bit NOISE, ((drain w).heap 5).bit STOP_END,
          ((drain w).heap 5).bit GAP_START))
      = some (true, false, false) := by
  decide!

/-- C17, amended: scenario S2 under the Default Config; after the six records and the drain
the first object carries STOP_START and GAP_END, the second, third and fourth carry nothing,
the fifth carries GAP_START (from the drain), the sixth carries NOISE and nothing else; no
object carries STOP_END, and all six are in the `Sink` buffer in input order. The `State` is
STOPPED after the six records, with the first five objects in its window (the fifth is the
last window element), and it is still STOPPED after the drain. -/
theorem s2_labels :
    (run gridGeo Config.Default s2Records).map
        (fun w => ((List.range 6).map (fun i => decodeAnnotation ((drain w).heap i)),
          sinkPtrs (drain w), w.isStopped, w.seqPoints, (drain w).isStopped))
      = some ([["STOP_START", "GAP_END"], [], [], [], ["GAP_START"], ["NOISE"]],
          [0, 1, 2, 3, 4, 5], true, [0, 1, 2, 3, 4], true) := by
  decide!

/-! ## The paths of `update` -/

section Paths

variable (g : Geo) (cfg : Config) (w : World) (q p : Nat)

theorem stopEntry_annoResults : (stopEntry w q p).annoResults = w.annoResults := by
  unfold stopEntry
  simp only []
  split_ifs <;> rfl

theorem stopExit_annoResults : (stopExit g cfg w q).annoResults = w.annoResults := by
  unfold stopExit
  split_ifs
  · exact (revokeStopFrom_fields _ _).2.2.2
  · exact (revokeChangeInHeadingFrom_fields _ _).2.2.2
  · rfl

theorem forwardStop_annoResults : (forwardStop g cfg w q p).annoResults = w.annoResults := by
  unfold forwardStop
  simp only []
  split_ifs
  · exact stopEntry_annoResults _ _ _
  · exact stopExit_annoResults _ _ _ _
  · rfl

theorem forwardSpeed_annoResults : (forwardSpeed cfg w q p).annoResults = w.annoResults := by
  unfold forwardSpeed slowMotionEnd slowMotionStart speedChangeEnd speedChangeStart
  simp only []
  split_ifs <;> rfl

/-- Distance, elapsed time and speed of the new object after lines 498-512. -/
theorem measured_new (hqp : q ≠ p) :
    ((setVelocity g (setDisplacement g w q p) q p).heap p).time_elapsed
        = usub (w.heap p).t (w.heap q).t
      ∧ ((setVelocity g (setDisplacement g w q p) q p).heap p).distance
        = getHaversineDistance g (w.heap q).x (w.heap q).y (w.heap p).x (w.heap p).y
      ∧ ((setVelocity g (setDisplacement g w q p) q p).heap p).speed
        = if usub (w.heap p).t (w.heap q).t > 0 then
            (3600 * getHaversineDistance g (w.heap q).x (w.heap q).y (w.heap p).x (w.heap p).y)
              / (1852 * (usub (w.heap p).t (w.heap q).t : ℚ))
          else -1 := by
  simp [setVelocity, setDisplacement, hqp]

theorem measured_other (i : Nat) (hi : i ≠ p) :
    (setVelocity g (setDisplacement g w q p) q p).heap i = w.heap i := by
  simp [setVelocity, setDisplacement, hi]

theorem measured_t (i : Nat) :
    ((setVelocity g (setDisplacement g w q p) q p).heap i).t = (w.heap i).t := by
  by_cases hi : i = p
  · subst hi; simp [setVelocity, setDisplacement]
  · rw [measured_other g w q p i hi]

theorem measured_bit (i : Nat) (b : Fin 11) :
    ((setVelocity g (setDisplacement g w q p) q p).heap i).bit b = (w.heap i).bit b := by
  rw [setVelocity_bit, setDisplacement_bit]

theorem forwardMobilityCheck_gap (hq : w.seqPoints.getLast? = some q)
    (ht : cfg.gap_period < usub (w.heap p).t (w.heap q).t) :
    forwardMobilityCheck g cfg w q p
      = forwardGap g cfg (setVelocity g (setDisplacement g w q p) q p) q p := by
  unfold forwardMobilityCheck
  simp only [oldLocOf_last w q hq, setVelocity_time_elapsed, setDisplacement_time_elapsed]
  rw [if_neg (by omega), if_pos ht]

theorem forwardMobilityCheck_nogap (hq : w.seqPoints.getLast? = some q)
    (h0 : 0 < usub (w.heap p).t (w.heap q).t)
    (ht : usub (w.heap p).t (w.heap q).t ≤ cfg.gap_period) :
    forwardMobilityCheck g cfg w q p
      = forwardFilter g cfg (setVelocity g (setDisplacement g w q p) q p) q p := by
  unfold forwardMobilityCheck
  simp only [oldLocOf_last w q hq, setVelocity_time_elapsed, setDisplacement_time_elapsed]
  rw [if_neg (by omega), if_neg (by omega)]

theorem cleanupFrom_short (l : List Nat) (w : World) (h : l.length ≤ 2) :
    cleanupFrom w l = { w with seqPoints := l } := by
  cases l with
  | nil => rfl
  | cons a as =>
    unfold cleanupFrom
    rw [if_neg (by omega)]

theorem cleanupFrom_append_two (l : List Nat) (a b : Nat) (w : World) :
    cleanupFrom w (l ++ [a, b]) = { l.foldl reportPoint w with seqPoints := [a, b] } := by
  induction l generalizing w with
  | nil => exact cleanupFrom_short _ _ (by simp)
  | cons c cs ih =>
    rw [List.cons_append]
    unfold cleanupFrom
    rw [if_pos (by simp), ih]
    rfl

/-- A precise footprint of the backward check: reported bits, the CHANGE_IN_HEADING bit of
`q`, and the speed and heading of `q`. -/
theorem footprint_backward :
    Footprint (backMask q) (fun i => i = q) w (backwardMobilityCheck g cfg w q p) := by
  unfold backwardMobilityCheck
  simp only []
  split_ifs
  · refine footprint_modify _ _ rfl ?_
    intro l; exact ⟨rfl, rfl, rfl, rfl, rfl⟩
  · exact footprint_refl _
  · exact footprint_trans (footprint_setAnno q _ (Or.inr ⟨rfl, rfl⟩))
      (footprint_cleanupFrom _ _ (fun _ => Or.inl rfl))
  · exact footprint_setAnno q _ (Or.inr ⟨rfl, rfl⟩)
  · exact footprint_refl _

/-- On a window of at most two elements the backward check emits nothing and keeps the
window. -/
theorem backwardMobilityCheck_short (h : w.seqPoints.length ≤ 2) :
    (backwardMobilityCheck g cfg w q p).seqPoints = w.seqPoints
      ∧ (backwardMobilityCheck g cfg w q p).annoResults = w.annoResults := by
  unfold backwardMobilityCheck
  simp only []
  split_ifs
  · exact ⟨rfl, rfl⟩
  · exact ⟨rfl, rfl⟩
  · unfold cleanup
    rw [cleanupFrom_short _ _ (by simpa using h)]
    exact ⟨rfl, rfl⟩
  · exact ⟨rfl, rfl⟩
  · exact ⟨rfl, rfl⟩

/-- The last step of `update` changes nothing but the STOPPED flag. -/
theorem updateFrom_fields :
    (updateFrom g cfg w q p).heap
        = (backwardMobilityCheck g cfg (forwardMobilityCheck g cfg w q p) q p).heap
      ∧ (updateFrom g cfg w q p).seqPoints
        = (backwardMobilityCheck g cfg (forwardMobilityCheck g cfg w q p) q p).seqPoints
      ∧ (updateFrom g cfg w q p).annoResults
        = (backwardMobilityCheck g cfg (forwardMobilityCheck g cfg w q p) q p).annoResults
      ∧ (updateFrom g cfg w q p).curTime
        = (forwardMobilityCheck g cfg w q p).curTime
      ∧ (∀ s, s ≠ STOPPED → (updateFrom g cfg w q p).status s
          = (forwardMobilityCheck g cfg w q p).status s)
      ∧ ((updateFrom g cfg w q p).status STOPPED = true →
          (forwardMobilityCheck g cfg w q p).status STOPPED = true)
      ∧ (((backwardMobilityCheck g cfg (forwardMobilityCheck g cfg w q p) q p).heap p).bit
            STOP_END = false →
          (updateFrom g cfg w q p).status = (forwardMobilityCheck g cfg w q p).status) := by
  unfold updateFrom
  simp only []
  split_ifs with h
  · refine ⟨rfl, rfl, rfl, ?_, ?_, ?_, ?_⟩
    · simp [backwardMobilityCheck_curTime]
    · intro s hs; simp [hs, backwardMobilityCheck_status]
    · intro hx; simp at hx
    · intro hx; rw [hx] at h; cases h
  · refine ⟨rfl, rfl, rfl, ?_, ?_, ?_, ?_⟩
    · simp [backwardMobilityCheck_curTime]
    · intro s _; rw [backwardMobilityCheck_status]
    · intro hx; rw [backwardMobilityCheck_status] at hx; exact hx
    · intro _; rw [backwardMobilityCheck_status]

end Paths

theorem setAnno_t (w : World) (p i : Nat) (b : Fin 11) :
    ((w.setAnno p b).heap i).t = (w.heap i).t := by
  simp only [World.setAnno_heap]
  split_ifs with h
  · subst h; rfl
  · rfl

theorem setAnno_bit_ne (w : World) (p i : Nat) (b c : Fin 11) (h : c ≠ b) :
    ((w.setAnno p b).heap i).bit c = (w.heap i).bit c := by
  simp only [World.setAnno_heap]
  split_ifs with h1
  · subst h1; simp [h]
  · rfl

/-- C14: for every State that is not STOPPED, with last window element `q`, and every
object `p` whose elapsed time `p.t - q.t` (unsigned) exceeds `gap_period`, `update(p)`
returns with window `[p]`, GAP_END on `p`, GAP_START on `q`, the three status flags cleared
and `curTime = p.t`; every element of the old window has the reported bit, and when those
elements were distinct and not yet reported the `Sink` buffer is the old buffer with them
inserted one by one, oldest first. -/
theorem gap_purges_window (g : Geo) (cfg : Config) (w : World) (q p : Nat)
    (hq : w.seqPoints.getLast? = some q) (hs : w.isStopped = false)
    (ht : cfg.gap_period < usub (w.heap p).t (w.heap q).t) :
    ∃ w1, update g cfg w p = some w1 ∧ w1.seqPoints = [p]
      ∧ (w1.heap p).bit GAP_END = true ∧ (w1.heap q).bit GAP_START = true
      ∧ (∀ s, w1.status s = false) ∧ w1.curTime = (w.heap p).t
      ∧ (∀ i ∈ w.seqPoints, (w1.heap i).bit REPORTED = true)
      ∧ (w.seqPoints.Nodup → (∀ i ∈ w.seqPoints, (w.heap i).bit REPORTED = false) →
          w1.annoResults
            = w.seqPoints.foldl (fun acc i => mmInsert (w.heap i).t i acc) w.annoResults) := by
  refine ⟨updateFrom g cfg w q p, by simp [update, hq], ?_⟩
  have hfw : forwardMobilityCheck g cfg w q p
      = init (purge (((setVelocity g (setDisplacement g w q p) q p).setAnno p GAP_END).setAnno
          q GAP_START)) p := by
    rw [forwardMobilityCheck_gap g cfg w q p hq ht]
    unfold forwardGap
    simp only []
    rw [if_neg]
    intro hc
    have hx : ((((setVelocity g (setDisplacement g w q p) q p).setAnno p GAP_END).setAnno
        q GAP_START).isStopped) = w.isStopped := rfl
    rw [hx, hs] at hc
    exact Bool.noConfusion hc.1
  obtain ⟨hheap, hseq, hanno, hcur, hst, hstop, _⟩ := updateFrom_fields g cfg w q p
  have hfp := footprint_backward g cfg (forwardMobilityCheck g cfg w q p) q p
  have hshort := backwardMobilityCheck_short g cfg (forwardMobilityCheck g cfg w q p) q p
    (by rw [hfw]; simp [init, purge])
  have hfr := frame_backwardMobilityCheck (S := fun _ => False) g cfg
    (forwardMobilityCheck g cfg w q p) q p
  rw [hheap, hseq, hanno, hcur, hshort.1, hshort.2]
  rw [hfw] at hfp hfr hst hstop ⊢
  generalize hw4 : ((setVelocity g (setDisplacement g w q p) q p).setAnno p GAP_END).setAnno
      q GAP_START = w4 at hfp hfr hst hstop ⊢
  have h4seq : w4.seqPoints = w.seqPoints := by rw [← hw4]; rfl
  have h4anno : w4.annoResults = w.annoResults := by rw [← hw4]; rfl
  have h4t : ∀ i, (w4.heap i).t = (w.heap i).t := by
    intro i
    rw [← hw4, setAnno_t, setAnno_t, measured_t]
  have h4rep : ∀ i, (w4.heap i).bit REPORTED = (w.heap i).bit REPORTED := by
    intro i
    rw [← hw4, setAnno_bit_ne _ _ _ _ _ (by decide), setAnno_bit_ne _ _ _ _ _ (by decide),
      measured_bit]
  have h4gap : (w4.heap q).bit GAP_START = true := by rw [← hw4]; simp
  have hF : Footprint (fun i b => b = REPORTED ∨ (i = p ∧ b = GAP_END)) (fun _ => False) w4
      (init (purge w4) p) :=
    footprint_trans (footprint_purge _ (fun _ => Or.inl rfl))
      (footprint_init _ p (Or.inr ⟨rfl, rfl⟩))
  have hP : Footprint (fun _ b => b = REPORTED) (fun _ => False) w4 (purge w4) :=
    footprint_purge _ (fun _ => rfl)
  refine ⟨by simp [init, purge], ?_, ?_, ?_, ?_, ?_, ?_⟩
  · rw [hfp.bit_eq p GAP_END (by simp [backMask])]
    simp [init]
  · rw [hfp.bit_eq q GAP_START (by simp [backMask]), hF.bit_eq q GAP_START (by simp)]
    exact h4gap
  · intro s
    by_cases hs0 : s = STOPPED
    · subst hs0
      cases hx : (updateFrom g cfg w q p).status STOPPED with
      | false => rfl
      | true => exact absurd (hstop hx) (by simp [init])
    · rw [hst s hs0]; rfl
  · show (((purge w4).setAnno p GAP_END).heap p).t = _
    rw [setAnno_t, (hP.pos_eq p).2.2.2, h4t]
  · intro i hi
    apply hfr.rep_mono
    apply (frame_init (S := fun _ => False) (purge w4) p).rep_mono
    show ((w4.seqPoints.foldl reportPoint w4).heap i).bit REPORTED = true
    rw [foldl_reportPoint_heap, h4seq]
    simp [hi]
  · intro hn hr
    show (w4.seqPoints.foldl reportPoint w4).annoResults = _
    rw [foldl_reportPoint_annoResults _ _ (h4seq ▸ hn)
      (fun i hi => by rw [h4rep]; exact hr i (h4seq ▸ hi)), h4seq, h4anno]
    have hf : (fun acc i => mmInsert (w4.heap i).t i acc)
        = (fun acc i => mmInsert (w.heap i).t i acc) := by
      funext acc i
      rw [h4t]
    rw [hf]

/-- Witness for C14: scenario S5, two records 30 s apart, then a record 3600 s later. -/
theorem gap_purges_window_witness :
    s5World.seqPoints.getLast? = some 1 ∧ s5World.isStopped = false
      ∧ Config.Default.gap_period < usub (s5World.heap 2).t (s5World.heap 1).t
      ∧ ∃ w1, update gridGeo Config.Default s5World 2 = some w1 ∧ w1.seqPoints = [2]
          ∧ (w1.heap 2).bit GAP_END = true ∧ (w1.heap 1).bit GAP_START = true
          ∧ (∀ s, w1.status s = false) ∧ w1.curTime = (s5World.heap 2).t
          ∧ (∀ i ∈ s5World.seqPoints, (w1.heap i).bit REPORTED = true)
          ∧ (s5World.seqPoints.Nodup →
              (∀ i ∈ s5World.seqPoints, (s5World.heap i).bit REPORTED = false) →
              w1.annoResults
                = s5World.seqPoints.foldl (fun acc i => mmInsert (s5World.heap i).t i acc)
                    s5World.annoResults) :=
  ⟨by decide!, by decide!, by decide!,
   gap_purges_window gridGeo Config.Default s5World 1 2 (by decide!) (by decide!) (by decide!)⟩

/-- When the new object is not faster than `no_speed` the backward check emits nothing and
keeps the window. -/
theorem backwardMobilityCheck_slow (g : Geo) (cfg : Config) (w : World) (q p : Nat)
    (h : ¬ (w.heap p).speed > cfg.no_speed) :
    (backwardMobilityCheck g cfg w q p).seqPoints = w.seqPoints
      ∧ (backwardMobilityCheck g cfg w q p).annoResults = w.annoResults := by
  unfold backwardMobilityCheck
  simp only []
  split_ifs with h1 h2 h3 h4
  · exact ⟨rfl, rfl⟩
  · exact ⟨rfl, rfl⟩
  · exact absurd h2.1 h
  · exact absurd h2.1 h
  · exact ⟨rfl, rfl⟩

/-- C15: under the Default Config, for every STOPPED State with last window element `q` and
every fresh object `p` (no bit set, not in the window) whose elapsed time `p.t - q.t`
exceeds `gap_period` and whose haversine distance from `q` is below `distance_threshold`,
`update(p)` returns without emitting anything: the `Sink` buffer is unchanged, the window is
the old one followed by `p`, `q` has GAP_START, `p` has GAP_END and the State is still
STOPPED. -/
theorem gap_inside_stop (g : Geo) (w : World) (q p : Nat)
    (hq : w.seqPoints.getLast? = some q) (hp : p ∉ w.seqPoints)
    (hfresh : ∀ b, (w.heap p).bit b = false) (hs : w.isStopped = true)
    (ht : Config.Default.gap_period < usub (w.heap p).t (w.heap q).t)
    (hd : getHaversineDistance g (w.heap q).x (w.heap q).y (w.heap p).x (w.heap p).y
      < Config.Default.distance_threshold) :
    ∃ w1, update g Config.Default w p = some w1 ∧ w1.annoResults = w.annoResults
      ∧ w1.seqPoints = w.seqPoints ++ [p] ∧ (w1.heap q).bit GAP_START = true
      ∧ (w1.heap p).bit GAP_END = true ∧ w1.isStopped = true := by
  refine ⟨updateFrom g Config.Default w q p, by simp [update, hq], ?_⟩
  have hqp : q ≠ p := fun e => hp (e ▸ List.mem_of_getLast?_eq_some hq)
  have hne : w.seqPoints ≠ [] := by
    intro e; rw [e] at hq; cases hq
  obtain ⟨hte, hdist, hspeed⟩ := measured_new g w q p hqp
  have ht0 : (0 : ℚ) < (usub (w.heap p).t (w.heap q).t : ℚ) := by
    have : 0 < usub (w.heap p).t (w.heap q).t := by omega
    exact_mod_cast this
  have ht600 : (600 : ℚ) < (usub (w.heap p).t (w.heap q).t : ℚ) := by
    have : 600 < usub (w.heap p).t (w.heap q).t := ht
    exact_mod_cast this
  have hd50 : getHaversineDistance g (w.heap q).x (w.heap q).y (w.heap p).x (w.heap p).y < 50 :=
    hd
  have hslow : ((setVelocity g (setDisplacement g w q p) q p).heap p).speed < 1 / 2 := by
    rw [hspeed, if_pos (by omega)]
    rw [div_lt_iff₀ (by linarith)]
    linarith
  have hfw : forwardMobilityCheck g Config.Default w q p
      = append ((((setVelocity g (setDisplacement g w q p) q p).setAnno p GAP_END).setAnno
          q GAP_START).setStatus STOPPED) p := by
    rw [forwardMobilityCheck_gap g Config.Default w q p hq ht]
    unfold forwardGap
    simp only []
    rw [if_pos]
    · unfold forwardFilter
      have hn : checkNoise Config.Default
          (((((setVelocity g (setDisplacement g w q p) q p).setAnno p GAP_END).setAnno
            q GAP_START).setStatus STOPPED).heap q)
          (((((setVelocity g (setDisplacement g w q p) q p).setAnno p GAP_END).setAnno
            q GAP_START).setStatus STOPPED).heap p) = false := by
        unfold checkNoise
        rw [if_pos]
        right
        simp [hqp, Ne.symm hqp]
      rw [hn]
      simp only [Bool.false_eq_true, if_false]
      split_ifs
      · rfl
      · have hstop : forwardStop g Config.Default
            (append ((((setVelocity g (setDisplacement g w q p) q p).setAnno p GAP_END).setAnno
              q GAP_START).setStatus STOPPED) p) q p
            = append ((((setVelocity g (setDisplacement g w q p) q p).setAnno p GAP_END).setAnno
              q GAP_START).setStatus STOPPED) p := by
          unfold forwardStop
          simp only []
          rw [if_neg, if_neg]
          · rintro ⟨_, h2⟩
            have e1 : ((append ((((setVelocity g (setDisplacement g w q p) q p).setAnno p
                GAP_END).setAnno q GAP_START).setStatus STOPPED) p).heap p).speed
                = ((setVelocity g (setDisplacement g w q p) q p).heap p).speed := by
              simp [append, Ne.symm hqp]
            have e2 : ((append ((((setVelocity g (setDisplacement g w q p) q p).setAnno p
                GAP_END).setAnno q GAP_START).setStatus STOPPED) p).heap p).distance
                = ((setVelocity g (setDisplacement g w q p) q p).heap p).distance := by
              simp [append, Ne.symm hqp, Location.set]
            rw [e1, e2, hdist] at h2
            rcases h2 with h2 | h2
            · have : (1 : ℚ) / 2 ≤ _ := h2
              linarith
            · have : (50 : ℚ) ≤ _ := h2
              linarith
          · rintro ⟨h1, _⟩
            exact h1 (by simp [append, World.isStopped])
        rw [hstop]
        unfold forwardSpeed
        rw [if_neg]
        simp [append, World.isStopped]
    · refine ⟨hs, Or.inl ?_⟩
      have e2 : ((((setVelocity g (setDisplacement g w q p) q p).setAnno p GAP_END).setAnno
          q GAP_START).heap p).distance
          = ((setVelocity g (setDisplacement g w q p) q p).heap p).distance := by
        simp [Ne.symm hqp, Location.set]
      rw [e2, hdist]
      exact hd
  obtain ⟨hheap, hseq, hanno, _, _, _, hstat⟩ := updateFrom_fields g Config.Default w q p
  have hfp := footprint_backward g Config.Default (forwardMobilityCheck g Config.Default w q p) q p
  have hfwheap : (forwardMobilityCheck g Config.Default w q p).heap
      = (((setVelocity g (setDisplacement g w q p) q p).setAnno p GAP_END).setAnno
          q GAP_START).heap := by
    rw [hfw]; rfl
  have hback := backwardMobilityCheck_slow g Config.Default
    (forwardMobilityCheck g Config.Default w q p) q p (by
      rw [hfwheap]
      have e1 : ((((setVelocity g (setDisplacement g w q p) q p).setAnno p GAP_END).setAnno
          q GAP_START).heap p).speed
          = ((setVelocity g (setDisplacement g w q p) q p).heap p).speed := by
        simp [Ne.symm hqp]
      rw [e1]
      intro hc
      have : (1 : ℚ) / 2 < _ := hc
      linarith)
  have hend : ((backwardMobilityCheck g Config.Default
      (forwardMobilityCheck g Config.Default w q p) q p).heap p).bit STOP_END = false := by
    rw [hfp.bit_eq p STOP_END (by simp [backMask]), hfwheap,
      setAnno_bit_ne _ _ _ _ _ (by decide), setAnno_bit_ne _ _ _ _ _ (by decide), measured_bit]
    exact hfresh _
  refine ⟨?_, ?_, ?_, ?_, ?_⟩
  · rw [hanno, hback.2, hfw]; rfl
  · rw [hseq, hback.1, hfw]; rfl
  · rw [hheap, hfp.bit_eq q GAP_START (by simp [backMask]), hfwheap]
    simp
  · rw [hheap, hfp.bit_eq p GAP_END (by simp [backMask]), hfwheap]
    simp [Ne.symm hqp]
  · unfold World.isStopped
    rw [hstat hend, hfw]
    simp [append]

/-- Witness for C15: a stop (two records at one position) and a record at the same position
700 s later. -/
theorem gap_inside_stop_witness :
    stoppedGapWorld.seqPoints.getLast? = some 1 ∧ 2 ∉ stoppedGapWorld.seqPoints
      ∧ (∀ b, (stoppedGapWorld.heap 2).bit b = false) ∧ stoppedGapWorld.isStopped = true
      ∧ Config.Default.gap_period < usub (stoppedGapWorld.heap 2).t (stoppedGapWorld.heap 1).t
      ∧ getHaversineDistance gridGeo (stoppedGapWorld.heap 1).x (stoppedGapWorld.heap 1).y
          (stoppedGapWorld.heap 2).x (stoppedGapWorld.heap 2).y
        < Config.Default.distance_threshold
      ∧ ∃ w1, update gridGeo Config.Default stoppedGapWorld 2 = some w1
          ∧ w1.annoResults = stoppedGapWorld.annoResults
          ∧ w1.seqPoints = stoppedGapWorld.seqPoints ++ [2]
          ∧ (w1.heap 1).bit GAP_START = true ∧ (w1.heap 2).bit GAP_END = true
          ∧ w1.isStopped = true :=
  ⟨by decide!, by decide!, by decide!, by decide!, by decide!, by decide!,
   gap_inside_stop gridGeo stoppedGapWorld 1 2 (by decide!) (by decide!) (by decide!)
     (by decide!) (by decide!) (by decide!)⟩

theorem cleanupFrom_getLast (l : List Nat) (w : World) :
    (cleanupFrom w l).seqPoints.getLast? = l.getLast? := by
  induction l generalizing w with
  | nil => rfl
  | cons a as ih =>
    unfold cleanupFrom
    split_ifs with h
    · rw [ih]
      cases as with
      | nil => simp at h
      | cons b bs => simp [List.getLast?_cons_cons]
    · rfl

/-- The backward check keeps the last element of the window. -/
theorem backwardMobilityCheck_getLast (g : Geo) (cfg : Config) (w : World) (q p : Nat) :
    (backwardMobilityCheck g cfg w q p).seqPoints.getLast? = w.seqPoints.getLast? := by
  unfold backwardMobilityCheck
  simp only []
  split_ifs
  · rfl
  · rfl
  · exact cleanupFrom_getLast _ _
  · rfl
  · rfl

/-- C16, counterexample: scenario S3 under the Default Config.  After the second record the
second object (speed far above `max_speed`) is in the window, not NOISE, and nothing has
been emitted; the third object is then NOISE, having been compared with the second.  The
same holds for a second record 5 degrees due east, whose computed speed is
100187541/926 knots. -/
theorem fast_second_point_is_not_noise :
    (run gridGeo Config.Default (s3Records.take 2)).map
        (fun w => ((w.heap 1).bit NOISE, w.seqPoints, sinkPtrs w)) = some (false, [0, 1], [])
      ∧ (run gridGeo Config.Default s3Records).map
        (fun w => ((w.heap 1).bit NOISE, (w.heap 2).bit NOISE, w.seqPoints, sinkPtrs w))
        = some (false, true, [0, 1], [2])
      ∧ (run gridGeo Config.Default fastSecondRecords).map
        (fun w => ((w.heap 1).bit NOISE, (w.heap 1).speed, w.seqPoints, sinkPtrs w))
        = some (false, 100187541 / 926, [0, 1], []) := by
  decide!

/-- C16, amended: for every State with last window element `q` and every fresh object `p`
with `0 < p.t - q.t <= gap_period`: if `q` carries GAP_END (as the initial observation of a
trajectory does) then `update(p)` appends `p` whatever its speed, `p` is not NOISE and
nothing is emitted; if `q` does not carry GAP_END and the computed speed of `p` is at least
`max_speed`, then `p` is NOISE, is in the `Sink` buffer, is not in the window, and `q` is
still the last window element. -/
theorem noise_by_speed_after_gap_end (g : Geo) (cfg : Config) (w : World) (q p : Nat)
    (hq : w.seqPoints.getLast? = some q) (hp : p ∉ w.seqPoints)
    (hfresh : ∀ b, (w.heap p).bit b = false)
    (h0 : 0 < usub (w.heap p).t (w.heap q).t)
    (hgap : usub (w.heap p).t (w.heap q).t ≤ cfg.gap_period) :
    ∃ w1, update g cfg w p = some w1
      ∧ ((w.heap q).bit GAP_END = true →
          w1.seqPoints = w.seqPoints ++ [p] ∧ (w1.heap p).bit NOISE = false
            ∧ w1.annoResults = w.annoResults)
      ∧ ((w.heap q).bit GAP_END = false →
          cfg.max_speed ≤
            (3600 * getHaversineDistance g (w.heap q).x (w.heap q).y (w.heap p).x (w.heap p).y)
              / (1852 * (usub (w.heap p).t (w.heap q).t : ℚ)) →
          (w1.heap p).bit NOISE = true ∧ p ∈ sinkPtrs w1 ∧ p ∉ w1.seqPoints
            ∧ w1.seqPoints.getLast? = some q) := by
  refine ⟨updateFrom g cfg w q p, by simp [update, hq], ?_, ?_⟩
  all_goals
    have hqp : q ≠ p := fun e => hp (e ▸ List.mem_of_getLast?_eq_some hq)
    have hne : w.seqPoints ≠ [] := by
      intro e; rw [e] at hq; cases hq
    obtain ⟨hheap, hseq, hanno, _, _, _, _⟩ := updateFrom_fields g cfg w q p
    have hfp := footprint_backward g cfg (forwardMobilityCheck g cfg w q p) q p
    have hfr := frame_backwardMobilityCheck (S := fun _ => False) g cfg
      (forwardMobilityCheck g cfg w q p) q p
    have hfw0 := forwardMobilityCheck_nogap g cfg w q p hq h0 hgap
  · intro hge
    have hfw : forwardMobilityCheck g cfg w q p
        = forwardSpeed cfg (forwardStop g cfg
            (append (setVelocity g (setDisplacement g w q p) q p) p) q p) q p := by
      rw [hfw0]
      unfold forwardFilter
      have hn : checkNoise cfg ((setVelocity g (setDisplacement g w q p) q p).heap q)
          ((setVelocity g (setDisplacement g w q p) q p).heap p) = false := by
        unfold checkNoise
        rw [if_pos]
        left
        rw [measured_bit]; exact hge
      rw [hn]
      simp only [Bool.false_eq_true, if_false]
      rw [if_neg]
      have : 0 < w.seqPoints.length := List.length_pos.2 hne
      simp [append, setVelocity, setDisplacement]
      omega
    have hfseq : (forwardMobilityCheck g cfg w q p).seqPoints = w.seqPoints ++ [p] := by
      rw [hfw, (forwardSpeed_seqPoints _ _ _ _).1, forwardStop_seqPoints]
      rfl
    have hfanno : (forwardMobilityCheck g cfg w q p).annoResults = w.annoResults := by
      rw [hfw, forwardSpeed_annoResults, forwardStop_annoResults]
      rfl
    have hfge : ((forwardMobilityCheck g cfg w q p).heap q).bit GAP_END = true := by
      have hf := footprint_forwardMobilityCheck g cfg w q p (oldLocOf_last w q hq)
      rw [hf.bit_eq q GAP_END (by simp [updMask, hqp])]
      exact hge
    have hback : backwardMobilityCheck g cfg (forwardMobilityCheck g cfg w q p) q p
        = (forwardMobilityCheck g cfg w q p).modify q (fun l =>
            { l with speed := ((forwardMobilityCheck g cfg w q p).heap p).speed,
                     heading := ((forwardMobilityCheck g cfg w q p).heap p).heading }) := by
      unfold backwardMobilityCheck
      rw [if_pos hfge]
    refine ⟨?_, ?_, ?_⟩
    · rw [hseq, hback]; exact hfseq
    · rw [hheap, noise_of_frame hfr, hfw,
        noise_of_frame (frame_forwardSpeed (S := fun _ => False) cfg _ q p),
        noise_of_frame (frame_forwardStop (S := fun _ => False) g cfg _ q p)]
      show ((setVelocity g (setDisplacement g w q p) q p).heap p).bit NOISE = false
      rw [measured_bit]
      exact hfresh _
    · rw [hanno, hback]; exact hfanno
  · intro hge hv
    obtain ⟨_, _, hspeed⟩ := measured_new g w q p hqp
    have hfw : forwardMobilityCheck g cfg w q p
        = reportPoint ((setVelocity g (setDisplacement g w q p) q p).setAnno p NOISE) p := by
      rw [hfw0]
      unfold forwardFilter
      have hn : checkNoise cfg ((setVelocity g (setDisplacement g w q p) q p).heap q)
          ((setVelocity g (setDisplacement g w q p) q p).heap p) = true := by
        unfold checkNoise
        rw [if_neg, if_pos]
        · rw [hspeed, if_pos (by omega)]
          exact hv
        · rw [measured_bit, measured_bit, hge, hfresh]
          simp
      rw [hn]
      simp
    have hnoise : ((forwardMobilityCheck g cfg w q p).heap p).bit NOISE = true := by
      rw [hfw, reportPoint_heap]; simp
    have hsink : p ∈ sinkPtrs (forwardMobilityCheck g cfg w q p) := by
      rw [hfw, sinkPtrs_reportPoint]
      left
      refine ⟨rfl, ?_⟩
      rw [setAnno_bit_ne _ _ _ _ _ (by decide), measured_bit]
      exact hfresh _
    have hfseq : (forwardMobilityCheck g cfg w q p).seqPoints = w.seqPoints := by
      rw [hfw]; simp [setVelocity, setDisplacement]
    have hsuf := backwardMobilityCheck_suffix g cfg (forwardMobilityCheck g cfg w q p) q p
    refine ⟨?_, ?_, ?_, ?_⟩
    · rw [hheap, noise_of_frame hfr]; exact hnoise
    · have := hfr.sink_mono p hsink
      simpa [sinkPtrs, hanno] using this
    · rw [hseq]
      exact fun hmem => hp (hfseq ▸ hsuf.subset hmem)
    · rw [hseq, backwardMobilityCheck_getLast, hfseq]
      exact hq

/-- Witness for C16: three eastbound records, then a record 5 degrees to the north. -/
theorem noise_by_speed_after_gap_end_witness :
    fastWorld.seqPoints.getLast? = some 2 ∧ 3 ∉ fastWorld.seqPoints
      ∧ (∀ b, (fastWorld.heap 3).bit b = false)
      ∧ 0 < usub (fastWorld.heap 3).t (fastWorld.heap 2).t
      ∧ usub (fastWorld.heap 3).t (fastWorld.heap 2).t ≤ Config.Default.gap_period
      ∧ ∃ w1, update gridGeo Config.Default fastWorld 3 = some w1
          ∧ ((fastWorld.heap 2).bit GAP_END = true →
              w1.seqPoints = fastWorld.seqPoints ++ [3] ∧ (w1.heap 3).bit NOISE = false
                ∧ w1.annoResults = fastWorld.annoResults)
          ∧ ((fastWorld.heap 2).bit GAP_END = false →
              Config.Default.max_speed ≤
                (3600 * getHaversineDistance gridGeo (fastWorld.heap 2).x (fastWorld.heap 2).y
                    (fastWorld.heap 3).x (fastWorld.heap 3).y)
                  / (1852 * (usub (fastWorld.heap 3).t (fastWorld.heap 2).t : ℚ)) →
              (w1.heap 3).bit NOISE = true ∧ 3 ∈ sinkPtrs w1 ∧ 3 ∉ w1.seqPoints
                ∧ w1.seqPoints.getLast? = some 2) :=
  ⟨by decide!, by decide!, by decide!, by decide!, by decide!,
   noise_by_speed_after_gap_end gridGeo Config.Default fastWorld 2 3 (by decide!) (by decide!)
     (by decide!) (by decide!) (by decide!)⟩

/-! ## The forward check when it appends the new object -/

section Appended

variable (g : Geo) (cfg : Config) (w : World) (q p : Nat) {K : Nat → Prop}

theorem footprint_stopEntry_quiet : Footprint quietMask K w (stopEntry w q p) := by
  unfold stopEntry
  simp only []
  split_ifs <;>
    repeat (first
      | exact footprint_refl _
      | exact footprint_setAnno _ _ (by simp [quietMask])
      | refine footprint_trans ?_ (footprint_resetStatus _ _)
      | refine footprint_trans ?_ (footprint_setStatus _ _)
      | refine footprint_trans ?_ (footprint_setAnno _ _ (by simp [quietMask])))

theorem footprint_stopExit_quiet : Footprint quietMask K w (stopExit g cfg w q) := by
  unfold stopExit
  split_ifs
  · exact footprint_trans (footprint_revokeStopFrom _ _ (fun _ => by simp [quietMask]))
      (footprint_resetStatus _ _)
  · exact footprint_trans (footprint_trans (footprint_setAnno q STOP_END (by simp [quietMask]))
      (footprint_resetStatus _ _))
      (footprint_revokeChangeInHeadingFrom _ _ (fun _ => by simp [quietMask]))
  · exact footprint_refl _

theorem footprint_forwardStop_quiet : Footprint quietMask K w (forwardStop g cfg w q p) := by
  unfold forwardStop
  simp only []
  split_ifs
  · exact footprint_stopEntry_quiet _ _ _
  · exact footprint_stopExit_quiet _ _ _ _
  · exact footprint_refl _

theorem footprint_forwardSpeed_quiet : Footprint quietMask K w (forwardSpeed cfg w q p) := by
  unfold forwardSpeed slowMotionEnd slowMotionStart speedChangeEnd speedChangeStart
  simp only []
  split_ifs <;>
    repeat (first
      | exact footprint_refl _
      | refine footprint_trans ?_ (footprint_resetStatus _ _)
      | refine footprint_trans ?_ (footprint_setStatus _ _)
      | refine footprint_trans ?_ (footprint_setAnno _ _ (by simp [quietMask])))

theorem footprint_measured :
    Footprint quietMask (fun i => i = p) w (setVelocity g (setDisplacement g w q p) q p) := by
  unfold setVelocity setDisplacement
  simp only []
  refine footprint_trans (footprint_trans (footprint_modify _ _ rfl ?_)
    (footprint_modify _ _ rfl ?_)) (footprint_modify _ _ rfl ?_) <;>
    intro l <;> exact ⟨rfl, rfl, rfl, rfl, rfl⟩

/-- When the noise filter appends the new object it emits nothing and writes no reported or
NOISE bit and no kinematic field. -/
theorem forwardFilter_appended
    (h : (forwardFilter g cfg w q p).seqPoints = w.seqPoints ++ [p]) :
    (forwardFilter g cfg w q p).annoResults = w.annoResults
      ∧ Footprint quietMask K w (forwardFilter g cfg w q p) := by
  unfold forwardFilter at h ⊢
  simp only [] at h ⊢
  split_ifs at h ⊢
  · simp at h
  · exact ⟨rfl, footprint_of_eq rfl⟩
  · refine ⟨?_, ?_⟩
    · rw [forwardSpeed_annoResults, forwardStop_annoResults]; rfl
    · exact footprint_trans (footprint_trans
        (show Footprint quietMask K w (append w p) from footprint_of_eq rfl)
        (footprint_forwardStop_quiet g cfg _ q p)) (footprint_forwardSpeed_quiet cfg _ q p)

/-- When the forward check appends the new object to a non-empty window it emits nothing,
writes no reported or NOISE bit, and changes the kinematic fields of the new object only. -/
theorem forwardMobilityCheck_appended (hq : w.seqPoints.getLast? = some q)
    (h : (forwardMobilityCheck g cfg w q p).seqPoints = w.seqPoints ++ [p]) :
    (forwardMobilityCheck g cfg w q p).annoResults = w.annoResults
      ∧ Footprint quietMask (fun i => i = p) w (forwardMobilityCheck g cfg w q p) := by
  have hne : w.seqPoints ≠ [] := by
    intro e; rw [e] at hq; cases hq
  have hm := footprint_measured g w q p
  unfold forwardMobilityCheck at h ⊢
  simp only [oldLocOf_last w q hq] at h ⊢
  split_ifs at h ⊢
  · simp [setDisplacement] at h
  · unfold forwardGap at h ⊢
    simp only [] at h ⊢
    split_ifs at h ⊢
    · obtain ⟨h1, h2⟩ := forwardFilter_appended (K := fun i => i = p) g cfg _ q p h
      refine ⟨h1, footprint_trans (footprint_trans (footprint_trans (footprint_trans hm
        (footprint_setAnno p GAP_END (by simp [quietMask])))
        (footprint_setAnno q GAP_START (by simp [quietMask]))) (footprint_setStatus _ _)) h2⟩
    · exfalso
      have h3 : [p] = w.seqPoints ++ [p] := by simpa [init, purge] using h
      have := congrArg List.length h3
      simp at this
      exact hne this
  · obtain ⟨h1, h2⟩ := forwardFilter_appended (K := fun i => i = p) g cfg _ q p h
    exact ⟨h1, footprint_trans hm h2⟩

end Appended

/-- C18: for every State with last window element `q` and every object `p` not in the
window that the forward check appends, if after the forward check the State is neither
STOPPED nor in SLOW_MOTION, `q` has no GAP_END, `p.speed > no_speed`,
`p.speed >= low_speed` and `angleDifference(p.heading, q.heading) > angle_threshold`, then
`update(p)` returns with CHANGE_IN_HEADING on `q` and window `[q, p]`; every older window
element has the reported bit, and when the window elements were distinct and the older
ones not yet reported, the `Sink` buffer is the old buffer with the older elements inserted
one by one, oldest first. -/
theorem heading_change_cleans_window (g : Geo) (cfg : Config) (w : World) (q p : Nat)
    (hq : w.seqPoints.getLast? = some q) (hp : p ∉ w.seqPoints)
    (happ : (forwardMobilityCheck g cfg w q p).seqPoints = w.seqPoints ++ [p])
    (hst : (forwardMobilityCheck g cfg w q p).isStopped = false)
    (hsl : (forwardMobilityCheck g cfg w q p).isSlowMotion = false)
    (hge : (w.heap q).bit GAP_END = false)
    (hv1 : cfg.no_speed < ((forwardMobilityCheck g cfg w q p).heap p).speed)
    (hv2 : cfg.low_speed ≤ ((forwardMobilityCheck g cfg w q p).heap p).speed)
    (ha : cfg.angle_threshold
      < angleDifference ((forwardMobilityCheck g cfg w q p).heap p).heading
          ((forwardMobilityCheck g cfg w q p).heap q).heading) :
    ∃ w1, update g cfg w p = some w1 ∧ (w1.heap q).bit CHANGE_IN_HEADING = true
      ∧ w1.seqPoints = [q, p]
      ∧ (∀ i ∈ w.seqPoints.dropLast, (w1.heap i).bit REPORTED = true)
      ∧ (w.seqPoints.Nodup → (∀ i ∈ w.seqPoints.dropLast, (w.heap i).bit REPORTED = false) →
          w1.annoResults
            = w.seqPoints.dropLast.foldl (fun acc i => mmInsert (w.heap i).t i acc)
                w.annoResults) := by
  refine ⟨updateFrom g cfg w q p, by simp [update, hq], ?_⟩
  have hqp : q ≠ p := fun e => hp (e ▸ List.mem_of_getLast?_eq_some hq)
  have hl : w.seqPoints = w.seqPoints.dropLast ++ [q] :=
    (List.dropLast_append_getLast? q (by simp [hq])).symm
  obtain ⟨hheap, hseq, hanno, _, _, _, _⟩ := updateFrom_fields g cfg w q p
  obtain ⟨hfanno, hquiet⟩ := forwardMobilityCheck_appended g cfg w q p hq happ
  have hfge : ((forwardMobilityCheck g cfg w q p).heap q).bit GAP_END = false := by
    have hf := footprint_forwardMobilityCheck g cfg w q p (oldLocOf_last w q hq)
    rw [hf.bit_eq q GAP_END (by simp [updMask, hqp])]
    exact hge
  have hfseq : (forwardMobilityCheck g cfg w q p).seqPoints
      = w.seqPoints.dropLast ++ [q, p] := by
    rw [happ]
    nth_rewrite 1 [hl]
    simp
  have hback : backwardMobilityCheck g cfg (forwardMobilityCheck g cfg w q p) q p
      = { w.seqPoints.dropLast.foldl reportPoint
            ((forwardMobilityCheck g cfg w q p).setAnno q CHANGE_IN_HEADING)
          with seqPoints := [q, p] } := by
    unfold backwardMobilityCheck
    simp only []
    rw [if_neg (by simp [hfge]), if_pos ⟨hv1, Or.inl ha⟩, if_neg, if_pos]
    · unfold cleanup
      rw [World.setAnno_seqPoints, hfseq, cleanupFrom_append_two]
    · constructor
      · show ¬ (forwardMobilityCheck g cfg w q p).isStopped = true
        rw [hst]; simp
      · show ¬ (forwardMobilityCheck g cfg w q p).isSlowMotion = true
        rw [hsl]; simp
    · rintro ⟨h1, _⟩
      exact absurd h1 (not_lt.2 hv2)
  rw [hheap, hseq, hanno, hback]
  generalize hwf : forwardMobilityCheck g cfg w q p = wf at hquiet hfanno
  refine ⟨?_, rfl, ?_, ?_⟩
  · show ((w.seqPoints.dropLast.foldl reportPoint (wf.setAnno q CHANGE_IN_HEADING)).heap q).bit
      CHANGE_IN_HEADING = true
    rw [(footprint_foldl_reportPoint (M := fun _ b => b = REPORTED) (K := fun _ => False)
      _ _ (fun _ => rfl)).bit_eq q CHANGE_IN_HEADING (by decide)]
    simp
  · intro i hi
    show ((w.seqPoints.dropLast.foldl reportPoint (wf.setAnno q CHANGE_IN_HEADING)).heap i).bit
      REPORTED = true
    rw [foldl_reportPoint_heap]
    simp [hi]
  · intro hn hr
    show (w.seqPoints.dropLast.foldl reportPoint (wf.setAnno q CHANGE_IN_HEADING)).annoResults
      = _
    have hn1 : w.seqPoints.dropLast.Nodup := by
      rw [hl] at hn
      exact (List.nodup_append.1 hn).1
    rw [foldl_reportPoint_annoResults _ _ hn1 (fun i hi => by
      rw [setAnno_bit_ne _ _ _ _ _ (by decide), hquiet.bit_eq i REPORTED (by simp [quietMask])]
      exact hr i hi)]
    have hf : (fun acc i => mmInsert (((wf.setAnno q CHANGE_IN_HEADING).heap i).t) i acc)
        = (fun acc i => mmInsert (w.heap i).t i acc) := by
      funext acc i
      rw [setAnno_t, (hquiet.pos_eq i).2.2.2]
    rw [hf]
    show w.seqPoints.dropLast.foldl _ wf.annoResults = _
    rw [hfanno]

/-- Witness for C18: scenario S4, three eastbound records and a northbound one, 60 s
apart; the third object gets CHANGE_IN_HEADING and the window becomes `[2, 3]`. -/
theorem heading_change_cleans_window_witness :
    s4World.seqPoints.getLast? = some 2 ∧ 3 ∉ s4World.seqPoints
      ∧ (forwardMobilityCheck gridGeo Config.Default s4World 2 3).seqPoints
          = s4World.seqPoints ++ [3]
      ∧ (forwardMobilityCheck gridGeo Config.Default s4World 2 3).isStopped = false
      ∧ (forwardMobilityCheck gridGeo Config.Default s4World 2 3).isSlowMotion = false
      ∧ (s4World.heap 2).bit GAP_END = false
      ∧ Config.Default.no_speed
          < ((forwardMobilityCheck gridGeo Config.Default s4World 2 3).heap 3).speed
      ∧ Config.Default.low_speed
          ≤ ((forwardMobilityCheck gridGeo Config.Default s4World 2 3).heap 3).speed
      ∧ Config.Default.angle_threshold
          < angleDifference
              ((forwardMobilityCheck gridGeo Config.Default s4World 2 3).heap 3).heading
              ((forwardMobilityCheck gridGeo Config.Default s4World 2 3).heap 2).heading
      ∧ ∃ w1, update gridGeo Config.Default s4World 3 = some w1
          ∧ (w1.heap 2).bit CHANGE_IN_HEADING = true ∧ w1.seqPoints = [2, 3]
          ∧ (∀ i ∈ s4World.seqPoints.dropLast, (w1.heap i).bit REPORTED = true)
          ∧ (s4World.seqPoints.Nodup →
              (∀ i ∈ s4World.seqPoints.dropLast, (s4World.heap i).bit REPORTED = false) →
              w1.annoResults
                = s4World.seqPoints.dropLast.foldl
                    (fun acc i => mmInsert (s4World.heap i).t i acc) s4World.annoResults) :=
  ⟨by decide!, by decide!, by decide!, by decide!, by decide!, by decide!, by decide!,
   by decide!, by decide!,
   heading_change_cleans_window gridGeo Config.Default s4World 2 3 (by decide!) (by decide!)
     (by decide!) (by decide!) (by decide!) (by decide!) (by decide!) (by decide!)
     (by decide!)⟩

/-! ## The slow-motion tests of the forward check -/

section SlowMotion

variable (g : Geo) (cfg : Config) (w : World) (q p : Nat)

/-- The two speed-change tests leave the speeds, the slow-motion bits, and the STOPPED and
SLOW_MOTION flags alone. -/
theorem speedChange_spec (m : ℚ) :
    (∀ i, ((speedChangeEnd cfg m (speedChangeStart cfg m w p) p).heap i).speed
        = (w.heap i).speed)
      ∧ (∀ i, i ≠ p → (speedChangeEnd cfg m (speedChangeStart cfg m w p) p).heap i = w.heap i)
      ∧ (∀ i b, b = SLOW_MOTION_START ∨ b = SLOW_MOTION_END →
          ((speedChangeEnd cfg m (speedChangeStart cfg m w p) p).heap i).bit b
            = (w.heap i).bit b)
      ∧ (speedChangeEnd cfg m (speedChangeStart cfg m w p) p).isSlowMotion = w.isSlowMotion
      ∧ (speedChangeEnd cfg m (speedChangeStart cfg m w p) p).isStopped = w.isStopped := by
  have key : ∀ (w : World) (b : Fin 11) (i : Nat),
      ((w.setAnno p b).heap i).speed = (w.heap i).speed := by
    intro w b i
    simp only [World.setAnno_heap]
    split_ifs with h
    · subst h; rfl
    · rfl
  refine ⟨?_, ?_, ?_, ?_, ?_⟩
  · intro i
    unfold speedChangeEnd speedChangeStart
    split_ifs <;> simp only [World.setStatus_heap, World.resetStatus_heap, key]
  · intro i hi
    unfold speedChangeEnd speedChangeStart
    split_ifs <;> simp [hi]
  · intro i b hb
    unfold speedChangeEnd speedChangeStart
    rcases hb with rfl | rfl <;> split_ifs <;>
      simp only [World.setStatus_heap, World.resetStatus_heap,
        setAnno_bit_ne _ _ _ _ _ (show (4 : Fin 11) ≠ 2 by decide),
        setAnno_bit_ne _ _ _ _ _ (show (4 : Fin 11) ≠ 3 by decide),
        setAnno_bit_ne _ _ _ _ _ (show (5 : Fin 11) ≠ 2 by decide),
        setAnno_bit_ne _ _ _ _ _ (show (5 : Fin 11) ≠ 3 by decide),
        SLOW_MOTION_START, SLOW_MOTION_END, CHANGE_IN_SPEED_START, CHANGE_IN_SPEED_END]
  · unfold speedChangeEnd speedChangeStart World.isSlowMotion
    split_ifs <;> simp
  · unfold speedChangeEnd speedChangeStart World.isStopped
    split_ifs <;> simp

/-- Effect of the SLOW_MOTION_START test. -/
theorem slowMotionStart_spec :
    (∀ i, ((slowMotionStart cfg w q p).heap i).speed = (w.heap i).speed)
      ∧ (∀ i, i ≠ p → (slowMotionStart cfg w q p).heap i = w.heap i)
      ∧ (∀ i, ((slowMotionStart cfg w q p).heap i).bit SLOW_MOTION_END
          = (w.heap i).bit SLOW_MOTION_END)
      ∧ (((slowMotionStart cfg w q p).heap p).bit SLOW_MOTION_START = true
          ↔ (w.heap p).bit SLOW_MOTION_START = true
            ∨ ((w.heap p).speed ≤ cfg.low_speed ∧ cfg.low_speed < (w.heap q).speed
                ∧ w.isSlowMotion = false))
      ∧ ((slowMotionStart cfg w q p).isSlowMotion = true
          ↔ w.isSlowMotion = true
            ∨ ((w.heap p).speed ≤ cfg.low_speed ∧ cfg.low_speed < (w.heap q).speed
                ∧ w.isSlowMotion = false))
      ∧ (slowMotionStart cfg w q p).isStopped = w.isStopped := by
  unfold slowMotionStart
  split_ifs with h
  · have hc : (w.heap p).speed ≤ cfg.low_speed ∧ cfg.low_speed < (w.heap q).speed
        ∧ w.isSlowMotion = false := ⟨h.1, h.2.1, by simpa using h.2.2⟩
    refine ⟨?_, ?_, ?_, ?_, ?_, ?_⟩
    · intro i
      simp only [World.setStatus_heap, World.setAnno_heap]
      split_ifs with hi
      · subst hi; rfl
      · rfl
    · intro i hi; simp [hi]
    · intro i
      simp only [World.setStatus_heap]
      exact setAnno_bit_ne _ _ _ _ _ (by decide)
    · simp [hc]
    · simp [World.isSlowMotion, hc]
    · simp [World.isStopped]
  · have hc : ¬ ((w.heap p).speed ≤ cfg.low_speed ∧ cfg.low_speed < (w.heap q).speed
        ∧ w.isSlowMotion = false) := by
      rintro ⟨h1, h2, h3⟩
      exact h ⟨h1, h2, by simp [h3]⟩
    exact ⟨fun _ => rfl, fun _ _ => rfl, fun _ => rfl, by simp [hc], by simp [hc], rfl⟩

/-- Effect of the SLOW_MOTION_END test. -/
theorem slowMotionEnd_spec :
    (∀ i, ((slowMotionEnd cfg w q p).heap i).speed = (w.heap i).speed)
      ∧ (∀ i, i ≠ p → (slowMotionEnd cfg w q p).heap i = w.heap i)
      ∧ (∀ i, ((slowMotionEnd cfg w q p).heap i).bit SLOW_MOTION_START
          = (w.heap i).bit SLOW_MOTION_START)
      ∧ (((slowMotionEnd cfg w q p).heap p).bit SLOW_MOTION_END = true
          ↔ (w.heap p).bit SLOW_MOTION_END = true
            ∨ (cfg.low_speed < (w.heap p).speed ∧ (w.heap q).speed ≤ cfg.low_speed
                ∧ w.isSlowMotion = true))
      ∧ ((slowMotionEnd cfg w q p).isSlowMotion = true
          ↔ w.isSlowMotion = true
            ∧ ¬ (cfg.low_speed < (w.heap p).speed ∧ (w.heap q).speed ≤ cfg.low_speed))
      ∧ (slowMotionEnd cfg w q p).isStopped = w.isStopped := by
  unfold slowMotionEnd
  split_ifs with h
  · have hc : cfg.low_speed < (w.heap p).speed ∧ (w.heap q).speed ≤ cfg.low_speed
        ∧ w.isSlowMotion = true := ⟨h.1, h.2.1, h.2.2⟩
    refine ⟨?_, ?_, ?_, ?_, ?_, ?_⟩
    · intro i
      simp only [World.resetStatus_heap, World.setAnno_heap]
      split_ifs with hi
      · subst hi; rfl
      · rfl
    · intro i hi; simp [hi]
    · intro i
      simp only [World.resetStatus_heap]
      exact setAnno_bit_ne _ _ _ _ _ (by decide)
    · simp [hc]
    · simp [World.isSlowMotion, hc.1, hc.2.1]
    · simp [World.isStopped]
  · refine ⟨fun _ => rfl, fun _ _ => rfl, fun _ => rfl, ?_, ?_, rfl⟩
    · constructor
      · exact fun hx => Or.inl hx
      · rintro (hx | ⟨h1, h2, h3⟩)
        · exact hx
        · exact absurd ⟨h1, h2, h3⟩ h
    · constructor
      · intro hx
        exact ⟨hx, fun hc => h ⟨hc.1, hc.2, hx⟩⟩
      · exact fun hx => hx.1

end SlowMotion

section PlainUpdate

variable (g : Geo) (cfg : Config) (w : World) (q p : Nat)

/-- Effect of the speed-change / slow-motion block on a State that is not STOPPED. -/
theorem forwardSpeed_slow (hs : w.isStopped = false) :
    (∀ i, ((forwardSpeed cfg w q p).heap i).speed = (w.heap i).speed)
      ∧ (∀ i, i ≠ p → ∀ b, b = SLOW_MOTION_START ∨ b = SLOW_MOTION_END →
          ((forwardSpeed cfg w q p).heap i).bit b = (w.heap i).bit b)
      ∧ (((forwardSpeed cfg w q p).heap p).bit SLOW_MOTION_START = true
          ↔ (w.heap p).bit SLOW_MOTION_START = true
            ∨ ((w.heap p).speed ≤ cfg.low_speed ∧ cfg.low_speed < (w.heap q).speed
                ∧ w.isSlowMotion = false))
      ∧ (((forwardSpeed cfg w q p).heap p).bit SLOW_MOTION_END = true
          ↔ (w.heap p).bit SLOW_MOTION_END = true
            ∨ (cfg.low_speed < (w.heap p).speed ∧ (w.heap q).speed ≤ cfg.low_speed
                ∧ w.isSlowMotion = true))
      ∧ ((forwardSpeed cfg w q p).isSlowMotion = true
          ↔ ((w.heap p).speed ≤ cfg.low_speed ∧ cfg.low_speed < (w.heap q).speed
                ∧ w.isSlowMotion = false)
            ∨ (w.isSlowMotion = true
                ∧ ¬ (cfg.low_speed < (w.heap p).speed ∧ (w.heap q).speed ≤ cfg.low_speed)))
      ∧ (forwardSpeed cfg w q p).isStopped = false := by
  unfold forwardSpeed
  rw [if_pos (by simp [hs])]
  simp only []
  obtain ⟨a1, a2, a3, a4, a5⟩ := speedChange_spec cfg w p (getMeanSpeed w)
  generalize speedChangeEnd cfg (getMeanSpeed w) (speedChangeStart cfg (getMeanSpeed w) w p) p
    = y at a1 a2 a3 a4 a5
  obtain ⟨b1, b2, b3, b4, b5, b6⟩ := slowMotionStart_spec cfg y q p
  generalize slowMotionStart cfg y q p = z at b1 b2 b3 b4 b5 b6
  obtain ⟨c1, c2, c3, c4, c5, c6⟩ := slowMotionEnd_spec cfg z q p
  generalize slowMotionEnd cfg z q p = f at c1 c2 c3 c4 c5 c6
  refine ⟨?_, ?_, ?_, ?_, ?_, ?_⟩
  · intro i; rw [c1, b1, a1]
  · intro i hi b hb
    rw [c2 i hi, b2 i hi, a3 i b hb]
  · rw [c3, b4, a3 p _ (Or.inl rfl), a1, a1, a4]
  · rw [c4, b3, a3 p _ (Or.inr rfl), b1, b1, a1, a1, b5, a4, a1, a1]
    constructor
    · rintro (h | ⟨h1, h2, h3 | ⟨h4, _⟩⟩)
      · exact Or.inl h
      · exact Or.inr ⟨h1, h2, h3⟩
      · exact absurd h1 (not_lt.2 h4)
    · rintro (h | ⟨h1, h2, h3⟩)
      · exact Or.inl h
      · exact Or.inr ⟨h1, h2, Or.inl h3⟩
  · rw [c5, b5, b1, b1, a4, a1, a1]
    constructor
    · rintro ⟨h | h, hn⟩
      · exact Or.inr ⟨h, hn⟩
      · exact Or.inl h
    · rintro (h | ⟨h, hn⟩)
      · exact ⟨Or.inr h, fun hc => absurd h.1 (not_le.2 hc.1)⟩
      · exact ⟨Or.inl h, hn⟩
  · rw [c6, b6, a5, hs]

theorem stopEntry_stopped : (stopEntry w q p).isStopped = true := by
  unfold stopEntry World.isStopped
  simp only [World.isSlowMotion, World.hasSpeedChanged]
  split_ifs <;> simp

theorem stopEntry_bit_stopEnd (i : Nat) :
    ((stopEntry w q p).heap i).bit STOP_END = (w.heap i).bit STOP_END := by
  unfold stopEntry
  simp only []
  split_ifs <;>
    simp only [World.setStatus_heap, World.resetStatus_heap,
      setAnno_bit_ne _ _ _ _ _ (show (1 : Fin 11) ≠ 0 by decide),
      setAnno_bit_ne _ _ _ _ _ (show (1 : Fin 11) ≠ 3 by decide),
      setAnno_bit_ne _ _ _ _ _ (show (1 : Fin 11) ≠ 5 by decide),
      STOP_END, STOP_START, SLOW_MOTION_END, CHANGE_IN_SPEED_END]

theorem forwardStop_of_not_stopped (hs : w.isStopped = false) :
    forwardStop g cfg w q p = w ∨ forwardStop g cfg w q p = stopEntry w q p := by
  unfold forwardStop
  simp only []
  split_ifs with h1 h2
  · exact Or.inr rfl
  · exact absurd h2.1 (by simp [hs])
  · exact Or.inl rfl

/-- The forward check after a gap in a State that is not STOPPED: purge, then `init`. -/
theorem forwardMobilityCheck_gap_purge (hq : w.seqPoints.getLast? = some q)
    (hs : w.isStopped = false) (ht : cfg.gap_period < usub (w.heap p).t (w.heap q).t) :
    forwardMobilityCheck g cfg w q p
      = init (purge (((setVelocity g (setDisplacement g w q p) q p).setAnno p GAP_END).setAnno
          q GAP_START)) p := by
  rw [forwardMobilityCheck_gap g cfg w q p hq ht]
  unfold forwardGap
  simp only []
  rw [if_neg]
  intro hc
  have hx : ((((setVelocity g (setDisplacement g w q p) q p).setAnno p GAP_END).setAnno
      q GAP_START).isStopped) = w.isStopped := rfl
  rw [hx, hs] at hc
  exact Bool.noConfusion hc.1

/-- The forward check of a fresh object that ends up with neither NOISE nor GAP_END, in a
State that is not STOPPED before or after `update`: the object is appended and only the
speed-change / slow-motion block runs. -/
theorem forwardMobilityCheck_plain (hq : w.seqPoints.getLast? = some q) (hp : p ∉ w.seqPoints)
    (hfresh : ∀ b, (w.heap p).bit b = false) (hs : w.isStopped = false)
    (hgap : ((updateFrom g cfg w q p).heap p).bit GAP_END = false)
    (hnoise : ((updateFrom g cfg w q p).heap p).bit NOISE = false)
    (hstop : (updateFrom g cfg w q p).isStopped = false) :
    forwardMobilityCheck g cfg w q p
      = forwardSpeed cfg (append (setVelocity g (setDisplacement g w q p) q p) p) q p := by
  have hqp : q ≠ p := fun e => hp (e ▸ List.mem_of_getLast?_eq_some hq)
  have hne : w.seqPoints ≠ [] := by
    intro e; rw [e] at hq; cases hq
  obtain ⟨hheap, _, _, _, _, _, hstat⟩ := updateFrom_fields g cfg w q p
  have hfp := footprint_backward g cfg (forwardMobilityCheck g cfg w q p) q p
  have hfr := frame_backwardMobilityCheck (S := fun _ => False) g cfg
    (forwardMobilityCheck g cfg w q p) q p
  have hN : ((forwardMobilityCheck g cfg w q p).heap p).bit NOISE = false := by
    rw [← noise_of_frame hfr, ← hheap]; exact hnoise
  have hG : ((forwardMobilityCheck g cfg w q p).heap p).bit GAP_END = false := by
    rw [← hfp.bit_eq p GAP_END (by simp [backMask]), ← hheap]; exact hgap
  have hE : ((backwardMobilityCheck g cfg (forwardMobilityCheck g cfg w q p) q p).heap p).bit
      STOP_END = ((forwardMobilityCheck g cfg w q p).heap p).bit STOP_END :=
    hfp.bit_eq p STOP_END (by simp [backMask])
  by_cases h1 : usub (w.heap p).t (w.heap q).t ≤ 0
  · exfalso
    have hfw : forwardMobilityCheck g cfg w q p
        = reportPoint ((setDisplacement g w q p).setAnno p NOISE) p := by
      unfold forwardMobilityCheck
      simp only [oldLocOf_last w q hq, setDisplacement_time_elapsed]
      rw [if_pos h1]
    rw [hfw, reportPoint_heap] at hN
    simp at hN
  by_cases h2 : cfg.gap_period < usub (w.heap p).t (w.heap q).t
  · exfalso
    rw [forwardMobilityCheck_gap_purge g cfg w q p hq hs h2] at hG
    simp [init] at hG
  have hpath : forwardMobilityCheck g cfg w q p
      = forwardSpeed cfg (forwardStop g cfg
          (append (setVelocity g (setDisplacement g w q p) q p) p) q p) q p := by
    rw [forwardMobilityCheck_nogap g cfg w q p hq (by omega) (by omega)] at hN ⊢
    unfold forwardFilter at hN ⊢
    simp only [] at hN ⊢
    split_ifs at hN ⊢ with h3 h4
    · rw [reportPoint_heap] at hN
      simp at hN
    · exfalso
      have : 0 < w.seqPoints.length := List.length_pos.2 hne
      simp [append, setVelocity, setDisplacement] at h4
      omega
    · rfl
  have hwa : (append (setVelocity g (setDisplacement g w q p) q p) p).isStopped = false := hs
  rcases forwardStop_of_not_stopped g cfg _ q p hwa with h5 | h5
  · rw [hpath, h5]
  · exfalso
    have hst1 := stopEntry_stopped (append (setVelocity g (setDisplacement g w q p) q p) p) q p
    have hfs : forwardSpeed cfg
        (stopEntry (append (setVelocity g (setDisplacement g w q p) q p) p) q p) q p
        = stopEntry (append (setVelocity g (setDisplacement g w q p) q p) p) q p := by
      unfold forwardSpeed
      rw [if_neg (by simp [hst1])]
    rw [h5, hfs] at hpath
    have hE2 : ((backwardMobilityCheck g cfg (forwardMobilityCheck g cfg w q p) q p).heap p).bit
        STOP_END = false := by
      rw [hE, hpath, stopEntry_bit_stopEnd]
      show ((setVelocity g (setDisplacement g w q p) q p).heap p).bit STOP_END = false
      rw [measured_bit]; exact hfresh _
    have hx := hstat hE2
    unfold World.isStopped at hstop hst1
    rw [hx, hpath, hst1] at hstop
    cases hstop

end PlainUpdate

section PlainStep

variable (g : Geo) (cfg : Config) (w : World) (q p : Nat)

/-- One `update` that appends a fresh object plainly (no gap, no noise, the State not
STOPPED before or after): the new object is the last window element, the slow-motion bits
of the other objects are unchanged, and the slow-motion bits of the new object and the
SLOW_MOTION flag are decided by the two speeds. -/
theorem updateFrom_plain (hq : w.seqPoints.getLast? = some q) (hp : p ∉ w.seqPoints)
    (hfresh : ∀ b, (w.heap p).bit b = false) (hs : w.isStopped = false)
    (hgap : ((updateFrom g cfg w q p).heap p).bit GAP_END = false)
    (hnoise : ((updateFrom g cfg w q p).heap p).bit NOISE = false)
    (hstop : (updateFrom g cfg w q p).isStopped = false) :
    (updateFrom g cfg w q p).seqPoints.getLast? = some p
      ∧ (∀ i ∈ (updateFrom g cfg w q p).seqPoints, i ∈ w.seqPoints ∨ i = p)
      ∧ (∀ i, i ≠ p → ∀ b, b = SLOW_MOTION_START ∨ b = SLOW_MOTION_END →
          ((updateFrom g cfg w q p).heap i).bit b = (w.heap i).bit b)
      ∧ (((updateFrom g cfg w q p).heap p).bit SLOW_MOTION_START = true
          ↔ (((updateFrom g cfg w q p).heap p).speed ≤ cfg.low_speed
              ∧ cfg.low_speed < (w.heap q).speed ∧ w.isSlowMotion = false))
      ∧ (((updateFrom g cfg w q p).heap p).bit SLOW_MOTION_END = true
          ↔ (cfg.low_speed < ((updateFrom g cfg w q p).heap p).speed
              ∧ (w.heap q).speed ≤ cfg.low_speed ∧ w.isSlowMotion = true))
      ∧ ((updateFrom g cfg w q p).isSlowMotion = true
          ↔ (((updateFrom g cfg w q p).heap p).speed ≤ cfg.low_speed
                ∧ cfg.low_speed < (w.heap q).speed ∧ w.isSlowMotion = false)
            ∨ (w.isSlowMotion = true
                ∧ ¬ (cfg.low_speed < ((updateFrom g cfg w q p).heap p).speed
                      ∧ (w.heap q).speed ≤ cfg.low_speed))) := by
  have hqp : q ≠ p := fun e => hp (e ▸ List.mem_of_getLast?_eq_some hq)
  have hpath := forwardMobilityCheck_plain g cfg w q p hq hp hfresh hs hgap hnoise hstop
  obtain ⟨hheap, hseq, _, _, hst, _, _⟩ := updateFrom_fields g cfg w q p
  have hfp := footprint_backward g cfg (forwardMobilityCheck g cfg w q p) q p
  have hsuf := backwardMobilityCheck_suffix g cfg (forwardMobilityCheck g cfg w q p) q p
  have hlast := backwardMobilityCheck_getLast g cfg (forwardMobilityCheck g cfg w q p) q p
  have hwa : (append (setVelocity g (setDisplacement g w q p) q p) p).isStopped = false := hs
  obtain ⟨f1, f2, f3, f4, f5, _⟩ := forwardSpeed_slow cfg
    (append (setVelocity g (setDisplacement g w q p) q p) p) q p hwa
  have hfseq : (forwardMobilityCheck g cfg w q p).seqPoints = w.seqPoints ++ [p] := by
    rw [hpath, (forwardSpeed_seqPoints _ _ _ _).1]; rfl
  have hslow : (updateFrom g cfg w q p).isSlowMotion
      = (forwardMobilityCheck g cfg w q p).isSlowMotion := hst SLOW_MOTION (by decide)
  have hbit : ∀ i b, b = SLOW_MOTION_START ∨ b = SLOW_MOTION_END →
      ((updateFrom g cfg w q p).heap i).bit b
        = ((forwardMobilityCheck g cfg w q p).heap i).bit b := by
    intro i b hb
    rw [hheap]
    refine hfp.bit_eq i b ?_
    rcases hb with rfl | rfl <;> simp [backMask]
  have hspeed : ((updateFrom g cfg w q p).heap p).speed
      = ((setVelocity g (setDisplacement g w q p) q p).heap p).speed := by
    rw [hheap, (hfp.kin_eq p (fun e => hqp e.symm)).1, hpath, f1]
    rfl
  have hqspeed : ((append (setVelocity g (setDisplacement g w q p) q p) p).heap q).speed
      = (w.heap q).speed := by
    show ((setVelocity g (setDisplacement g w q p) q p).heap q).speed = _
    rw [measured_other g w q p q hqp]
  have hpspeed : ((append (setVelocity g (setDisplacement g w q p) q p) p).heap p).speed
      = ((setVelocity g (setDisplacement g w q p) q p).heap p).speed := rfl
  have hwslow : (append (setVelocity g (setDisplacement g w q p) q p) p).isSlowMotion
      = w.isSlowMotion := rfl
  have hpbit : ∀ b, ((append (setVelocity g (setDisplacement g w q p) q p) p).heap p).bit b
      = false := by
    intro b
    show ((setVelocity g (setDisplacement g w q p) q p).heap p).bit b = false
    rw [measured_bit]; exact hfresh b
  refine ⟨?_, ?_, ?_, ?_, ?_, ?_⟩
  · rw [hseq, hlast, hfseq]; simp
  · intro i hi
    rw [hseq] at hi
    have := hsuf.subset hi
    rw [hfseq] at this
    simpa using this
  · intro i hi b hb
    rw [hbit i b hb, hpath, f2 i hi b hb]
    show ((setVelocity g (setDisplacement g w q p) q p).heap i).bit b = _
    rw [measured_bit]
  · rw [hbit p _ (Or.inl rfl), hpath, f3, hpbit, hqspeed, hpspeed, hwslow, hspeed]
    simp
  · rw [hbit p _ (Or.inr rfl), hpath, f4, hpbit, hqspeed, hpspeed, hwslow, hspeed]
    simp
  · rw [hslow, hpath, f5, hqspeed, hpspeed, hwslow, hspeed]

theorem expungeFrom_getLast (t : Nat) (l : List Nat) (w : World) :
    (expungeFrom cfg t w l).seqPoints.getLast? = l.getLast? := by
  induction l generalizing w with
  | nil => rfl
  | cons a as ih =>
    unfold expungeFrom
    split_ifs with h
    · rw [ih]
      cases as with
      | nil => simp at h
      | cons b bs => simp [List.getLast?_cons_cons]
    · rfl

/-- Eviction keeps the last window element and, on a non-empty window, the status flags. -/
theorem expungeObsoleteLocations_getLast (t : Nat) (hq : w.seqPoints.getLast? = some q) :
    (expungeObsoleteLocations cfg w t).seqPoints.getLast? = some q
      ∧ (expungeObsoleteLocations cfg w t).status = w.status := by
  unfold expungeObsoleteLocations
  simp only []
  split_ifs
  · exact ⟨hq, rfl⟩
  · have h1 := expungeFrom_getLast cfg t w.seqPoints w
    rw [hq] at h1
    rw [h1]
    exact ⟨h1, expungeFrom_status cfg t _ w⟩

end PlainStep

section Dip

variable (g : Geo) (cfg : Config)

theorem some_getD_of_isSome {α : Type} (o : Option α) (d : α) (h : o.isSome = true) :
    o = some (o.getD d) := by
  cases o with
  | none => cases h
  | some a => rfl

/-- One plainly appended record, seen from the router: the new object (at the old value of
`allocated`) becomes the last window element; the slow-motion bits of all other objects are
unchanged; the slow-motion bits of the new object and the SLOW_MOTION flag are decided by
the speed of the new object and that of the previous last element. -/
theorem plainAppend_step (w : World) (q : Nat) (r : Raw) (w1 : World)
    (hlt : ∀ i ∈ w.seqPoints, i < w.allocated) (hq : w.seqPoints.getLast? = some q)
    (hs : w.isStopped = false) (h : PlainAppend g cfg w r w1) :
    w1.allocated = w.allocated + 1 ∧ (∀ i ∈ w1.seqPoints, i < w1.allocated)
      ∧ w1.seqPoints.getLast? = some w.allocated
      ∧ (∀ i, i ≠ w.allocated → ∀ b, b = SLOW_MOTION_START ∨ b = SLOW_MOTION_END →
          (w1.heap i).bit b = (w.heap i).bit b)
      ∧ ((w1.heap w.allocated).bit SLOW_MOTION_START = true
          ↔ ((w1.heap w.allocated).speed ≤ cfg.low_speed
              ∧ cfg.low_speed < (w.heap q).speed ∧ w.isSlowMotion = false))
      ∧ ((w1.heap w.allocated).bit SLOW_MOTION_END = true
          ↔ (cfg.low_speed < (w1.heap w.allocated).speed
              ∧ (w.heap q).speed ≤ cfg.low_speed ∧ w.isSlowMotion = true))
      ∧ (w1.isSlowMotion = true
          ↔ ((w1.heap w.allocated).speed ≤ cfg.low_speed
                ∧ cfg.low_speed < (w.heap q).speed ∧ w.isSlowMotion = false)
            ∨ (w.isSlowMotion = true
                ∧ ¬ (cfg.low_speed < (w1.heap w.allocated).speed
                      ∧ (w.heap q).speed ≤ cfg.low_speed))) := by
  obtain ⟨hstep, hgap, hnoise, hstop⟩ := h
  obtain ⟨a1, a2, a3, a4, a5, a6, a7⟩ := alloc_facts w r
  have hqlt : q < w.allocated := hlt q (List.mem_of_getLast?_eq_some hq)
  have hqa : q ≠ w.allocated := by omega
  unfold feed route at hstep
  rw [a1] at hstep
  by_cases hk : (alloc w r).1.known = true
  swap
  · exfalso
    rw [if_pos hk] at hstep
    cases hstep
    simp [init] at hgap
  rw [if_neg (by simp [hk])] at hstep
  simp only [] at hstep
  generalize hwa : (alloc w r).1 = wa at hstep a2 a3 a4 a5 a6 a7 hk
  obtain ⟨e1, e2⟩ := expungeObsoleteLocations_getLast cfg wa q (wa.heap w.allocated).t
    (by rw [a3]; exact hq)
  have e3 := expungeObsoleteLocations_subset cfg (wa.heap w.allocated).t wa
  have e4 := frame_expungeObsoleteLocations (S := fun _ => False) cfg wa (wa.heap w.allocated).t
  have e5 : Footprint (fun _ b => b = REPORTED) (fun _ => False) wa
      (expungeObsoleteLocations cfg wa (wa.heap w.allocated).t) :=
    footprint_expungeObsoleteLocations cfg wa _ (fun _ => rfl)
  have hpn : w.allocated ∉ wa.seqPoints := by
    rw [a3]
    intro hm
    exact absurd (hlt _ hm) (lt_irrefl _)
  have e6 := expungeObsoleteLocations_heap_of_not_mem cfg (wa.heap w.allocated).t wa
    w.allocated hpn
  generalize hwe : expungeObsoleteLocations cfg wa (wa.heap w.allocated).t = we
    at hstep e1 e2 e3 e4 e5 e6
  have hne : we.seqPoints ≠ [] := by
    intro e; rw [e] at e1; cases e1
  rw [if_neg hne] at hstep
  unfold update at hstep
  rw [e1] at hstep
  simp only [Option.some.injEq] at hstep
  subst hstep
  have hp : w.allocated ∉ we.seqPoints := fun hm => hpn (e3.subset hm)
  have hfresh : ∀ b, (we.heap w.allocated).bit b = false := by
    intro b
    rw [e6, a6]
    rfl
  have hwes : we.isStopped = false := by
    unfold World.isStopped
    rw [e2, a4]
    exact hs
  obtain ⟨u1, u2, u3, u4, u5, u6⟩ :=
    updateFrom_plain g cfg we q w.allocated e1 hp hfresh hwes hgap hnoise hstop
  have hqs : (we.heap q).speed = (w.heap q).speed := by
    rw [(e5.kin_eq q (fun hx => hx)).1, a7 q hqa]
  have hsl : we.isSlowMotion = w.isSlowMotion := by
    unfold World.isSlowMotion
    rw [e2, a4]
  have hfu := frame_updateFrom (S := fun _ => True) g cfg we w.allocated q trivial
  refine ⟨?_, ?_, u1, ?_, ?_, ?_, ?_⟩
  · rw [hfu.allocated_eq, e4.allocated_eq, a2]
  · intro i hi
    rw [hfu.allocated_eq, e4.allocated_eq, a2]
    rcases u2 i hi with hm | rfl
    · have := hlt i (a3 ▸ e3.subset hm)
      omega
    · omega
  · intro i hi b hb
    rw [u3 i hi b hb, e5.bit_eq i b (by rcases hb with rfl | rfl <;> decide), a7 i hi]
  · rw [u4, hqs, hsl]
  · rw [u5, hqs, hsl]
  · rw [u6, hqs, hsl]

end Dip

/-- A run of plainly appended low-speed records in SLOW_MOTION after a low-speed point:
the State stays in SLOW_MOTION, the slow-motion bits of the older objects are unchanged and
none of the new objects gets a slow-motion bit. -/
theorem lowRun_tail (g : Geo) (cfg : Config) (rs : List Raw) (w wk : World)
    (hrun : LowRun g cfg w rs wk) (hlt : ∀ i ∈ w.seqPoints, i < w.allocated)
    (hq : ∃ q, w.seqPoints.getLast? = some q ∧ (w.heap q).speed ≤ cfg.low_speed)
    (hs : w.isStopped = false) (hsl : w.isSlowMotion = true) :
    (∀ i ∈ wk.seqPoints, i < wk.allocated)
      ∧ (∃ q, wk.seqPoints.getLast? = some q ∧ (wk.heap q).speed ≤ cfg.low_speed)
      ∧ wk.isStopped = false ∧ wk.isSlowMotion = true
      ∧ wk.allocated = w.allocated + rs.length
      ∧ (∀ i, i < w.allocated → ∀ b, b = SLOW_MOTION_START ∨ b = SLOW_MOTION_END →
          (wk.heap i).bit b = (w.heap i).bit b)
      ∧ (∀ i, w.allocated ≤ i → i < wk.allocated → ∀ b,
          b = SLOW_MOTION_START ∨ b = SLOW_MOTION_END → (wk.heap i).bit b = false) := by
  induction rs generalizing w with
  | nil =>
    have e : wk = w := hrun
    subst e
    exact ⟨hlt, hq, hs, hsl, rfl, fun _ _ _ _ => rfl, fun i h1 h2 => absurd h1 (not_le.2 h2)⟩
  | cons r rs ih =>
    obtain ⟨w1, hpa, hv, hrest⟩ := hrun
    obtain ⟨q, hq1, hq2⟩ := hq
    obtain ⟨s1, s2, s3, s4, s5, s6, s7⟩ := plainAppend_step g cfg w q r w1 hlt hq1 hs hpa
    have hsl1 : w1.isSlowMotion = true :=
      s7.2 (Or.inr ⟨hsl, fun hc => absurd hv (not_le.2 hc.1)⟩)
    have hb4 : (w1.heap w.allocated).bit SLOW_MOTION_START = false := by
      cases hx : (w1.heap w.allocated).bit SLOW_MOTION_START with
      | false => rfl
      | true => exact absurd hq2 (not_le.2 (s5.1 hx).2.1)
    have hb5 : (w1.heap w.allocated).bit SLOW_MOTION_END = false := by
      cases hx : (w1.heap w.allocated).bit SLOW_MOTION_END with
      | false => rfl
      | true => exact absurd hv (not_le.2 (s6.1 hx).1)
    obtain ⟨t1, t2, t3, t4, t5, t6, t7⟩ :=
      ih w1 hrest s2 ⟨w.allocated, s3, hv⟩ hpa.noStop hsl1
    refine ⟨t1, t2, t3, t4, ?_, ?_, ?_⟩
    · rw [t5, s1, List.length_cons]; omega
    · intro i hi b hb
      rw [t6 i (by omega) b hb, s4 i (by omega) b hb]
    · intro i h1 h2 b hb
      by_cases hi : i = w.allocated
      · subst hi
        rw [t6 _ (by omega) b hb]
        rcases hb with rfl | rfl
        · exact hb4
        · exact hb5
      · exact t7 i (by omega) h2 b hb

/-- C19, counterexample: under the Default Config, after a stop and a record 44.5 m away
the State is STOPPED, not in SLOW_MOTION, and its last element has speed above `low_speed`
(about 2.9 knots).  The next record (speed 0) and the one after it (about 2.2 knots) are
appended with no gap, no noise and no stop entry, yet neither gets SLOW_MOTION_START or
SLOW_MOTION_END: the only labels are those of the stop. -/
theorem stopped_dip_has_no_slow_motion :
    (run gridGeo Config.Default (stoppedDipRecords.take 3)).map
        (fun w => (w.seqPoints, w.isStopped, w.isSlowMotion, (w.heap 2).speed))
        = some ([0, 1, 2], true, false, 33395847 / 11575000)
      ∧ (run gridGeo Config.Default stoppedDipRecords).map
        (fun w => (w.seqPoints, (w.heap 3).speed, (w.heap 4).speed, sinkPtrs w))
        = some ([0, 1, 2, 3, 4], 0, 100187541 / 46300000, [])
      ∧ (run gridGeo Config.Default stoppedDipRecords).map
        (fun w => (List.range 5).map (fun i => decodeAnnotation (w.heap i)))
        = some [["STOP_START", "GAP_END"], ["CHANGE_IN_HEADING"], [], ["CHANGE_IN_HEADING"],
            []] := by
  decide!

/-- C19, amended: start from a State that is not STOPPED and not in SLOW_MOTION, whose
window holds created objects and ends in an element with speed above `low_speed`.  If the
next `k >= 1` records are appended plainly (no gap, no noise, no stop entry) with speed at
most `low_speed`, and the record after them is appended plainly with speed above
`low_speed`, then the first low-speed object carries SLOW_MOTION_START, no later object of
the run carries it, the fast object carries SLOW_MOTION_END and no earlier object of the run
carries it.  The objects of the run are at the addresses `w0.allocated, ..., wk.allocated`. -/
theorem slow_motion_dip (g : Geo) (cfg : Config) (w0 : World) (q0 : Nat) (r1 : Raw)
    (rs : List Raw) (rf : Raw) (wk wf : World)
    (hlt : ∀ i ∈ w0.seqPoints, i < w0.allocated)
    (hq0 : w0.seqPoints.getLast? = some q0) (hs0 : w0.isStopped = false)
    (hsl0 : w0.isSlowMotion = false) (hv0 : cfg.low_speed < (w0.heap q0).speed)
    (hlow : LowRun g cfg w0 (r1 :: rs) wk) (hfast : PlainAppend g cfg wk rf wf)
    (hvf : cfg.low_speed < (wf.heap wk.allocated).speed) :
    wk.allocated = w0.allocated + (rs.length + 1)
      ∧ (wf.heap w0.allocated).bit SLOW_MOTION_START = true
      ∧ (∀ i, w0.allocated < i → i ≤ wk.allocated →
          (wf.heap i).bit SLOW_MOTION_START = false)
      ∧ (wf.heap wk.allocated).bit SLOW_MOTION_END = true
      ∧ (∀ i, w0.allocated ≤ i → i < wk.allocated →
          (wf.heap i).bit SLOW_MOTION_END = false) := by
  obtain ⟨w1, hpa, hv, hrest⟩ := hlow
  obtain ⟨s1, s2, s3, s4, s5, s6, s7⟩ := plainAppend_step g cfg w0 q0 r1 w1 hlt hq0 hs0 hpa
  have hsl1 : w1.isSlowMotion = true := s7.2 (Or.inl ⟨hv, hv0, hsl0⟩)
  have hb4 : (w1.heap w0.allocated).bit SLOW_MOTION_START = true := s5.2 ⟨hv, hv0, hsl0⟩
  have hb5 : (w1.heap w0.allocated).bit SLOW_MOTION_END = false := by
    cases hx : (w1.heap w0.allocated).bit SLOW_MOTION_END with
    | false => rfl
    | true => exact absurd hv (not_le.2 (s6.1 hx).1)
  obtain ⟨t1, ⟨q, t2, t2v⟩, t3, t4, t5, t6, t7⟩ :=
    lowRun_tail g cfg rs w1 wk hrest s2 ⟨w0.allocated, s3, hv⟩ hpa.noStop hsl1
  obtain ⟨f1, f2, f3, f4, f5, f6, f7⟩ := plainAppend_step g cfg wk q rf wf t1 t2 t3 hfast
  have hka : wk.allocated = w0.allocated + (rs.length + 1) := by rw [t5, s1]; omega
  have hf4 : (wf.heap wk.allocated).bit SLOW_MOTION_START = false := by
    cases hx : (wf.heap wk.allocated).bit SLOW_MOTION_START with
    | false => rfl
    | true => exact absurd hvf (not_lt.2 (f5.1 hx).1)
  refine ⟨hka, ?_, ?_, f6.2 ⟨hvf, t2v, t4⟩, ?_⟩
  · rw [f4 _ (by omega) _ (Or.inl rfl), t6 _ (by omega) _ (Or.inl rfl)]
    exact hb4
  · intro i h1 h2
    by_cases hi : i = wk.allocated
    · subst hi; exact hf4
    · rw [f4 i hi _ (Or.inl rfl)]
      exact t7 i (by omega) (by omega) _ (Or.inl rfl)
  · intro i h1 h2
    rw [f4 i (by omega) _ (Or.inr rfl)]
    by_cases hi : i = w0.allocated
    · subst hi
      rw [t6 _ (by omega) _ (Or.inr rfl)]
      exact hb5
    · exact t7 i (by omega) h2 _ (Or.inr rfl)

/-- Witness for C19: scenario S6 with `k = 3`; two records at about 2.5 knots, three at
about 1.8 knots, one at about 2.5 knots. -/
theorem slow_motion_dip_witness :
    (∀ i ∈ s6Start.seqPoints, i < s6Start.allocated)
      ∧ s6Start.seqPoints.getLast? = some 1 ∧ s6Start.isStopped = false
      ∧ s6Start.isSlowMotion = false ∧ Config.Default.low_speed < (s6Start.heap 1).speed
      ∧ LowRun gridGeo Config.Default s6Start [s6Low1, s6Low2, s6Low3] s6World3
      ∧ PlainAppend gridGeo Config.Default s6World3 s6Fast s6World4
      ∧ Config.Default.low_speed < (s6World4.heap s6World3.allocated).speed
      ∧ s6World3.allocated = s6Start.allocated + ([s6Low2, s6Low3].length + 1)
      ∧ (s6World4.heap s6Start.allocated).bit SLOW_MOTION_START = true
      ∧ (∀ i, s6Start.allocated < i → i ≤ s6World3.allocated →
          (s6World4.heap i).bit SLOW_MOTION_START = false)
      ∧ (s6World4.heap s6World3.allocated).bit SLOW_MOTION_END = true
      ∧ (∀ i, s6Start.allocated ≤ i → i < s6World3.allocated →
          (s6World4.heap i).bit SLOW_MOTION_END = false) :=
  have h1 : PlainAppend gridGeo Config.Default s6Start s6Low1 s6World1 :=
    ⟨some_getD_of_isSome _ _ (by decide!), by decide!, by decide!, by decide!⟩
  have h2 : PlainAppend gridGeo Config.Default s6World1 s6Low2 s6World2 :=
    ⟨some_getD_of_isSome _ _ (by decide!), by decide!, by decide!, by decide!⟩
  have h3 : PlainAppend gridGeo Config.Default s6World2 s6Low3 s6World3 :=
    ⟨some_getD_of_isSome _ _ (by decide!), by decide!, by decide!, by decide!⟩
  have h4 : PlainAppend gridGeo Config.Default s6World3 s6Fast s6World4 :=
    ⟨some_getD_of_isSome _ _ (by decide!), by decide!, by decide!, by decide!⟩
  have hrun : LowRun gridGeo Config.Default s6Start [s6Low1, s6Low2, s6Low3] s6World3 :=
    ⟨s6World1, h1, by decide!, s6World2, h2, by decide!, s6World3, h3, by decide!, rfl⟩
  ⟨by decide!, by decide!, by decide!, by decide!, by decide!, hrun, h4, by decide!,
   slow_motion_dip gridGeo Config.Default s6Start 1 s6Low1 [s6Low2, s6Low3] s6Fast s6World3
     s6World4 (by decide!) (by decide!) (by decide!) (by decide!) (by decide!) hrun h4
     (by decide!)⟩

/-! ## The angle functions of mobility.h -/

section Angles

theorem ratFloor_eq (r : ℚ) : Rat.floor r = ⌊r⌋ := rfl

/-- For a non-negative dividend `fmod a 360` is the remainder in `[0, 360)`. -/
theorem fmod_of_nonneg (a : ℚ) (ha : 0 ≤ a) :
    fmod a 360 = a - 360 * (⌊a / 360⌋ : ℚ) ∧ 0 ≤ fmod a 360 ∧ fmod a 360 < 360 := by
  have h0 : (0 : ℚ) ≤ a / 360 := div_nonneg ha (by norm_num)
  have e : fmod a 360 = a - 360 * (⌊a / 360⌋ : ℚ) := by
    unfold fmod
    rw [if_pos h0, ratFloor_eq]
  have h1 := Int.floor_le (a / 360)
  have h2 := Int.lt_floor_add_one (a / 360)
  refine ⟨e, ?_, ?_⟩
  · rw [e]
    have : (⌊a / 360⌋ : ℚ) * 360 ≤ a := by
      rw [← le_div_iff₀ (by norm_num : (0 : ℚ) < 360)]
      exact h1
    linarith
  · rw [e]
    have : a < ((⌊a / 360⌋ : ℚ) + 1) * 360 := by
      rw [← div_lt_iff₀ (by norm_num : (0 : ℚ) < 360)]
      exact h2
    linarith

end Angles

/-- C24: for all headings `a` and `b`, `angleDifference(a, b)` is `phi` if `phi <= 180` and
`360 - phi` otherwise, where `phi = |a - b| mod 360`; it lies in `[0, 180]` and is symmetric
in its arguments. -/
theorem angleDifference_spec (a b : ℚ) :
    angleDifference a b = angleDifferenceSpec a b
      ∧ 0 ≤ angleDifference a b ∧ angleDifference a b ≤ 180
      ∧ angleDifference a b = angleDifference b a := by
  obtain ⟨e, h0, h1⟩ := fmod_of_nonneg |a - b| (abs_nonneg _)
  refine ⟨?_, ?_, ?_, ?_⟩
  · unfold angleDifference angleDifferenceSpec
    simp only [e]
    split_ifs with h2 h3 h3
    · exact absurd h3 (not_le.2 h2)
    · rfl
    · rfl
    · exact absurd (not_lt.1 h2) h3
  · unfold angleDifference
    simp only []
    split_ifs with h2
    · linarith
    · exact h0
  · unfold angleDifference
    simp only []
    split_ifs with h2
    · linarith
    · exact not_lt.1 h2
  · unfold angleDifference
    rw [abs_sub_comm a b]

/-- C25 (code evaluated at the failing input): for the headings 350 and 10, both in
`[0, 360)`, `getSlopeDifference` returns -340, outside `[-180, 180]`.  For all headings in
`[0, 360)` the value is `b - a` when `b - a <= 180` and `360 - (b - a)` otherwise, so it
ranges over `(-360, 180]`. -/
theorem getSlopeDifference_out_of_range :
    getSlopeDifference 350 10 = -340
      ∧ (∀ a b : ℚ, 0 ≤ a → a < 360 → 0 ≤ b → b < 360 →
          getSlopeDifference a b = (if b - a ≤ 180 then b - a else 360 - (b - a))
            ∧ -360 < getSlopeDifference a b ∧ getSlopeDifference a b ≤ 180) := by
  refine ⟨?_, ?_⟩
  · unfold getSlopeDifference
    norm_num
  · intro a b ha1 ha2 hb1 hb2
    unfold getSlopeDifference
    split_ifs with h
    · rw [abs_of_nonneg (by linarith)]
      refine ⟨by ring, by linarith, by linarith⟩
    · rw [abs_of_neg (by linarith)]
      refine ⟨by ring, by linarith, by linarith⟩

section Azimuth

/-- The range of `findAzimuth` when the rounded angle sums stay between 0 and 360. -/
theorem findAzimuth_bounds (g : Geo)
    (hat : ∀ v : ℚ, 0 < v → 0 < g.atanDeg v ∧ g.atanDeg v ≤ 90)
    (hfl : ∀ x : ℚ, 0 ≤ x → x ≤ 360 → 0 ≤ g.fl x ∧ g.fl x ≤ 360) (x1 y1 x2 y2 : ℚ) :
    (findAzimuth g x1 y1 x2 y2 = -1 ↔ (x2 - x1 = 0 ∧ y2 - y1 = 0))
      ∧ (¬ (x2 - x1 = 0 ∧ y2 - y1 = 0) →
          0 ≤ findAzimuth g x1 y1 x2 y2 ∧ findAzimuth g x1 y1 x2 y2 ≤ 360)
      ∧ (x2 - x1 = 0 → 0 < y2 - y1 → findAzimuth g x1 y1 x2 y2 = 0)
      ∧ (0 < x2 - x1 → y2 - y1 = 0 → findAzimuth g x1 y1 x2 y2 = 90)
      ∧ (x2 - x1 = 0 → y2 - y1 < 0 → findAzimuth g x1 y1 x2 y2 = 180)
      ∧ (x2 - x1 < 0 → y2 - y1 = 0 → findAzimuth g x1 y1 x2 y2 = 270) := by
  have hs : ∀ dx dy : ℚ, dx ≠ 0 → dy ≠ 0 →
      0 < g.atanDeg |dx / dy| ∧ g.atanDeg |dx / dy| ≤ 90 := by
    intro dx dy hx hy
    exact hat _ (abs_pos.2 (div_ne_zero hx hy))
  unfold findAzimuth
  simp only []
  generalize x2 - x1 = dx
  generalize y2 - y1 = dy
  rcases lt_trichotomy dx 0 with hx | hx | hx <;> rcases lt_trichotomy dy 0 with hy | hy | hy
  · obtain ⟨s1, s2⟩ := hs dx dy (ne_of_lt hx) (ne_of_lt hy)
    obtain ⟨f1, f2⟩ := hfl (180 + g.atanDeg |dx / dy|) (by linarith) (by linarith)
    rw [if_neg (ne_of_lt hx), if_neg (not_lt.2 (le_of_lt hx)), if_neg (not_lt.2 (le_of_lt hy)),
      if_pos hy]
    refine ⟨⟨fun h => ?_, fun h => ?_⟩, fun _ => ⟨?_, ?_⟩, fun h1 h2 => ?_, fun h1 h2 => ?_,
      fun h1 h2 => ?_, fun h1 h2 => ?_⟩ <;>
      linarith
  · rw [if_neg (ne_of_lt hx), if_neg (not_lt.2 (le_of_lt hx)), hy, if_neg (lt_irrefl _),
      if_neg (lt_irrefl _)]
    refine ⟨⟨fun h => ?_, fun h => ?_⟩, fun _ => ⟨?_, ?_⟩, fun h1 h2 => ?_, fun h1 h2 => ?_,
      fun h1 h2 => ?_, fun h1 h2 => ?_⟩ <;>
      linarith
  · obtain ⟨s1, s2⟩ := hs dx dy (ne_of_lt hx) (ne_of_gt hy)
    obtain ⟨f1, f2⟩ := hfl (360 - g.atanDeg |dx / dy|) (by linarith) (by linarith)
    rw [if_neg (ne_of_lt hx), if_neg (not_lt.2 (le_of_lt hx)), if_pos hy]
    refine ⟨⟨fun h => ?_, fun h => ?_⟩, fun _ => ⟨?_, ?_⟩, fun h1 h2 => ?_, fun h1 h2 => ?_,
      fun h1 h2 => ?_, fun h1 h2 => ?_⟩ <;>
      linarith
  · rw [if_pos hx, if_neg (not_lt.2 (le_of_lt hy)), if_pos hy]
    refine ⟨⟨fun h => ?_, fun h => ?_⟩, fun _ => ⟨?_, ?_⟩, fun h1 h2 => ?_, fun h1 h2 => ?_,
      fun h1 h2 => ?_, fun h1 h2 => ?_⟩ <;>
      linarith
  · rw [if_pos hx, hy, if_neg (lt_irrefl _), if_neg (lt_irrefl _)]
    refine ⟨⟨fun _ => ⟨hx, rfl⟩, fun _ => rfl⟩, fun hn => absurd ⟨hx, rfl⟩ hn, fun h1 h2 => ?_,
      fun h1 h2 => ?_, fun h1 h2 => ?_, fun h1 h2 => ?_⟩ <;>
      linarith
  · rw [if_pos hx, if_pos hy]
    refine ⟨⟨fun h => ?_, fun h => ?_⟩, fun _ => ⟨?_, ?_⟩, fun h1 h2 => ?_, fun h1 h2 => ?_,
      fun h1 h2 => ?_, fun h1 h2 => ?_⟩ <;>
      linarith
  · obtain ⟨s1, s2⟩ := hs dx dy (ne_of_gt hx) (ne_of_lt hy)
    obtain ⟨f1, f2⟩ := hfl (180 - g.atanDeg |dx / dy|) (by linarith) (by linarith)
    rw [if_neg (ne_of_gt hx), if_pos hx, if_neg (not_lt.2 (le_of_lt hy)), if_pos hy]
    refine ⟨⟨fun h => ?_, fun h => ?_⟩, fun _ => ⟨?_, ?_⟩, fun h1 h2 => ?_, fun h1 h2 => ?_,
      fun h1 h2 => ?_, fun h1 h2 => ?_⟩ <;>
      linarith
  · rw [if_neg (ne_of_gt hx), if_pos hx, hy, if_neg (lt_irrefl _), if_neg (lt_irrefl _)]
    refine ⟨⟨fun h => ?_, fun h => ?_⟩, fun _ => ⟨?_, ?_⟩, fun h1 h2 => ?_, fun h1 h2 => ?_,
      fun h1 h2 => ?_, fun h1 h2 => ?_⟩ <;>
      linarith
  · obtain ⟨s1, s2⟩ := hs dx dy (ne_of_gt hx) (ne_of_gt hy)
    rw [if_neg (ne_of_gt hx), if_pos hx, if_pos hy]
    refine ⟨⟨fun h => ?_, fun h => ?_⟩, fun _ => ⟨?_, ?_⟩, fun h1 h2 => ?_, fun h1 h2 => ?_,
      fun h1 h2 => ?_, fun h1 h2 => ?_⟩ <;>
      linarith

/-- In exact arithmetic, with an arctangent strictly below 90 degrees, `findAzimuth` stays
strictly below 360. -/
theorem findAzimuth_exact_lt (g : Geo)
    (hat : ∀ v : ℚ, 0 < v → 0 < g.atanDeg v ∧ g.atanDeg v < 90)
    (hfl : ∀ x : ℚ, g.fl x = x) (x1 y1 x2 y2 : ℚ) :
    findAzimuth g x1 y1 x2 y2 < 360 := by
  have hs : ∀ dx dy : ℚ, dx ≠ 0 → dy ≠ 0 →
      0 < g.atanDeg |dx / dy| ∧ g.atanDeg |dx / dy| < 90 := by
    intro dx dy hx hy
    exact hat _ (abs_pos.2 (div_ne_zero hx hy))
  unfold findAzimuth
  simp only [hfl]
  generalize x2 - x1 = dx
  generalize y2 - y1 = dy
  rcases lt_trichotomy dx 0 with hx | hx | hx <;> rcases lt_trichotomy dy 0 with hy | hy | hy
  · obtain ⟨s1, s2⟩ := hs dx dy (ne_of_lt hx) (ne_of_lt hy)
    rw [if_neg (ne_of_lt hx), if_neg (not_lt.2 (le_of_lt hx)), if_neg (not_lt.2 (le_of_lt hy)),
      if_pos hy]
    linarith
  · rw [if_neg (ne_of_lt hx), if_neg (not_lt.2 (le_of_lt hx)), hy, if_neg (lt_irrefl _),
      if_neg (lt_irrefl _)]
    norm_num
  · obtain ⟨s1, s2⟩ := hs dx dy (ne_of_lt hx) (ne_of_gt hy)
    rw [if_neg (ne_of_lt hx), if_neg (not_lt.2 (le_of_lt hx)), if_pos hy]
    linarith
  · rw [if_pos hx, if_neg (not_lt.2 (le_of_lt hy)), if_pos hy]
    norm_num
  · rw [if_pos hx, hy, if_neg (lt_irrefl _), if_neg (lt_irrefl _)]
    norm_num
  · rw [if_pos hx, if_pos hy]
    norm_num
  · obtain ⟨s1, s2⟩ := hs dx dy (ne_of_gt hx) (ne_of_lt hy)
    rw [if_neg (ne_of_gt hx), if_pos hx, if_neg (not_lt.2 (le_of_lt hy)), if_pos hy]
    linarith
  · rw [if_neg (ne_of_gt hx), if_pos hx, hy, if_neg (lt_irrefl _), if_neg (lt_irrefl _)]
    norm_num
  · obtain ⟨s1, s2⟩ := hs dx dy (ne_of_gt hx) (ne_of_gt hy)
    rw [if_neg (ne_of_gt hx), if_pos hx, if_pos hy]
    linarith

/-- A monotone rounding that fixes 0 and 360 keeps the angle sums between 0 and 360. -/
theorem fl_bounds (g : Geo) (hm : Monotone g.fl) (h0 : g.fl 0 = 0) (h360 : g.fl 360 = 360)
    (x : ℚ) (hx0 : 0 ≤ x) (hx1 : x ≤ 360) : 0 ≤ g.fl x ∧ g.fl x ≤ 360 := by
  have a := hm hx0
  have b := hm hx1
  rw [h0] at a
  rw [h360] at b
  exact ⟨a, b⟩

/-- The rounding of `roundGeo` is monotone. -/
theorem roundGeo_fl_monotone : Monotone roundGeo.fl := by
  intro a b h
  show (Rat.floor (a * 2 ^ 44 + 1 / 2) : ℚ) / 2 ^ 44 ≤ (Rat.floor (b * 2 ^ 44 + 1 / 2) : ℚ) / 2 ^ 44
  rw [ratFloor_eq, ratFloor_eq]
  apply div_le_div_of_nonneg_right _ (by positivity)
  exact_mod_cast Int.floor_mono (by linarith)

/-- The arctangent of `roundGeo` is positive and below 90 degrees. -/
theorem roundGeo_atanDeg (v : ℚ) (hv : 0 < v) :
    0 < roundGeo.atanDeg v ∧ roundGeo.atanDeg v ≤ 90 := by
  show 0 < (if v ≤ 1 then 45 * v else 90 - 45 / v) ∧ (if v ≤ 1 then 45 * v else 90 - 45 / v) ≤ 90
  split_ifs with h
  · constructor <;> linarith
  · have h1 : 1 < v := not_le.1 h
    have h2 : 45 / v < 45 := by
      rw [div_lt_iff₀ hv]
      linarith
    have h3 : 0 < 45 / v := by positivity
    constructor <;> linarith

end Azimuth

/-- C26 (code evaluated at the failing input): for the points `(0, 0)` and `(-1e-16, 1)`,
in the north-west quadrant, `findAzimuth` returns exactly 360 when the angle sum
`2 * PI - slope` is rounded as a double is: the slope (5.7e-15 degrees for the arctangent,
4.5e-15 in `roundGeo`) is less than half the spacing of the doubles next to 360.  The part
that holds: for every arctangent with values in `(0, 90]` and every monotone rounding that
fixes 0 and 360, which `roundGeo` has, `findAzimuth` returns -1 exactly when the
displacement is zero, otherwise a value in `[0, 360]`, with exactly 0 for due north, 90 for
due east, 180 for due south and 270 for due west; and strictly less than 360 when the sums
are exact and the arctangent stays below 90. -/
theorem findAzimuth_reaches_360 :
    findAzimuth roundGeo 0 0 (-1 / 10 ^ 16) 1 = 360
      ∧ (∀ g : Geo, (∀ v : ℚ, 0 < v → 0 < g.atanDeg v ∧ g.atanDeg v ≤ 90) →
          Monotone g.fl → g.fl 0 = 0 → g.fl 360 = 360 → ∀ x1 y1 x2 y2 : ℚ,
            (findAzimuth g x1 y1 x2 y2 = -1 ↔ (x2 - x1 = 0 ∧ y2 - y1 = 0))
              ∧ (¬ (x2 - x1 = 0 ∧ y2 - y1 = 0) →
                  0 ≤ findAzimuth g x1 y1 x2 y2 ∧ findAzimuth g x1 y1 x2 y2 ≤ 360)
              ∧ (x2 - x1 = 0 → 0 < y2 - y1 → findAzimuth g x1 y1 x2 y2 = 0)
              ∧ (0 < x2 - x1 → y2 - y1 = 0 → findAzimuth g x1 y1 x2 y2 = 90)
              ∧ (x2 - x1 = 0 → y2 - y1 < 0 → findAzimuth g x1 y1 x2 y2 = 180)
              ∧ (x2 - x1 < 0 → y2 - y1 = 0 → findAzimuth g x1 y1 x2 y2 = 270))
      ∧ ((∀ v : ℚ, 0 < v → 0 < roundGeo.atanDeg v ∧ roundGeo.atanDeg v ≤ 90)
          ∧ Monotone roundGeo.fl ∧ roundGeo.fl 0 = 0 ∧ roundGeo.fl 360 = 360)
      ∧ (∀ g : Geo, (∀ v : ℚ, 0 < v → 0 < g.atanDeg v ∧ g.atanDeg v < 90) →
          (∀ x : ℚ, g.fl x = x) → ∀ x1 y1 x2 y2 : ℚ, findAzimuth g x1 y1 x2 y2 < 360) := by
  refine ⟨by decide!, ?_, ⟨roundGeo_atanDeg, roundGeo_fl_monotone, by decide!, by decide!⟩, ?_⟩
  · intro g hat hm h0 h360 x1 y1 x2 y2
    exact findAzimuth_bounds g hat (fl_bounds g hm h0 h360) x1 y1 x2 y2
  · intro g hat hfl x1 y1 x2 y2
    exact findAzimuth_exact_lt g hat hfl x1 y1 x2 y2

/-! ## Order of the `Sink` buffer -/

section SinkOrder

theorem mmInsert_sublist (k v : Nat) (es : List (Nat × Nat)) :
    List.Sublist es (mmInsert k v es) := by
  induction es with
  | nil => exact List.nil_sublist _
  | cons e es ih =>
    unfold mmInsert
    split_ifs
    · exact List.sublist_cons_self _ _
    · exact ih.cons₂ e

theorem mmInsert_sorted (k v : Nat) (es : List (Nat × Nat))
    (h : (es.map Prod.fst).Pairwise (· ≤ ·)) :
    ((mmInsert k v es).map Prod.fst).Pairwise (· ≤ ·) := by
  induction es with
  | nil => simp [mmInsert]
  | cons e es ih =>
    rw [List.map_cons, List.pairwise_cons] at h
    unfold mmInsert
    split_ifs with hk
    · rw [List.map_cons, List.pairwise_cons]
      refine ⟨?_, by rw [List.map_cons, List.pairwise_cons]; exact h⟩
      intro a ha
      rw [List.map_cons, List.mem_cons] at ha
      rcases ha with rfl | ha
      · exact le_of_lt hk
      · exact le_trans (le_of_lt hk) (h.1 a ha)
    · rw [List.map_cons, List.pairwise_cons]
      refine ⟨?_, ih h.2⟩
      intro a ha
      obtain ⟨x, hx, rfl⟩ := List.mem_map.1 ha
      rcases (mem_mmInsert k v es x).1 hx with rfl | hx
      · exact not_lt.1 hk
      · exact h.1 _ (List.mem_map.2 ⟨x, hx, rfl⟩)

/-- In a buffer sorted by key, a new entry is placed after every entry whose key is not
greater. -/
theorem mmInsert_after (k v : Nat) (es : List (Nat × Nat)) (e : Nat × Nat)
    (h : (es.map Prod.fst).Pairwise (· ≤ ·)) (he : e ∈ es) (hk : e.1 ≤ k) :
    List.Sublist [e, (k, v)] (mmInsert k v es) := by
  induction es with
  | nil => cases he
  | cons a as ih =>
    rw [List.map_cons, List.pairwise_cons] at h
    have hak : a.1 ≤ k := by
      rcases List.mem_cons.1 he with rfl | hm
      · exact hk
      · exact le_trans (h.1 _ (List.mem_map.2 ⟨e, hm, rfl⟩)) hk
    unfold mmInsert
    rw [if_neg (not_lt.2 hak)]
    rcases List.mem_cons.1 he with rfl | hm
    · refine List.Sublist.cons₂ _ ?_
      exact List.singleton_sublist.2 ((mem_mmInsert k v as _).2 (Or.inl rfl))
    · exact (ih h.2 hm).cons a

end SinkOrder

section SinkRun

/-- State of the buffer after a sequence of `reportPoint` calls on a new `Sink`. -/
theorem foldl_reportPoint_order (w0 : World) (h0 : w0.annoResults = []) (ps : List Nat)
    (hr : ∀ i ∈ ps, (w0.heap i).bit REPORTED = false) :
    ((ps.foldl reportPoint w0).annoResults.map Prod.fst).Pairwise (· ≤ ·)
      ∧ (∀ e ∈ (ps.foldl reportPoint w0).annoResults, e.1 = (w0.heap e.2).t ∧ e.2 ∈ ps)
      ∧ (∀ i ∈ ps, ((w0.heap i).t, i) ∈ (ps.foldl reportPoint w0).annoResults)
      ∧ (sinkPtrs (ps.foldl reportPoint w0)).Nodup
      ∧ (∀ i j, i ∈ ps → j ∈ ps → (w0.heap i).t = (w0.heap j).t →
          ps.indexOf i < ps.indexOf j →
          List.Sublist [i, j] (sinkPtrs (ps.foldl reportPoint w0))) := by
  induction ps using List.reverseRecOn with
  | nil => simp [h0, sinkPtrs]
  | append_singleton init a ih =>
    obtain ⟨i1, i2, i3, i4, i5⟩ := ih (fun i hi => hr i (List.mem_append_left _ hi))
    rw [List.foldl_append]
    simp only [List.foldl_cons, List.foldl_nil]
    by_cases ha : a ∈ init
    · have hrep : ((init.foldl reportPoint w0).heap a).bit REPORTED = true := by
        rw [foldl_reportPoint_heap]; simp [ha]
      rw [reportPoint_of_reported _ _ hrep]
      refine ⟨i1, ?_, ?_, i4, ?_⟩
      · intro e he
        exact ⟨(i2 e he).1, List.mem_append_left _ (i2 e he).2⟩
      · intro i hi
        rcases List.mem_append.1 hi with hi | hi
        · exact i3 i hi
        · rw [List.mem_singleton.1 hi]; exact i3 a ha
      · intro i j hi hj ht hlt
        have hi1 : i ∈ init := by
          rcases List.mem_append.1 hi with hi | hi
          · exact hi
          · rw [List.mem_singleton.1 hi]; exact ha
        have hj1 : j ∈ init := by
          rcases List.mem_append.1 hj with hj | hj
          · exact hj
          · rw [List.mem_singleton.1 hj]; exact ha
        rw [List.indexOf_append_of_mem hi1, List.indexOf_append_of_mem hj1] at hlt
        exact i5 i j hi1 hj1 ht hlt
    · have hheap : (init.foldl reportPoint w0).heap a = w0.heap a := by
        rw [foldl_reportPoint_heap]; simp [ha]
      have hrep : ((init.foldl reportPoint w0).heap a).bit REPORTED = false := by
        rw [hheap]; exact hr a (List.mem_append_right _ (List.mem_singleton.2 rfl))
      have hanno : (reportPoint (init.foldl reportPoint w0) a).annoResults
          = mmInsert (w0.heap a).t a (init.foldl reportPoint w0).annoResults := by
        rw [reportPoint_annoResults, hrep, hheap]; simp
      have hnot : a ∉ sinkPtrs (init.foldl reportPoint w0) := by
        intro hm
        obtain ⟨e, he, rfl⟩ := List.mem_map.1 hm
        exact ha (i2 e he).2
      have hsub : List.Sublist (sinkPtrs (init.foldl reportPoint w0))
          (sinkPtrs (reportPoint (init.foldl reportPoint w0) a)) := by
        unfold sinkPtrs
        rw [hanno]
        exact (mmInsert_sublist _ _ _).map _
      have hperm : (sinkPtrs (reportPoint (init.foldl reportPoint w0) a)).Perm
          (a :: sinkPtrs (init.foldl reportPoint w0)) := by
        unfold sinkPtrs
        rw [hanno]
        exact (mmInsert_perm _ _ _).map _
      refine ⟨?_, ?_, ?_, ?_, ?_⟩
      · rw [hanno]; exact mmInsert_sorted _ _ _ i1
      · intro e he
        rw [hanno] at he
        rcases (mem_mmInsert _ _ _ _).1 he with rfl | he
        · exact ⟨rfl, List.mem_append_right _ (List.mem_singleton.2 rfl)⟩
        · exact ⟨(i2 e he).1, List.mem_append_left _ (i2 e he).2⟩
      · intro i hi
        rw [hanno]
        rcases List.mem_append.1 hi with hi | hi
        · exact (mem_mmInsert _ _ _ _).2 (Or.inr (i3 i hi))
        · rw [List.mem_singleton.1 hi]
          exact (mem_mmInsert _ _ _ _).2 (Or.inl rfl)
      · exact hperm.nodup_iff.2 (List.nodup_cons.2 ⟨hnot, i4⟩)
      · intro i j hi hj ht hlt
        have hja : j ∉ init → j = a := by
          intro hn
          rcases List.mem_append.1 hj with hj | hj
          · exact absurd hj hn
          · exact List.mem_singleton.1 hj
        have hi1 : i ∈ init := by
          rcases List.mem_append.1 hi with hi | hi
          · exact hi
          · exfalso
            have hia : i = a := List.mem_singleton.1 hi
            subst hia
            rw [List.indexOf_append_of_not_mem ha] at hlt
            have hjl : (init ++ [i]).indexOf j < (init ++ [i]).length :=
              List.indexOf_lt_length.2 hj
            by_cases hj1 : j ∈ init
            · rw [List.indexOf_append_of_mem hj1] at hlt
              have := List.indexOf_lt_length.2 hj1
              omega
            · rw [hja hj1, List.indexOf_append_of_not_mem ha] at hlt
              exact lt_irrefl _ hlt
        by_cases hj1 : j ∈ init
        · rw [List.indexOf_append_of_mem hi1, List.indexOf_append_of_mem hj1] at hlt
          exact (i5 i j hi1 hj1 ht hlt).trans hsub
        · have hj2 := hja hj1
          subst hj2
          unfold sinkPtrs
          rw [hanno]
          have h1 := mmInsert_after (w0.heap j).t j _ ((w0.heap i).t, i) i1 (i3 i hi1)
            (le_of_eq ht)
          exact h1.map Prod.snd

theorem emitResults_all (w : World) : (emitResults w false).map Prod.fst = sinkPtrs w := by
  simp only [emitResults, sinkPtrs]
  induction w.annoResults with
  | nil => rfl
  | cons e es ih =>
    rw [List.filterMap_cons]
    simp only [Bool.false_eq_true, false_and, if_false, List.map_cons] at ih ⊢
    rw [ih]

theorem emitResults_sublist (w : World) (b : Bool) :
    List.Sublist ((emitResults w b).map Prod.fst) (sinkPtrs w) := by
  simp only [emitResults, sinkPtrs]
  induction w.annoResults with
  | nil => exact List.Sublist.slnil
  | cons e es ih =>
    rw [List.filterMap_cons]
    split
    · exact ih.cons _
    · rename_i x hx
      split_ifs at hx
      cases hx
      exact ih.cons₂ _

end SinkRun

/-- C21: for every sequence `ps` of `reportPoint` calls on a new `Sink` (empty buffer, no
object reported yet), the buffer keys are the timestamps of the buffered objects and are in
ascending order; every reported object is buffered exactly once; two objects with equal
timestamps are in the order of their first `reportPoint` call; and `emitResults` visits the
objects in buffer order, whatever the order of the calls. -/
theorem sink_is_ordered_by_time (w0 : World) (ps : List Nat) (h0 : w0.annoResults = [])
    (hr : ∀ i ∈ ps, (w0.heap i).bit REPORTED = false) :
    ((ps.foldl reportPoint w0).annoResults.map Prod.fst).Pairwise (· ≤ ·)
      ∧ (∀ e ∈ (ps.foldl reportPoint w0).annoResults,
          e.1 = ((ps.foldl reportPoint w0).heap e.2).t)
      ∧ (∀ i, i ∈ sinkPtrs (ps.foldl reportPoint w0) ↔ i ∈ ps)
      ∧ (sinkPtrs (ps.foldl reportPoint w0)).Nodup
      ∧ (∀ i j, i ∈ ps → j ∈ ps → (w0.heap i).t = (w0.heap j).t →
          ps.indexOf i < ps.indexOf j →
          List.Sublist [i, j] (sinkPtrs (ps.foldl reportPoint w0)))
      ∧ (emitResults (ps.foldl reportPoint w0) false).map Prod.fst
          = sinkPtrs (ps.foldl reportPoint w0)
      ∧ List.Sublist ((emitResults (ps.foldl reportPoint w0) true).map Prod.fst)
          (sinkPtrs (ps.foldl reportPoint w0)) := by
  obtain ⟨i1, i2, i3, i4, i5⟩ := foldl_reportPoint_order w0 h0 ps hr
  refine ⟨i1, ?_, ?_, i4, i5, emitResults_all _, emitResults_sublist _ _⟩
  · intro e he
    rw [(frame_foldl_reportPoint (S := fun _ => False) ps w0).t_eq]
    exact (i2 e he).1
  · intro i
    constructor
    · intro hm
      obtain ⟨e, he, rfl⟩ := List.mem_map.1 hm
      exact (i2 e he).2
    · intro hi
      exact List.mem_map.2 ⟨_, i3 i hi, rfl⟩

/-- Witness for C21: objects with timestamps 1000, 900, 1000 reported in the order
0, 1, 2, 0; the buffer order is 1, 0, 2. -/
theorem sink_is_ordered_by_time_witness :
    sinkWorld.annoResults = []
      ∧ (∀ i ∈ [0, 1, 2, 0], (sinkWorld.heap i).bit REPORTED = false)
      ∧ sinkPtrs ([0, 1, 2, 0].foldl reportPoint sinkWorld) = [1, 0, 2]
      ∧ (([0, 1, 2, 0].foldl reportPoint sinkWorld).annoResults.map Prod.fst).Pairwise (· ≤ ·)
      ∧ (sinkPtrs ([0, 1, 2, 0].foldl reportPoint sinkWorld)).Nodup :=
  ⟨by decide!, by decide!, by decide!,
   (sink_is_ordered_by_time sinkWorld [0, 1, 2, 0] (by decide!) (by decide!)).1,
   (sink_is_ordered_by_time sinkWorld [0, 1, 2, 0] (by decide!) (by decide!)).2.2.2.1⟩

/-! ## Labels -/

section Labels

theorem filterMap_cons_toList {α β : Type} (f : α → Option β) (a : α) (as : List α) :
    List.filterMap f (a :: as) = (f a).toList ++ List.filterMap f as := by
  cases h : f a <;> simp [List.filterMap_cons, h]

theorem label_toList (b : Bool) (s : String) :
    (if b = true then some s else none).toList = if b = true then [s] else [] := by
  cases b <;> rfl

theorem decodeAnnotation_eq_spec (l : Location) : decodeAnnotation l = decodeSpec l := by
  unfold decodeSpec decodeAnnotation
  have hr : List.range 10 = [0, 1, 2, 3, 4, 5, 6, 7, 8, 9] := by decide
  rw [hr]
  simp only [filterMap_cons_toList, List.filterMap_nil, List.append_nil, List.append_assoc]
  rw [show labelNames[0]? = some "STOP_START" from rfl,
    show labelNames[1]? = some "STOP_END" from rfl,
    show labelNames[2]? = some "CHANGE_IN_SPEED_START" from rfl,
    show labelNames[3]? = some "CHANGE_IN_SPEED_END" from rfl,
    show labelNames[4]? = some "SLOW_MOTION_START" from rfl,
    show labelNames[5]? = some "SLOW_MOTION_END" from rfl,
    show labelNames[6]? = some "GAP_START" from rfl,
    show labelNames[7]? = some "GAP_END" from rfl,
    show labelNames[8]? = some "CHANGE_IN_HEADING" from rfl,
    show labelNames[9]? = some "NOISE" from rfl]
  simp only [label_toList]
  rfl

/-- Removing the last character of a string that ends in a pushed character gives the string
before the push. -/
theorem dropRight_push (s : String) (c : Char) : (s.push c).dropRight 1 = s := by
  cases s with
  | mk d =>
    have hpush : (String.mk d).push c = ⟨d ++ [c]⟩ := rfl
    rw [hpush]
    have hv := String.validFor_toSubstring ⟨d ++ [c]⟩
    have hd : d ++ [c] = (c :: d.reverse).reverse ++ [] := by simp
    have hv2 : Substring.ValidFor [] ((c :: d.reverse).reverse ++ []) []
        (String.toSubstring ⟨d ++ [c]⟩) := by
      rw [← hd]; exact hv
    have hp := hv2.prevn 1
    have hlen : String.utf8Len (c :: d.reverse) = (String.endPos ⟨d ++ [c]⟩).byteIdx := by
      rw [String.endPos_eq]; simp
    unfold String.dropRight Substring.dropRight
    simp only [String.toSubstring, Substring.bsize] at hp ⊢
    have hpos : (⟨Nat.sub (String.endPos ⟨d ++ [c]⟩).byteIdx 0⟩ : String.Pos)
        = ⟨String.utf8Len (c :: d.reverse)⟩ := by
      rw [hlen]; rfl
    rw [hpos, hp]
    simp only [List.drop_one, List.tail_cons, String.utf8Len_reverse]
    show String.extract ⟨d ++ [c]⟩ _ _ = _
    have he := String.extract_of_valid [] d [c]
    have hz : (⟨0⟩ : String.Pos) + ⟨String.utf8Len d⟩ = ⟨String.utf8Len d⟩ := by
      apply String.Pos.ext
      show 0 + String.utf8Len d = String.utf8Len d
      omega
    rw [hz]
    simpa using he

theorem foldl_push_dropRight (as : List String) (acc : String) :
    (as.foldl (fun s a => (s ++ a).push ';') (acc.push ';')).dropRight 1
      = String.intercalate.go acc ";" as := by
  induction as generalizing acc with
  | nil => simp [String.intercalate.go, dropRight_push]
  | cons a as ih =>
    simp only [List.foldl_cons, String.intercalate.go]
    rw [ih]
    congr 1

/-- The loop of `Sink::emitResults` (append each label and the separator, then drop the last
character) joins the labels with the separator. -/
theorem join_labels (L : List String) :
    (L.foldl (fun s a => (s ++ a).push ';') "").dropRight 1 = String.intercalate ";" L := by
  cases L with
  | nil => decide
  | cons a as =>
    simp only [List.foldl_cons, String.intercalate]
    rw [foldl_push_dropRight]
    congr 1

end Labels

/-- C22: for every object, `decodeAnnotation` returns the names of the set bits among the
bits 0..9 in ascending bit order; for an annotated object the label string written by
`emitResults` is these names joined by `;`, with no leading or trailing separator; and
bit 10 contributes nothing to either. -/
theorem decodeAnnotation_labels (l : Location) :
    decodeAnnotation l = decodeSpec l
      ∧ (l.isAnnotated = true → labelOf l = String.intercalate ";" ( decodeAnnotation l))
      ∧ decodeAnnotation (l.set REPORTED) = decodeAnnotation l
      ∧ decodeAnnotation (l.reset REPORTED) = decodeAnnotation l
      ∧ labelOf (l.set REPORTED) = labelOf l
      ∧ labelOf (l.reset REPORTED) = labelOf l := by
  have hd : ∀ m : Location, (∀ b : Fin 11, b ≠ REPORTED → m.bit b = l.bit b) →
      decodeAnnotation m = decodeAnnotation l ∧ labelOf m = labelOf l := by
    intro m hm
    have e : decodeAnnotation m = decodeAnnotation l := by
      unfold decodeAnnotation
      rw [hm 0 (by decide), hm 1 (by decide), hm 2 (by decide), hm 3 (by decide),
        hm 4 (by decide), hm 5 (by decide), hm 6 (by decide), hm 7 (by decide),
        hm 8 (by decide), hm 9 (by decide)]
    refine ⟨e, ?_⟩
    unfold labelOf Location.isAnnotated
    rw [e, hm 0 (by decide), hm 1 (by decide), hm 2 (by decide), hm 3 (by decide),
      hm 4 (by decide), hm 5 (by decide), hm 6 (by decide), hm 7 (by decide),
      hm 8 (by decide), hm NOISE (by decide)]
  refine ⟨?_, ?_, (hd _ ?_).1, (hd _ ?_).1, (hd _ ?_).2, (hd _ ?_).2⟩
  · exact decodeAnnotation_eq_spec l
  · intro h
    unfold labelOf
    rw [if_pos h]
    exact join_labels _
  · intro b hb; simp [hb]
  · intro b hb; simp [hb]
  · intro b hb; simp [hb]
  · intro b hb; simp [hb]

/-- C23 (code evaluated at the failing input): with a Config map that has the keys `Cargo`
and `Default` and a vessel table that gives object 7 the type `Tanker`, the lookup for object
7 finds no entry (`find` returns `end()`, which `main` dereferences); for object 8, which is
not in the vessel table, the type is `Default` and its Config is found.  For every Config
map, an object that is not in the vessel table gets a Config. -/
theorem unknown_type_has_no_config :
    vesselTypeOf tankerInfo 7 = "Tanker"
      ∧ cargoConfigs.map Prod.fst = ["Cargo", "Default"]
      ∧ (configOf cargoConfigs tankerInfo 7).isNone = true
      ∧ vesselTypeOf tankerInfo 8 = "Default"
      ∧ (configOf cargoConfigs tankerInfo 8).map Config.max_speed = some 30
      ∧ (∀ (cs : List (String × Config)) (vi : List (Int × String)) (oid : Int),
          vi.lookup oid = none → (configOf (withDefault cs) vi oid).isSome = true) := by
  refine ⟨by decide, by decide, by decide, by decide, by decide!, ?_⟩
  intro cs vi oid h
  unfold configOf vesselTypeOf withDefault
  rw [h]
  simp only [Option.getD_none]
  split_ifs with hc
  · exact hc
  · have hn : cs.lookup "Default" = none := by
      cases hx : cs.lookup "Default" with
      | none => rfl
      | some c => rw [hx] at hc; exact absurd rfl hc
    rw [List.lookup_append, hn]
    rfl

/-! ## The refresh time of the State -/

section CurTime

variable (g : Geo) (cfg : Config)

theorem curTimeOK_keep (w w1 : World) (h1 : w1.seqPoints.getLast? = w.seqPoints.getLast?)
    (h2 : w1.curTime = w.curTime) (h3 : ∀ i, (w1.heap i).t = (w.heap i).t)
    (h : CurTimeOK w) : CurTimeOK w1 := by
  intro q hq
  rw [h2, h3, h q (h1 ▸ hq)]

theorem curTimeOK_last {w1 : World} (p t : Nat) (l : List Nat)
    (h1 : w1.seqPoints = l ++ [p]) (h2 : w1.curTime = t) (h3 : (w1.heap p).t = t) :
    CurTimeOK w1 := by
  intro q hq
  rw [h1] at hq
  simp at hq
  subst hq
  rw [h2, h3]

theorem curTimeOK_init (w : World) (p : Nat) : CurTimeOK (init w p) :=
  curTimeOK_last p _ w.seqPoints rfl rfl rfl

theorem curTimeOK_forwardFilter (w : World) (q p : Nat) (h : CurTimeOK w) :
    CurTimeOK (forwardFilter g cfg w q p) := by
  have hf := frame_forwardFilter (S := fun _ => True) g cfg w q p trivial
  unfold forwardFilter at hf ⊢
  simp only [] at hf ⊢
  split_ifs at hf ⊢
  · exact curTimeOK_keep w _ (by simp) (by simp) hf.t_eq h
  · exact curTimeOK_last p (w.heap p).t w.seqPoints rfl rfl rfl
  · refine curTimeOK_last p (w.heap p).t w.seqPoints ?_ ?_ (hf.t_eq p)
    · rw [(forwardSpeed_seqPoints _ _ _ _).1, forwardStop_seqPoints]; rfl
    · rw [(forwardSpeed_seqPoints _ _ _ _).2, forwardStop_curTime]; rfl

theorem curTimeOK_forwardMobilityCheck (w : World) (q p : Nat) (h : CurTimeOK w) :
    CurTimeOK (forwardMobilityCheck g cfg w q p) := by
  have hm : ∀ o, CurTimeOK (setVelocity g (setDisplacement g w o p) o p) := fun o =>
    curTimeOK_keep w _ rfl rfl
      (frame_trans (frame_setDisplacement (S := fun _ => True) g w o p)
        (frame_setVelocity g _ o p)).t_eq h
  unfold forwardMobilityCheck
  simp only []
  split_ifs
  · exact curTimeOK_keep w _ (by simp [setDisplacement]) (by simp [setDisplacement])
      (frame_trans (frame_trans (frame_setDisplacement (S := fun _ => True) g w _ p)
        (frame_setNoise _ p trivial)) (frame_reportPoint _)).t_eq h
  · unfold forwardGap
    simp only []
    split_ifs
    · refine curTimeOK_forwardFilter g cfg _ _ _ ?_
      exact curTimeOK_keep (setVelocity g (setDisplacement g w (oldLocOf w q) p) (oldLocOf w q) p)
        _ rfl rfl
        (frame_trans (frame_trans (frame_setAnno (S := fun _ => True) p GAP_END (by decide))
          (frame_setAnno (oldLocOf w q) GAP_START (by decide))) (frame_setStatus _ _)).t_eq
        (hm _)
    · exact curTimeOK_init _ _
  · exact curTimeOK_forwardFilter g cfg _ _ _ (hm _)

theorem curTimeOK_updateFrom (w : World) (q p : Nat) (h : CurTimeOK w) :
    CurTimeOK (updateFrom g cfg w q p) := by
  obtain ⟨hheap, hseq, _, hcur, _, _, _⟩ := updateFrom_fields g cfg w q p
  have hb := frame_backwardMobilityCheck (S := fun _ => True) g cfg
    (forwardMobilityCheck g cfg w q p) q p
  refine curTimeOK_keep _ _ ?_ hcur ?_ (curTimeOK_forwardMobilityCheck g cfg w q p h)
  · rw [hseq, backwardMobilityCheck_getLast]
  · intro i; rw [hheap]; exact hb.t_eq i

theorem curTimeOK_expunge (w : World) (t : Nat) (h : CurTimeOK w) :
    CurTimeOK (expungeObsoleteLocations cfg w t) := by
  unfold expungeObsoleteLocations
  simp only []
  split_ifs
  · exact h
  · split
    · rename_i q hq
      intro q1 hq1
      have e : (expungeFrom cfg t w w.seqPoints).seqPoints.getLast? = some q1 := hq1
      rw [hq] at e
      cases e
      rfl
    · rename_i hq
      intro q1 hq1
      have e : (expungeFrom cfg t w w.seqPoints).seqPoints.getLast? = some q1 := hq1
      rw [hq] at e
      cases e

theorem curTimeOK_markGap (w : World) : CurTimeOK (markLastLocationAsGap w) := by
  intro q hq
  have e : (markLastLocationAsGap w).seqPoints = [] := by
    unfold markLastLocationAsGap; rfl
  rw [e] at hq
  cases hq

theorem curTimeOK_route {w w1 : World} (p : Nat) (h : CurTimeOK w)
    (hr : route g cfg w p = some w1) : CurTimeOK w1 := by
  unfold route at hr
  by_cases hk : w.known = true
  · rw [if_neg (by simp [hk])] at hr
    simp only [] at hr
    by_cases he : (expungeObsoleteLocations cfg w (w.heap p).t).seqPoints = []
    · rw [if_pos he] at hr
      cases hr; exact curTimeOK_init _ _
    · rw [if_neg he] at hr
      unfold update at hr
      split at hr
      · cases hr
      · cases hr
        exact curTimeOK_updateFrom g cfg _ _ _ (curTimeOK_expunge cfg w _ h)
  · rw [if_pos hk] at hr
    cases hr; exact curTimeOK_init _ _

theorem curTimeOK_runFrom (rs : List Raw) {w w1 : World} (hi : Inv w) (h : CurTimeOK w)
    (hr : runFrom g cfg w rs = some w1) : CurTimeOK w1 := by
  induction rs generalizing w with
  | nil => cases hr; exact h
  | cons r rs ih =>
    obtain ⟨w2, hf, hi2⟩ := inv_feed g cfg hi r
    unfold runFrom at hr
    rw [hf] at hr
    refine ih hi2 ?_ hr
    unfold feed at hf
    refine curTimeOK_route g cfg _ ?_ hf
    intro q hq
    have hq1 : w.seqPoints.getLast? = some q := hq
    have hlt : q < w.allocated := hi.seq_lt q (List.mem_of_getLast?_eq_some hq1)
    show w.curTime = ((alloc w r).1.heap q).t
    rw [(alloc_facts w r).2.2.2.2.2.2 q (Nat.ne_of_lt hlt)]
    exact h q hq1

end CurTime

/-- C27: in every state reachable from a newly constructed State through `init`, `update`,
`expungeObsoleteLocations` and `markLastLocationAsGap` in any order, and in every state
reached by the router loop on any input, a non-empty window has `curTime` equal to the
timestamp of its last element. -/
theorem cur_time_is_last_timestamp (g : Geo) (cfg : Config) :
    (∀ w, StateReachable g cfg w →
        ∀ q, w.seqPoints.getLast? = some q → w.curTime = (w.heap q).t)
      ∧ (∀ rs w, run g cfg rs = some w →
        ∀ q, w.seqPoints.getLast? = some q → w.curTime = (w.heap q).t) := by
  refine ⟨?_, ?_⟩
  · intro w hw
    induction hw with
    | new w h => intro q hq; rw [h] at hq; cases hq
    | init w p _ _ => exact curTimeOK_init w p
    | update w w1 p _ hu ih =>
      unfold update at hu
      split at hu
      · cases hu
      · cases hu
        exact curTimeOK_updateFrom g cfg _ _ _ ih
    | expunge w t _ ih => exact curTimeOK_expunge cfg w t ih
    | markGap w _ _ => exact curTimeOK_markGap w
  · intro rs w hr
    refine curTimeOK_runFrom g cfg rs inv_start ?_ hr
    intro q hq
    cases hq

/-! ## The rate-of-turn test of the noise filter -/

section RateOfTurn

/-- In exact arithmetic the double `fmod` of `getRateOfTurn` brings the heading change into
`[-180, 180)`, so that the fold `phi > 180` of `getRateOfTurn` is never taken. -/
theorem fmod_twice (a : ℚ) :
    fmod (fmod (a + 180) 360 + 360) 360 - 180 = normalizeTurn a
      ∧ -180 ≤ normalizeTurn a ∧ normalizeTurn a < 180 := by
  have hk : ∃ k : ℤ, fmod (a + 180) 360 = (a + 180) - 360 * (k : ℚ)
      ∧ -360 < fmod (a + 180) 360 := by
    unfold fmod
    split_ifs with h
    · refine ⟨Rat.floor ((a + 180) / 360), rfl, ?_⟩
      have h1 := Int.floor_le ((a + 180) / 360)
      rw [ratFloor_eq]
      have : (⌊(a + 180) / 360⌋ : ℚ) * 360 ≤ a + 180 := by
        rw [← le_div_iff₀ (by norm_num : (0 : ℚ) < 360)]
        exact h1
      linarith
    · refine ⟨-Rat.floor (-((a + 180) / 360)), by push_cast; ring, ?_⟩
      have h2 := Int.lt_floor_add_one (-((a + 180) / 360))
      rw [ratFloor_eq]
      have : -((a + 180) / 360) * 360 < ((⌊-((a + 180) / 360)⌋ : ℚ) + 1) * 360 :=
        mul_lt_mul_of_pos_right h2 (by norm_num)
      have e : -((a + 180) / 360) * 360 = -(a + 180) := by ring
      rw [e] at this
      linarith
  obtain ⟨k, hk1, hk2⟩ := hk
  obtain ⟨e, h0, h1⟩ := fmod_of_nonneg (fmod (a + 180) 360 + 360) (by linarith)
  have hfl : ⌊(fmod (a + 180) 360 + 360) / 360⌋ = ⌊(a + 180) / 360⌋ + (1 - k) := by
    rw [← Int.floor_add_int]
    congr 1
    rw [hk1]
    push_cast
    ring
  have hval : fmod (fmod (a + 180) 360 + 360) 360 - 180 = normalizeTurn a := by
    unfold normalizeTurn
    rw [e, hfl, hk1]
    push_cast
    ring
  refine ⟨hval, ?_, ?_⟩
  · rw [← hval]; linarith
  · rw [← hval]; linarith

end RateOfTurn

/-- C28 (code evaluated at the failing input): under the Default Config (3 degrees per
second), with both objects free of GAP_END, speed 10 knots, no speed change.  A turn from
heading 0 to heading 90 in 10 s is not noise, while the turn from 90 to 0 in 10 s is noise,
although both have magnitude 9 degrees per second.  When the previous element has elapsed
time 100 s, the turn from 90 to 0 in 10 s is not noise (the code divides by 100, not by
10). -/
theorem rate_of_turn_is_one_sided :
    checkNoise Config.Default (turnLoc 0 10) (turnLoc 90 10) = false
      ∧ checkNoise Config.Default (turnLoc 90 10) (turnLoc 0 10) = true
      ∧ |normalizeTurn (90 - 0)| / ((turnLoc 90 10).time_elapsed : ℚ) = 9
      ∧ |normalizeTurn (0 - 90)| / ((turnLoc 0 10).time_elapsed : ℚ) = 9
      ∧ checkNoise Config.Default (turnLoc 90 100) (turnLoc 0 10) = false := by
  decide!

/-- C29 (code evaluated at the failing input): under the Default Config, after six of the
records the object is STOPPED with window `[2, 3, 4, 5]`; object 2, older than the stop,
carries CHANGE_IN_HEADING and object 4 carries STOP_START (and no CHANGE_IN_HEADING).  The
forward check of the seventh record ends the stop (STOP_END on object 5) and calls
`revokeChangeInHeading`: afterwards object 2 has lost CHANGE_IN_HEADING, while object 4 is
still the STOP_START element of the window.  The function applied to the window before the
update clears the bit of object 2 as well: the walk tests STOP_START only on elements that
carry CHANGE_IN_HEADING, so it passes object 4. -/
theorem revoke_passes_stop_start :
    (run gridGeo Config.Default (turnThenStopRecords.take 6)).map
        (fun w => (w.seqPoints, w.isStopped,
          (List.range 6).map (fun i => decodeAnnotation (w.heap i))))
        = some ([2, 3, 4, 5], true,
            [["GAP_END"], [], ["CHANGE_IN_HEADING"], [], ["STOP_START"], []])
      ∧ ((beforeUpdate gridGeo Config.Default (turnThenStopRecords.take 6)
            ⟨1, 14 / 10000, 14 / 10000, 1420⟩).bind
          (fun w => updatePhases gridGeo Config.Default w 6)).map
        (fun ph => (ph.1.seqPoints,
          (List.range 6).map (fun i => decodeAnnotation (ph.1.heap i))))
        = some ([2, 3, 4, 5, 6],
            [["GAP_END"], [], [], [], ["STOP_START"], ["STOP_END"]])
      ∧ (beforeUpdate gridGeo Config.Default (turnThenStopRecords.take 6)
            ⟨1, 14 / 10000, 14 / 10000, 1420⟩).map
        (fun w => ((revokeChangeInHeading w).heap 2).bit CHANGE_IN_HEADING) = some false := by
  decide!

section NetDisplacement

theorem stopWalkEnd_cons_of_stop (h : Nat → Location) (first second : Nat) (rest : List Nat)
    (hs : (h second).bit STOP_START = true) :
    stopWalkEnd h first (second :: rest) = second := by
  unfold stopWalkEnd
  rw [List.find?_cons_of_pos _ (by simpa using hs)]

theorem stopWalkEnd_cons_of_not (h : Nat → Location) (first second : Nat) (rest : List Nat)
    (hs : ¬ (h second).bit STOP_START = true) :
    stopWalkEnd h first (second :: rest) = stopWalkEnd h second rest := by
  unfold stopWalkEnd
  rw [List.find?_cons_of_neg _ (by simpa using hs)]
  cases rest.find? (fun i => (h i).bit STOP_START) with
  | some s => rfl
  | none =>
    cases rest with
    | nil => rfl
    | cons a as => rfl

/-- The loop of `getStopNetDisplacement` adds to `net` the coordinates of the element where
the walk ends minus those of the starting element. -/
theorem netFrom_telescopes (h : Nat → Location) (rest : List Nat) (first : Nat) (net : ℚ × ℚ) :
    netFrom h first net rest
      = (net.1 + ((h (stopWalkEnd h first rest)).x - (h first).x),
         net.2 + ((h (stopWalkEnd h first rest)).y - (h first).y)) := by
  induction rest generalizing first net with
  | nil => simp [netFrom, stopWalkEnd]
  | cons second rest ih =>
    unfold netFrom
    simp only []
    split_ifs with hs
    · rw [stopWalkEnd_cons_of_stop h first second rest hs]
    · rw [ih, stopWalkEnd_cons_of_not h first second rest hs]
      ext <;> simp <;> ring

end NetDisplacement

/-- C30 (code evaluated at the failing input): under the Default Config, after three
eastbound records and a record at the place of the third, the object is STOPPED with window
`[0, 1, 2, 3]` and the newest element carries STOP_START; yet the vector accumulated without
excluding the current element is `(-0.0014, 0)` (about 156 m), the displacement back to the
oldest element, and not the zero vector.  The same vector results with the current element
excluded, so a fifth record only 22 m away (0.72 knots) makes the forward check revoke the
stop. -/
theorem net_displacement_passes_newest_stop_start :
    shortStopWorld.seqPoints = [0, 1, 2, 3] ∧ shortStopWorld.isStopped = true
      ∧ (shortStopWorld.heap 3).bit STOP_START = true
      ∧ stopNetVector shortStopWorld false = (-14 / 10000, 0)
      ∧ stopNetVector shortStopWorld false ≠ (0, 0)
      ∧ getStopNetDisplacement gridGeo shortStopWorld false = 77923643 / 500000
      ∧ stopNetVector shortStopWorld true = (-14 / 10000, 0)
      ∧ (run gridGeo Config.Default shortStopRecords).map
          (fun w => (w.isStopped, (w.heap 3).bit STOP_START, (w.heap 4).distance))
        = some (false, false, 11131949 / 500000) := by
  decide!

/-- The walk of `getStopNetDisplacement` in general.  Let `first :: rest` be the window from
newest to oldest, without the newest element when `excludeCurLocation` is set.  The
accumulated vector is the coordinate difference `e - first`, where `e` is the first element
of `rest` that carries STOP_START, or the oldest element when `rest` has none (and `first`
itself when `rest` is empty): the loop tests the STOP_START bit of `second` only, never that
of the element it starts from. -/
theorem stopNetVector_telescopes (w : World) (excludeCurLocation : Bool) (first : Nat)
    (rest : List Nat)
    (hw : (if excludeCurLocation then w.seqPoints.reverse.tail else w.seqPoints.reverse)
      = first :: rest) :
    stopNetVector w excludeCurLocation
        = ((w.heap (stopWalkEnd w.heap first rest)).x - (w.heap first).x,
           (w.heap (stopWalkEnd w.heap first rest)).y - (w.heap first).y)
      ∧ (∀ s ∈ rest, (w.heap s).bit STOP_START = true →
          (∀ i ∈ rest.takeWhile (fun i => i ≠ s), (w.heap i).bit STOP_START = false) →
          stopWalkEnd w.heap first rest = s)
      ∧ ((∀ i ∈ rest, (w.heap i).bit STOP_START = false) →
          stopWalkEnd w.heap first rest = rest.getLastD first) := by
  refine ⟨?_, ?_, ?_⟩
  · unfold stopNetVector
    simp only []
    rw [hw]
    simp only []
    rw [netFrom_telescopes]
    simp
  · intro s hs hb hbefore
    clear hw
    induction rest generalizing first with
    | nil => cases hs
    | cons a as ih =>
      by_cases ha : (w.heap a).bit STOP_START = true
      · rw [stopWalkEnd_cons_of_stop _ _ _ _ ha]
        by_contra hne
        have hm : a ∈ (a :: as).takeWhile (fun i => i ≠ s) := by
          rw [List.takeWhile_cons_of_pos (by simpa using hne)]
          exact List.mem_cons_self _ _
        rw [hbefore a hm] at ha
        cases ha
      · rw [stopWalkEnd_cons_of_not _ _ _ _ ha]
        have hsa : s ≠ a := fun e => ha (e ▸ hb)
        have hs1 : s ∈ as := by
          rcases List.mem_cons.1 hs with e | e
          · exact absurd e hsa
          · exact e
        refine ih a hs1 ?_
        intro i hi
        refine hbefore i ?_
        rw [List.takeWhile_cons_of_pos (by simpa using Ne.symm hsa)]
        exact List.mem_cons_of_mem _ hi
  · intro hnone
    unfold stopWalkEnd
    have : rest.find? (fun i => (w.heap i).bit STOP_START) = none := by
      rw [List.find?_eq_none]
      intro i hi
      simp [hnone i hi]
    rw [this]

/-! ## Eviction -/

/-- C33: for every STOPPED State and every reference time, `expungeObsoleteLocations` returns
the State as it was: window, status bits, `curTime`, the objects and the Sink buffer are all
unchanged. -/
theorem expunge_is_noop_while_stopped (cfg : Config) (w : World) (t : Nat)
    (hs : w.isStopped = true) :
    expungeObsoleteLocations cfg w t = w
      ∧ (expungeObsoleteLocations cfg w t).seqPoints = w.seqPoints
      ∧ (expungeObsoleteLocations cfg w t).status = w.status
      ∧ (expungeObsoleteLocations cfg w t).curTime = w.curTime
      ∧ (expungeObsoleteLocations cfg w t).annoResults = w.annoResults := by
  have e : expungeObsoleteLocations cfg w t = w := by
    unfold expungeObsoleteLocations
    rw [if_pos hs]
  rw [e]
  exact ⟨rfl, rfl, rfl, rfl, rfl⟩

/-- Witness for C33: after seven records at one position the State is STOPPED with seven
objects in the window (more than `state_size = 5`), and eviction at a reference time
100000 s later (far more than `state_timespan`) leaves all seven. -/
theorem expunge_is_noop_while_stopped_witness :
    longStopWorld.isStopped = true ∧ longStopWorld.seqPoints = [0, 1, 2, 3, 4, 5, 6]
      ∧ (expungeObsoleteLocations Config.Default longStopWorld 101360).seqPoints
          = longStopWorld.seqPoints :=
  ⟨by decide!, by decide!,
   (expunge_is_noop_while_stopped Config.Default longStopWorld 101360 (by decide!)).2.1⟩

/-- C34 (code evaluated at the failing input): under the Default Config
(`state_size = 5`, `state_timespan = 1000`), with window `[0, 1]` (timestamps 100 and 160),
not STOPPED, the call `expungeObsoleteLocations(220)` evicts object 0 into the Sink: the
unsigned difference `220 - 1000` is 4294966516.  With all timestamps 10000 s later nothing
is evicted. -/
theorem expunge_wraps_below_timespan :
    earlyWorld.seqPoints = [0, 1] ∧ earlyWorld.isStopped = false
      ∧ earlyWorld.seqPoints.length ≤ Config.Default.state_size
      ∧ 220 < Config.Default.state_timespan
      ∧ (earlyWorld.heap 0).t = 100
      ∧ usub 220 Config.Default.state_timespan = 4294966516
      ∧ (expungeObsoleteLocations Config.Default earlyWorld 220).seqPoints = [1]
      ∧ sinkPtrs (expungeObsoleteLocations Config.Default earlyWorld 220) = [0]
      ∧ lateWorld.seqPoints = [0, 1]
      ∧ (expungeObsoleteLocations Config.Default lateWorld 10220).seqPoints = [0, 1]
      ∧ sinkPtrs (expungeObsoleteLocations Config.Default lateWorld 10220) = [] := by
  decide!

/-- C36: `expungeObsoleteLocations` keeps the newest element: a non-empty window is
non-empty afterwards, with the same last element; hence the window is empty after the call
exactly when it was empty before, and for a known object with a non-empty window the router
calls `update`. -/
theorem expunge_keeps_newest (g : Geo) (cfg : Config) (w : World) (t : Nat)
    (hne : w.seqPoints ≠ []) :
    (expungeObsoleteLocations cfg w t).seqPoints ≠ []
      ∧ (expungeObsoleteLocations cfg w t).seqPoints.getLast? = w.seqPoints.getLast?
      ∧ (∀ w0 t0, (expungeObsoleteLocations cfg w0 t0).seqPoints = [] → w0.seqPoints = [])
      ∧ (∀ p, w.known = true →
          route g cfg w p = update g cfg (expungeObsoleteLocations cfg w (w.heap p).t) p) := by
  have key : ∀ (w0 : World) (t0 : Nat), w0.seqPoints ≠ [] →
      (expungeObsoleteLocations cfg w0 t0).seqPoints ≠ []
        ∧ (expungeObsoleteLocations cfg w0 t0).seqPoints.getLast? = w0.seqPoints.getLast? := by
    intro w0 t0 h0
    obtain ⟨q, hq⟩ : ∃ q, w0.seqPoints.getLast? = some q := by
      cases hl : w0.seqPoints.getLast? with
      | none => exact absurd (List.getLast?_eq_none_iff.1 hl) h0
      | some q => exact ⟨q, rfl⟩
    have h1 := (expungeObsoleteLocations_getLast cfg w0 q t0 hq).1
    refine ⟨?_, by rw [h1, hq]⟩
    intro e
    rw [e] at h1
    cases h1
  refine ⟨(key w t hne).1, (key w t hne).2, ?_, ?_⟩
  · intro w0 t0 e
    by_contra h0
    exact (key w0 t0 h0).1 e
  · intro p hk
    unfold route
    rw [if_neg (by simp [hk])]
    simp only []
    rw [if_neg (key w _ hne).1]

/-- Witness for C36: eviction at a reference time 100000 s after a window of two objects
keeps the newest one. -/
theorem expunge_keeps_newest_witness :
    lateWorld.seqPoints = [0, 1]
      ∧ (expungeObsoleteLocations Config.Default lateWorld 110220).seqPoints = [1]
      ∧ (expungeObsoleteLocations Config.Default lateWorld 110220).seqPoints ≠ [] :=
  ⟨by decide!, by decide!,
   (expunge_keeps_newest gridGeo Config.Default lateWorld 110220 (by decide!)).1⟩

/-! ## Stop exit and stop entry -/

section StopBlock

theorem revokeStopFrom_none (w : World) (l : List Nat)
    (h : ∀ i ∈ l, (w.heap i).bit STOP_START = false) : revokeStopFrom w l = w := by
  induction l with
  | nil => rfl
  | cons a l ih =>
    unfold revokeStopFrom
    rw [if_neg (by simp [h a (List.mem_cons_self _ _)])]
    exact ih (fun i hi => h i (List.mem_cons_of_mem _ hi))

theorem setAnno_bit (w : World) (s i : Nat) (b c : Fin 11) :
    ((w.setAnno s b).heap i).bit c
      = if i = s ∧ c = b then true else (w.heap i).bit c := by
  unfold World.setAnno World.modify Location.set Location.bit
  by_cases hi : i = s
  · subst hi
    by_cases hc : c = b <;> simp [hc]
  · simp [hi]

end StopBlock

section StopEntry

variable (g : Geo) (cfg : Config)

/-- When the noise filter passes and the stop-entry test holds in a State that is not
STOPPED, the forward check is the stop-entry branch applied to the appended window. -/
theorem forwardMobilityCheck_stopEntry (w : World) (q p : Nat)
    (hq : w.seqPoints.getLast? = some q) (hs : w.isStopped = false)
    (h0 : 0 < usub (w.heap p).t (w.heap q).t)
    (ht : usub (w.heap p).t (w.heap q).t ≤ cfg.gap_period)
    (hn : checkNoise cfg ((setVelocity g (setDisplacement g w q p) q p).heap q)
      ((setVelocity g (setDisplacement g w q p) q p).heap p) = false)
    (hv : ((setVelocity g (setDisplacement g w q p) q p).heap p).speed < cfg.no_speed)
    (hd : ((setVelocity g (setDisplacement g w q p) q p).heap p).distance
        < cfg.distance_threshold
      ∨ getHaversineDistance g ((setVelocity g (setDisplacement g w q p) q p).heap p).x
          ((setVelocity g (setDisplacement g w q p) q p).heap p).y
          (getCentroid (append (setVelocity g (setDisplacement g w q p) q p) p)).1
          (getCentroid (append (setVelocity g (setDisplacement g w q p) q p) p)).2
        < cfg.distance_threshold) :
    forwardMobilityCheck g cfg w q p
      = stopEntry (append (setVelocity g (setDisplacement g w q p) q p) p) q p := by
  rw [forwardMobilityCheck_nogap g cfg w q p hq h0 ht]
  have hlen : ¬ (append (setVelocity g (setDisplacement g w q p) q p) p).seqPoints.length < 2 := by
    have hne : w.seqPoints ≠ [] := by
      intro e; rw [e] at hq; cases hq
    have h1 : 0 < w.seqPoints.length := List.length_pos.2 hne
    show ¬ (w.seqPoints ++ [p]).length < 2
    simp
    omega
  have hst : (append (setVelocity g (setDisplacement g w q p) q p) p).isStopped = false := hs
  unfold forwardFilter
  rw [if_neg (by simp [hn])]
  simp only []
  rw [if_neg hlen]
  have hfs : forwardStop g cfg (append (setVelocity g (setDisplacement g w q p) q p) p) q p
      = stopEntry (append (setVelocity g (setDisplacement g w q p) q p) p) q p := by
    unfold forwardStop
    simp only []
    rw [if_pos ⟨by simp [hst], hv, hd⟩]
  rw [hfs]
  unfold forwardSpeed
  rw [if_neg (by simp [stopEntry_stopped])]

end StopEntry
section StopEntryBits

/-- The status bits after the stop-entry branch: STOPPED only. -/
theorem stopEntry_status (w : World) (q p : Nat) :
    (stopEntry w q p).isStopped = true ∧ (stopEntry w q p).isSlowMotion = false
      ∧ (stopEntry w q p).hasSpeedChanged = false := by
  unfold stopEntry
  simp only []
  split_ifs <;>
    simp_all [World.isStopped, World.isSlowMotion, World.hasSpeedChanged, World.setStatus,
      World.resetStatus, World.setAnno, World.modify]

/-- The bits written by the stop-entry branch. -/
theorem stopEntry_bits (w : World) (q p i : Nat) (b : Fin 11) :
    ((stopEntry w q p).heap i).bit b
      = if i = p ∧ b = CHANGE_IN_SPEED_END ∧ w.hasSpeedChanged = true then true
        else if i = p ∧ b = SLOW_MOTION_END ∧ w.isSlowMotion = true then true
        else if b = STOP_START ∧ (((w.heap q).bit GAP_END = true ∧ i = q)
            ∨ ((w.heap q).bit GAP_END = false ∧ i = p)) then true
        else (w.heap i).bit b := by
  have hs1 : ∀ x : World, (x.setStatus STOPPED).isSlowMotion = x.isSlowMotion := by
    intro x; simp [World.isSlowMotion, World.setStatus]
  have hs2 : ∀ x : World, (x.setStatus STOPPED).hasSpeedChanged = x.hasSpeedChanged := by
    intro x; simp [World.hasSpeedChanged, World.setStatus]
  have hs3 : ∀ x : World, (x.resetStatus SLOW_MOTION).hasSpeedChanged = x.hasSpeedChanged := by
    intro x; simp [World.hasSpeedChanged, World.resetStatus]
  have ha1 : ∀ (x : World) (a : Nat) (c : Fin 11), (x.setAnno a c).isSlowMotion = x.isSlowMotion :=
    fun _ _ _ => rfl
  have ha2 : ∀ (x : World) (a : Nat) (c : Fin 11),
      (x.setAnno a c).hasSpeedChanged = x.hasSpeedChanged := fun _ _ _ => rfl
  unfold stopEntry
  simp only []
  by_cases hg : (w.heap q).bit GAP_END = true <;> by_cases hsl : w.isSlowMotion = true <;>
    by_cases hsc : w.hasSpeedChanged = true <;>
    simp only [hg, hsl, hsc, hs1, hs2, hs3, ha1, ha2, if_true, if_false, setAnno_bit,
      World.setStatus_heap, World.resetStatus_heap, true_and, false_and, and_true, and_false,
      or_false, false_or, Bool.false_eq_true, Bool.not_eq_true, not_true_eq_false,
      not_false_eq_true] <;>
    simp [and_comm]

end StopEntryBits
/-- C32: stop entry.  For a State that is not STOPPED, with last element `q`, and a new
object `p` that comes without a gap, passes the noise filter and has `speed < no_speed` and
(`distance < distance_threshold` or a distance to the centroid of the appended window below
`distance_threshold`), `update(p)` appends `p`, sets STOPPED, puts STOP_START on `q` when
`q` carries GAP_END and on `p` otherwise, sets SLOW_MOTION_END on `p` exactly when
SLOW_MOTION was set and CHANGE_IN_SPEED_END on `p` exactly when SPEED_CHANGED was set,
clears both flags, and sets neither CHANGE_IN_SPEED_START nor SLOW_MOTION_START on `p`. -/
theorem stop_entry_effects (g : Geo) (cfg : Config) (w : World) (q p : Nat)
    (hq : w.seqPoints.getLast? = some q) (hp : p ∉ w.seqPoints)
    (hfresh : ∀ b, (w.heap p).bit b = false) (hs : w.isStopped = false)
    (h0 : 0 < usub (w.heap p).t (w.heap q).t)
    (ht : usub (w.heap p).t (w.heap q).t ≤ cfg.gap_period)
    (hn : checkNoise cfg ((setVelocity g (setDisplacement g w q p) q p).heap q)
      ((setVelocity g (setDisplacement g w q p) q p).heap p) = false)
    (hv : ((setVelocity g (setDisplacement g w q p) q p).heap p).speed < cfg.no_speed)
    (hd : ((setVelocity g (setDisplacement g w q p) q p).heap p).distance
        < cfg.distance_threshold
      ∨ getHaversineDistance g ((setVelocity g (setDisplacement g w q p) q p).heap p).x
          ((setVelocity g (setDisplacement g w q p) q p).heap p).y
          (getCentroid (append (setVelocity g (setDisplacement g w q p) q p) p)).1
          (getCentroid (append (setVelocity g (setDisplacement g w q p) q p) p)).2
        < cfg.distance_threshold) :
    (updateFrom g cfg w q p).seqPoints = w.seqPoints ++ [p]
      ∧ (updateFrom g cfg w q p).isStopped = true
      ∧ ((w.heap q).bit GAP_END = true →
          ((updateFrom g cfg w q p).heap q).bit STOP_START = true
            ∧ ((updateFrom g cfg w q p).heap p).bit STOP_START = false)
      ∧ ((w.heap q).bit GAP_END = false →
          ((updateFrom g cfg w q p).heap p).bit STOP_START = true
            ∧ ((updateFrom g cfg w q p).heap q).bit STOP_START = (w.heap q).bit STOP_START)
      ∧ ((updateFrom g cfg w q p).heap p).bit SLOW_MOTION_END = w.isSlowMotion
      ∧ (updateFrom g cfg w q p).isSlowMotion = false
      ∧ ((updateFrom g cfg w q p).heap p).bit CHANGE_IN_SPEED_END = w.hasSpeedChanged
      ∧ (updateFrom g cfg w q p).hasSpeedChanged = false
      ∧ ((updateFrom g cfg w q p).heap p).bit CHANGE_IN_SPEED_START = false
      ∧ ((updateFrom g cfg w q p).heap p).bit SLOW_MOTION_START = false := by
  have hqp : q ≠ p := by
    intro e
    exact hp (e ▸ List.mem_of_getLast?_eq_some hq)
  have hF := forwardMobilityCheck_stopEntry g cfg w q p hq hs h0 ht hn hv hd
  obtain ⟨hheap, hseq, _, _, _, _, hstat⟩ := updateFrom_fields g cfg w q p
  rw [hF] at hheap hseq hstat
  -- the objects after the forward check
  have hbitX : ∀ i b, ((stopEntry (append (setVelocity g (setDisplacement g w q p) q p) p)
      q p).heap i).bit b
      = if i = p ∧ b = CHANGE_IN_SPEED_END ∧ w.hasSpeedChanged = true then true
        else if i = p ∧ b = SLOW_MOTION_END ∧ w.isSlowMotion = true then true
        else if b = STOP_START ∧ (((w.heap q).bit GAP_END = true ∧ i = q)
            ∨ ((w.heap q).bit GAP_END = false ∧ i = p)) then true
        else (w.heap i).bit b := by
    intro i b
    rw [stopEntry_bits]
    have e1 : ∀ j c, ((append (setVelocity g (setDisplacement g w q p) q p) p).heap j).bit c
        = (w.heap j).bit c := fun j c => measured_bit g w q p j c
    rw [e1 i b, e1 q GAP_END]
    rfl
  have hkin : ((stopEntry (append (setVelocity g (setDisplacement g w q p) q p) p) q p).heap
      p).speed = ((setVelocity g (setDisplacement g w q p) q p).heap p).speed :=
    ((footprint_stopEntry_quiet (append (setVelocity g (setDisplacement g w q p) q p) p) q p
      (K := fun _ => False)).kin_eq p (fun h => h)).1
  have hB := footprint_backward g cfg
    (stopEntry (append (setVelocity g (setDisplacement g w q p) q p) p) q p) q p
  have hBseq := (backwardMobilityCheck_slow g cfg
    (stopEntry (append (setVelocity g (setDisplacement g w q p) q p) p) q p) q p
    (by rw [hkin]; exact not_lt.2 (le_of_lt hv))).1
  have hbit : ∀ i b, b ≠ REPORTED → b ≠ CHANGE_IN_HEADING →
      ((updateFrom g cfg w q p).heap i).bit b
        = if i = p ∧ b = CHANGE_IN_SPEED_END ∧ w.hasSpeedChanged = true then true
          else if i = p ∧ b = SLOW_MOTION_END ∧ w.isSlowMotion = true then true
          else if b = STOP_START ∧ (((w.heap q).bit GAP_END = true ∧ i = q)
              ∨ ((w.heap q).bit GAP_END = false ∧ i = p)) then true
          else (w.heap i).bit b := by
    intro i b hb1 hb2
    rw [hheap, hB.bit_eq i b (by unfold backMask; simp [hb1, hb2]), hbitX]
  have hstatus : (updateFrom g cfg w q p).status
      = (stopEntry (append (setVelocity g (setDisplacement g w q p) q p) p) q p).status := by
    apply hstat
    rw [hB.bit_eq p STOP_END (by unfold backMask; simp), hbitX, hfresh]
    simp
  obtain ⟨hst1, hst2, hst3⟩ :=
    stopEntry_status (append (setVelocity g (setDisplacement g w q p) q p) p) q p
  refine ⟨?_, ?_, ?_, ?_, ?_, ?_, ?_, ?_, ?_, ?_⟩
  · rw [hseq, hBseq, stopEntry_seqPoints]; rfl
  · unfold World.isStopped at hst1 ⊢; rw [hstatus]; exact hst1
  · intro hg
    rw [hbit q STOP_START (by decide) (by decide), hbit p STOP_START (by decide) (by decide),
      hfresh]
    simp [hg, Ne.symm hqp]
  · intro hg
    rw [hbit q STOP_START (by decide) (by decide), hbit p STOP_START (by decide) (by decide)]
    simp [hg, hqp]
  · rw [hbit p SLOW_MOTION_END (by decide) (by decide), hfresh]
    cases w.isSlowMotion <;> simp
  · unfold World.isSlowMotion at hst2 ⊢; rw [hstatus]; exact hst2
  · rw [hbit p CHANGE_IN_SPEED_END (by decide) (by decide), hfresh]
    cases w.hasSpeedChanged <;> simp
  · unfold World.hasSpeedChanged at hst3 ⊢; rw [hstatus]; exact hst3
  · rw [hbit p CHANGE_IN_SPEED_START (by decide) (by decide), hfresh]
    simp
  · rw [hbit p SLOW_MOTION_START (by decide) (by decide), hfresh]
    simp

/-- Witness for C32: after the low-speed records of scenario S6 (SLOW_MOTION set), a record
at the place of the last one 120 s later enters a stop; the new object 5 gets STOP_START
and SLOW_MOTION_END. -/
theorem stop_entry_effects_witness :
    slowStopWorld.seqPoints = [0, 1, 2, 3, 4] ∧ slowStopWorld.isSlowMotion = true
      ∧ (updateFrom gridGeo Config.Default slowStopWorld 4 5).seqPoints
          = slowStopWorld.seqPoints ++ [5]
      ∧ (updateFrom gridGeo Config.Default slowStopWorld 4 5).isStopped = true
      ∧ ((updateFrom gridGeo Config.Default slowStopWorld 4 5).heap 5).bit SLOW_MOTION_END
          = slowStopWorld.isSlowMotion
      ∧ decodeAnnotation ((updateFrom gridGeo Config.Default slowStopWorld 4 5).heap 5)
          = ["STOP_START", "SLOW_MOTION_END"] :=
  ⟨by decide!, by decide!,
   (stop_entry_effects gridGeo Config.Default slowStopWorld 4 5 (by decide!) (by decide!)
      (by decide!) (by decide!) (by decide!) (by decide!) (by decide!) (by decide!)
      (Or.inl (by decide!))).1,
   (stop_entry_effects gridGeo Config.Default slowStopWorld 4 5 (by decide!) (by decide!)
      (by decide!) (by decide!) (by decide!) (by decide!) (by decide!) (by decide!)
      (Or.inl (by decide!))).2.1,
   (stop_entry_effects gridGeo Config.Default slowStopWorld 4 5 (by decide!) (by decide!)
      (by decide!) (by decide!) (by decide!) (by decide!) (by decide!) (by decide!)
      (Or.inl (by decide!))).2.2.2.2.1,
   by decide!⟩

/-! ## Phase annotations come in pairs on different objects -/

section PairFree

variable (g : Geo) (cfg : Config)

theorem pairFree_of_bits {l l1 : Location}
    (h : ∀ b : Fin 11, ¬ otherMask 0 b → l1.bit b = l.bit b) (hl : l.PairFree) :
    l1.PairFree := by
  unfold Location.PairFree at hl ⊢
  rw [h SLOW_MOTION_START (by unfold otherMask; simp),
    h SLOW_MOTION_END (by unfold otherMask; simp),
    h CHANGE_IN_SPEED_START (by unfold otherMask; simp),
    h CHANGE_IN_SPEED_END (by unfold otherMask; simp)]
  exact hl

theorem pairFree_of_footprint {w w1 : World} {K : Nat → Prop} (h : Footprint otherMask K w w1)
    (i : Nat) (hl : (w.heap i).PairFree) : (w1.heap i).PairFree :=
  pairFree_of_bits (fun b hb => h.bit_eq i b hb) hl

theorem otherMask_of {b : Fin 11} (h2 : b ≠ 2) (h3 : b ≠ 3) (h4 : b ≠ 4) (h5 : b ≠ 5)
    (i : Nat) : otherMask i b := ⟨h2, h3, h4, h5⟩

/-- The stop-exit branch writes none of the four phase annotations. -/
theorem footprint_stopExit_other (w : World) (q : Nat) :
    Footprint otherMask (fun _ => False) w (stopExit g cfg w q) := by
  unfold stopExit
  split_ifs
  · exact footprint_trans
      (show Footprint otherMask (fun _ => False) w (revokeStop w) from
        footprint_revokeStopFrom _ _ (otherMask_of (by decide) (by decide) (by decide)
          (by decide)))
      (footprint_resetStatus _ _)
  · have a1 : Footprint otherMask (fun _ => False) w (w.setAnno q STOP_END) :=
      footprint_setAnno q STOP_END
        (otherMask_of (by decide) (by decide) (by decide) (by decide) q)
    have a2 : Footprint otherMask (fun _ => False) (w.setAnno q STOP_END)
        ((w.setAnno q STOP_END).resetStatus STOPPED) := footprint_resetStatus _ _
    have a3 : Footprint otherMask (fun _ => False)
        ((w.setAnno q STOP_END).resetStatus STOPPED)
        (revokeChangeInHeading ((w.setAnno q STOP_END).resetStatus STOPPED)) :=
      footprint_revokeChangeInHeadingFrom _ _
        (otherMask_of (by decide) (by decide) (by decide) (by decide))
    exact footprint_trans (footprint_trans a1 a2) a3
  · exact footprint_refl w

theorem setAnno_speed (x : World) (a : Nat) (c : Fin 11) (j : Nat) :
    ((x.setAnno a c).heap j).speed = (x.heap j).speed := by
  unfold World.setAnno World.modify Location.set
  by_cases hj : j = a
  · subst hj; simp
  · simp [hj]

/-- The two speed-change tests on an object without speed-change annotation set at most
one of them: the tests compare the same quotient with `speed_ratio`. -/
theorem speedChange_pairFree (w : World) (p : Nat) (m : ℚ)
    (h2 : (w.heap p).bit CHANGE_IN_SPEED_START = false)
    (h3 : (w.heap p).bit CHANGE_IN_SPEED_END = false) :
    ¬ (((speedChangeEnd cfg m (speedChangeStart cfg m w p) p).heap p).bit
          CHANGE_IN_SPEED_START = true
        ∧ ((speedChangeEnd cfg m (speedChangeStart cfg m w p) p).heap p).bit
          CHANGE_IN_SPEED_END = true) := by
  unfold speedChangeStart
  by_cases c1 : |((w.heap p).speed - m) / m| > cfg.speed_ratio ∧ ¬ w.hasSpeedChanged
  · rw [if_pos c1]
    unfold speedChangeEnd
    have hn : ¬ (|((((w.setAnno p CHANGE_IN_SPEED_START).setStatus SPEED_CHANGED).heap p).speed
        - m) / m| ≤ cfg.speed_ratio
        ∧ ((w.setAnno p CHANGE_IN_SPEED_START).setStatus SPEED_CHANGED).hasSpeedChanged) := by
      rw [World.setStatus_heap, setAnno_speed]
      intro h
      exact absurd h.1 (not_le.2 c1.1)
    rw [if_neg hn, World.setStatus_heap, setAnno_bit]
    simp [h3]
  · rw [if_neg c1]
    unfold speedChangeEnd
    split_ifs
    · rw [World.resetStatus_heap, setAnno_bit]
      simp [h2]
    · simp [h2]

theorem slowMotion_bits (w : World) (q p i : Nat) (b : Fin 11)
    (hb4 : b ≠ SLOW_MOTION_START) (hb5 : b ≠ SLOW_MOTION_END) :
    ((slowMotionEnd cfg (slowMotionStart cfg w q p) q p).heap i).bit b = (w.heap i).bit b := by
  have e1 : ((slowMotionStart cfg w q p).heap i).bit b = (w.heap i).bit b := by
    unfold slowMotionStart
    split_ifs
    · rw [World.setStatus_heap, setAnno_bit, if_neg (by simp [hb4])]
    · rfl
  rw [← e1]
  unfold slowMotionEnd
  split_ifs
  · rw [World.resetStatus_heap, setAnno_bit, if_neg (by simp [hb5])]
  · rfl

/-- The speed block applied to an object without phase annotations sets at most one end of
each phase. -/
theorem forwardSpeed_pairFree (w : World) (q p : Nat)
    (h2 : (w.heap p).bit CHANGE_IN_SPEED_START = false)
    (h3 : (w.heap p).bit CHANGE_IN_SPEED_END = false)
    (h4 : (w.heap p).bit SLOW_MOTION_START = false)
    (h5 : (w.heap p).bit SLOW_MOTION_END = false) :
    ((forwardSpeed cfg w q p).heap p).PairFree := by
  by_cases hst : w.isStopped = true
  · have e : forwardSpeed cfg w q p = w := by
      unfold forwardSpeed
      rw [if_neg (by simp [hst])]
    rw [e]
    unfold Location.PairFree
    simp [h2, h4]
  · have hst1 : w.isStopped = false := by simpa using hst
    obtain ⟨_, _, hs4, hs5, _, _⟩ := forwardSpeed_slow cfg w q p hst1
    refine ⟨?_, ?_⟩
    · rintro ⟨a, b⟩
      rw [hs4] at a
      rw [hs5] at b
      rw [h4] at a
      rw [h5] at b
      rcases a with a | a
      · cases a
      · rcases b with b | b
        · cases b
        · exact absurd a.1 (not_le.2 b.1)
    · have e : forwardSpeed cfg w q p
          = slowMotionEnd cfg (slowMotionStart cfg
              (speedChangeEnd cfg (getMeanSpeed w) (speedChangeStart cfg (getMeanSpeed w) w p) p)
              q p) q p := by
        unfold forwardSpeed
        rw [if_pos (by simp [hst])]
      rw [e, slowMotion_bits cfg _ q p p CHANGE_IN_SPEED_START (by decide) (by decide),
        slowMotion_bits cfg _ q p p CHANGE_IN_SPEED_END (by decide) (by decide)]
      exact speedChange_pairFree cfg w p _ h2 h3

end PairFree
section Shapes

variable (g : Geo) (cfg : Config)

/-- The three ways in which `forwardMobilityCheck` ends after the noise filter. -/
theorem forwardFilter_cases (P : World → Prop) (w : World) (o p : Nat)
    (hN : P (reportPoint (w.setAnno p NOISE) p))
    (hA1 : (append w p).seqPoints.length < 2 → P (append w p))
    (hA2 : ¬ (append w p).seqPoints.length < 2 →
      P (forwardSpeed cfg (forwardStop g cfg (append w p) o p) o p)) :
    P (forwardFilter g cfg w o p) := by
  unfold forwardFilter
  simp only []
  split_ifs with h1 h2
  · exact hN
  · exact hA1 h2
  · exact hA2 h2

/-- The ways in which `forwardMobilityCheck` ends before or at the noise filter. -/
theorem forwardMobilityCheck_cases (P : World → Prop) (w : World) (q p : Nat)
    (hN : P (reportPoint ((setDisplacement g w (oldLocOf w q) p).setAnno p NOISE) p))
    (hG : P (init (purge (((setVelocity g (setDisplacement g w (oldLocOf w q) p)
      (oldLocOf w q) p).setAnno p GAP_END).setAnno (oldLocOf w q) GAP_START)) p))
    (hS : (((setVelocity g (setDisplacement g w (oldLocOf w q) p)
        (oldLocOf w q) p).setAnno p GAP_END).setAnno (oldLocOf w q) GAP_START).isStopped = true →
      P (forwardFilter g cfg ((((setVelocity g (setDisplacement g w (oldLocOf w q) p)
        (oldLocOf w q) p).setAnno p GAP_END).setAnno (oldLocOf w q) GAP_START).setStatus
        STOPPED) (oldLocOf w q) p))
    (hF : P (forwardFilter g cfg (setVelocity g (setDisplacement g w (oldLocOf w q) p)
      (oldLocOf w q) p) (oldLocOf w q) p)) :
    P (forwardMobilityCheck g cfg w q p) := by
  unfold forwardMobilityCheck
  simp only []
  split_ifs with h1 h2
  · exact hN
  · unfold forwardGap
    simp only []
    split_ifs with h3
    · exact hS h3.1
    · exact hG
  · exact hF

end Shapes

section PairFreeRun

variable (g : Geo) (cfg : Config)

theorem pairFree_of_clear {l : Location}
    (h : ∀ b : Fin 11, ¬ otherMask 0 b → l.bit b = false) : l.PairFree := by
  unfold Location.PairFree
  rw [h SLOW_MOTION_START (by unfold otherMask; simp),
    h CHANGE_IN_SPEED_START (by unfold otherMask; simp)]
  simp

theorem clear_of_footprint {w w1 : World} {K : Nat → Prop} (h : Footprint otherMask K w w1)
    (p : Nat) (hc : ∀ b : Fin 11, ¬ otherMask 0 b → (w.heap p).bit b = false) :
    ∀ b : Fin 11, ¬ otherMask 0 b → (w1.heap p).bit b = false := by
  intro b hb
  rw [h.bit_eq p b hb]
  exact hc b hb

theorem footprint_noise_other (w : World) (p : Nat) :
    Footprint otherMask (fun _ => False) w (reportPoint (w.setAnno p NOISE) p) :=
  footprint_trans
    (footprint_setAnno p NOISE (otherMask_of (by decide) (by decide) (by decide) (by decide) p))
    (footprint_reportPoint p (otherMask_of (by decide) (by decide) (by decide) (by decide)))

theorem forwardFilter_pairFree (w : World) (o p : Nat)
    (hc : ∀ b : Fin 11, ¬ otherMask 0 b → (w.heap p).bit b = false) :
    ((forwardFilter g cfg w o p).heap p).PairFree := by
  refine forwardFilter_cases g cfg (fun x => (x.heap p).PairFree) w o p ?_ ?_ ?_
  · exact pairFree_of_footprint (footprint_noise_other w p) p (pairFree_of_clear hc)
  · intro _
    exact pairFree_of_clear hc
  · intro _
    have hca : ∀ b : Fin 11, ¬ otherMask 0 b → ((append w p).heap p).bit b = false := hc
    show ((forwardSpeed cfg (forwardStop g cfg (append w p) o p) o p).heap p).PairFree
    unfold forwardStop
    simp only []
    split_ifs
    · have e : forwardSpeed cfg (stopEntry (append w p) o p) o p = stopEntry (append w p) o p := by
        unfold forwardSpeed
        rw [if_neg (by simp [stopEntry_stopped])]
      rw [e]
      unfold Location.PairFree
      rw [stopEntry_bits _ o p p SLOW_MOTION_START, stopEntry_bits _ o p p CHANGE_IN_SPEED_START,
        hca SLOW_MOTION_START (by unfold otherMask; simp),
        hca CHANGE_IN_SPEED_START (by unfold otherMask; simp)]
      simp
    · have hcx := clear_of_footprint (footprint_stopExit_other g cfg (append w p) o) p hca
      exact forwardSpeed_pairFree cfg _ o p
        (hcx CHANGE_IN_SPEED_START (by unfold otherMask; simp))
        (hcx CHANGE_IN_SPEED_END (by unfold otherMask; simp))
        (hcx SLOW_MOTION_START (by unfold otherMask; simp))
        (hcx SLOW_MOTION_END (by unfold otherMask; simp))
    · exact forwardSpeed_pairFree cfg _ o p
        (hca CHANGE_IN_SPEED_START (by unfold otherMask; simp))
        (hca CHANGE_IN_SPEED_END (by unfold otherMask; simp))
        (hca SLOW_MOTION_START (by unfold otherMask; simp))
        (hca SLOW_MOTION_END (by unfold otherMask; simp))

theorem forwardMobilityCheck_pairFree (w : World) (q p : Nat)
    (hc : ∀ b : Fin 11, (w.heap p).bit b = false) :
    ((forwardMobilityCheck g cfg w q p).heap p).PairFree := by
  have om : ∀ b : Fin 11, b ≠ 2 → b ≠ 3 → b ≠ 4 → b ≠ 5 → ∀ i, otherMask i b :=
    fun b h2 h3 h4 h5 i => otherMask_of h2 h3 h4 h5 i
  have hm : ∀ o b, ((setVelocity g (setDisplacement g w o p) o p).heap p).bit b = false :=
    fun o b => by rw [measured_bit]; exact hc b
  have hd : ∀ o b, ((setDisplacement g w o p).heap p).bit b = false :=
    fun o b => by rw [setDisplacement_bit]; exact hc b
  have hgap : ∀ o, Footprint otherMask (fun _ => False)
      (setVelocity g (setDisplacement g w o p) o p)
      (((setVelocity g (setDisplacement g w o p) o p).setAnno p GAP_END).setAnno o GAP_START) :=
    fun o => footprint_trans
      (footprint_setAnno p GAP_END (om _ (by decide) (by decide) (by decide) (by decide) p))
      (footprint_setAnno o GAP_START (om _ (by decide) (by decide) (by decide) (by decide) o))
  refine forwardMobilityCheck_cases g cfg (fun x => (x.heap p).PairFree) w q p ?_ ?_ ?_ ?_
  · exact pairFree_of_footprint (footprint_noise_other _ p) p
      (pairFree_of_clear (fun b _ => hd _ b))
  · refine pairFree_of_footprint (K := fun _ => False) ?_ p
      (pairFree_of_clear (fun b _ => hm (oldLocOf w q) b))
    exact footprint_trans (footprint_trans (hgap _)
      (footprint_purge _ (om _ (by decide) (by decide) (by decide) (by decide))))
      (footprint_init _ p (om _ (by decide) (by decide) (by decide) (by decide) p))
  · intro _
    refine forwardFilter_pairFree g cfg _ _ p ?_
    exact clear_of_footprint (footprint_trans (hgap _) (footprint_setStatus _ _)) p
      (fun b _ => hm (oldLocOf w q) b)
  · exact forwardFilter_pairFree g cfg _ _ p (fun b _ => hm (oldLocOf w q) b)

theorem updateFrom_pairFree (w : World) (q p : Nat) (hq : oldLocOf w q = q)
    (hc : ∀ b : Fin 11, (w.heap p).bit b = false) (hall : ∀ i, (w.heap i).PairFree) (i : Nat) :
    ((updateFrom g cfg w q p).heap i).PairFree := by
  by_cases hi : i = p
  · subst hi
    rw [(updateFrom_fields g cfg w q i).1]
    refine pairFree_of_footprint (K := fun j => j = q) ?_ i
      (forwardMobilityCheck_pairFree g cfg w q i hc)
    refine footprint_mono (footprint_backward g cfg _ q i) ?_ (fun _ h => h)
    intro j b hb
    unfold backMask at hb
    rcases hb with hb | ⟨_, hb⟩ <;> subst hb <;>
      exact otherMask_of (by decide) (by decide) (by decide) (by decide) j
  · refine pairFree_of_bits ?_ (hall i)
    intro b hb
    refine (footprint_updateFrom g cfg w q p hq).bit_eq i b ?_
    unfold updMask
    unfold otherMask at hb
    intro h
    apply hb
    rcases h with h | h | h | ⟨_, h | h⟩ | h
    · subst h; decide
    · subst h; decide
    · subst h; decide
    · subst h; decide
    · subst h; decide
    · exact absurd h hi

theorem pairFree_route {w w1 : World} (p : Nat) (hc : ∀ b : Fin 11, (w.heap p).bit b = false)
    (hp : p ∉ w.seqPoints) (hall : ∀ i, (w.heap i).PairFree)
    (hr : route g cfg w p = some w1) : ∀ i, (w1.heap i).PairFree := by
  have om : ∀ b : Fin 11, b ≠ 2 → b ≠ 3 → b ≠ 4 → b ≠ 5 → ∀ i, otherMask i b :=
    fun b h2 h3 h4 h5 i => otherMask_of h2 h3 h4 h5 i
  have hinit : ∀ x : World, (∀ i, (x.heap i).PairFree) → ∀ i, ((init x p).heap i).PairFree :=
    fun x hx i => pairFree_of_footprint (K := fun _ => False)
      (footprint_init x p (om _ (by decide) (by decide) (by decide) (by decide) p)) i (hx i)
  have hex : ∀ i, ((expungeObsoleteLocations cfg w (w.heap p).t).heap i).PairFree :=
    fun i => pairFree_of_footprint (K := fun _ => False)
      (footprint_expungeObsoleteLocations cfg w _
        (om _ (by decide) (by decide) (by decide) (by decide))) i (hall i)
  unfold route at hr
  by_cases hk : w.known = true
  · rw [if_neg (by simp [hk])] at hr
    simp only [] at hr
    by_cases he : (expungeObsoleteLocations cfg w (w.heap p).t).seqPoints = []
    · rw [if_pos he] at hr
      cases hr
      exact hinit _ hex
    · rw [if_neg he] at hr
      unfold update at hr
      split at hr
      · cases hr
      · rename_i q hq
        cases hr
        refine updateFrom_pairFree g cfg _ q p (oldLocOf_last _ q hq) ?_ hex
        intro b
        rw [expungeObsoleteLocations_heap_of_not_mem cfg _ w p hp]
        exact hc b
  · rw [if_pos hk] at hr
    cases hr
    exact hinit _ hall

theorem pairFree_runFrom (rs : List Raw) {w w1 : World} (hi : Inv w)
    (hall : ∀ i, (w.heap i).PairFree) (hr : runFrom g cfg w rs = some w1) :
    ∀ i, (w1.heap i).PairFree := by
  induction rs generalizing w with
  | nil => cases hr; exact hall
  | cons r rs ih =>
    obtain ⟨w2, hf, hi2⟩ := inv_feed g cfg hi r
    unfold runFrom at hr
    rw [hf] at hr
    refine ih hi2 ?_ hr
    unfold feed at hf
    obtain ⟨ha1, _, ha3, _, _, ha6, ha7⟩ := alloc_facts w r
    refine pairFree_route g cfg _ ?_ ?_ ?_ hf
    · intro b
      rw [ha1, ha6]
      rfl
    · rw [ha1, ha3]
      intro hm
      exact absurd (hi.seq_lt _ hm) (lt_irrefl _)
    · intro i
      by_cases hia : i = w.allocated
      · rw [hia, ha6]
        unfold Location.PairFree Location.fresh Location.bit
        simp
      · rw [ha7 i hia]
        exact hall i

end PairFreeRun
theorem footprint_markLastLocationAsGap_other (w : World) :
    Footprint otherMask (fun _ => False) w (markLastLocationAsGap w) := by
  have om : ∀ b : Fin 11, b ≠ 2 → b ≠ 3 → b ≠ 4 → b ≠ 5 → ∀ i, otherMask i b :=
    fun b h2 h3 h4 h5 i => otherMask_of h2 h3 h4 h5 i
  have h1 : ∀ x : World, Footprint otherMask (fun _ => False) x
      { x.seqPoints.foldl reportPoint x with seqPoints := [] } := fun x =>
    footprint_trans
      (footprint_foldl_reportPoint x.seqPoints x
        (om _ (by decide) (by decide) (by decide) (by decide)))
      (footprint_of_eq rfl)
  unfold markLastLocationAsGap
  simp only []
  split
  · exact h1 w
  · rename_i q hq
    refine footprint_trans ?_ (h1 _)
    have a1 : Footprint otherMask (fun _ => False) w (w.setAnno q GAP_START) :=
      footprint_setAnno q GAP_START (om _ (by decide) (by decide) (by decide) (by decide) q)
    split_ifs
    · exact footprint_trans a1 (footprint_revokeChangeInHeadingFrom _ _
        (om _ (by decide) (by decide) (by decide) (by decide)))
    · exact a1

/-- C38: for every input sequence the router loop returns, and in the resulting heap, also
after the final `markLastLocationAsGap`, no object carries both SLOW_MOTION_START and
SLOW_MOTION_END, and no object carries both CHANGE_IN_SPEED_START and
CHANGE_IN_SPEED_END. -/
theorem phase_ends_on_different_objects (g : Geo) (cfg : Config) (rs : List Raw) :
    ∃ w, run g cfg rs = some w
      ∧ (∀ i, ¬ ((w.heap i).bit SLOW_MOTION_START = true
            ∧ (w.heap i).bit SLOW_MOTION_END = true)
          ∧ ¬ ((w.heap i).bit CHANGE_IN_SPEED_START = true
            ∧ (w.heap i).bit CHANGE_IN_SPEED_END = true))
      ∧ (∀ i, ¬ (((drain w).heap i).bit SLOW_MOTION_START = true
            ∧ ((drain w).heap i).bit SLOW_MOTION_END = true)
          ∧ ¬ (((drain w).heap i).bit CHANGE_IN_SPEED_START = true
            ∧ ((drain w).heap i).bit CHANGE_IN_SPEED_END = true)) := by
  obtain ⟨w, hr, _⟩ := inv_runFrom g cfg rs inv_start
  have hw : ∀ i, (w.heap i).PairFree := by
    refine pairFree_runFrom g cfg rs inv_start ?_ hr
    intro i
    unfold Location.PairFree World.start Location.fresh Location.bit
    simp
  refine ⟨w, hr, hw, ?_⟩
  intro i
  have hd : ((drain w).heap i).PairFree := by
    unfold drain
    split_ifs
    · exact pairFree_of_footprint (footprint_markLastLocationAsGap_other w) i (hw i)
    · exact hw i
  exact hd

/-! ## A STOPPED State has its STOP_START element in the window -/

section StopWalk

variable (g : Geo) (cfg : Config)

theorem stopWalkSafe_keep (w w1 : World) (hst : w1.isStopped = true → w.isStopped = true)
    (hseq : ∀ i ∈ w.seqPoints, i ∈ w1.seqPoints)
    (hlen : w.seqPoints.length ≤ w1.seqPoints.length)
    (hbit : ∀ i ∈ w.seqPoints, (w.heap i).bit STOP_START = true →
      (w1.heap i).bit STOP_START = true)
    (h : StopWalkSafe w) : StopWalkSafe w1 := by
  intro hs
  obtain ⟨h2, i, hi, hb⟩ := h (hst hs)
  exact ⟨le_trans h2 hlen, i, hseq i hi, hbit i hi hb⟩

theorem stopWalkSafe_of_not_stopped (w : World) (h : w.isStopped = false) : StopWalkSafe w := by
  intro hs
  rw [h] at hs
  cases hs

/-- A step that leaves status and window alone and does not write STOP_START. -/
theorem stopWalkSafe_quiet (w w1 : World) {K : Nat → Prop} (hf : Footprint notStartMask K w w1)
    (hst : w1.status = w.status) (hseq : w1.seqPoints = w.seqPoints) (h : StopWalkSafe w) :
    StopWalkSafe w1 := by
  refine stopWalkSafe_keep w w1 ?_ ?_ ?_ ?_ h
  · intro hs; unfold World.isStopped at hs ⊢; rw [← hst]; exact hs
  · intro i hi; rw [hseq]; exact hi
  · rw [hseq]
  · intro i _ hb
    rw [hf.bit_eq i STOP_START (by unfold notStartMask; simp)]
    exact hb

theorem stopWalkSafe_bits (w w1 : World)
    (hb : ∀ i, (w1.heap i).bit STOP_START = (w.heap i).bit STOP_START)
    (hst : w1.status = w.status) (hseq : w1.seqPoints = w.seqPoints) (h : StopWalkSafe w) :
    StopWalkSafe w1 := by
  refine stopWalkSafe_keep w w1 ?_ ?_ ?_ ?_ h
  · intro hs; unfold World.isStopped at hs ⊢; rw [← hst]; exact hs
  · intro i hi; rw [hseq]; exact hi
  · rw [hseq]
  · intro i _ hi
    rw [hb]
    exact hi

theorem notStartMask_of (i : Nat) {b : Fin 11} (h : b ≠ STOP_START) : notStartMask i b := h

theorem forwardSpeed_bit_other (w : World) (q p i : Nat) (b : Fin 11) (hb : otherMask 0 b) :
    ((forwardSpeed cfg w q p).heap i).bit b = (w.heap i).bit b := by
  obtain ⟨h2, h3, h4, h5⟩ := hb
  unfold forwardSpeed
  split_ifs
  · rfl
  · simp only []
    rw [slowMotion_bits cfg _ q p i b h4 h5]
    unfold speedChangeEnd
    have e1 : ∀ m, ((speedChangeStart cfg m w p).heap i).bit b = (w.heap i).bit b := by
      intro m
      unfold speedChangeStart
      split_ifs
      · rw [World.setStatus_heap, setAnno_bit, if_neg (by simp [h2])]
      · rfl
    split_ifs
    · rw [World.resetStatus_heap, setAnno_bit, if_neg (by simp [h3]), e1]
    · exact e1 _

theorem stopExit_of_stopped (w : World) (o : Nat)
    (h : (stopExit g cfg w o).isStopped = true) : stopExit g cfg w o = w := by
  unfold stopExit at h ⊢
  split_ifs at h ⊢ with h1 h2
  · exfalso
    have e : ((revokeStop w).resetStatus STOPPED).isStopped = false := by
      unfold World.isStopped
      rw [World.resetStatus_status]
      simp
    rw [e] at h
    cases h
  · exfalso
    have e : (revokeChangeInHeading ((w.setAnno o STOP_END).resetStatus STOPPED)).isStopped
        = false := by
      unfold World.isStopped revokeChangeInHeading
      rw [(revokeChangeInHeadingFrom_fields _ _).2.1, World.resetStatus_status]
      simp
    rw [e] at h
    cases h
  · rfl

theorem stopWalkSafe_append (w : World) (p : Nat) (h : StopWalkSafe w) :
    StopWalkSafe (append w p) := by
  refine stopWalkSafe_keep w (append w p) (fun hs => hs) ?_ ?_ (fun _ _ hb => hb) h
  · intro i hi
    show i ∈ w.seqPoints ++ [p]
    exact List.mem_append_left _ hi
  · show w.seqPoints.length ≤ (w.seqPoints ++ [p]).length
    simp

theorem stopWalkSafe_forwardFilter (w : World) (o p : Nat) (ho : o ∈ w.seqPoints)
    (h : StopWalkSafe w) : StopWalkSafe (forwardFilter g cfg w o p) := by
  refine forwardFilter_cases g cfg StopWalkSafe w o p ?_ ?_ ?_
  · refine stopWalkSafe_quiet w _ (K := fun _ => False) ?_ (by simp) (by simp) h
    exact footprint_trans
      (footprint_setAnno p NOISE (notStartMask_of p (by decide)))
      (footprint_reportPoint p (fun i => notStartMask_of i (by decide)))
  · intro _
    exact stopWalkSafe_append w p h
  · intro hlen
    have hsp : ∀ x : World, StopWalkSafe x → StopWalkSafe (forwardSpeed cfg x o p) := by
      intro x hx
      refine stopWalkSafe_keep x _ ?_ ?_ ?_ ?_ hx
      · intro hs
        unfold World.isStopped at hs ⊢
        rw [forwardSpeed_stopped] at hs
        exact hs
      · intro i hi; rw [(forwardSpeed_seqPoints cfg x o p).1]; exact hi
      · rw [(forwardSpeed_seqPoints cfg x o p).1]
      · intro i _ hb
        rw [forwardSpeed_bit_other cfg x o p i STOP_START
          ⟨by decide, by decide, by decide, by decide⟩]
        exact hb
    refine hsp _ ?_
    unfold forwardStop
    simp only []
    split_ifs with c1 c2
    · intro _
      rw [stopEntry_seqPoints]
      refine ⟨not_lt.1 hlen, ?_⟩
      by_cases hg : ((append w p).heap o).bit GAP_END = true
      · refine ⟨o, ?_, ?_⟩
        · show o ∈ w.seqPoints ++ [p]
          exact List.mem_append_left _ ho
        · rw [stopEntry_bits]
          simp [hg]
      · refine ⟨p, ?_, ?_⟩
        · show p ∈ w.seqPoints ++ [p]
          simp
        · rw [stopEntry_bits]
          simp [hg]
    · by_cases hs : (stopExit g cfg (append w p) o).isStopped = true
      · rw [stopExit_of_stopped g cfg _ o hs]
        exact stopWalkSafe_append w p h
      · exact stopWalkSafe_of_not_stopped _ (by simpa using hs)
    · exact stopWalkSafe_append w p h

theorem stopWalkSafe_forwardMobilityCheck (w : World) (q p : Nat)
    (hq : w.seqPoints.getLast? = some q) (h : StopWalkSafe w) :
    StopWalkSafe (forwardMobilityCheck g cfg w q p) := by
  have ho : oldLocOf w q = q := oldLocOf_last w q hq
  have hmem : q ∈ w.seqPoints := List.mem_of_getLast?_eq_some hq
  have hm : StopWalkSafe (setVelocity g (setDisplacement g w q p) q p) :=
    stopWalkSafe_bits w _ (fun i => measured_bit g w q p i STOP_START) rfl rfl h
  have hgap : StopWalkSafe (((setVelocity g (setDisplacement g w q p) q p).setAnno p
      GAP_END).setAnno q GAP_START) :=
    stopWalkSafe_quiet _ _ (K := fun _ => False)
      (footprint_trans (footprint_setAnno p GAP_END (notStartMask_of p (by decide)))
        (footprint_setAnno q GAP_START (notStartMask_of q (by decide)))) rfl rfl hm
  refine forwardMobilityCheck_cases g cfg StopWalkSafe w q p ?_ ?_ ?_ ?_
  · rw [ho]
    have hd : StopWalkSafe (setDisplacement g w q p) :=
      stopWalkSafe_bits w _ (fun i => setDisplacement_bit g w q p i STOP_START) rfl rfl h
    refine stopWalkSafe_quiet _ _ (K := fun _ => False) ?_ (by simp) (by simp) hd
    exact footprint_trans
      (footprint_setAnno p NOISE (notStartMask_of p (by decide)))
      (footprint_reportPoint p (fun i => notStartMask_of i (by decide)))
  · exact stopWalkSafe_of_not_stopped _ rfl
  · intro hs
    rw [ho] at hs ⊢
    refine stopWalkSafe_forwardFilter g cfg _ q p hmem ?_
    refine stopWalkSafe_bits
      (((setVelocity g (setDisplacement g w q p) q p).setAnno p GAP_END).setAnno q GAP_START)
      _ (fun _ => rfl) ?_ rfl hgap
    funext s
    rw [World.setStatus_status]
    split_ifs with e
    · subst e; exact hs.symm
    · rfl
  · rw [ho]
    exact stopWalkSafe_forwardFilter g cfg _ q p hmem hm

end StopWalk
section StopWalkRun

variable (g : Geo) (cfg : Config)

theorem backwardMobilityCheck_stopped (w : World) (q p : Nat) (hs : w.isStopped = true) :
    (backwardMobilityCheck g cfg w q p).seqPoints = w.seqPoints := by
  unfold backwardMobilityCheck
  split_ifs with h1 h2 h3
  · rfl
  · rfl
  · simp only []
    have e : (w.setAnno q CHANGE_IN_HEADING).isStopped = true := hs
    rw [if_neg (by simp [e])]
    rfl
  · rfl

theorem stopWalkSafe_backwardMobilityCheck (w : World) (q p : Nat) (h : StopWalkSafe w) :
    StopWalkSafe (backwardMobilityCheck g cfg w q p) := by
  by_cases hs : w.isStopped = true
  · refine stopWalkSafe_bits w _ ?_ (backwardMobilityCheck_status g cfg w q p)
      (backwardMobilityCheck_stopped g cfg w q p hs) h
    intro i
    refine (footprint_backward g cfg w q p).bit_eq i STOP_START ?_
    unfold backMask
    simp
  · refine stopWalkSafe_of_not_stopped _ ?_
    unfold World.isStopped
    rw [backwardMobilityCheck_status]
    simpa using hs

theorem stopWalkSafe_updateFrom (w : World) (q p : Nat)
    (hq : w.seqPoints.getLast? = some q) (h : StopWalkSafe w) :
    StopWalkSafe (updateFrom g cfg w q p) := by
  obtain ⟨hheap, hseq, _, _, _, hst, _⟩ := updateFrom_fields g cfg w q p
  refine stopWalkSafe_keep (backwardMobilityCheck g cfg (forwardMobilityCheck g cfg w q p) q p)
    _ ?_ ?_ ?_ ?_
    (stopWalkSafe_backwardMobilityCheck g cfg _ q p
      (stopWalkSafe_forwardMobilityCheck g cfg w q p hq h))
  · intro hs
    unfold World.isStopped
    rw [backwardMobilityCheck_status]
    exact hst hs
  · intro i hi; rw [hseq]; exact hi
  · rw [hseq]
  · intro i _ hb; rw [hheap]; exact hb

theorem stopWalkSafe_expunge (w : World) (t : Nat) (h : StopWalkSafe w) :
    StopWalkSafe (expungeObsoleteLocations cfg w t) := by
  by_cases hs : w.isStopped = true
  · have e : expungeObsoleteLocations cfg w t = w := by
      unfold expungeObsoleteLocations
      rw [if_pos hs]
    rw [e]
    exact h
  · exact stopWalkSafe_of_not_stopped _
      (expungeObsoleteLocations_stop cfg t w (by simpa using hs)).1

theorem stopWalkSafe_route {w w1 : World} (p : Nat) (h : StopWalkSafe w)
    (hr : route g cfg w p = some w1) : StopWalkSafe w1 := by
  unfold route at hr
  by_cases hk : w.known = true
  · rw [if_neg (by simp [hk])] at hr
    simp only [] at hr
    by_cases he : (expungeObsoleteLocations cfg w (w.heap p).t).seqPoints = []
    · rw [if_pos he] at hr
      cases hr
      exact stopWalkSafe_of_not_stopped _ rfl
    · rw [if_neg he] at hr
      unfold update at hr
      split at hr
      · cases hr
      · rename_i q hq
        cases hr
        exact stopWalkSafe_updateFrom g cfg _ q p hq (stopWalkSafe_expunge cfg w _ h)
  · rw [if_pos hk] at hr
    cases hr
    exact stopWalkSafe_of_not_stopped _ rfl

theorem stopWalkSafe_runFrom (rs : List Raw) {w w1 : World} (hi : Inv w)
    (h : StopWalkSafe w) (hr : runFrom g cfg w rs = some w1) : StopWalkSafe w1 := by
  induction rs generalizing w with
  | nil => cases hr; exact h
  | cons r rs ih =>
    obtain ⟨w2, hf, hi2⟩ := inv_feed g cfg hi r
    unfold runFrom at hr
    rw [hf] at hr
    refine ih hi2 ?_ hr
    unfold feed at hf
    obtain ⟨_, _, ha3, ha4, _, _, ha7⟩ := alloc_facts w r
    refine stopWalkSafe_route g cfg _ ?_ hf
    refine stopWalkSafe_keep w _ ?_ ?_ ?_ ?_ h
    · intro hs; unfold World.isStopped at hs ⊢; rw [← ha4]; exact hs
    · intro i hi1; rw [ha3]; exact hi1
    · rw [ha3]
    · intro i hi1 hb
      rw [ha7 i (Nat.ne_of_lt (hi.seq_lt i hi1))]
      exact hb

end StopWalkRun

/-- C37: for every input sequence the router loop returns, and if the resulting State is
STOPPED then its window has at least two elements and one of them carries STOP_START.
Hence both walks of `getStopNetDisplacement` have a starting element, and the walk with the
current element excluded as well as the walk of `revokeStop` end at a STOP_START element or
at the front of a non-empty window. -/
theorem stopped_window_holds_stop_start (g : Geo) (cfg : Config) (rs : List Raw) :
    ∃ w, run g cfg rs = some w
      ∧ (w.isStopped = true →
          2 ≤ w.seqPoints.length
            ∧ (∃ i ∈ w.seqPoints, (w.heap i).bit STOP_START = true)
            ∧ w.seqPoints.reverse ≠ [] ∧ w.seqPoints.reverse.tail ≠ []
            ∧ (∀ t, expungeObsoleteLocations cfg w t = w)) := by
  obtain ⟨w, hr, _⟩ := inv_runFrom g cfg rs inv_start
  have hw : StopWalkSafe w :=
    stopWalkSafe_runFrom g cfg rs inv_start (stopWalkSafe_of_not_stopped _ rfl) hr
  refine ⟨w, hr, ?_⟩
  intro hs
  obtain ⟨h2, hex⟩ := hw hs
  refine ⟨h2, hex, ?_, ?_, ?_⟩
  · intro e
    rw [List.reverse_eq_nil_iff] at e
    rw [e] at h2
    simp at h2
  · intro e
    have hl := congrArg List.length e
    rw [List.length_tail, List.length_reverse] at hl
    simp at hl
    omega
  · intro t
    unfold expungeObsoleteLocations
    rw [if_pos hs]

/-! ## Conservation of observations -/

section Conservation

variable (g : Geo) (cfg : Config)

theorem silent_refl (w : World) : Silent w w := ⟨fun _ => rfl, rfl⟩

theorem silent_trans {w w1 w2 : World} (h1 : Silent w w1) (h2 : Silent w1 w2) : Silent w w2 :=
  ⟨fun i => (h2.1 i).trans (h1.1 i), h2.2.trans h1.2⟩

theorem silent_of_footprint {w w1 : World} {K : Nat → Prop} (hf : Footprint quietMask K w w1)
    (ha : w1.annoResults = w.annoResults) : Silent w w1 :=
  ⟨fun i => hf.bit_eq i REPORTED (by unfold quietMask; simp), ha⟩

theorem silent_setAnno (w : World) (p : Nat) (b : Fin 11) (hb : b ≠ REPORTED) :
    Silent w (w.setAnno p b) := by
  refine ⟨fun i => ?_, rfl⟩
  rw [setAnno_bit, if_neg]
  rintro ⟨_, e⟩
  exact hb e.symm

theorem silent_setStatus (w : World) (s : Fin 3) : Silent w (w.setStatus s) :=
  ⟨fun _ => rfl, rfl⟩

theorem silent_resetStatus (w : World) (s : Fin 3) : Silent w (w.resetStatus s) :=
  ⟨fun _ => rfl, rfl⟩

theorem silent_measured (w : World) (q p : Nat) :
    Silent w (setVelocity g (setDisplacement g w q p) q p) :=
  ⟨fun i => measured_bit g w q p i REPORTED, rfl⟩

theorem cons_silent {n : Nat} {l : List Nat} {w w1 : World} (hs : Silent w w1)
    (h : Cons n l w) : Cons n l w1 := by
  have e : sinkPtrs w1 = sinkPtrs w := by unfold sinkPtrs; rw [hs.2]
  refine ⟨h.nodup, ?_, ?_, ?_⟩
  · intro i; rw [hs.1 i]; exact h.seq_iff i
  · intro i; rw [e, hs.1 i]; exact h.sink_iff i
  · intro i; rw [hs.1 i]; exact h.rep_lt i

theorem reportPoint_bit (w : World) (p i : Nat) (b : Fin 11) :
    ((reportPoint w p).heap i).bit b
      = if i = p ∧ b = REPORTED then true else (w.heap i).bit b := by
  rw [reportPoint_heap]
  by_cases hi : i = p
  · subst hi
    rw [if_pos rfl]
    unfold Location.set Location.bit
    by_cases hb : b = REPORTED <;> simp [hb]
  · rw [if_neg hi, if_neg (by simp [hi])]

/-- Reporting the front element of the window content and dropping it. -/
theorem cons_report_head {n : Nat} {q : Nat} {rest : List Nat} {w : World}
    (h : Cons n (q :: rest) w) : Cons n rest (reportPoint w q) := by
  have hq := (h.seq_iff q).1 (List.mem_cons_self _ _)
  have hnd := List.nodup_cons.1 h.nodup
  refine ⟨hnd.2, ?_, ?_, ?_⟩
  · intro i
    rw [reportPoint_bit]
    by_cases hi : i = q
    · subst hi
      simp [hnd.1]
    · rw [if_neg (by simp [hi]), ← h.seq_iff i]
      simp [hi]
  · intro i
    rw [sinkPtrs_reportPoint, reportPoint_bit, h.sink_iff i]
    by_cases hi : i = q
    · subst hi
      simp [hq.2]
    · simp [hi]
  · intro i
    rw [reportPoint_bit]
    by_cases hi : i = q
    · subst hi
      intro _
      exact hq.1
    · rw [if_neg (by simp [hi])]
      exact h.rep_lt i

/-- Reporting a new object that is not in the window. -/
theorem cons_report_new {n : Nat} {l : List Nat} {w : World} (h : Cons n l w) :
    Cons (n + 1) l (reportPoint w n) := by
  have hn : (w.heap n).bit REPORTED = false := by
    by_contra hc
    exact lt_irrefl n (h.rep_lt n (by simpa using hc))
  refine ⟨h.nodup, ?_, ?_, ?_⟩
  · intro i
    rw [reportPoint_bit, h.seq_iff i]
    by_cases hi : i = n
    · subst hi
      simp
    · rw [if_neg (by simp [hi])]
      constructor
      · rintro ⟨a, b⟩; exact ⟨Nat.lt_succ_of_lt a, b⟩
      · rintro ⟨a, b⟩; exact ⟨lt_of_le_of_ne (Nat.lt_succ_iff.1 a) hi, b⟩
  · intro i
    rw [sinkPtrs_reportPoint, reportPoint_bit, h.sink_iff i]
    by_cases hi : i = n
    · subst hi
      simp [hn]
    · simp [hi]
  · intro i
    rw [reportPoint_bit]
    by_cases hi : i = n
    · subst hi
      intro _
      exact Nat.lt_succ_self _
    · rw [if_neg (by simp [hi])]
      intro hr
      exact Nat.lt_succ_of_lt (h.rep_lt i hr)

/-- Appending a new object to the window content. -/
theorem cons_append_new {n : Nat} {l : List Nat} {w : World} (h : Cons n l w) :
    Cons (n + 1) (l ++ [n]) w := by
  have hn : (w.heap n).bit REPORTED = false := by
    by_contra hc
    exact lt_irrefl n (h.rep_lt n (by simpa using hc))
  have hnl : n ∉ l := fun hm => lt_irrefl n ((h.seq_iff n).1 hm).1
  refine ⟨?_, ?_, h.sink_iff, fun i hr => Nat.lt_succ_of_lt (h.rep_lt i hr)⟩
  · rw [List.nodup_append]
    refine ⟨h.nodup, List.nodup_singleton _, ?_⟩
    intro a ha hb
    rw [List.mem_singleton] at hb
    subst hb
    exact hnl ha
  · intro i
    rw [List.mem_append, List.mem_singleton, h.seq_iff i]
    by_cases hi : i = n
    · subst hi
      simp [hn]
    · constructor
      · rintro (⟨a, b⟩ | a)
        · exact ⟨Nat.lt_succ_of_lt a, b⟩
        · exact absurd a hi
      · rintro ⟨a, b⟩
        exact Or.inl ⟨lt_of_le_of_ne (Nat.lt_succ_iff.1 a) hi, b⟩

theorem cons_of_eq {n : Nat} {l : List Nat} {w w1 : World} (hh : w1.heap = w.heap)
    (ha : w1.annoResults = w.annoResults) (h : Cons n l w) : Cons n l w1 :=
  cons_silent ⟨fun i => by rw [hh], ha⟩ h

theorem conserved_of_eq {n : Nat} {l : List Nat} {w : World} (h : Cons n l w) (w1 : World)
    (hh : w1.heap = w.heap) (ha : w1.annoResults = w.annoResults) (hl : w1.seqPoints = l) :
    Conserved n w1 := by
  unfold Conserved
  rw [hl]
  exact cons_of_eq hh ha h

theorem cons_foldl_reportPoint {n : Nat} (l : List Nat) {w : World} (h : Cons n l w) :
    Cons n [] (l.foldl reportPoint w) := by
  induction l generalizing w with
  | nil => exact h
  | cons q rest ih => exact ih (cons_report_head h)

theorem cons_cleanupFrom {n : Nat} (l : List Nat) {w : World} (h : Cons n l w) :
    Conserved n (cleanupFrom w l) := by
  induction l generalizing w with
  | nil => exact conserved_of_eq h _ rfl rfl rfl
  | cons q rest ih =>
    unfold cleanupFrom
    split_ifs
    · exact ih (cons_report_head h)
    · exact conserved_of_eq h _ rfl rfl rfl

theorem cons_expungeFrom {n : Nat} (t : Nat) (l : List Nat) {w : World} (h : Cons n l w) :
    Conserved n (expungeFrom cfg t w l) := by
  induction l generalizing w with
  | nil => exact conserved_of_eq h _ rfl rfl rfl
  | cons q rest ih =>
    unfold expungeFrom
    split_ifs
    · exact ih (cons_report_head h)
    · exact conserved_of_eq h _ rfl rfl rfl

theorem conserved_expunge {n : Nat} (w : World) (t : Nat) (h : Conserved n w) :
    Conserved n (expungeObsoleteLocations cfg w t) := by
  unfold expungeObsoleteLocations
  split_ifs
  · exact h
  · simp only []
    have h1 := cons_expungeFrom cfg t w.seqPoints h
    split
    · exact conserved_of_eq h1 _ rfl rfl rfl
    · exact conserved_of_eq h1 _ rfl rfl rfl

theorem conserved_purge {n : Nat} (w : World) (h : Conserved n w) : Conserved n (purge w) :=
  conserved_of_eq (cons_foldl_reportPoint w.seqPoints h) _ rfl rfl rfl

theorem conserved_init_new {n : Nat} (w : World) (h : Conserved n w) :
    Conserved (n + 1) (init w n) := by
  have h1 : Cons n w.seqPoints (w.setAnno n GAP_END) :=
    cons_silent (silent_setAnno w n GAP_END (by decide)) h
  exact conserved_of_eq (cons_append_new h1) _ rfl rfl rfl

theorem conserved_append_new {n : Nat} (w : World) (h : Conserved n w) :
    Conserved (n + 1) (append w n) :=
  conserved_of_eq (cons_append_new h) _ rfl rfl rfl

theorem conserved_silent {n : Nat} {w w1 : World} (hs : Silent w w1)
    (hseq : w1.seqPoints = w.seqPoints) (h : Conserved n w) : Conserved n w1 := by
  unfold Conserved
  rw [hseq]
  exact cons_silent hs h

theorem conserved_noise {n : Nat} (w : World) (h : Conserved n w) :
    Conserved (n + 1) (reportPoint (w.setAnno n NOISE) n) := by
  have h1 : Cons n w.seqPoints (w.setAnno n NOISE) :=
    cons_silent (silent_setAnno w n NOISE (by decide)) h
  have h2 := cons_report_new h1
  unfold Conserved
  rw [reportPoint_seqPoints]
  exact h2

theorem conserved_forwardFilter {n : Nat} (w : World) (o : Nat) (h : Conserved n w) :
    Conserved (n + 1) (forwardFilter g cfg w o n) := by
  refine forwardFilter_cases g cfg (Conserved (n + 1)) w o n ?_ ?_ ?_
  · exact conserved_noise w h
  · intro _
    exact conserved_append_new w h
  · intro _
    have h1 : Conserved (n + 1) (forwardStop g cfg (append w n) o n) :=
      conserved_silent
        (silent_of_footprint (K := fun _ => False) (footprint_forwardStop_quiet g cfg _ o n)
          (forwardStop_annoResults g cfg _ o n))
        (forwardStop_seqPoints g cfg _ o n) (conserved_append_new w h)
    exact conserved_silent
      (silent_of_footprint (K := fun _ => False) (footprint_forwardSpeed_quiet cfg _ o n)
        (forwardSpeed_annoResults cfg _ o n))
      (forwardSpeed_seqPoints cfg _ o n).1 h1

theorem conserved_forwardMobilityCheck {n : Nat} (w : World) (q : Nat) (h : Conserved n w) :
    Conserved (n + 1) (forwardMobilityCheck g cfg w q n) := by
  have hm : ∀ o, Conserved n (setVelocity g (setDisplacement g w o n) o n) :=
    fun o => conserved_silent (silent_measured g w o n) rfl h
  have hgap : ∀ o, Conserved n (((setVelocity g (setDisplacement g w o n) o n).setAnno n
      GAP_END).setAnno o GAP_START) := fun o =>
    conserved_silent (silent_trans (silent_setAnno _ n GAP_END (by decide))
      (silent_setAnno _ o GAP_START (by decide))) rfl (hm o)
  refine forwardMobilityCheck_cases g cfg (Conserved (n + 1)) w q n ?_ ?_ ?_ ?_
  · refine conserved_noise _ ?_
    exact conserved_silent ⟨fun i => setDisplacement_bit g w _ n i REPORTED, rfl⟩ rfl h
  · exact conserved_init_new _ (conserved_purge _ (hgap _))
  · intro _
    exact conserved_forwardFilter g cfg _ _
      (conserved_silent (silent_setStatus _ STOPPED) rfl (hgap _))
  · exact conserved_forwardFilter g cfg _ _ (hm _)

theorem conserved_backwardMobilityCheck {n : Nat} (w : World) (q p : Nat)
    (h : Conserved n w) : Conserved n (backwardMobilityCheck g cfg w q p) := by
  unfold backwardMobilityCheck
  split_ifs
  · exact conserved_silent ⟨fun i => modify_bit w q i _ REPORTED (fun _ => rfl), rfl⟩ rfl h
  · exact h
  · simp only []
    have h1 : Conserved n (w.setAnno q CHANGE_IN_HEADING) :=
      conserved_silent (silent_setAnno w q CHANGE_IN_HEADING (by decide)) rfl h
    split_ifs
    · exact cons_cleanupFrom _ h1
    · exact h1
  · exact h

theorem conserved_updateFrom {n : Nat} (w : World) (q : Nat) (h : Conserved n w) :
    Conserved (n + 1) (updateFrom g cfg w q n) := by
  have h1 := conserved_backwardMobilityCheck g cfg _ q n
    (conserved_forwardMobilityCheck g cfg w q h)
  unfold updateFrom
  simp only []
  split_ifs
  · exact conserved_silent (silent_resetStatus _ STOPPED) rfl h1
  · exact h1

end Conservation
section ConservationRun

variable (g : Geo) (cfg : Config)

theorem conserved_route {n : Nat} {w w1 : World} (h : Conserved n w)
    (hk : w.known = false → w.seqPoints = []) (hr : route g cfg w n = some w1) :
    Conserved (n + 1) w1 ∧ w1.known = true := by
  unfold route at hr
  by_cases hkn : w.known = true
  · rw [if_neg (by simp [hkn])] at hr
    simp only [] at hr
    have hex := conserved_expunge cfg w (w.heap n).t h
    have hexk : (expungeObsoleteLocations cfg w (w.heap n).t).known = true := by
      rw [(frame_expungeObsoleteLocations (S := fun _ => True) cfg w _).known_eq]
      exact hkn
    by_cases he : (expungeObsoleteLocations cfg w (w.heap n).t).seqPoints = []
    · rw [if_pos he] at hr
      cases hr
      exact ⟨conserved_init_new _ hex, hexk⟩
    · rw [if_neg he] at hr
      unfold update at hr
      split at hr
      · cases hr
      · rename_i q hq
        cases hr
        refine ⟨conserved_updateFrom g cfg _ q hex, ?_⟩
        rw [(frame_updateFrom (S := fun _ => True) g cfg _ n q trivial).known_eq]
        exact hexk
  · rw [if_pos hkn] at hr
    cases hr
    refine ⟨conserved_init_new _ ?_, rfl⟩
    have hs := hk (by simpa using hkn)
    unfold Conserved at h
    rw [hs] at h
    exact conserved_of_eq h _ rfl rfl rfl

theorem conserved_runFrom (rs : List Raw) {w w1 : World} (hi : Inv w)
    (h : Conserved w.allocated w) (hk : w.known = false → w.seqPoints = [])
    (hr : runFrom g cfg w rs = some w1) :
    Conserved w1.allocated w1 ∧ w1.allocated = w.allocated + rs.length
      ∧ (w1.known = false → w1.seqPoints = []) := by
  induction rs generalizing w with
  | nil => cases hr; exact ⟨h, rfl, hk⟩
  | cons r rs ih =>
    obtain ⟨w2, hf, hi2⟩ := inv_feed g cfg hi r
    unfold runFrom at hr
    rw [hf] at hr
    unfold feed at hf
    obtain ⟨ha1, ha2, ha3, _, ha5, ha6, ha7⟩ := alloc_facts w r
    have hn : (w.heap w.allocated).bit REPORTED = false := by
      by_contra hc
      exact lt_irrefl _ (h.rep_lt _ (by simpa using hc))
    have hsil : Silent w (alloc w r).1 := by
      refine ⟨?_, rfl⟩
      intro i
      by_cases hia : i = w.allocated
      · rw [hia, ha6, hn]
        rfl
      · rw [ha7 i hia]
    have hc0 : Conserved w.allocated (alloc w r).1 := conserved_silent hsil ha3 h
    rw [ha1] at hf
    obtain ⟨hc2, hk2⟩ := conserved_route g cfg hc0
      (fun hkf => by rw [ha3]; exact hk (by rw [← ha5]; exact hkf)) hf
    have hal : w2.allocated = w.allocated + 1 := by
      obtain ⟨_, e, _⟩ := route_shape g cfg w.allocated (inv_alloc hi r) hf
      rw [e, ha2]
    have h3 := ih hi2 (by rw [hal]; exact hc2) (fun hkf => by rw [hk2] at hkf; cases hkf) hr
    refine ⟨h3.1, ?_, h3.2.2⟩
    rw [h3.2.1, hal, List.length_cons]
    omega

theorem conserved_markLastLocationAsGap {n : Nat} (w : World) (h : Conserved n w) :
    Conserved n (markLastLocationAsGap w) ∧ (markLastLocationAsGap w).seqPoints = [] := by
  have h1 : ∀ x : World, Conserved n x →
      Conserved n { x.seqPoints.foldl reportPoint x with seqPoints := [] } := fun x hx =>
    conserved_of_eq (cons_foldl_reportPoint x.seqPoints hx) _ rfl rfl rfl
  refine ⟨?_, by unfold markLastLocationAsGap; rfl⟩
  unfold markLastLocationAsGap
  simp only []
  split
  · exact h1 w h
  · rename_i q hq
    refine h1 _ ?_
    have a1 : Conserved n (w.setAnno q GAP_START) :=
      conserved_silent (silent_setAnno w q GAP_START (by decide)) rfl h
    split_ifs
    · refine conserved_silent (silent_of_footprint (K := fun _ => False) ?_ ?_) ?_ a1
      · exact footprint_revokeChangeInHeadingFrom _ _ (fun _ => by unfold quietMask; decide)
      · exact (revokeChangeInHeadingFrom_fields _ _).2.2.2
      · exact (revokeChangeInHeadingFrom_fields _ _).1
    · exact a1

end ConservationRun

/-- C35: for every input sequence `rs` of one object the router loop returns, and in the
resulting state every object created so far (addresses `0 .. rs.length - 1`) is in the
window or in the `Sink` buffer and not in both; neither holds an address twice or an address
that was not created.  After `markLastLocationAsGap` the window is empty and the buffer is a
permutation of all created objects, so `emitResults(false)` writes as many rows as there
are input records.  (Since `rs` is arbitrary, this holds after each step.) -/
theorem observations_are_conserved (g : Geo) (cfg : Config) (rs : List Raw) :
    ∃ w, run g cfg rs = some w
      ∧ w.allocated = rs.length
      ∧ (∀ i, i < rs.length →
          (i ∈ w.seqPoints ∨ i ∈ sinkPtrs w) ∧ ¬ (i ∈ w.seqPoints ∧ i ∈ sinkPtrs w))
      ∧ (∀ i, i ∈ w.seqPoints ∨ i ∈ sinkPtrs w → i < rs.length)
      ∧ w.seqPoints.Nodup ∧ (sinkPtrs w).Nodup
      ∧ (drain w).seqPoints = []
      ∧ (sinkPtrs (drain w)).Perm (List.range rs.length)
      ∧ (emitResults (drain w) false).length = rs.length := by
  obtain ⟨w, hr, hi⟩ := inv_runFrom g cfg rs inv_start
  have h0 : Conserved World.start.allocated World.start := by
    refine ⟨List.nodup_nil, ?_, ?_, ?_⟩
    · intro i
      show i ∈ ([] : List Nat) ↔ i < 0 ∧ _
      simp
    · intro i
      show i ∈ ([] : List Nat) ↔ (Location.fresh ⟨0, 0, 0, 0⟩).bit REPORTED = true
      simp [Location.fresh, Location.bit]
    · intro i hrep
      have : (Location.fresh ⟨0, 0, 0, 0⟩).bit REPORTED = true := hrep
      simp [Location.fresh, Location.bit] at this
  obtain ⟨hc, hal, hk⟩ := conserved_runFrom g cfg rs inv_start h0 (fun _ => rfl) hr
  have hn : w.allocated = rs.length := by
    rw [hal]
    show 0 + rs.length = rs.length
    omega
  rw [hn] at hc
  have hd : Conserved rs.length (drain w) ∧ (drain w).seqPoints = [] := by
    unfold drain
    by_cases hkn : w.known = true
    · rw [if_pos hkn]
      exact conserved_markLastLocationAsGap w hc
    · rw [if_neg hkn]
      exact ⟨hc, hk (by simpa using hkn)⟩
  have hdn : (sinkPtrs (drain w)).Nodup := (inv_drain hi).sink_nodup
  have hperm : (sinkPtrs (drain w)).Perm (List.range rs.length) := by
    rw [List.perm_ext_iff_of_nodup hdn (List.nodup_range _)]
    intro i
    rw [List.mem_range, hd.1.sink_iff i]
    constructor
    · exact hd.1.rep_lt i
    · intro hlt
      by_contra hu
      have hm : i ∈ (drain w).seqPoints := (hd.1.seq_iff i).2 ⟨hlt, by simpa using hu⟩
      rw [hd.2] at hm
      cases hm
  refine ⟨w, hr, hn, ?_, ?_, hc.nodup, hi.sink_nodup, hd.2, hperm, ?_⟩
  · intro i hlt
    by_cases hrep : (w.heap i).bit REPORTED = true
    · refine ⟨Or.inr ((hc.sink_iff i).2 hrep), ?_⟩
      rintro ⟨hm, _⟩
      rw [((hc.seq_iff i).1 hm).2] at hrep
      cases hrep
    · have hu : (w.heap i).bit REPORTED = false := by simpa using hrep
      refine ⟨Or.inl ((hc.seq_iff i).2 ⟨hlt, hu⟩), ?_⟩
      rintro ⟨_, hs⟩
      exact hrep ((hc.sink_iff i).1 hs)
  · rintro i (hm | hs)
    · exact ((hc.seq_iff i).1 hm).1
    · exact hc.rep_lt i ((hc.sink_iff i).1 hs)
  · have e := congrArg List.length (emitResults_all (drain w))
    rw [List.length_map] at e
    rw [e, hperm.length_eq, List.length_range]

theorem setAnno_distance (x : World) (a : Nat) (c : Fin 11) (j : Nat) :
    ((x.setAnno a c).heap j).distance = (x.heap j).distance := by
  unfold World.setAnno World.modify Location.set
  by_cases hj : j = a
  · subst hj; simp
  · simp [hj]

/-! ## The divisors of the speed-change test -/

section SpeedTest

variable (g : Geo) (cfg : Config)

/-- When `speedTestOfFilter` gives a world, the rest of the forward check is the speed
block on that world, which is not STOPPED: `getMeanSpeed` is evaluated there. -/
theorem speedTestOfFilter_spec (w : World) (o p : Nat) (ws : World)
    (h : speedTestOfFilter g cfg w o p = some ws) :
    ws = forwardStop g cfg (append w p) o p ∧ ws.isStopped = false
      ∧ 2 ≤ (w.seqPoints ++ [p]).length
      ∧ forwardFilter g cfg w o p = forwardSpeed cfg ws o p := by
  unfold speedTestOfFilter at h
  simp only [] at h
  split_ifs at h with h1 h2 h3
  cases h
  refine ⟨rfl, by simpa using h3, not_lt.1 h2, ?_⟩
  unfold forwardFilter
  simp only []
  rw [if_neg h1, if_neg h2]

theorem speedTestWorld_spec (w : World) (q p : Nat) (ws : World)
    (h : speedTestWorld g cfg w q p = some ws) :
    ws.isStopped = false
      ∧ forwardMobilityCheck g cfg w q p = forwardSpeed cfg ws (oldLocOf w q) p
      ∧ 0 < usub (w.heap p).t (w.heap (oldLocOf w q)).t
      ∧ ∃ x : World, speedTestOfFilter g cfg x (oldLocOf w q) p = some ws
          ∧ x.seqPoints = w.seqPoints
          ∧ (∀ i, (x.heap i).distance
              = ((setVelocity g (setDisplacement g w (oldLocOf w q) p) (oldLocOf w q) p).heap
                  i).distance)
          ∧ (∀ i, (x.heap i).speed
              = ((setVelocity g (setDisplacement g w (oldLocOf w q) p) (oldLocOf w q) p).heap
                  i).speed)
          ∧ (∀ i, (x.heap i).t = (w.heap i).t) := by
  have hte : ((setDisplacement g w (oldLocOf w q) p).heap p).time_elapsed
      = usub (w.heap p).t (w.heap (oldLocOf w q)).t := by
    unfold setDisplacement
    simp
  unfold speedTestWorld at h
  simp only [] at h
  split_ifs at h with h1 h2 h3
  · -- the stop continues after a gap
    obtain ⟨e1, e2, _, e4⟩ := speedTestOfFilter_spec g cfg _ _ _ _ h
    refine ⟨e2, ?_, ?_, _, h, rfl, ?_, ?_, ?_⟩
    · rw [← e4]
      unfold forwardMobilityCheck
      simp only []
      rw [if_neg h1, if_pos h2]
      unfold forwardGap
      simp only []
      rw [if_pos h3]
    · rw [← hte]; exact not_le.1 h1
    · intro i
      rw [World.setStatus_heap, setAnno_distance, setAnno_distance]
    · intro i
      rw [World.setStatus_heap, setAnno_speed, setAnno_speed]
    · intro i
      rw [World.setStatus_heap, setAnno_t, setAnno_t, measured_t]
  · obtain ⟨e1, e2, _, e4⟩ := speedTestOfFilter_spec g cfg _ _ _ _ h
    refine ⟨e2, ?_, ?_, _, h, rfl, fun _ => rfl, fun _ => rfl, fun i => measured_t g w _ p i⟩
    · rw [← e4]
      unfold forwardMobilityCheck
      simp only []
      rw [if_neg h1, if_neg h2]
    · rw [← hte]; exact not_le.1 h1

end SpeedTest
section Distances

variable (g : Geo) (cfg : Config)

theorem getHaversineDistance_nonneg (harc : ∀ a b c d, 0 ≤ g.arc a b c d) (a b c d : ℚ) :
    0 ≤ getHaversineDistance g a b c d := by
  unfold getHaversineDistance
  split_ifs
  · exact le_refl 0
  · exact harc a b c d

theorem setDisplacement_distance (w : World) (o p i : Nat) :
    ((setDisplacement g w o p).heap i).distance
      = if i = p then
          getHaversineDistance g (w.heap o).x (w.heap o).y (w.heap p).x (w.heap p).y
        else (w.heap i).distance := by
  unfold setDisplacement World.modify
  by_cases hi : i = p
  · subst hi; simp
  · simp [hi]

theorem setVelocity_distance (w : World) (o p i : Nat) :
    ((setVelocity g w o p).heap i).distance = (w.heap i).distance := by
  unfold setVelocity World.modify
  by_cases hi : i = p
  · subst hi; simp
  · simp [hi]

theorem distNonneg_of_footprint {w w1 : World} {M : Nat → Fin 11 → Prop}
    (hf : Footprint M (fun _ => False) w w1) (h : DistNonneg w) : DistNonneg w1 := by
  intro i
  rw [(hf.kin_eq i (fun f => f)).2.2.1]
  exact h i

theorem distNonneg_measured (harc : ∀ a b c d, 0 ≤ g.arc a b c d) (w : World) (o p : Nat)
    (h : DistNonneg w) :
    DistNonneg (setDisplacement g w o p)
      ∧ DistNonneg (setVelocity g (setDisplacement g w o p) o p) := by
  have h1 : DistNonneg (setDisplacement g w o p) := by
    intro i
    rw [setDisplacement_distance]
    split_ifs
    · exact getHaversineDistance_nonneg g harc _ _ _ _
    · exact h i
  refine ⟨h1, ?_⟩
  intro i
  rw [setVelocity_distance]
  exact h1 i

theorem footprint_noise_any (w : World) (p : Nat) :
    Footprint anyMask (fun _ => False) w (reportPoint (w.setAnno p NOISE) p) :=
  footprint_trans (footprint_setAnno p NOISE trivial) (footprint_reportPoint p (fun _ => trivial))

theorem distNonneg_forwardFilter (w : World) (o p : Nat) (h : DistNonneg w) :
    DistNonneg (forwardFilter g cfg w o p) := by
  refine forwardFilter_cases g cfg DistNonneg w o p ?_ ?_ ?_
  · exact distNonneg_of_footprint (footprint_noise_any w p) h
  · intro _
    exact h
  · intro _
    have h1 : DistNonneg (forwardStop g cfg (append w p) o p) :=
      distNonneg_of_footprint (footprint_forwardStop_quiet g cfg (append w p) o p) h
    exact distNonneg_of_footprint (footprint_forwardSpeed_quiet cfg _ o p) h1

theorem distNonneg_forwardMobilityCheck (harc : ∀ a b c d, 0 ≤ g.arc a b c d) (w : World)
    (q p : Nat) (h : DistNonneg w) : DistNonneg (forwardMobilityCheck g cfg w q p) := by
  obtain ⟨hd, hm⟩ := distNonneg_measured g harc w (oldLocOf w q) p h
  have hgap : DistNonneg (((setVelocity g (setDisplacement g w (oldLocOf w q) p)
      (oldLocOf w q) p).setAnno p GAP_END).setAnno (oldLocOf w q) GAP_START) :=
    distNonneg_of_footprint (M := anyMask)
      (footprint_trans (footprint_setAnno p GAP_END trivial)
        (footprint_setAnno (oldLocOf w q) GAP_START trivial)) hm
  refine forwardMobilityCheck_cases g cfg DistNonneg w q p ?_ ?_ ?_ ?_
  · exact distNonneg_of_footprint (footprint_noise_any _ p) hd
  · exact distNonneg_of_footprint (M := anyMask)
      (footprint_trans (footprint_purge _ (fun _ => trivial)) (footprint_init _ p trivial)) hgap
  · intro _
    exact distNonneg_forwardFilter g cfg _ _ p
      (distNonneg_of_footprint (M := anyMask) (footprint_setStatus _ STOPPED) hgap)
  · exact distNonneg_forwardFilter g cfg _ _ p hm

theorem distNonneg_backwardMobilityCheck (w : World) (q p : Nat) (h : DistNonneg w) :
    DistNonneg (backwardMobilityCheck g cfg w q p) := by
  unfold backwardMobilityCheck
  split_ifs
  · intro i
    unfold World.modify
    by_cases hi : i = q
    · subst hi
      simp
      exact h i
    · simp [hi]
      exact h i
  · exact h
  · simp only []
    have h1 : DistNonneg (w.setAnno q CHANGE_IN_HEADING) :=
      distNonneg_of_footprint (M := anyMask) (footprint_setAnno q CHANGE_IN_HEADING trivial) h
    split_ifs
    · exact distNonneg_of_footprint (M := anyMask)
        (footprint_cleanupFrom _ _ (fun _ => trivial)) h1
    · exact h1
  · exact h

theorem distNonneg_updateFrom (harc : ∀ a b c d, 0 ≤ g.arc a b c d) (w : World)
    (q p : Nat) (h : DistNonneg w) : DistNonneg (updateFrom g cfg w q p) := by
  intro i
  rw [(updateFrom_fields g cfg w q p).1]
  exact distNonneg_backwardMobilityCheck g cfg _ q p
    (distNonneg_forwardMobilityCheck g cfg harc w q p h) i

theorem distNonneg_expunge (w : World) (t : Nat) (h : DistNonneg w) :
    DistNonneg (expungeObsoleteLocations cfg w t) :=
  distNonneg_of_footprint (M := anyMask)
    (footprint_expungeObsoleteLocations cfg w t (fun _ => trivial)) h

theorem distNonneg_route (harc : ∀ a b c d, 0 ≤ g.arc a b c d) {w w1 : World} (p : Nat)
    (h : DistNonneg w) (hr : route g cfg w p = some w1) : DistNonneg w1 := by
  have hinit : ∀ x : World, DistNonneg x → DistNonneg (init x p) := fun x hx =>
    distNonneg_of_footprint (M := anyMask) (footprint_init x p trivial) hx
  unfold route at hr
  by_cases hk : w.known = true
  · rw [if_neg (by simp [hk])] at hr
    simp only [] at hr
    by_cases he : (expungeObsoleteLocations cfg w (w.heap p).t).seqPoints = []
    · rw [if_pos he] at hr
      cases hr
      exact hinit _ (distNonneg_expunge cfg w _ h)
    · rw [if_neg he] at hr
      unfold update at hr
      split at hr
      · cases hr
      · cases hr
        exact distNonneg_updateFrom g cfg harc _ _ p (distNonneg_expunge cfg w _ h)
  · rw [if_pos hk] at hr
    cases hr
    exact hinit _ h

theorem distNonneg_alloc (w : World) (r : Raw) (h : DistNonneg w) :
    DistNonneg (alloc w r).1 := by
  obtain ⟨_, _, _, _, _, ha6, ha7⟩ := alloc_facts w r
  intro i
  by_cases hia : i = w.allocated
  · rw [hia, ha6]
    exact le_refl 0
  · rw [ha7 i hia]
    exact h i

theorem distNonneg_runFrom (harc : ∀ a b c d, 0 ≤ g.arc a b c d) (rs : List Raw)
    {w w1 : World} (h : DistNonneg w) (hr : runFrom g cfg w rs = some w1) : DistNonneg w1 := by
  induction rs generalizing w with
  | nil => cases hr; exact h
  | cons r rs ih =>
    unfold runFrom at hr
    cases hf : feed g cfg w r with
    | none => rw [hf] at hr; cases hr
    | some w2 =>
      rw [hf] at hr
      refine ih ?_ hr
      unfold feed at hf
      exact distNonneg_route g cfg harc _ (distNonneg_alloc w r h) hf

end Distances
section SpeedTestPositive

variable (g : Geo) (cfg : Config)

theorem foldl_add_nonneg (f : Nat → ℚ) (l : List Nat) (a : ℚ) (ha : 0 ≤ a)
    (h : ∀ i ∈ l, 0 ≤ f i) : a ≤ l.foldl (fun d i => d + f i) a := by
  induction l generalizing a with
  | nil => exact le_refl a
  | cons x xs ih =>
    have hx := h x (List.mem_cons_self _ _)
    have h1 := ih (a + f x) (by linarith) (fun i hi => h i (List.mem_cons_of_mem _ hi))
    show a ≤ xs.foldl (fun d i => d + f i) (a + f x)
    linarith

/-- In the world where the speed-change test is evaluated, the new object has a positive
distance: the stop block left the State not STOPPED, so the new object is fast or far. -/
theorem speedTestOfFilter_far (x : World) (o p : Nat) (ws : World)
    (h : speedTestOfFilter g cfg x o p = some ws) :
    (x.heap p).speed ≥ cfg.no_speed ∨ (x.heap p).distance ≥ cfg.distance_threshold := by
  obtain ⟨e1, e2, _, _⟩ := speedTestOfFilter_spec g cfg x o p ws h
  rw [e1] at e2
  have hh : (append x p).heap = x.heap := rfl
  by_cases hst : x.isStopped = true
  · have hsa : (append x p).isStopped = true := hst
    by_contra hc
    have e : forwardStop g cfg (append x p) o p = append x p := by
      unfold forwardStop
      simp only []
      rw [if_neg (by simp [hsa]), if_neg]
      rw [hh]
      rintro ⟨_, c⟩
      exact hc c
    rw [e, hsa] at e2
    cases e2
  · have hsa : (append x p).isStopped = false := by simpa using hst
    by_contra hc
    push_neg at hc
    have c1 : ¬ ((append x p).heap p).speed < cfg.no_speed
        ∨ ¬ (((append x p).heap p).distance < cfg.distance_threshold
          ∨ getHaversineDistance g ((append x p).heap p).x ((append x p).heap p).y
              (getCentroid (append x p)).1 (getCentroid (append x p)).2
            < cfg.distance_threshold) := by
      by_contra hcc
      push_neg at hcc
      have e : forwardStop g cfg (append x p) o p = stopEntry (append x p) o p := by
        unfold forwardStop
        simp only []
        rw [if_pos ⟨by simp [hsa], hcc.1, hcc.2⟩]
      rw [e, stopEntry_stopped] at e2
      cases e2
    rw [hh] at c1
    rcases c1 with c | c
    · exact c hc.1
    · exact c (Or.inl hc.2)

theorem speedTestOfFilter_positive (x : World) (o p : Nat) (ws : World)
    (hns : 0 < cfg.no_speed) (hthr : 0 < cfg.distance_threshold)
    (h : speedTestOfFilter g cfg x o p = some ws)
    (first : Nat) (rest : List Nat) (hseq : x.seqPoints = first :: rest)
    (hdist : ∀ i ∈ rest, 0 ≤ (x.heap i).distance)
    (hsp : 0 < (x.heap p).speed → 0 < (x.heap p).distance)
    (ht : (x.heap first).t < (x.heap p).t) (hpt : (x.heap p).t < UINT_RANGE) :
    0 < getTimespan ws ∧ 0 < sumTravelDistance ws ∧ 0 < getMeanSpeed ws := by
  have hfar := speedTestOfFilter_far g cfg x o p ws h
  obtain ⟨e1, _, _, _⟩ := speedTestOfFilter_spec g cfg x o p ws h
  have hfp := footprint_forwardStop_quiet g cfg (append x p) o p (K := fun _ => False)
  have hkin : ∀ i, (ws.heap i).distance = (x.heap i).distance := by
    intro i
    rw [e1]
    exact (hfp.kin_eq i (fun f => f)).2.2.1
  have htt : ∀ i, (ws.heap i).t = (x.heap i).t := by
    intro i
    rw [e1]
    exact (hfp.pos_eq i).2.2.2
  have hseqw : ws.seqPoints = first :: (rest ++ [p]) := by
    rw [e1, forwardStop_seqPoints]
    show x.seqPoints ++ [p] = _
    rw [hseq]
    rfl
  have hcur : ws.curTime = (x.heap p).t := by
    rw [e1, forwardStop_curTime]
    rfl
  have hdp : 0 < (x.heap p).distance := by
    rcases hfar with c | c
    · exact hsp (lt_of_lt_of_le hns c)
    · exact lt_of_lt_of_le hthr c
  have h1 : 0 < getTimespan ws := by
    unfold getTimespan
    rw [hseqw]
    simp only []
    rw [hcur, htt, usub_of_le (le_of_lt ht) hpt]
    omega
  have h2 : 0 < sumTravelDistance ws := by
    unfold sumTravelDistance
    rw [hseqw, List.tail_cons, List.foldl_append]
    simp only [List.foldl_cons, List.foldl_nil]
    have h3 := foldl_add_nonneg (fun i => (ws.heap i).distance) rest 0 (le_refl 0)
      (fun i hi => by
        show 0 ≤ (ws.heap i).distance
        rw [hkin]
        exact hdist i hi)
    have h4 : 0 < (ws.heap p).distance := by rw [hkin]; exact hdp
    linarith
  refine ⟨h1, h2, ?_⟩
  unfold getMeanSpeed
  have h5 : (0 : ℚ) < (getTimespan ws : ℚ) := by exact_mod_cast h1
  positivity

end SpeedTestPositive
section SpeedTestRun

variable (g : Geo) (cfg : Config)

theorem speedTestWorld_positive (hns : 0 < cfg.no_speed) (hthr : 0 < cfg.distance_threshold) (w : World) (q p : Nat)
    (ws : World) (hq : w.seqPoints.getLast? = some q) (hp : p ∉ w.seqPoints)
    (hord : (seqTimes w).Pairwise (· < ·)) (hqp : (w.heap q).t ≤ (w.heap p).t)
    (hpt : (w.heap p).t < UINT_RANGE) (hdist : ∀ i ∈ w.seqPoints, 0 ≤ (w.heap i).distance)
    (h : speedTestWorld g cfg w q p = some ws) :
    0 < getTimespan ws ∧ 0 < sumTravelDistance ws ∧ 0 < getMeanSpeed ws := by
  have ho : oldLocOf w q = q := oldLocOf_last w q hq
  have hmem : q ∈ w.seqPoints := List.mem_of_getLast?_eq_some hq
  have hne : q ≠ p := fun e => hp (e ▸ hmem)
  obtain ⟨_, _, h0, x, hx, hxs, hxd, hxv, hxt⟩ := speedTestWorld_spec g cfg w q p ws h
  rw [ho] at h0 hx hxd hxv
  have hlt : (w.heap q).t < (w.heap p).t := by
    rcases lt_or_eq_of_le hqp with c | c
    · exact c
    · rw [c, usub_self] at h0
      exact absurd h0 (lt_irrefl 0)
  obtain ⟨first, rest, hseq⟩ : ∃ first rest, w.seqPoints = first :: rest := by
    cases hl : w.seqPoints with
    | nil => rw [hl] at hmem; cases hmem
    | cons a l => exact ⟨a, l, rfl⟩
  have hfirst : (w.heap first).t ≤ (w.heap q).t :=
    le_last_of_pairwise (fun i => (w.heap i).t) w.seqPoints q hord hq first
      (by rw [hseq]; exact List.mem_cons_self _ _)
  obtain ⟨m1, m2, m3⟩ := measured_new g w q p hne
  refine speedTestOfFilter_positive g cfg x q p ws hns hthr hx first rest (hxs.trans hseq)
    ?_ ?_ ?_ ?_
  · intro i hi
    have him : i ∈ w.seqPoints := by rw [hseq]; exact List.mem_cons_of_mem _ hi
    have hip : i ≠ p := fun e => hp (e ▸ him)
    rw [hxd, measured_other g w q p i hip]
    exact hdist i him
  · intro hs
    rw [hxv, m3, if_pos h0] at hs
    rw [hxd, m2]
    by_contra hc
    have hd0 : getHaversineDistance g (w.heap q).x (w.heap q).y (w.heap p).x (w.heap p).y ≤ 0 :=
      not_lt.1 hc
    have hte : (0 : ℚ) ≤ 1852 * (usub (w.heap p).t (w.heap q).t : ℚ) := by positivity
    have : 3600 * getHaversineDistance g (w.heap q).x (w.heap q).y (w.heap p).x (w.heap p).y
        / (1852 * (usub (w.heap p).t (w.heap q).t : ℚ)) ≤ 0 :=
      div_nonpos_of_nonpos_of_nonneg (by linarith) hte
    linarith
  · rw [hxt, hxt]
    exact lt_of_le_of_lt hfirst hlt
  · rw [hxt]
    exact hpt

end SpeedTestRun

/-- The divisors of the speed-change test when every distance is a number that is not
negative.  For a `Geo` whose arc lengths are not negative, a Config with `no_speed > 0` and
`distance_threshold > 0`, and records with non-decreasing 32-bit timestamps: whenever the
`update` call for a record reaches the speed-change test (the forward check then continues
with the speed block on a State that is not STOPPED), the window timespan is positive and
`getMeanSpeed` is positive there. -/
theorem speed_test_divisors_positive (g : Geo) (cfg : Config)
    (harc : ∀ a b c d, 0 ≤ g.arc a b c d)
    (hns : 0 < cfg.no_speed) (hthr : 0 < cfg.distance_threshold)
    (rs : List Raw) (r : Raw) (hmono : ((rs ++ [r]).map Raw.t).Pairwise (· ≤ ·))
    (hb : r.t < UINT_RANGE)
    (w : World) (hw : beforeUpdate g cfg rs r = some w) (q : Nat)
    (hq : w.seqPoints.getLast? = some q) (ws : World)
    (hws : speedTestWorld g cfg w q rs.length = some ws) :
    ws.isStopped = false
      ∧ forwardMobilityCheck g cfg w q rs.length = forwardSpeed cfg ws q rs.length
      ∧ 0 < getTimespan ws ∧ (0 : ℚ) < 1852 * (getTimespan ws : ℚ)
      ∧ 0 < getMeanSpeed ws := by
  -- the state before the record
  have hm1 : (rs.map Raw.t).Pairwise (· ≤ ·) := by
    rw [List.map_append] at hmono
    exact (List.pairwise_append.1 hmono).1
  have hlast : ∀ x ∈ rs, x.t ≤ r.t := by
    intro x hx
    rw [List.map_append] at hmono
    exact (List.pairwise_append.1 hmono).2.2 x.t (List.mem_map_of_mem _ hx) r.t (by simp)
  obtain ⟨w0, m, hr0, hi0, hto, hm, hal, _⟩ :=
    timeOrdered_runFrom g cfg rs inv_start timeOrdered_start (fun _ _ => Nat.zero_le _) hm1
  have hd0 : DistNonneg w0 := by
    refine distNonneg_runFrom g cfg harc rs ?_ hr0
    intro i
    exact le_refl 0
  have hmr : m ≤ r.t := by
    rcases hm with e | ⟨x, hx, e⟩
    · rw [e]; exact Nat.zero_le _
    · rw [e]; exact hlast x hx
  have hn : w0.allocated = rs.length := by
    rw [hal]
    show 0 + rs.length = rs.length
    omega
  have hwe : w = expungeObsoleteLocations cfg (alloc w0 r).1 r.t := by
    unfold beforeUpdate run at hw
    rw [hr0] at hw
    cases hw
    rfl
  obtain ⟨_, _, ha3, _, _, ha6, ha7⟩ := alloc_facts w0 r
  have hsuf : w.seqPoints <:+ w0.seqPoints := by
    rw [hwe, ← ha3]
    exact expungeObsoleteLocations_subset cfg r.t _
  have hsub : ∀ i ∈ w.seqPoints, i ∈ w0.seqPoints := fun i hi => hsuf.subset hi
  have hfr := frame_expungeObsoleteLocations (S := fun _ => True) cfg (alloc w0 r).1 r.t
  have hwt : ∀ i ∈ w0.seqPoints, (w.heap i).t = (w0.heap i).t := by
    intro i hi
    rw [hwe, hfr.t_eq i, ha7 i (Nat.ne_of_lt (hi0.seq_lt i hi))]
  have hp : rs.length ∉ w.seqPoints := by
    intro hmem
    have := hi0.seq_lt _ (hsub _ hmem)
    rw [hn] at this
    exact lt_irrefl _ this
  have hpt : (w.heap rs.length).t = r.t := by
    rw [hwe, hfr.t_eq, ← hn, ha6]
    rfl
  have hqm : q ∈ w.seqPoints := List.mem_of_getLast?_eq_some hq
  have hord : (seqTimes w).Pairwise (· < ·) := by
    have e : seqTimes w = w.seqPoints.map (fun i => (w0.heap i).t) := by
      unfold seqTimes
      exact List.map_congr_left (fun i hi => hwt i (hsub i hi))
    rw [e]
    exact hto.1.sublist (hsuf.sublist.map _)
  have hdw : DistNonneg w := by
    rw [hwe]
    exact distNonneg_expunge cfg _ _ (distNonneg_alloc w0 r hd0)
  obtain ⟨p1, p2, _, _⟩ := speedTestWorld_spec g cfg w q rs.length ws hws
  rw [oldLocOf_last w q hq] at p2
  obtain ⟨t1, _, t3⟩ := speedTestWorld_positive g cfg hns hthr w q rs.length ws hq hp hord
    (by rw [hpt, hwt q (hsub q hqm)]; exact le_trans (hto.2 q (hsub q hqm)) hmr)
    (by rw [hpt]; exact hb) (fun i _ => hdw i) hws
  refine ⟨p1, p2, t1, ?_, t3⟩
  have : (0 : ℚ) < (getTimespan ws : ℚ) := by exact_mod_cast t1
  positivity

/-- An instance: the third of three eastbound records reaches the speed-change test with a
window timespan of 120 s. -/
theorem speed_test_divisors_positive_witness :
    ((twoEastbound ++ [thirdEastbound]).map Raw.t).Pairwise (· ≤ ·)
      ∧ thirdEastWorld.seqPoints = [0, 1]
      ∧ getTimespan thirdEastTest = 120
      ∧ 0 < getTimespan thirdEastTest
      ∧ 0 < getMeanSpeed thirdEastTest :=
  ⟨by decide!, by decide!, by decide!,
   (speed_test_divisors_positive gridGeo Config.Default
      (fun a b c d => by unfold gridGeo; positivity) (by decide!) (by decide!)
      twoEastbound thirdEastbound (by decide!) (by decide!)
      thirdEastWorld (some_getD_of_isSome _ _ (by decide!)) 1 (by decide!)
      thirdEastTest (some_getD_of_isSome _ _ (by decide!))).2.2.1,
   (speed_test_divisors_positive gridGeo Config.Default
      (fun a b c d => by unfold gridGeo; positivity) (by decide!) (by decide!)
      twoEastbound thirdEastbound (by decide!) (by decide!)
      thirdEastWorld (some_getD_of_isSome _ _ (by decide!)) 1 (by decide!)
      thirdEastTest (some_getD_of_isSome _ _ (by decide!))).2.2.2.2⟩

/-- C39 (code evaluated at the failing input): for the positions `(-174.6, 69.8)` and
`(-174.600002, 69.8)` the guard of `getHaversineDistance` does not apply (the longitudes
differ by `2e-6`, not less than EPSILON), so the distance is the value of
`r * acos(dot / (r * r))`, computed with no clamp of the cosine; in doubles the cosine is
rounded above 1 there and the value is NaN, not a number that is not negative.  The part
that holds: for a `Geo` whose arc lengths are numbers that are not negative, a Config with
`no_speed > 0` and `distance_threshold > 0`, and records with non-decreasing 32-bit
timestamps, whenever the `update` call for a record reaches the speed-change test (the
forward check then continues with the speed block on a State that is not STOPPED), the window
timespan is positive and `getMeanSpeed` is positive there. -/
theorem speed_test_needs_arc_values :
    (∀ g : Geo,
        getHaversineDistance g (-1746 / 10) (698 / 10) (-174600002 / 1000000) (698 / 10)
          = g.arc (-1746 / 10) (698 / 10) (-174600002 / 1000000) (698 / 10))
      ∧ (∀ (g : Geo) (cfg : Config), (∀ a b c d, 0 ≤ g.arc a b c d) →
          0 < cfg.no_speed → 0 < cfg.distance_threshold →
          ∀ (rs : List Raw) (r : Raw), ((rs ++ [r]).map Raw.t).Pairwise (· ≤ ·) →
          r.t < UINT_RANGE →
          ∀ w : World, beforeUpdate g cfg rs r = some w →
          ∀ q : Nat, w.seqPoints.getLast? = some q →
          ∀ ws : World, speedTestWorld g cfg w q rs.length = some ws →
            ws.isStopped = false
              ∧ forwardMobilityCheck g cfg w q rs.length = forwardSpeed cfg ws q rs.length
              ∧ 0 < getTimespan ws ∧ (0 : ℚ) < 1852 * (getTimespan ws : ℚ)
              ∧ 0 < getMeanSpeed ws)
      ∧ (beforeUpdate gridGeo Config.Default twoEastbound thirdEastbound = some thirdEastWorld
          ∧ speedTestWorld gridGeo Config.Default thirdEastWorld 1 2 = some thirdEastTest
          ∧ getTimespan thirdEastTest = 120) := by
  refine ⟨?_, ?_, some_getD_of_isSome _ _ (by decide!), some_getD_of_isSome _ _ (by decide!),
    by decide!⟩
  · intro g
    unfold getHaversineDistance
    rw [if_neg]
    rintro ⟨h, _⟩
    revert h
    unfold EPSILON
    norm_num [abs_lt]
  · intro g cfg harc hns hthr rs r hmono hb w hw q hq ws hws
    exact speed_test_divisors_positive g cfg harc hns hthr rs r hmono hb w hw q hq ws hws

end AIS
